import Mathlib

/-!
# Textile formatter and entity escaper of `lwb` (package `textile`)

A shallow embedding of `src/pkg/textile/format.go` and `src/pkg/textile/textile.go`.

Text (a Go `[]byte` or `string`) is a list of code units, each a natural number:
for `EntityEscape` the units are the bytes of the slice; the special bytes it looks
for are ASCII, written here by their codes:

  '"' = 34, '#' = 35, '&' = 38, '.' = 46, '<' = 60, '>' = 62.
-/

namespace Textile

/-- The code units of a string literal. -/
def str (s : String) : List Nat := s.toList.map Char.toNat

/-! ## `format.go`: the escape sequences -/

/-- The bytes of `&#8230;`. -/
def esc_elipses : List Nat := [38, 35, 56, 50, 51, 48, 59]
/-- The bytes of `&#38;`. -/
def esc_amp : List Nat := [38, 35, 51, 56, 59]
/-- The bytes of `&#34;`. -/
def esc_quote : List Nat := [38, 35, 51, 52, 59]
/-- The bytes of `&#8220;`. -/
def esc_lquote : List Nat := [38, 35, 56, 50, 50, 48, 59]
/-- The bytes of `&#8221;`. -/
def esc_rquote : List Nat := [38, 35, 56, 50, 50, 49, 59]
/-- The bytes of `&#60;`. -/
def esc_lt : List Nat := [38, 35, 54, 48, 59]
/-- The bytes of `&#62;`. -/
def esc_gt : List Nat := [38, 35, 54, 50, 59]

/-- How a call ends: it returns a value, it reaches
`panic("Found closing quote in wrong place.")`, or the model ran out of fuel. -/
inductive Res (α : Type) where
  | done (a : α)
  | panicked
  | outOfFuel
  deriving DecidableEq, Repr

/-- The outcome of a call that writes text: for `EntityEscape` the bytes written to `w`. -/
abbrev Outcome := Res (List Nat)

/-- Sequencing: a panic or the lack of fuel ends the whole call. -/
def Res.bind {α β : Type} : Res α → (α → Res β) → Res β
  | .done a, f => f a
  | .panicked, _ => .panicked
  | .outOfFuel, _ => .outOfFuel

/-- The local variables of `EntityEscape` between two iterations of its main loop,
with the bytes written to `w` so far. -/
structure Scan where
  w : List Nat
  last : Nat
  i : Nat
  in_tag : Bool
  found_closing : Int
  deriving DecidableEq, Repr

/-- The inner loop `for j := i + 1; j < len(b) && found_closing < 0; j += 1` of the
quote case, started with `found_closing = -1`; the result is the final value of
`found_closing`. The first argument is fuel, `len(b) - j` at every call. -/
def findClosing (b : List Nat) : Nat → Nat → Bool → Int
  | 0, _, _ => -1
  | fuel + 1, j, in_tag_in_quote =>
    if j < b.length then
      if in_tag_in_quote then
        if b.getD j 0 = 62 then findClosing b fuel (j + 1) false
        else findClosing b fuel (j + 1) true
      else if b.getD j 0 = 60 then findClosing b fuel (j + 1) true
      else if b.getD j 0 = 34 then (j : Int)
      else findClosing b fuel (j + 1) false
    else -1

/-- The statement `continue` with `skip = 1`: only `i` moves. -/
def Scan.advance (st : Scan) : Scan := { st with i := st.i + 1 }

/-- The tail of an iteration that did not `continue`:
`w.Write(b[last:i]); w.Write(esc); last = i + skip`, then `i += skip`. -/
def Scan.emit (b : List Nat) (st : Scan) (esc : List Nat) (skip : Nat) : Scan :=
  { st with
    w := st.w ++ (b.drop st.last).take (st.i - st.last) ++ esc
    last := st.i + skip
    i := st.i + skip }

/-- One iteration of the main loop of `EntityEscape` at `i < len(b)`;
`none` is the panic. -/
def iter (b : List Nat) (encode_all smart_quotes : Bool) (st0 : Scan) : Option Scan :=
  let c := b.getD st0.i 0
  let st : Scan := if st0.in_tag = true ∧ c = 62 then { st0 with in_tag := false } else st0
  if st.in_tag then some st.advance
  else if c = 60 then
    if encode_all then some (st.emit b esc_lt 1)
    else some { st with in_tag := true, i := st.i + 1 }
  else if c = 62 then
    if encode_all then some (st.emit b esc_gt 1) else some st.advance
  else if c = 34 then
    if !smart_quotes then some (st.emit b esc_quote 1)
    else if st.found_closing ≥ 0 then
      if st.found_closing ≠ (st.i : Int) then none
      else some (Scan.emit b { st with found_closing := -1 } esc_rquote 1)
    else
      let fc := findClosing b (b.length - (st.i + 1)) (st.i + 1) false
      if fc ≥ 0 then some (Scan.emit b { st with found_closing := fc } esc_lquote 1)
      else some (Scan.emit b { st with found_closing := fc } esc_quote 1)
  else if c = 46 then
    if b.length > st.i + 2 ∧ b.getD (st.i + 1) 0 = 46 ∧ b.getD (st.i + 2) 0 = 46 then
      some (st.emit b esc_elipses 3)
    else some st.advance
  else if c = 38 then
    if b.length > st.i + 1 ∧ b.getD (st.i + 1) 0 = 35 then some st.advance
    else some (st.emit b esc_amp 1)
  else some st.advance

/-- The main loop `for i := 0; i < len(b); i += skip` followed by `w.Write(b[last:])`.
The first argument is fuel; `len(b) - i` is always enough. -/
def escLoop (b : List Nat) (encode_all smart_quotes : Bool) : Nat → Scan → Outcome
  | 0, st => if st.i < b.length then .outOfFuel else .done (st.w ++ b.drop st.last)
  | fuel + 1, st =>
    if st.i < b.length then
      match iter b encode_all smart_quotes st with
      | none => .panicked
      | some st2 => escLoop b encode_all smart_quotes fuel st2
    else .done (st.w ++ b.drop st.last)

/-- The function `EntityEscape(w, b, encode_all, smart_quotes)`: the bytes written to `w`. -/
def EntityEscape (b : List Nat) (encode_all smart_quotes : Bool) : Outcome :=
  escLoop b encode_all smart_quotes b.length
    { w := [], last := 0, i := 0, in_tag := false, found_closing := -1 }

/-! ## A structural description of the scan

`look` and `scan` read the rest of the input instead of indexing into it.
`scan` writes every byte as soon as it is read; `skip` counts the bytes still to be
jumped over after an ellipsis. `scan_spec` shows that `EntityEscape` computes `scan`. -/

/-- The lookahead of the quote case over the bytes `b[j:]`. -/
def look : List Nat → Nat → Bool → Int
  | [], _, _ => -1
  | c :: cs, j, in_tag_in_quote =>
    if in_tag_in_quote then
      if c = 62 then look cs (j + 1) false else look cs (j + 1) true
    else if c = 60 then look cs (j + 1) true
    else if c = 34 then (j : Int)
    else look cs (j + 1) false

/-- The main loop over the bytes `b[i:]`; `none` is the panic. -/
def scan (encode_all smart_quotes : Bool) : List Nat → Nat → Nat → Bool → Int → Option (List Nat)
  | [], _, _, _, _ => some []
  | _ :: cs, skip + 1, i, in_tag, fc => scan encode_all smart_quotes cs skip (i + 1) in_tag fc
  | c :: cs, 0, i, in_tag, fc =>
    if in_tag = true ∧ c ≠ 62 then (scan encode_all smart_quotes cs 0 (i + 1) true fc).map (c :: ·)
    else if c = 60 then
      if encode_all then (scan encode_all smart_quotes cs 0 (i + 1) false fc).map (esc_lt ++ ·)
      else (scan encode_all smart_quotes cs 0 (i + 1) true fc).map (c :: ·)
    else if c = 62 then
      if encode_all then (scan encode_all smart_quotes cs 0 (i + 1) false fc).map (esc_gt ++ ·)
      else (scan encode_all smart_quotes cs 0 (i + 1) false fc).map (c :: ·)
    else if c = 34 then
      if smart_quotes = false then
        (scan encode_all smart_quotes cs 0 (i + 1) false fc).map (esc_quote ++ ·)
      else if 0 ≤ fc then
        if fc ≠ (i : Int) then none
        else (scan encode_all smart_quotes cs 0 (i + 1) false (-1)).map (esc_rquote ++ ·)
      else if 0 ≤ look cs (i + 1) false then
        (scan encode_all smart_quotes cs 0 (i + 1) false (look cs (i + 1) false)).map
          (esc_lquote ++ ·)
      else
        (scan encode_all smart_quotes cs 0 (i + 1) false (look cs (i + 1) false)).map
          (esc_quote ++ ·)
    else if c = 46 then
      if cs.take 2 = [46, 46] then
        (scan encode_all smart_quotes cs 2 (i + 1) false fc).map (esc_elipses ++ ·)
      else (scan encode_all smart_quotes cs 0 (i + 1) false fc).map (c :: ·)
    else if c = 38 then
      if cs.head? = some 35 then (scan encode_all smart_quotes cs 0 (i + 1) false fc).map (c :: ·)
      else (scan encode_all smart_quotes cs 0 (i + 1) false fc).map (esc_amp ++ ·)
    else (scan encode_all smart_quotes cs 0 (i + 1) false fc).map (c :: ·)

/-- The outcome of a scan that has already written `pre`. -/
def ofScan (pre : List Nat) : Option (List Nat) → Outcome
  | none => .panicked
  | some o => .done (pre ++ o)

/-- The bytes that the main loop has produced before position `i`: those written and
the pending slice `b[last:i]`. -/
def Scan.pre (b : List Nat) (st : Scan) : List Nat :=
  st.w ++ (b.drop st.last).take (st.i - st.last)

/-! ## The rules of the escaper, as the specification words them -/

/-- A text in which no rule applies when tags are passed through: no `<`, `>` or `"`,
every `&` is followed by `#`, and no dot starts a group of three. -/
def inert : List Nat → Prop
  | [] => True
  | c :: cs => c ≠ 60 ∧ c ≠ 62 ∧ c ≠ 34 ∧ (c = 38 → cs.head? = some 35) ∧
      (c = 46 → cs.take 2 ≠ [46, 46]) ∧ inert cs

/-- The ampersand rule: every `&` that is not immediately followed by `#` becomes
`&#38;`, every other byte is kept. -/
def ampRule : List Nat → List Nat
  | [] => []
  | c :: cs => if c = 38 ∧ cs.head? ≠ some 35 then esc_amp ++ ampRule cs else c :: ampRule cs

/-- The rules with `encode_all`: each `<`, `>` and `"` becomes its entity, each `&` not
followed by `#` becomes `&#38;`, and each group of three dots, taken greedily from the
left, becomes `&#8230;`; `skip` counts the dots of a group still to be dropped. -/
def encodeAllRule : List Nat → Nat → List Nat
  | [], _ => []
  | _ :: cs, skip + 1 => encodeAllRule cs skip
  | c :: cs, 0 =>
    if c = 60 then esc_lt ++ encodeAllRule cs 0
    else if c = 62 then esc_gt ++ encodeAllRule cs 0
    else if c = 34 then esc_quote ++ encodeAllRule cs 0
    else if c = 38 ∧ cs.head? ≠ some 35 then esc_amp ++ encodeAllRule cs 0
    else if c = 46 ∧ cs.take 2 = [46, 46] then esc_elipses ++ encodeAllRule cs 2
    else c :: encodeAllRule cs 0

/-- The number of `"` bytes outside tag spans, a tag span running from a `<` to the
next `>` or to the end of the input; `in_tag` says whether the text starts inside one. -/
def quotesOutside : List Nat → Bool → Nat
  | [], _ => 0
  | c :: cs, true => if c = 62 then quotesOutside cs false else quotesOutside cs true
  | c :: cs, false =>
    if c = 60 then quotesOutside cs true
    else if c = 34 then quotesOutside cs false + 1
    else quotesOutside cs false

/-- The entity that replaces the quote `q_k` among `n` quotes outside tag spans:
`&#8221;` when `k` is odd, `&#8220;` when `k` is even and `k + 1 < n`, and `&#34;`
when `k` is even and last. -/
def quoteEntity (n k : Nat) : List Nat :=
  if k % 2 = 1 then esc_rquote else if k + 1 < n then esc_lquote else esc_quote

/-- The text with smart quotes as the pairing rule describes it: the quotes outside tag
spans are replaced by `quoteEntity n k`, `k` counting them from the left; tag spans are
copied, and the ampersand and ellipsis rules apply outside them. `skip` counts the dots
of a group still to be dropped. -/
def pairRule (n : Nat) : List Nat → Nat → Bool → Nat → List Nat
  | [], _, _, _ => []
  | _ :: cs, skip + 1, in_tag, k => pairRule n cs skip in_tag k
  | c :: cs, 0, true, k =>
    if c = 62 then c :: pairRule n cs 0 false k else c :: pairRule n cs 0 true k
  | c :: cs, 0, false, k =>
    if c = 60 then c :: pairRule n cs 0 true k
    else if c = 34 then quoteEntity n k ++ pairRule n cs 0 false (k + 1)
    else if c = 38 ∧ cs.head? ≠ some 35 then esc_amp ++ pairRule n cs 0 false k
    else if c = 46 ∧ cs.take 2 = [46, 46] then esc_elipses ++ pairRule n cs 2 false k
    else c :: pairRule n cs 0 false k

end Textile

namespace Textile

/-! ## Regular expressions (package `regexp`)

The patterns of `textile.go` are built from literal characters, character classes, the
greedy repetitions `x*` and `x+` of a class, the greedy option `r?`, concatenation and capturing
groups. All of them but `lineRegexp` are anchored with `^` and `$`. A match is searched
by backtracking in the order of preference of Go's `regexp`: a repetition or option first
tries to take more. -/

/-- The regular expressions used by `textile.go`. -/
inductive Re where
  | eps
  | sym (c : Nat)
  | chr (p : Nat → Bool)
  | star (p : Nat → Bool)
  | plus (p : Nat → Bool)
  | opt (r : Re)
  | cat (r s : Re)
  | grp (n : Nat) (r : Re)

/-- Greedy `x*` for a character class `x`, followed by the continuation `k`. -/
def starRun (p : Nat → Bool) (k : List Nat → Option (List (List Nat))) :
    List Nat → Option (List (List Nat))
  | [] => k []
  | c :: cs =>
    if p c then
      match starRun p k cs with
      | some r => some r
      | none => k (c :: cs)
    else k (c :: cs)

/-- Match `r` at the start of `s` and hand the rest of `s` and the captures to `k`; the
result is that of the first way to match, in order of preference, that `k` accepts. -/
def Re.run : Re → List Nat → List (List Nat) →
    (List Nat → List (List Nat) → Option (List (List Nat))) → Option (List (List Nat))
  | .eps, s, c, k => k s c
  | .sym a, s, c, k =>
    match s with
    | x :: xs => if x = a then k xs c else none
    | [] => none
  | .chr p, s, c, k =>
    match s with
    | x :: xs => if p x then k xs c else none
    | [] => none
  | .star p, s, c, k => starRun p (fun rest => k rest c) s
  | .plus p, s, c, k =>
    match s with
    | x :: xs => if p x then starRun p (fun rest => k rest c) xs else none
    | [] => none
  | .opt r, s, c, k =>
    match r.run s c k with
    | some res => some res
    | none => k s c
  | .cat a b, s, c, k => a.run s c (fun s2 c2 => b.run s2 c2 k)
  | .grp n r, s, c, k =>
    r.run s c (fun s2 c2 => k s2 (c2.set n (s.take (s.length - s2.length))))

/-- A compiled pattern `^re$` with its number of capturing groups. -/
structure Regexp where
  re : Re
  groups : Nat

/-- The method `FindStringSubmatch` of an anchored pattern: the whole text and the text of
each group (empty for a group that took no part), or `none`. -/
def Regexp.FindStringSubmatch (r : Regexp) (s : List Nat) : Option (List (List Nat)) :=
  r.re.run s (s :: List.replicate r.groups []) (fun rest c => if rest = [] then some c else none)

/-- The method `MatchString` of an anchored pattern. -/
def Regexp.MatchString (r : Regexp) (s : List Nat) : Bool :=
  (r.FindStringSubmatch s).isSome

/-- The concatenation of a list of expressions. -/
def seq : List Re → Re
  | [] => .eps
  | r :: rs => .cat r (seq rs)

/-- A literal character. -/
def lit (c : Char) : Re := .sym c.toNat

/-- The class `.`: any character but a line feed. -/
def dot (x : Nat) : Bool := x != 10

/-- A negated class `[^...]`. -/
def notIn (l : List Char) (x : Nat) : Bool := !(l.map Char.toNat).contains x

/-- A class `[...]` of listed characters. -/
def oneOf (l : List Char) (x : Nat) : Bool := (l.map Char.toNat).contains x

/-- A range `a-b` of a class. -/
def inRange (a b : Char) (x : Nat) : Bool := decide (a.toNat ≤ x) && decide (x ≤ b.toNat)

/-- The optional class part `(\([^)]+\))?` of a block pattern, captured as group `n`. -/
def classGroup (n : Nat) : Re :=
  .opt (.grp n (seq [lit '(', .plus (notIn [')']), lit ')']))

/-- The pattern `^bq(\([^)]+\))?(\.\.?) (.*)$`. -/
def blockQuoteRegexp : Regexp :=
  ⟨seq [lit 'b', lit 'q', classGroup 1, .grp 2 (seq [lit '.', .opt (lit '.')]), lit ' ',
    .grp 3 (.star dot)], 3⟩

/-- The pattern `^pre(\([^)]+\))?(\.\.?) (.*)$`. -/
def preRegexp : Regexp :=
  ⟨seq [lit 'p', lit 'r', lit 'e', classGroup 1, .grp 2 (seq [lit '.', .opt (lit '.')]),
    lit ' ', .grp 3 (.star dot)], 3⟩

/-- The pattern `^bc(\([^)]+\))?(\.\.?) (.*)$`. -/
def codeRegexp : Regexp :=
  ⟨seq [lit 'b', lit 'c', classGroup 1, .grp 2 (seq [lit '.', .opt (lit '.')]), lit ' ',
    .grp 3 (.star dot)], 3⟩

/-- The pattern `^p(\([^)]+\))?\. (.*)$`. -/
def paragraphRegexp : Regexp :=
  ⟨seq [lit 'p', classGroup 1, lit '.', lit ' ', .grp 2 (.star dot)], 2⟩

/-- The pattern `^h([1-9])(\([^)]+\))?\. (.*)$`. -/
def headingRegexp : Regexp :=
  ⟨seq [lit 'h', .grp 1 (.chr (inRange '1' '9')), classGroup 2, lit '.', lit ' ',
    .grp 3 (.star dot)], 3⟩

/-- The pattern `^fn([0-9])(\([^)]+\))?\. (.*)$`. -/
def footnoteRegexp : Regexp :=
  ⟨seq [lit 'f', lit 'n', .grp 1 (.chr (inRange '0' '9')), classGroup 2, lit '.', lit ' ',
    .grp 3 (.star dot)], 3⟩

/-- The pattern `^([\*#]+)(\([^)]+\))? (.*)$`. -/
def listRegexp : Regexp :=
  ⟨seq [.grp 1 (.plus (oneOf ['*', '#'])), classGroup 2, lit ' ', .grp 3 (.star dot)], 3⟩

/-- The pattern `^(.*)_([^_]*)_(.*)$`. -/
def emphasisRegexp : Regexp :=
  ⟨seq [.grp 1 (.star dot), lit '_', .grp 2 (.star (notIn ['_'])), lit '_',
    .grp 3 (.star dot)], 3⟩

/-- The pattern `^(.*)\*([^*]*)\*(.*)$`. -/
def strongRegexp : Regexp :=
  ⟨seq [.grp 1 (.star dot), lit '*', .grp 2 (.star (notIn ['*'])), lit '*',
    .grp 3 (.star dot)], 3⟩

/-- The pattern `^(.*)~([^~]*)~(.*)$`. -/
def subRegexp : Regexp :=
  ⟨seq [.grp 1 (.star dot), lit '~', .grp 2 (.star (notIn ['~'])), lit '~',
    .grp 3 (.star dot)], 3⟩

/-- The pattern `^(.*)\^([^\^]*)\^(.*)$`. -/
def supRegexp : Regexp :=
  ⟨seq [.grp 1 (.star dot), lit '^', .grp 2 (.star (notIn ['^'])), lit '^',
    .grp 3 (.star dot)], 3⟩

/-- The table `regexpTags`. -/
def regexpTags : List (Regexp × List Nat) :=
  [(emphasisRegexp, str "em"), (strongRegexp, str "strong"), (supRegexp, str "sup"),
    (subRegexp, str "sub")]

/-- The class `[A-Za-z0-9\-._~:/?#@!\$&*+,;=%]` of `urlNoParensRegexpStr`. -/
def urlNoParensChar (x : Nat) : Bool :=
  inRange 'A' 'Z' x || inRange 'a' 'z' x || inRange '0' '9' x ||
    oneOf ['-', '.', '_', '~', ':', '/', '?', '#', '@', '!', '$', '&', '*', '+', ',', ';',
      '=', '%'] x

/-- The class `[A-Za-z0-9\-._~:/?#\(\)@!\$&*+,;=%]` of `urlRegexpStr`. -/
def urlChar (x : Nat) : Bool := urlNoParensChar x || oneOf ['(', ')'] x

/-- The pattern `urlRegexpStr`. -/
def urlRegexp : Re := seq [.plus urlChar, .chr (notIn [',', '!', '.', Char.ofNat 39, ' ', '"', ')', ']'])]

/-- The pattern `urlCanEndInParenRegexpStr`. -/
def urlCanEndInParenRegexp : Re :=
  seq [.plus urlChar, .chr (notIn [',', '!', '.', Char.ofNat 39, ' ', '"', ']'])]

/-- The pattern `urlNoParensRegexpStr`. -/
def urlNoParensRegexp : Re :=
  seq [.plus urlNoParensChar, .chr (notIn [',', '!', '.', Char.ofNat 39, ' ', '"', ')', ']'])]

/-- The pattern `^(.*)!(URL)!(.*)$` with `urlNoParensRegexpStr`. -/
def imgRegexp : Regexp :=
  ⟨seq [.grp 1 (.star dot), lit '!', .grp 2 urlNoParensRegexp, lit '!', .grp 3 (.star dot)], 3⟩

/-- The pattern `^(.*)!(URL) ?\(([^)]*)\)!(.*)$` with `urlNoParensRegexpStr`. -/
def altImgRegexp : Regexp :=
  ⟨seq [.grp 1 (.star dot), lit '!', .grp 2 urlNoParensRegexp, .opt (lit ' '), lit '(',
    .grp 3 (.star (notIn [')'])), lit ')', lit '!', .grp 4 (.star dot)], 4⟩

/-- The pattern `^(.*)"([^"]*)":(URL)(.*)$` with `urlRegexpStr`. -/
def linkRegexp : Regexp :=
  ⟨seq [.grp 1 (.star dot), lit '"', .grp 2 (.star (notIn ['"'])), lit '"', lit ':',
    .grp 3 urlRegexp, .grp 4 (.star dot)], 4⟩

/-- The pattern `^(.*)"([^"]*)\(([^"]*)\)":(URL)(.*)$` with `urlRegexpStr`. -/
def titleLinkRegexp : Regexp :=
  ⟨seq [.grp 1 (.star dot), lit '"', .grp 2 (.star (notIn ['"'])), lit '(',
    .grp 3 (.star (notIn ['"'])), lit ')', lit '"', lit ':', .grp 4 urlRegexp,
    .grp 5 (.star dot)], 5⟩

/-- The pattern `^(.*)\["([^"]*)":(URL)\](.*)$` with `urlCanEndInParenRegexpStr`. -/
def quoteLinkRegexp : Regexp :=
  ⟨seq [.grp 1 (.star dot), lit '[', lit '"', .grp 2 (.star (notIn ['"'])), lit '"', lit ':',
    .grp 3 urlCanEndInParenRegexp, lit ']', .grp 4 (.star dot)], 4⟩

/-- The pattern `^(.*)\[([0-9]*)\](.*)$`. -/
def footnoteRefRegexp : Regexp :=
  ⟨seq [.grp 1 (.star dot), lit '[', .grp 2 (.star (inRange '0' '9')), lit ']',
    .grp 3 (.star dot)], 3⟩

/-- The pattern `^(.*)(<[^>]*>)(.*)$`. -/
def bareTagRegexp : Regexp :=
  ⟨seq [.grp 1 (.star dot), .grp 2 (seq [lit '<', .star (notIn ['>']), lit '>']),
    .grp 3 (.star dot)], 3⟩

/-- The lines `lineRegexp.FindAllString(s, -1)` of a text for the pattern `[^\r\n]*`: the
maximal runs without `\r` and `\n`; an empty match is dropped when it abuts the match
before it, so every `\r` and every `\n` ends one line and starts the next. `cur` is the
line read so far. -/
def splitLines : List Nat → List Nat → List (List Nat)
  | [], cur => [cur]
  | c :: cs, cur => if c = 13 ∨ c = 10 then cur :: splitLines cs [] else splitLines cs (cur ++ [c])

end Textile

namespace Textile

/-! ## `textile.go`: the inline transformer -/

/-- The function `EntityEscapeString`. -/
def EntityEscapeString (s : List Nat) (encode_all smart_quotes : Bool) : Outcome :=
  EntityEscape s encode_all smart_quotes

/-- The call `strings.Replace(s, old, new, -1)` for a non-empty `old`: every occurrence
of `old`, found from the left without overlap, becomes `new`; `skip` counts the
characters of an occurrence still to be dropped. -/
def replaceAll (old new : List Nat) : List Nat → Nat → List Nat
  | [], _ => []
  | _ :: cs, skip + 1 => replaceAll old new cs skip
  | c :: cs, 0 =>
    if old.isPrefixOf (c :: cs) then new ++ replaceAll old new cs (old.length - 1)
    else c :: replaceAll old new cs 0

/-- The table `replacements`: its only entry is `{"_", "%%%%"}`. -/
def replacements : List (List Nat × List Nat) := [(str "_", str "%%%%")]

/-- The method `maybeAddRoot`. -/
def maybeAddRoot (root_url url : List Nat) : List Nat :=
  if url.length > 0 ∧ url.getD 0 0 = '/'.toNat then root_url ++ url else url

/-- The function `escapeParts`. -/
def escapeParts (s : List Nat) : Outcome :=
  (EntityEscapeString s false false).bind fun s =>
    .done (replacements.foldl (fun s r => replaceAll r.1 r.2 s 0) s)

/-- The function `unescapeParts`. -/
def unescapeParts (s : List Nat) : List Nat :=
  replacements.foldl (fun s r => replaceAll r.2 r.1 s 0) s

/-- The value of `fmt.Sprintf("%d", n)` for `n ≥ 0`. -/
def decimal (n : Nat) : List Nat := (Nat.toDigits 10 n).map Char.toNat

/-- The value `linkNum` of `strconv.Atoi` on a run of decimal digits, the error being
dropped: the number read, `0` for the empty run and the largest `int` (64 bits) when the
number does not fit. -/
def Atoi (s : List Nat) : Nat :=
  if s = [] then 0
  else min (s.foldl (fun n d => 10 * n + (d - '0'.toNat)) 0) (2 ^ 63 - 1)

/-- The digest `hash` of `formatter`: `fmt.Sprintf("%x", h.Sum())` for an MD5 that has
been fed the bytes of the empty buffer, as the fixtures of `textile_test.go` show it. -/
def emptyHash : List Nat := str "d41d8cd98f00b204e9800998ecf8427e"

/-- The group `i` of a match. -/
def arg (a : List (List Nat)) (i : Nat) : List Nat := a.getD i []

/-- One pass of the loop over `regexpTags` in `transformLine2`. -/
def tagStep (self : List Nat → Outcome) (s : List Nat) (val : Regexp × List Nat) : Outcome :=
  match val.1.FindStringSubmatch s with
  | none => .done s
  | some a =>
    (self (arg a 1)).bind fun x =>
    (self (arg a 3)).bind fun y =>
    .done (x ++ str "<" ++ val.2 ++ str ">" ++ arg a 2 ++ str "</" ++ val.2 ++ str ">" ++ y)

/-- The step `["foo":http://bar]` of `transformLine2`; `self` is the recursive call. -/
def quoteLinkStep (root_url : List Nat) (self : List Nat → Outcome) (s : List Nat) : Outcome :=
  match quoteLinkRegexp.FindStringSubmatch s with
  | none => .done s
  | some a =>
    (self (arg a 1)).bind fun x =>
    (escapeParts (maybeAddRoot root_url (arg a 3))).bind fun u =>
    (self (arg a 2)).bind fun t =>
    (self (arg a 4)).bind fun y =>
    .done (x ++ str "<a href=\"" ++ u ++ str "\">" ++ t ++ str "</a>" ++ y)

/-- The step `"foo(title)":http://bar` of `transformLine2`. -/
def titleLinkStep (root_url : List Nat) (self : List Nat → Outcome) (s : List Nat) : Outcome :=
  match titleLinkRegexp.FindStringSubmatch s with
  | none => .done s
  | some a =>
    (self (arg a 1)).bind fun x =>
    (escapeParts (maybeAddRoot root_url (arg a 4))).bind fun u =>
    (self (arg a 3)).bind fun ti =>
    (self (arg a 2)).bind fun t =>
    (self (arg a 5)).bind fun y =>
    .done (x ++ str "<a href=\"" ++ u ++ str "\" title=\"" ++ ti ++ str "\">" ++ t ++
      str "</a>" ++ y)

/-- The step `"foo":http://bar` of `transformLine2`. -/
def linkStep (root_url : List Nat) (self : List Nat → Outcome) (s : List Nat) : Outcome :=
  match linkRegexp.FindStringSubmatch s with
  | none => .done s
  | some a =>
    (self (arg a 1)).bind fun x =>
    (escapeParts (maybeAddRoot root_url (arg a 3))).bind fun u =>
    (self (arg a 2)).bind fun t =>
    (self (arg a 4)).bind fun y =>
    .done (x ++ str "<a href=\"" ++ u ++ str "\">" ++ t ++ str "</a>" ++ y)

/-- The step `!http://image!` of `transformLine2`. -/
def imgStep (root_url : List Nat) (self : List Nat → Outcome) (s : List Nat) : Outcome :=
  match imgRegexp.FindStringSubmatch s with
  | none => .done s
  | some a =>
    (self (arg a 1)).bind fun x =>
    (escapeParts (maybeAddRoot root_url (arg a 2))).bind fun u =>
    (self (arg a 3)).bind fun y =>
    .done (x ++ str "<img src=\"" ++ u ++ str "\">" ++ y)

/-- The step `!http://image(altstring)!` of `transformLine2`. -/
def altImgStep (root_url : List Nat) (self : List Nat → Outcome) (s : List Nat) : Outcome :=
  match altImgRegexp.FindStringSubmatch s with
  | none => .done s
  | some a =>
    (self (arg a 1)).bind fun x =>
    (escapeParts (maybeAddRoot root_url (arg a 2))).bind fun u =>
    (self (arg a 3)).bind fun alt =>
    (self (arg a 4)).bind fun y =>
    escapeParts (x ++ str "<img src=\"" ++ u ++ str "\" alt=\"" ++ alt ++ str "\">" ++ y)

/-- The anchor of a footnote reference:
`<a id=fnr%d-%s href=#fn%d-%s title="Jump to footnote %d"><sup class=footnote>%d</sup></a>`
for `linkNum, hash, linkNum, hash, linkNum, linkNum`. -/
def footnoteAnchor (hash : List Nat) (linkNum : Nat) : List Nat :=
  str "<a id=fnr" ++ decimal linkNum ++ str "-" ++ hash ++ str " href=#fn" ++
    decimal linkNum ++ str "-" ++ hash ++ str " title=\"Jump to footnote " ++
    decimal linkNum ++ str "\"><sup class=footnote>" ++ decimal linkNum ++ str "</sup></a>"

/-- The footnote reference step of `transformLine2`. -/
def footnoteRefStep (hash : List Nat) (self : List Nat → Outcome) (s : List Nat) : Outcome :=
  match footnoteRefRegexp.FindStringSubmatch s with
  | none => .done s
  | some a =>
    (self (arg a 1)).bind fun x =>
    (escapeParts (footnoteAnchor hash (Atoi (arg a 2)))).bind fun anchor =>
    (self (arg a 3)).bind fun y =>
    .done (x ++ anchor ++ y)

/-- The method `transformLine2` of a state with the given `root_url` and `hash`. The first
argument is fuel: the depth of recursion allowed. Every pattern is anchored, so
`FindAllStringSubmatch` yields at most one match and each loop over `subexprs` runs at
most once. -/
def transformLine2 (root_url hash : List Nat) : Nat → List Nat → Outcome
  | 0, _ => .outOfFuel
  | fuel + 1, s =>
    match bareTagRegexp.FindStringSubmatch s with
    | some a =>
      (transformLine2 root_url hash fuel (arg a 1)).bind fun x =>
      (transformLine2 root_url hash fuel (arg a 3)).bind fun y =>
      .done (x ++ arg a 2 ++ y)
    | none =>
      (quoteLinkStep root_url (transformLine2 root_url hash fuel) s).bind fun s =>
      (titleLinkStep root_url (transformLine2 root_url hash fuel) s).bind fun s =>
      (linkStep root_url (transformLine2 root_url hash fuel) s).bind fun s =>
      (imgStep root_url (transformLine2 root_url hash fuel) s).bind fun s =>
      (altImgStep root_url (transformLine2 root_url hash fuel) s).bind fun s =>
      (footnoteRefStep hash (transformLine2 root_url hash fuel) s).bind fun s =>
      regexpTags.foldl
        (fun acc val => acc.bind fun s => tagStep (transformLine2 root_url hash fuel) s val)
        (.done s)

/-- The method `transformLine`. -/
def transformLine (root_url hash : List Nat) (fuel : Nat) (s : List Nat) : Outcome :=
  (transformLine2 root_url hash fuel s).bind fun s => .done (unescapeParts s)

end Textile

namespace Textile

/-! ## `textile.go`: the block state machine -/

/-- The struct `state`; `w` holds the bytes written to the buffer so far. The channel `ch`
is the list of lines that `run` consumes. -/
structure State where
  w : List Nat
  inBlockQuote : Bool
  inLongBlockQuote : Bool
  inPre : Bool
  inLongPre : Bool
  inCode : Bool
  inLongCode : Bool
  listType : List Nat
  currentListLevel : Nat
  currentClassPart : List Nat
  root_url : List Nat
  hash : List Nat
  deriving DecidableEq, Repr

/-- The call `st.w.Write(x)`, also used for `fmt.Fprintf(st.w, ...)`. -/
def State.write (st : State) (x : List Nat) : State := { st with w := st.w ++ x }

/-- The method `checkBlockQuote`. -/
def State.checkBlockQuote (st : State) : State :=
  if st.inBlockQuote then
    { (if st.inLongBlockQuote then st.write (str "</blockquote>")
        else st.write (str "</p></blockquote>")) with
      inBlockQuote := false, inLongBlockQuote := false, currentClassPart := [] }
  else st

/-- The method `checkPre`. -/
def State.checkPre (st : State) : State :=
  if st.inPre then
    { st.write (str "</pre>") with inPre := false, inLongPre := false, currentClassPart := [] }
  else st

/-- The method `checkCode`. -/
def State.checkCode (st : State) : State :=
  if st.inCode then
    { st.write (str "</code></pre>") with
      inCode := false, inLongCode := false, currentClassPart := [] }
  else st

/-- The loop `for ; level < st.currentListLevel; st.currentListLevel -= 1` that writes
`</li></listType>` at every turn; the first argument is `st.currentListLevel - level`. -/
def State.closeLists : Nat → State → State
  | 0, st => st
  | n + 1, st =>
    State.closeLists n
      { st.write (str "</li></" ++ st.listType ++ str ">") with
        currentListLevel := st.currentListLevel - 1 }

/-- The method `clearListLevels`. -/
def State.clearListLevels (st : State) : State :=
  if st.currentListLevel > 0 then
    { State.closeLists (st.currentListLevel - 0) st with currentClassPart := [] }
  else st

/-- The method `checkAll`. -/
def State.checkAll (st : State) : State :=
  st.checkBlockQuote.checkPre.checkCode.clearListLevels

/-- The method `transformLine` of a state. -/
def State.transformLine (st : State) (fuel : Nat) (s : List Nat) : Outcome :=
  Textile.transformLine st.root_url st.hash fuel s

/-- The class part of a block: `" class=" + a[1:len(a)-1]` for a class group `a` that
is not empty, and `""` otherwise. -/
def classPart (a : List Nat) : List Nat :=
  if a ≠ [] then str " class=" ++ (a.drop 1).take (a.length - 1 - 1) else []

/-- The handler of `blockQuoteRegexp`. -/
def blockQuoteHandler (fuel : Nat) (st : State) (args : List (List Nat)) : Res (State × Bool) :=
  let st := st.checkBlockQuote.checkPre.checkCode
  let st := { st with inBlockQuote := true, inLongBlockQuote := decide (arg args 2 = str "..") }
  let st := { st with currentClassPart := classPart (arg args 1) }
  (st.transformLine fuel (arg args 3)).bind fun t =>
    let st := st.write (str "<blockquote" ++ st.currentClassPart ++ str "><p" ++
      st.currentClassPart ++ str ">" ++ t)
    let st := if st.inLongBlockQuote then st.write (str "</p>") else st
    .done (st, true)

/-- The handler of `preRegexp`. -/
def preHandler (st : State) (args : List (List Nat)) : Res (State × Bool) :=
  let st := st.checkBlockQuote.checkPre.checkCode
  let st := { st with inPre := true, inLongPre := decide (arg args 2 = str "..") }
  let st := { st with currentClassPart := classPart (arg args 1) }
  (EntityEscapeString (arg args 3) false true).bind fun t =>
    .done (st.write (str "<pre" ++ st.currentClassPart ++ str ">" ++ t ++ str "\n"), true)

/-- The handler of `codeRegexp`. -/
def codeHandler (st : State) (args : List (List Nat)) : Res (State × Bool) :=
  let st := st.checkBlockQuote.checkPre.checkCode
  let st := { st with inCode := true, inLongCode := decide (arg args 2 = str "..") }
  let st := { st with currentClassPart := classPart (arg args 1) }
  (EntityEscapeString (arg args 3) true false).bind fun t =>
    .done (st.write (str "<pre" ++ st.currentClassPart ++ str "><code" ++
      st.currentClassPart ++ str ">" ++ t ++ str "\n"), true)

/-- The handler of `paragraphRegexp`. -/
def paragraphHandler (fuel : Nat) (st : State) (args : List (List Nat)) : Res (State × Bool) :=
  let st := st.checkBlockQuote.checkPre.checkCode
  let st := { st with currentClassPart := classPart (arg args 1) }
  (st.transformLine fuel (arg args 2)).bind fun t =>
    .done (st.write (str "<p" ++ st.currentClassPart ++ str ">" ++ t ++ str "</p>"), true)

/-- The handler of `headingRegexp`. -/
def headingHandler (fuel : Nat) (st : State) (args : List (List Nat)) : Res (State × Bool) :=
  let st := st.checkBlockQuote.checkPre.checkCode
  let level := arg args 1
  let st := { st with currentClassPart := classPart (arg args 2) }
  (st.transformLine fuel (arg args 3)).bind fun t =>
    .done (st.write (str "<h" ++ level ++ st.currentClassPart ++ str ">" ++ t ++ str "</h" ++
      level ++ str ">"), true)

/-- The handler of `footnoteRegexp`. -/
def footnoteHandler (fuel : Nat) (st : State) (args : List (List Nat)) : Res (State × Bool) :=
  let st := st.checkBlockQuote.checkPre.checkCode
  let st := { st with currentClassPart := classPart (arg args 2) }
  (st.transformLine fuel (arg args 3)).bind fun t =>
    .done (st.write (str "<p" ++ st.currentClassPart ++ str " id=fn" ++ arg args 1 ++ str "-" ++
      st.hash ++ str "><sup" ++ st.currentClassPart ++ str ">" ++ arg args 1 ++ str "</sup> " ++
      t ++ str "&#160;<a href=#fnr" ++ arg args 1 ++ str "-" ++ st.hash ++
      str " title=\"Jump back to footnote " ++ arg args 1 ++ str "\">&#8617;</a></p>"), true)

/-- The handler of `listRegexp`. -/
def listHandler (fuel : Nat) (st : State) (args : List (List Nat)) : Res (State × Bool) :=
  let st := st.checkBlockQuote.checkPre
  if st.inCode then
    -- Allow lines starting with "*" or "#" in code.
    .done (st, false)
  else
    let st := st.checkCode
    let st := if (arg args 1).getD 0 0 = '*'.toNat then { st with listType := str "ul" }
      else { st with listType := str "ol" }
    let st := { st with currentClassPart := classPart (arg args 2) }
    let level := (arg args 1).length
    (st.transformLine fuel (arg args 3)).bind fun t =>
      let st :=
        if level < st.currentListLevel then
          (State.closeLists (st.currentListLevel - level) st).write (str "</li><li>" ++ t)
        else if level > st.currentListLevel then
          st.write (str "<" ++ st.listType ++ st.currentClassPart ++ str "><li>" ++ t)
        else st.write (str "</li><li>" ++ t)
      .done ({ st with currentListLevel := level }, true)

/-- The table `blockHandlers`; the handlers that call `transformLine` take its fuel. -/
def blockHandlers (fuel : Nat) : List (Regexp × (State → List (List Nat) → Res (State × Bool))) :=
  [(blockQuoteRegexp, blockQuoteHandler fuel), (preRegexp, preHandler),
    (codeRegexp, codeHandler), (paragraphRegexp, paragraphHandler fuel),
    (headingRegexp, headingHandler fuel), (footnoteRegexp, footnoteHandler fuel),
    (listRegexp, listHandler fuel)]

/-- The loop `for _, handler := range blockHandlers` of `transform`: the handler of the
first pattern that matches `s` runs; the result is the state and the value of `matched`. -/
def runHandlers (st : State) (s : List Nat) :
    List (Regexp × (State → List (List Nat) → Res (State × Bool))) → Res (State × Bool)
  | [] => .done (st, false)
  | handler :: rest =>
    match handler.1.FindStringSubmatch s with
    | some subexpr => handler.2 st subexpr
    | none => runHandlers st s rest

/-- The body of the loop of `transform` for a line `s` received from the channel. -/
def State.step (fuel : Nat) (st : State) (s : List Nat) : Res State :=
  -- Match an empty line.
  if s.length = 0 ∧ !st.inLongBlockQuote ∧ !st.inLongPre ∧ !st.inLongCode then
    .done st.checkAll
  else
    -- Match block modifiers.
    (runHandlers st s (blockHandlers fuel)).bind fun r =>
      let st := r.1
      if r.2 then .done st
      else if st.inPre ∨ st.inCode then
        (EntityEscapeString s st.inCode st.inPre).bind fun t => .done (st.write (t ++ str "\n"))
      else
        -- Bare line.
        let st := st.clearListLevels
        if !(linkRegexp.MatchString s || titleLinkRegexp.MatchString s) &&
            (imgRegexp.MatchString s || altImgRegexp.MatchString s) then
          (st.transformLine fuel s).bind fun t => .done (st.write t)
        else if st.inBlockQuote then
          if !st.inLongBlockQuote then
            (st.transformLine fuel s).bind fun t => .done (st.write (str "<br>" ++ t))
          else if s.length ≠ 0 then
            (st.transformLine fuel s).bind fun t =>
              .done (st.write (str "<p" ++ st.currentClassPart ++ str ">" ++ t ++ str "</p>"))
          else .done st
        else
          (st.transformLine fuel s).bind fun t => .done (st.write (str "<p>" ++ t ++ str "</p>"))

/-- The loop of `transform` over the lines that the channel still delivers. -/
def State.run (fuel : Nat) : State → List (List Nat) → Res State
  | st, [] => .done st
  | st, s :: rest => (st.step fuel s).bind fun st => State.run fuel st rest

/-- The method `transform`: the loop, `checkAll` when the channel is closed, and the
final `clearListLevels`. -/
def State.transform (fuel : Nat) (st : State) (lines : List (List Nat)) : Res State :=
  (st.run fuel lines).bind fun st => .done st.checkAll.clearListLevels

/-- The state that `formatter` creates. -/
def initialState (root_url : List Nat) : State :=
  { w := [], inBlockQuote := false, inLongBlockQuote := false, inPre := false,
    inLongPre := false, inCode := false, inLongCode := false, listType := [],
    currentListLevel := 0, currentClassPart := [], root_url := root_url, hash := emptyHash }

/-- The function `formatter` on the bytes `b` of its value: the lines of `b` are
transformed into a buffer, and the buffer goes through `EntityEscape(w, ., false, true)`.
`fuel` bounds the depth of recursion of `transformLine2`. -/
def formatter (fuel : Nat) (root_url : List Nat) (b : List Nat) : Outcome :=
  ((initialState root_url).transform fuel (splitLines b [])).bind fun st =>
    EntityEscape st.w false true

/-- The function `TextileFormatter`. -/
def TextileFormatter (fuel : Nat) (b : List Nat) : Outcome := formatter fuel [] b

/-- The formatter that `GetTextileFullLinkFormatter(root_url)` returns. -/
def GetTextileFullLinkFormatter (root_url : List Nat) (fuel : Nat) (b : List Nat) : Outcome :=
  formatter fuel root_url b

/-! ## What a match of a pattern looks like -/

/-- The relation "`r` matches exactly the text `x`, turning the captures `c` into `c2`". -/
def Re.Matches : Re → List Nat → List (List Nat) → List (List Nat) → Prop
  | .eps, x, c, c2 => x = [] ∧ c2 = c
  | .sym a, x, c, c2 => x = [a] ∧ c2 = c
  | .chr p, x, c, c2 => ∃ a, x = [a] ∧ p a = true ∧ c2 = c
  | .star p, x, c, c2 => (∀ a ∈ x, p a = true) ∧ c2 = c
  | .plus p, x, c, c2 => x ≠ [] ∧ (∀ a ∈ x, p a = true) ∧ c2 = c
  | .opt r, x, c, c2 => r.Matches x c c2 ∨ (x = [] ∧ c2 = c)
  | .cat a b, x, c, c2 => ∃ x1 x2 c1, x = x1 ++ x2 ∧ a.Matches x1 c c1 ∧ b.Matches x2 c1 c2
  | .grp n r, x, c, c2 => ∃ c1, r.Matches x c c1 ∧ c2 = c1.set n x

/-- Every match of `r` takes a character that is not `ok`. -/
def Re.needs (ok : Nat → Bool) : Re → Prop
  | .eps => False
  | .sym a => ok a = false
  | .chr p => ∀ x, ok x = true → p x = false
  | .star _ => False
  | .plus p => ∀ x, ok x = true → p x = false
  | .opt _ => False
  | .cat a b => a.needs ok ∨ b.needs ok
  | .grp _ r => r.needs ok

/-- An ASCII letter, a digit or a space. -/
def plain (x : Nat) : Bool :=
  inRange 'A' 'Z' x || inRange 'a' 'z' x || inRange '0' '9' x || x == ' '.toNat

/-- A character that starts no inline markup: none of `<`, `[`, `"`, `!`, `_`, `*`, `^`
and `~`. -/
def noMarkup (x : Nat) : Bool := !([60, 91, 34, 33, 95, 42, 94, 126].contains x)

/-- No block is open and no list level is pending. -/
def State.idle (st : State) : Prop :=
  st.inBlockQuote = false ∧ st.inLongBlockQuote = false ∧ st.inPre = false ∧
    st.inLongPre = false ∧ st.inCode = false ∧ st.inLongCode = false ∧ st.currentListLevel = 0

/-- The flags `inCode` and `inPre` are not both set. -/
def State.exclusive (st : State) : Prop := ¬ (st.inCode = true ∧ st.inPre = true)

/-- The outcome of a step of the state machine: no panic, and a state that is exclusive. -/
def Res.safe (r : Res State) : Prop :=
  r ≠ .panicked ∧ ∀ st, r = .done st → st.exclusive

/-- A handler's outcome: no panic, and a state that is exclusive. -/
def handlerSafe (r : Res (State × Bool)) : Prop :=
  r ≠ .panicked ∧ ∀ p, r = .done p → p.1.exclusive

/-- A character of the text `<img src="/`. -/
def imgOpenChar (x : Nat) : Bool := (str "<img src=\"/").contains x

/-- A root URL that is itself inline markup: an image `!/q!` and a strong span `*z*`. -/
def loopRoot : List Nat := str "/!/q!*z*"

/-- The characters that the replacement texts of the inline transformer never contain
and of which every inline pattern but the bare tag takes one: `:`, `!`, `[`, `_`, `*`, `^`
and `~`. -/
def isDelim (x : Nat) : Bool := [58, 33, 91, 95, 42, 94, 126].contains x

/-- The number of such characters in a text. -/
def delims (s : List Nat) : Nat := s.countP isDelim

/-- The call `f fuel` returns `a` for every fuel from some amount on. -/
def Eventually {α : Type} (f : Nat → Res α) (a : α) : Prop :=
  ∃ n, ∀ fuel, n ≤ fuel → f fuel = .done a

/-- The capturing groups of a pattern. -/
def Re.groupIds : Re → List Nat
  | .opt r => r.groupIds
  | .cat a b => a.groupIds ++ b.groupIds
  | .grp n r => n :: r.groupIds
  | _ => []

/-- No group of the pattern lies inside another. -/
def Re.flat : Re → Bool
  | .opt r => r.flat
  | .cat a b => a.flat && b.flat
  | .grp _ r => r.groupIds.isEmpty
  | _ => true

/-- A number of characters with `q` that every match takes outside the groups that `sel`
selects: the literals with `q` that the pattern cannot skip. -/
def Re.least (q sel : Nat → Bool) : Re → Nat
  | .sym a => if q a then 1 else 0
  | .cat a b => a.least q sel + b.least q sel
  | .grp n r => if sel n then 0 else r.least q sel
  | _ => 0

/-- The number of characters with `q` in the captures that `sel` selects, the first
capture of the list having index `i`. -/
def capsCount (q sel : Nat → Bool) : List (List Nat) → Nat → Nat
  | [], _ => 0
  | x :: xs, i => (if sel i then x.countP q else 0) + capsCount q sel xs (i + 1)

/-- The inline transformer returns on `c`, with no more delimiters than `c` has. -/
def Settles (root hash : List Nat) (c : List Nat) : Prop :=
  ∃ r, Eventually (fun n => transformLine2 root hash n c) r ∧ delims r ≤ delims c

/-- The root URL and the hash of a state have no delimiters. -/
def State.quiet (st : State) : Prop := delims st.root_url = 0 ∧ delims st.hash = 0

/-- Two states with the same root URL and hash. -/
def State.sameKeys (st st2 : State) : Prop := st2.root_url = st.root_url ∧ st2.hash = st.hash

/-- The paragraphs `<p>l_1</p>...<p>l_n</p>`. -/
def paragraphs (ls : List (List Nat)) : List Nat :=
  (ls.map fun l => str "<p>" ++ l ++ str "</p>").flatten

/-- The text of the lines `l_1, ..., l_n` separated by `\n`. -/
def joinLines : List (List Nat) → List Nat
  | [] => []
  | [l] => l
  | l :: rest => l ++ 10 :: joinLines rest

end Textile

namespace Textile

/-! ## Lists and blockquotes: the words of the specification -/

/-- Whether a text is left alone by `EntityEscape(., false, .)`, read from inside a tag
(`in_tag`) or from outside: outside tags it holds no `"`, `&` or `.`; the value is the
flag `in_tag` at the end of the text. -/
def tagState : List Nat → Bool → Option Bool
  | [], in_tag => some in_tag
  | c :: cs, true => tagState cs (c != 62)
  | c :: cs, false =>
    if c = 60 then tagState cs true
    else if c = 34 ∨ c = 38 ∨ c = 46 then none
    else tagState cs false

/-- The closing tags `</li></T>` of `n` list levels. -/
def listClosers (T : List Nat) (n : Nat) : List Nat :=
  (List.replicate n (str "</li></" ++ T ++ str ">")).flatten

/-- The items `<li>t</li>` of a flat list. -/
def listItems (ts : List (List Nat)) : List Nat :=
  (ts.map fun t => str "<li>" ++ t ++ str "</li>").flatten

/-- The lines of a list that goes one level deeper at every item: the item `t_i` is
marked with `i` copies of `*`, counted from `i`. -/
def nestedLines : List (List Nat) → Nat → List (List Nat)
  | [], _ => []
  | t :: ts, i => (List.replicate i 42 ++ 32 :: t) :: nestedLines ts (i + 1)

/-- The paragraphs `p_2, ..., p_n` of a text, each preceded by one blank line. -/
def withBlanks (ps : List (List Nat)) : List (List Nat) :=
  (ps.map fun p => [[], p]).flatten

/-- The paragraphs `<p class=c>l</p>` of a long blockquote with the class part `cp`. -/
def classParagraphs (cp : List Nat) (ls : List (List Nat)) : List Nat :=
  (ls.map fun l => str "<p" ++ cp ++ str ">" ++ l ++ str "</p>").flatten

/-- The flags of a state are exclusive: at most one of `inBlockQuote`, `inPre`, `inCode`
is set, and a long flag is set only with the flag of its block. -/
def State.blockInvariant (st : State) : Prop :=
  ¬ (st.inBlockQuote = true ∧ st.inPre = true) ∧
  ¬ (st.inBlockQuote = true ∧ st.inCode = true) ∧
  ¬ (st.inPre = true ∧ st.inCode = true) ∧
  (st.inLongBlockQuote = true → st.inBlockQuote = true) ∧
  (st.inLongPre = true → st.inPre = true) ∧
  (st.inLongCode = true → st.inCode = true)

/-- A state in which no block is open: the three block flags and their long flags are
all false. -/
def State.flagsClear (st : State) : Prop :=
  st.inBlockQuote = false ∧ st.inLongBlockQuote = false ∧ st.inPre = false ∧
    st.inLongPre = false ∧ st.inCode = false ∧ st.inLongCode = false

/-- The closing tags that `checkAll` owes to a state, in the order of its calls:
blockquote, pre, code, and the open list levels. -/
def State.closers (st : State) : List Nat :=
  (if st.inBlockQuote then
      (if st.inLongBlockQuote then str "</blockquote>" else str "</p></blockquote>")
    else []) ++
  (if st.inPre then str "</pre>" else []) ++
  (if st.inCode then str "</code></pre>" else []) ++
  listClosers st.listType st.currentListLevel

/-- The state reached from the initial state by the lines `ls`. -/
def reached (fuel : Nat) (root_url : List Nat) (ls : List (List Nat)) : Res State :=
  (initialState root_url).run fuel ls

/-- The value of a computation that returned. -/
def Res.toOption {α : Type} : Res α → Option α
  | .done a => some a
  | _ => none

/-- What a handler has in the buffer when it returns, and the list level it leaves. -/
def handled (r : Res (State × Bool)) : Option (List Nat × Nat) :=
  r.toOption.map fun p => (p.1.w, p.1.currentListLevel)

/-- The buffer and the list level of the state that the lines `ls` lead to. -/
def reachedOutput (fuel : Nat) (root_url : List Nat) (ls : List (List Nat)) :
    Option (List Nat × Nat) :=
  (reached fuel root_url ls).toOption.map fun st => (st.w, st.currentListLevel)

/-- The handler of a pattern on a line in the state that the lines `ls` lead to. -/
def handledAfter (fuel : Nat) (ls : List (List Nat)) (r : Regexp)
    (handler : State → List (List Nat) → Res (State × Bool)) (s : List Nat) :
    Option (List Nat × Nat) :=
  match reached fuel [] ls, r.FindStringSubmatch s with
  | .done st, some args => handled (handler st args)
  | _, _ => none

end Textile

namespace Textile

/-! ## Code, pre, links and inline tags: the words of the specification -/

/-- A text that `EntityEscape(., false, .)` leaves as it is, read from inside a tag
(`in_tag`) or from outside: outside tags it has no `"`, every `&` is followed by `#` and
no dot starts a group of three. -/
def calm : List Nat → Bool → Prop
  | [], _ => True
  | c :: cs, true => calm cs (c != 62)
  | c :: cs, false =>
    if c = 60 then calm cs true
    else c ≠ 34 ∧ (c = 38 → cs.head? = some 35) ∧ (c = 46 → cs.take 2 ≠ [46, 46]) ∧
      calm cs false

/-- A text in which every `_` has become the sentinel `%%%%`. -/
def sentinel (s : List Nat) : List Nat :=
  (s.map fun c => if c = 95 then str "%%%%" else [c]).flatten

/-- A pattern `^(.*)d([^d]*)d(.*)$` of `regexpTags` for the delimiter `d`. -/
def pairRegexp (d : Char) : Regexp :=
  ⟨seq [.grp 1 (.star dot), lit d, .grp 2 (.star (notIn [d])), lit d, .grp 3 (.star dot)], 3⟩

/-- A letter or a digit. -/
def alnum (x : Nat) : Bool := inRange 'A' 'Z' x || inRange 'a' 'z' x || inRange '0' '9' x

/-- A character of the link targets of C26: a letter, a digit, `_`, `/`, `:` or `-`. -/
def targetChar (x : Nat) : Bool := alnum x || oneOf ['_', '/', ':', '-'] x

/-- The decimal digit `n` as a character. -/
def digit (n : Nat) : Nat := 48 + n

/-- The paragraph of a footnote definition without a class, as `footnoteRegexp`'s handler
writes it for the number `n`, the hash `h` and the transformed text `t`. -/
def footnoteParagraph (h n t : List Nat) : List Nat :=
  str "<p id=fn" ++ n ++ str "-" ++ h ++ str "><sup>" ++ n ++ str "</sup> " ++ t ++
    str "&#160;<a href=#fnr" ++ n ++ str "-" ++ h ++ str " title=\"Jump back to footnote " ++
    n ++ str "\">&#8617;</a></p>"

/-- The anchor of a footnote reference for the number `n` and the hash `h`, in the words
of the specification: the id `fnrN-H` and the target `#fnN-H`. -/
def referenceAnchor (h n : List Nat) : List Nat :=
  str "<a id=fnr" ++ n ++ str "-" ++ h ++ str " href=#fn" ++ n ++ str "-" ++ h ++
    str " title=\"Jump to footnote " ++ n ++ str "\"><sup class=footnote>" ++ n ++
    str "</sup></a>"

end Textile

namespace Textile

/-! ## `FindAllString` for `lineRegexp` -/

/-- The match of `[^\r\n]*` at the start of a text: its longest prefix without `\r` and
`\n`. -/
def lineRun (s : List Nat) : List Nat := s.takeWhile fun c => decide (c ≠ 13 ∧ c ≠ 10)

/-- The loop of `allMatches` in package `regexp`, which `FindAllString(s, -1)` runs, for
the pattern `[^\r\n]*`: `rest` is `s[pos:]`, the match found at `pos` is `lineRun rest`,
an empty match is left out when it starts where the match before it ended, and the search
goes on behind the match, or one character further after an empty match. The first
argument is fuel, the turns of the loop; `len(s) - pos + 1` is enough. -/
def allMatches : Nat → List Nat → Nat → Int → List (List Nat)
  | 0, _, _, _ => []
  | fuel + 1, rest, pos, prevMatchEnd =>
    if (lineRun rest).length = 0 then
      -- We've found an empty match.
      let accepted : List (List Nat) := if (pos : Int) = prevMatchEnd then [] else [[]]
      match rest with
      | [] => accepted
      | _ :: cs => accepted ++ allMatches fuel cs (pos + 1) pos
    else
      lineRun rest ::
        allMatches fuel (rest.drop (lineRun rest).length) (pos + (lineRun rest).length)
          (pos + (lineRun rest).length)

/-- The call `lineRegexp.FindAllString(s, -1)`. -/
def FindAllString (s : List Nat) : List (List Nat) := allMatches (s.length + 1) s 0 (-1)

/-- A line break character: `\r` or `\n`. -/
def isBreak (c : Nat) : Bool := c == 13 || c == 10

/-! ## List tags in the output -/

/-- The weight of a tag with the text `t` between `<` and `>`: `1` for a tag that opens
a list (`<ul` or `<ol`), `-1` for `</ul>` and `</ol>`, `0` for any other tag. -/
def tagWeight (t : List Nat) : Int :=
  if t.take 2 = str "ul" ∨ t.take 2 = str "ol" then 1
  else if t = str "/ul" ∨ t = str "/ol" then -1
  else 0

/-- The list tags opened minus the list tags closed in a text, read tag by tag; `tag` is
the text of the tag that is being read, if one is. -/
def listBalance : List Nat → Option (List Nat) → Int
  | [], _ => 0
  | c :: cs, none => if c = 60 then listBalance cs (some []) else listBalance cs none
  | c :: cs, some t =>
    if c = 62 then tagWeight t + listBalance cs none else listBalance cs (some (t ++ [c]))

/-- Whether a character is a list marker, `*` or `#`. -/
def isMarker (c : Nat) : Bool := c == 42 || c == 35

/-- The level of a list-item line with a plain text: the length of the run of markers at
its start when a space and a text of letters, digits and spaces follow the run, and `0`
for every other line. -/
def itemLevel (l : List Nat) : Nat :=
  match l.dropWhile isMarker with
  | 32 :: t => if t.all plain then (l.takeWhile isMarker).length else 0
  | _ => 0

/-- Lines that are blank, plain text, or list items with a plain text, where every item
is at most one level deeper than the line before it; `n` is the level of the line before
the first one, and a line that is not an item has level `0`. -/
def steady : Nat → List (List Nat) → Bool
  | _, [] => true
  | n, l :: ls =>
    (l.all plain || (0 < itemLevel l && itemLevel l ≤ n + 1)) && steady (itemLevel l) ls

/-- A link as the inline transformer writes it. -/
def linkAnchor (u t : List Nat) : List Nat :=
  str "<a href=\"" ++ u ++ str "\">" ++ t ++ str "</a>"

end Textile

/-! # Package `lwb`: `src/pkg/lwb/format.go` -/

namespace Lwb

/-- The bytes of `%20`. -/
def escSpace : List Nat := Textile.str "%20"

/-- The loop `for i, c := range b` of `EncodeSpacesFormatter`: `rest` is `b[i:]`, `w` the
bytes written so far; at the end `b[last:]` is written. -/
def encodeLoop (b : List Nat) : List Nat → Nat → Nat → List Nat → List Nat
  | [], _, last, w => w ++ b.drop last
  | c :: cs, i, last, w =>
    if c = 32 then
      encodeLoop b cs (i + 1) (i + 1) (w ++ (b.drop last).take (i - last) ++ escSpace)
    else encodeLoop b cs (i + 1) last w

/-- The function `EncodeSpacesFormatter` on the bytes `b` of its value. -/
def EncodeSpacesFormatter (b : List Nat) : List Nat := encodeLoop b b 0 0 []

/-- The function `ConvertBreaksFormatter` on its values, all of them strings: the bytes
written to `w`. -/
def ConvertBreaksFormatter (value : List (List Nat)) : List Nat :=
  value.foldl (fun w val =>
    (Textile.FindAllString val).foldl (fun w line =>
      if line.length ≠ 0 then w ++ (Textile.str "<p>" ++ line ++ Textile.str "</p>") else w) w) []

/-- A text with `%20` for every space, in the words of the specification. -/
def encodeSpaces (b : List Nat) : List Nat :=
  (b.map fun c => if c = 32 then Textile.str "%20" else [c]).flatten

end Lwb

namespace Textile

/-! ## Root URLs with a colon: a second count for the inline transformer -/

/-- The characters of which every inline pattern but the bare tag takes at least as many
as its replacement text holds: `"`, `!`, `[`, `]`, `(`, `)`, `_`, `*`, `^` and `~`. -/
def isMark (x : Nat) : Bool := [34, 33, 91, 93, 40, 41, 95, 42, 94, 126].contains x

/-- The number of such characters in a text. -/
def marks (s : List Nat) : Nat := s.countP isMark

/-- A mark other than the underscore, which `escapeParts` replaces by the sentinel. -/
def isRootMark (x : Nat) : Bool := [34, 33, 91, 93, 40, 41, 42, 94, 126].contains x

/-- The number of marks other than the underscore in a text. -/
def rootMarks (s : List Nat) : Nat := s.countP isRootMark

/-- The inline transformer returns on `c`, with no more marks than `c` has. -/
def Rests (root hash : List Nat) (c : List Nat) : Prop :=
  ∃ r, Eventually (fun n => transformLine2 root hash n c) r ∧ marks r ≤ marks c

/-- The root URL of a state has no mark other than underscores, and its hash has no
mark. -/
def State.mild (st : State) : Prop := rootMarks st.root_url = 0 ∧ marks st.hash = 0

end Textile
namespace Textile

theorem drop_eq_getD_cons (b : List Nat) (j : Nat) (h : j < b.length) :
    b.drop j = b.getD j 0 :: b.drop (j + 1) := by
  rw [List.drop_eq_getElem_cons h]
  simp [List.getD_eq_getElem?_getD, List.getElem?_eq_getElem h]

theorem findClosing_eq_look (b : List Nat) :
    ∀ (fuel j : Nat) (t : Bool), fuel = b.length - j →
      findClosing b fuel j t = look (b.drop j) j t := by
  intro fuel
  induction fuel with
  | zero =>
    intro j t h
    have : b.drop j = [] := List.drop_eq_nil_of_le (by omega)
    simp [findClosing, this, look]
  | succ n ih =>
    intro j t h
    have hj : j < b.length := by omega
    have hn : n = b.length - (j + 1) := by omega
    rw [drop_eq_getD_cons b j hj]
    simp only [findClosing, hj, if_true, look]
    rw [ih (j + 1) false hn, ih (j + 1) true hn]

theorem scan_skip (ea sq : Bool) :
    ∀ (cs : List Nat) (k i : Nat) (t : Bool) (fc : Int),
      scan ea sq cs k i t fc = scan ea sq (cs.drop k) 0 (i + k) t fc := by
  intro cs
  induction cs with
  | nil => intro k i t fc; simp [scan]
  | cons c cs ih =>
    intro k i t fc
    cases k with
    | zero => simp
    | succ k =>
      rw [scan, ih]
      simp only [List.drop_succ_cons]
      congr 1
      omega

theorem take_slice_succ (b : List Nat) (last i : Nat) (h1 : last ≤ i) (h2 : i < b.length) :
    (b.drop last).take (i + 1 - last) = (b.drop last).take (i - last) ++ [b.getD i 0] := by
  have e : i + 1 - last = (i - last) + 1 := by omega
  rw [e, List.take_succ]
  congr 1
  have : (List.drop last b)[i - last]? = some (b.getD i 0) := by
    rw [List.getElem?_drop]
    have : last + (i - last) = i := by omega
    rw [this, List.getD_eq_getElem?_getD, List.getElem?_eq_getElem h2]
    simp
  rw [this]; rfl

theorem ofScan_map_cons (pre : List Nat) (c : Nat) (o : Option (List Nat)) :
    ofScan pre (o.map (c :: ·)) = ofScan (pre ++ [c]) o := by
  cases o <;> simp [ofScan]

theorem ofScan_map_append (pre esc : List Nat) (o : Option (List Nat)) :
    ofScan pre (o.map (esc ++ ·)) = ofScan (pre ++ esc) o := by
  cases o <;> simp [ofScan]

theorem dots_cond (b : List Nat) (i : Nat) :
    (b.length > i + 2 ∧ b.getD (i + 1) 0 = 46 ∧ b.getD (i + 2) 0 = 46) ↔
      (b.drop (i + 1)).take 2 = [46, 46] := by
  by_cases h : i + 2 < b.length
  · have e : (b.drop (i + 1)).take 2 = [b.getD (i + 1) 0, b.getD (i + 2) 0] := by
      rw [drop_eq_getD_cons b (i + 1) (by omega), drop_eq_getD_cons b (i + 2) (by omega)]
      rfl
    rw [e]
    simp only [List.cons.injEq, and_true]
    constructor
    · rintro ⟨_, h1, h2⟩; exact ⟨h1, h2⟩
    · rintro ⟨h1, h2⟩; exact ⟨h, h1, h2⟩
  · have : (b.drop (i + 1)).length ≤ 1 := by simp; omega
    constructor
    · intro h'; omega
    · intro h'
      have := congrArg List.length h'
      simp at this
      omega

theorem amp_cond (b : List Nat) (i : Nat) :
    (b.length > i + 1 ∧ b.getD (i + 1) 0 = 35) ↔ (b.drop (i + 1)).head? = some 35 := by
  by_cases h : i + 1 < b.length
  · rw [drop_eq_getD_cons b (i + 1) h]
    simp [h]
  · have : b.drop (i + 1) = [] := List.drop_eq_nil_of_le (by omega)
    simp [this]; omega

theorem iter_scan (b : List Nat) (ea sq : Bool) (st : Scan)
    (h1 : st.last ≤ st.i) (h2 : st.i < b.length) :
    match iter b ea sq st with
    | none => scan ea sq (b.drop st.i) 0 st.i st.in_tag st.found_closing = none
    | some st2 => st2.last ≤ st2.i ∧ st2.i ≤ b.length ∧ st.i < st2.i ∧
        ofScan (st.pre b) (scan ea sq (b.drop st.i) 0 st.i st.in_tag st.found_closing) =
        ofScan (st2.pre b) (scan ea sq (b.drop st2.i) 0 st2.i st2.in_tag st2.found_closing) := by
  obtain ⟨w, last, i, t, fc⟩ := st
  simp only at h1 h2
  have hd := drop_eq_getD_cons b i h2
  have hs := take_slice_succ b last i h1 h2
  have hl := findClosing_eq_look b (b.length - (i + 1)) (i + 1) false rfl
  have hdots := dots_cond b i
  have hamp := amp_cond b i
  have hsk := scan_skip ea sq (b.drop (i + 1)) 2 (i + 1) false fc
  simp only [List.drop_drop] at hsk
  have e4 : i + 1 + 2 = i + 3 := by omega
  rw [e4] at hsk
  simp only [iter, hd, Scan.pre]
  generalize b.getD i 0 = c at *
  by_cases ht : t = true ∧ c ≠ 62
  · obtain ⟨ht, hc⟩ := ht
    subst ht
    simp [iter, scan, hc, Scan.advance, hs, ofScan_map_cons]
    omega
  · have hst : (if t = true ∧ c = 62 then
        ({ w := w, last := last, i := i, in_tag := false, found_closing := fc } : Scan)
        else { w := w, last := last, i := i, in_tag := t, found_closing := fc }) =
        { w := w, last := last, i := i, in_tag := false, found_closing := fc } := by
      cases t <;> simp_all
    simp only [iter, scan, hst, if_neg ht]
    by_cases c60 : c = 60
    · subst c60
      cases ea <;>
        simp [Scan.emit, Scan.advance, hs, ofScan_map_cons, ofScan_map_append] <;> omega
    by_cases c62 : c = 62
    · subst c62
      cases ea <;>
        simp [Scan.emit, Scan.advance, hs, ofScan_map_cons, ofScan_map_append] <;> omega
    by_cases c34 : c = 34
    · subst c34
      cases sq
      · simp [Scan.emit, Scan.advance, hs, ofScan_map_cons, ofScan_map_append]; omega
      · by_cases hfc : 0 ≤ fc
        · by_cases hfi : fc = (i : Int)
          · simp [Scan.emit, hfc, hfi, ofScan_map_append]; omega
          · simp [hfc, hfi]
        · by_cases hlk : 0 ≤ look (List.drop (i + 1) b) (i + 1) false
          · simp [Scan.emit, hfc, hl, hlk, ofScan_map_append]; omega
          · simp [Scan.emit, hfc, hl, hlk, ofScan_map_append]; omega
    by_cases c46 : c = 46
    · subst c46
      by_cases hdd : List.take 2 (List.drop (i + 1) b) = [46, 46]
      · have hdd2 := hdots.mpr hdd
        simp only [if_pos hdd2, if_pos hdd]
        simp [Scan.emit, hsk, ofScan_map_append]; omega
      · have hdd2 := (not_congr hdots).mpr hdd
        simp only [if_neg hdd2, if_neg hdd]
        simp [Scan.advance, hs, ofScan_map_cons]; omega
    by_cases c38 : c = 38
    · subst c38
      by_cases haa : (List.drop (i + 1) b).head? = some 35
      · have haa2 := hamp.mpr haa
        simp only [if_pos haa2, if_pos haa]
        simp [Scan.advance, hs, ofScan_map_cons]; omega
      · have haa2 := (not_congr hamp).mpr haa
        simp only [if_neg haa2, if_neg haa]
        simp [Scan.emit, ofScan_map_append]; omega
    simp [c60, c62, c34, c46, c38, Scan.advance, hs, ofScan_map_cons]
    omega

theorem escLoop_eq_scan (b : List Nat) (ea sq : Bool) :
    ∀ (fuel : Nat) (st : Scan), st.last ≤ st.i → st.i ≤ b.length → b.length - st.i ≤ fuel →
      escLoop b ea sq fuel st =
        ofScan (st.pre b) (scan ea sq (b.drop st.i) 0 st.i st.in_tag st.found_closing) := by
  intro fuel
  induction fuel with
  | zero =>
    intro st h1 h2 h3
    have hi : ¬ st.i < b.length := by omega
    have hd : b.drop st.i = [] := List.drop_eq_nil_of_le (by omega)
    have ht : (b.drop st.last).take (st.i - st.last) = b.drop st.last :=
      List.take_of_length_le (by simp; omega)
    simp [escLoop, hi, hd, scan, ofScan, Scan.pre, ht]
  | succ n ih =>
    intro st h1 h2 h3
    by_cases hi : st.i < b.length
    · have hstep := iter_scan b ea sq st h1 hi
      rw [escLoop, if_pos hi]
      cases hit : iter b ea sq st with
      | none => rw [hit] at hstep; simp only at hstep; simp [hstep, ofScan]
      | some st2 =>
        rw [hit] at hstep
        obtain ⟨g1, g2, g3, g4⟩ := hstep
        simp only
        rw [ih st2 g1 g2 (by omega), g4]
    · have hd : b.drop st.i = [] := List.drop_eq_nil_of_le (by omega)
      have ht : (b.drop st.last).take (st.i - st.last) = b.drop st.last :=
        List.take_of_length_le (by simp; omega)
      simp [escLoop, hi, hd, scan, ofScan, Scan.pre, ht]

/-- The scan that `EntityEscape` computes. -/
theorem EntityEscape_eq_scan (b : List Nat) (ea sq : Bool) :
    EntityEscape b ea sq = ofScan [] (scan ea sq b 0 0 false (-1)) := by
  rw [EntityEscape, escLoop_eq_scan b ea sq b.length _ (by simp) (by simp) (by simp)]
  simp [Scan.pre]
end Textile

namespace Textile

/-! ## Texts that the escaper leaves alone -/

theorem scan_inert (ea sq : Bool) :
    ∀ (b : List Nat), inert b → ∀ (i : Nat) (fc : Int), scan ea sq b 0 i false fc = some b := by
  intro b
  induction b with
  | nil => intro _ i fc; simp [scan]
  | cons c cs ih =>
    intro h i fc
    obtain ⟨h60, h62, h34, h38, h46, hcs⟩ := h
    by_cases c46 : c = 46
    · subst c46
      simp [scan, h46 rfl, ih hcs]
    · by_cases c38 : c = 38
      · subst c38
        simp [scan, h38 rfl, ih hcs]
      · simp [scan, h60, h62, h34, c46, c38, ih hcs]

theorem inert_of_plain (b : List Nat) (h1 : 60 ∉ b) (h2 : 62 ∉ b) (h3 : 34 ∉ b) (h4 : 38 ∉ b)
    (h5 : ¬ [46, 46, 46] <:+: b) : inert b := by
  induction b with
  | nil => trivial
  | cons c cs ih =>
    simp only [List.mem_cons, not_or] at h1 h2 h3 h4
    refine ⟨fun h => h1.1 h.symm, fun h => h2.1 h.symm, fun h => h3.1 h.symm,
      fun h => absurd h.symm h4.1, ?_, ?_⟩
    · intro hc ht
      apply h5
      subst hc
      refine ⟨[], cs.drop 2, ?_⟩
      have := List.take_append_drop 2 cs
      rw [ht] at this
      conv_rhs => rw [← this]
      rfl
    · refine ih h1.2 h2.2 h3.2 h4.2 ?_
      intro hinf
      exact h5 (hinf.trans (List.suffix_cons c cs).isInfix)

end Textile

namespace Textile

/-! ## Dots, ampersands and `encode_all` -/

theorem scan_dots (ea sq : Bool) :
    ∀ (n i : Nat) (fc : Int), scan ea sq (List.replicate n 46) 0 i false fc =
      some ((List.replicate (n / 3) esc_elipses).flatten ++ List.replicate (n % 3) 46) := by
  intro n
  induction n using Nat.strong_induction_on with
  | _ n ih =>
    intro i fc
    match n, ih with
    | 0, _ => simp [scan]
    | 1, _ => simp [scan, List.replicate]
    | 2, _ => simp [scan, List.replicate]
    | m + 3, ih =>
      have e1 : (m + 3) / 3 = m / 3 + 1 := by omega
      have e2 : (m + 3) % 3 = m % 3 := by omega
      rw [e1, e2]
      simp only [List.replicate_succ, scan, List.take_succ_cons, List.take_zero, if_true]
      simp [ih m (by omega), List.replicate_succ]

theorem scan_ampRule :
    ∀ (b : List Nat), 60 ∉ b → 62 ∉ b → 34 ∉ b → 46 ∉ b → ∀ (i : Nat) (fc : Int),
      scan false true b 0 i false fc = some (ampRule b) := by
  intro b
  induction b with
  | nil => intro _ _ _ _ i fc; simp [scan, ampRule]
  | cons c cs ih =>
    intro h1 h2 h3 h4 i fc
    simp only [List.mem_cons, not_or] at h1 h2 h3 h4
    have r := fun i fc => ih h1.2 h2.2 h3.2 h4.2 i fc
    have c60 : c ≠ 60 := fun h => h1.1 h.symm
    have c62 : c ≠ 62 := fun h => h2.1 h.symm
    have c34 : c ≠ 34 := fun h => h3.1 h.symm
    have c46 : c ≠ 46 := fun h => h4.1 h.symm
    by_cases c38 : c = 38
    · subst c38
      by_cases hh : cs.head? = some 35 <;> simp [scan, ampRule, hh, r]
    · simp [scan, ampRule, c60, c62, c34, c46, c38, r]

theorem scan_encodeAllRule :
    ∀ (b : List Nat) (k i : Nat) (fc : Int),
      scan true false b k i false fc = some (encodeAllRule b k) := by
  intro b
  induction b with
  | nil => intro k i fc; simp [scan, encodeAllRule]
  | cons c cs ih =>
    intro k i fc
    cases k with
    | succ k => simp [scan, encodeAllRule, ih]
    | zero =>
      by_cases c60 : c = 60
      · simp [scan, encodeAllRule, c60, ih]
      by_cases c62 : c = 62
      · simp [scan, encodeAllRule, c62, ih]
      by_cases c34 : c = 34
      · simp [scan, encodeAllRule, c34, ih]
      by_cases c46 : c = 46
      · subst c46
        by_cases hh : cs.take 2 = [46, 46] <;> simp [scan, encodeAllRule, hh, ih]
      by_cases c38 : c = 38
      · subst c38
        by_cases hh : cs.head? = some 35 <;> simp [scan, encodeAllRule, hh, ih]
      simp [scan, encodeAllRule, c60, c62, c34, c46, c38, ih]

theorem encodeAllRule_mem :
    ∀ (b : List Nat) (k x : Nat), x ∈ encodeAllRule b k → x ≠ 60 ∧ x ≠ 62 ∧ x ≠ 34 := by
  intro b
  induction b with
  | nil => intro k x h; simp [encodeAllRule] at h
  | cons c cs ih =>
    intro k x h
    cases k with
    | succ k => exact ih k x (by simpa [encodeAllRule] using h)
    | zero =>
      simp only [encodeAllRule] at h
      split_ifs at h with c60 c62 c34 c38 c46 <;>
        simp only [List.mem_append, List.mem_cons] at h <;>
        rcases h with h | h <;>
        first
          | exact ih _ x h
          | (simp [esc_lt, esc_gt, esc_quote, esc_amp, esc_elipses] at h; omega)
          | (subst h; exact ⟨c60, c62, c34⟩)

end Textile

namespace Textile

/-! ## The output of `encode_all` is inert -/

theorem inert_esc_append (esc rest : List Nat)
    (h : esc = esc_lt ∨ esc = esc_gt ∨ esc = esc_quote ∨ esc = esc_amp ∨ esc = esc_elipses)
    (hr : inert rest) : inert (esc ++ rest) := by
  rcases h with h | h | h | h | h <;> subst h <;>
    simp [inert, esc_lt, esc_gt, esc_quote, esc_amp, esc_elipses, hr]

theorem encodeAllRule_head_hash (cs : List Nat) (h : cs.head? = some 35) :
    (encodeAllRule cs 0).head? = some 35 := by
  cases cs with
  | nil => simp at h
  | cons c cs =>
    simp only [List.head?_cons, Option.some.injEq] at h
    subst h
    simp [encodeAllRule]

theorem encodeAllRule_head_dot (cs : List Nat) (h : (encodeAllRule cs 0).head? = some 46) :
    ∃ cs1, cs = 46 :: cs1 ∧ encodeAllRule cs 0 = 46 :: encodeAllRule cs1 0 := by
  cases cs with
  | nil => simp [encodeAllRule] at h
  | cons c cs =>
    simp only [encodeAllRule] at h ⊢
    split_ifs at h ⊢ with c60 c62 c34 c38 c46 <;>
      first
        | (simp [esc_lt, esc_gt, esc_quote, esc_amp, esc_elipses] at h; done)
        | (simp only [List.head?_cons, Option.some.injEq] at h
           subst h
           exact ⟨cs, rfl, rfl⟩)

theorem encodeAllRule_inert : ∀ (b : List Nat) (k : Nat), inert (encodeAllRule b k) := by
  intro b
  induction b with
  | nil => intro k; simp [encodeAllRule, inert]
  | cons c cs ih =>
    intro k
    cases k with
    | succ k => simpa [encodeAllRule] using ih k
    | zero =>
      simp only [encodeAllRule]
      split_ifs with c60 c62 c34 c38 c46
      · exact inert_esc_append _ _ (by simp) (ih 0)
      · exact inert_esc_append _ _ (by simp) (ih 0)
      · exact inert_esc_append _ _ (by simp) (ih 0)
      · exact inert_esc_append _ _ (by simp) (ih 0)
      · exact inert_esc_append _ _ (by simp) (ih 2)
      · refine ⟨c60, c62, c34, ?_, ?_, ih 0⟩
        · intro h
          have : cs.head? = some 35 := by
            by_contra hc
            exact c38 ⟨h, hc⟩
          exact encodeAllRule_head_hash cs this
        · intro h ht
          have h1 : (encodeAllRule cs 0).head? = some 46 := by
            have := congrArg List.head? ht
            rw [List.head?_take] at this
            simpa using this
          obtain ⟨cs1, e1, e1r⟩ := encodeAllRule_head_dot cs h1
          have h2 : (encodeAllRule cs1 0).head? = some 46 := by
            rw [e1r] at ht
            simp only [List.take_succ_cons, List.cons.injEq, true_and] at ht
            have := congrArg List.head? ht
            rw [List.head?_take] at this
            simpa using this
          obtain ⟨cs2, e2, _⟩ := encodeAllRule_head_dot cs1 h2
          apply c46
          refine ⟨h, ?_⟩
          rw [e1, e2]
          rfl

end Textile

namespace Textile

/-! ## The lookahead and the quotes outside tag spans -/

theorem look_nonneg_iff :
    ∀ (cs : List Nat) (j : Nat) (t : Bool), 0 ≤ look cs j t ↔ 0 < quotesOutside cs t := by
  intro cs
  induction cs with
  | nil => intro j t; simp [look, quotesOutside]
  | cons c cs ih =>
    intro j t
    cases t with
    | true =>
      simp only [look, quotesOutside, if_true]
      split_ifs <;> exact ih _ _
    | false =>
      simp only [look, quotesOutside, Bool.false_eq_true, if_false]
      split_ifs
      · exact ih _ _
      · simp
      · exact ih _ _

/-- With tags passed through and a remembered closing quote that is the next quote the
main loop meets, the scan does not panic. -/
theorem scan_passthrough_some :
    ∀ (cs : List Nat) (k i : Nat) (t : Bool) (fc : Int),
      (∀ x ∈ cs.take k, x = 46) → (0 < k → t = false) → (0 ≤ fc → look cs i t = fc) →
      ∃ o, scan false true cs k i t fc = some o := by
  intro cs
  induction cs with
  | nil => intro k i t fc _ _ _; exact ⟨[], by simp [scan]⟩
  | cons c cs ih =>
    intro k i t fc hk ht hfc
    cases k with
    | succ k =>
      have hc : c = 46 := hk c (by simp)
      have htf : t = false := ht (by omega)
      subst hc htf
      obtain ⟨o, ho⟩ := ih k (i + 1) false fc
        (fun x hx => hk x (by simp [hx])) (fun _ => rfl)
        (fun h => by simpa [look] using hfc h)
      exact ⟨o, by simpa [scan] using ho⟩
    | zero =>
      have nodots : ∀ x ∈ cs.take 0, x = 46 := by simp
      by_cases h1 : t = true ∧ c ≠ 62
      · obtain ⟨h1, h2⟩ := h1
        subst h1
        obtain ⟨o, ho⟩ := ih 0 (i + 1) true fc nodots (by simp)
          (fun h => by simpa [look, h2] using hfc h)
        exact ⟨c :: o, by simp [scan, h2, ho]⟩
      by_cases c62 : c = 62
      · subst c62
        obtain ⟨o, ho⟩ := ih 0 (i + 1) false fc nodots (by simp)
          (fun h => by cases t <;> simpa [look] using hfc h)
        exact ⟨62 :: o, by simp [scan, ho]⟩
      have htf : t = false := by
        cases t
        · rfl
        · exact absurd ⟨rfl, c62⟩ h1
      subst htf
      by_cases c60 : c = 60
      · subst c60
        obtain ⟨o, ho⟩ := ih 0 (i + 1) true fc nodots (by simp)
          (fun h => by simpa [look] using hfc h)
        exact ⟨60 :: o, by simp [scan, ho]⟩
      by_cases c34 : c = 34
      · subst c34
        by_cases h0 : 0 ≤ fc
        · have hi : fc = (i : Int) := by
            have := hfc h0
            simp [look] at this
            exact this.symm
          obtain ⟨o, ho⟩ := ih 0 (i + 1) false (-1) nodots (by simp) (by simp)
          exact ⟨esc_rquote ++ o, by simp [scan, h0, hi, ho]⟩
        · obtain ⟨o, ho⟩ := ih 0 (i + 1) false (look cs (i + 1) false) nodots (by simp)
            (fun _ => rfl)
          by_cases hl : 0 ≤ look cs (i + 1) false
          · exact ⟨esc_lquote ++ o, by simp [scan, h0, hl, ho]⟩
          · exact ⟨esc_quote ++ o, by simp [scan, h0, hl, ho]⟩
      by_cases c46 : c = 46
      · subst c46
        by_cases hh : cs.take 2 = [46, 46]
        · obtain ⟨o, ho⟩ := ih 2 (i + 1) false fc (by simp [hh]) (by simp)
            (fun h => by simpa [look] using hfc h)
          exact ⟨esc_elipses ++ o, by simp [scan, hh, ho]⟩
        · obtain ⟨o, ho⟩ := ih 0 (i + 1) false fc nodots (by simp)
            (fun h => by simpa [look] using hfc h)
          exact ⟨46 :: o, by simp [scan, hh, ho]⟩
      obtain ⟨o, ho⟩ := ih 0 (i + 1) false fc nodots (by simp)
        (fun h => by simpa [look, c60, c34] using hfc h)
      by_cases c38 : c = 38
      · subst c38
        by_cases hh : cs.head? = some 35
        · exact ⟨38 :: o, by simp [scan, hh, ho]⟩
        · exact ⟨esc_amp ++ o, by simp [scan, hh, ho]⟩
      exact ⟨c :: o, by simp [scan, c60, c62, c34, c46, c38, ho]⟩

/-- Without smart quotes the scan does not look at the remembered quote: no panic. -/
theorem scan_plain_quotes_some (ea : Bool) :
    ∀ (cs : List Nat) (k i : Nat) (t : Bool) (fc : Int),
      ∃ o, scan ea false cs k i t fc = some o := by
  intro cs
  induction cs with
  | nil => intro k i t fc; exact ⟨[], by simp [scan]⟩
  | cons c cs ih =>
    intro k i t fc
    cases k with
    | succ k =>
      obtain ⟨o, ho⟩ := ih k (i + 1) t fc
      exact ⟨o, by simpa [scan] using ho⟩
    | zero =>
      simp only [scan]
      split_ifs <;>
        first
          | (obtain ⟨o, ho⟩ := ih 0 (i + 1) true fc; rw [ho]; exact ⟨_, rfl⟩)
          | (obtain ⟨o, ho⟩ := ih 0 (i + 1) false fc; rw [ho]; exact ⟨_, rfl⟩)
          | (obtain ⟨o, ho⟩ := ih 2 (i + 1) false fc; rw [ho]; exact ⟨_, rfl⟩)

/-- The escaper returns whenever tags are passed through or smart quotes are off. -/
theorem EntityEscape_done (b : List Nat) (ea sq : Bool) (h : ea = false ∨ sq = false) :
    ∃ o, EntityEscape b ea sq = .done o ∧ scan ea sq b 0 0 false (-1) = some o := by
  have : ∃ o, scan ea sq b 0 0 false (-1) = some o := by
    cases sq with
    | false => exact scan_plain_quotes_some ea b 0 0 false (-1)
    | true =>
      have hea : ea = false := by simpa using h
      subst hea
      exact scan_passthrough_some b 0 0 false (-1) (by simp) (by simp) (by simp)
  obtain ⟨o, ho⟩ := this
  exact ⟨o, by simp [EntityEscape_eq_scan, ho, ofScan], ho⟩

end Textile

namespace Textile

/-! ## Smart quotes pair up -/

theorem scan_pairRule (n : Nat) :
    ∀ (cs : List Nat) (k i : Nat) (t : Bool) (fc : Int) (q : Nat),
      (∀ x ∈ cs.take k, x = 46) → (0 < k → t = false) →
      (0 ≤ fc → q % 2 = 1 ∧ look cs i t = fc) →
      (fc < 0 → q % 2 = 0 ∨ quotesOutside cs t = 0) →
      q + quotesOutside cs t = n →
      scan false true cs k i t fc = some (pairRule n cs k t q) := by
  intro cs
  induction cs with
  | nil => intro k i t fc q _ _ _ _ _; simp [scan, pairRule]
  | cons c cs ih =>
    intro k i t fc q hk ht hfc hneg hn
    cases k with
    | succ k =>
      have hc : c = 46 := hk c (by simp)
      have htf : t = false := ht (by omega)
      subst hc htf
      simp only [scan, pairRule]
      exact ih k (i + 1) false fc q (fun x hx => hk x (by simp [hx])) (fun _ => rfl)
        (fun h => by simpa [look] using hfc h)
        (fun h => by simpa [quotesOutside] using hneg h)
        (by simpa [quotesOutside] using hn)
    | zero =>
      have nodots : ∀ x ∈ cs.take 0, x = 46 := by simp
      cases t with
      | true =>
        by_cases c62 : c = 62
        · subst c62
          simp only [scan, pairRule]
          simp only [ne_eq, not_true_eq_false, and_false, if_false, if_true]
          rw [ih 0 (i + 1) false fc q nodots (by simp)
            (fun h => by simpa [look] using hfc h)
            (fun h => by simpa [quotesOutside] using hneg h)
            (by simpa [quotesOutside] using hn)]
          simp
        · simp only [scan, pairRule, c62]
          rw [ih 0 (i + 1) true fc q nodots (by simp)
            (fun h => by simpa [look, c62] using hfc h)
            (fun h => by simpa [quotesOutside, c62] using hneg h)
            (by simpa [quotesOutside, c62] using hn)]
          simp [c62]
      | false =>
        by_cases c60 : c = 60
        · subst c60
          simp only [scan, pairRule]
          rw [ih 0 (i + 1) true fc q nodots (by simp)
            (fun h => by simpa [look] using hfc h)
            (fun h => by simpa [quotesOutside] using hneg h)
            (by simpa [quotesOutside] using hn)]
          simp
        by_cases c34 : c = 34
        · subst c34
          have hq : quotesOutside (34 :: cs) false = quotesOutside cs false + 1 := by
            simp [quotesOutside]
          rw [hq] at hn hneg
          by_cases h0 : 0 ≤ fc
          · obtain ⟨hodd, hlook⟩ := hfc h0
            have hi : fc = (i : Int) := by
              simp [look] at hlook
              exact hlook.symm
            simp only [scan, pairRule]
            rw [ih 0 (i + 1) false (-1) (q + 1) nodots (by simp) (by simp)
              (fun _ => Or.inl (by omega)) (by omega)]
            simp [h0, hi, quoteEntity, hodd]
          · have heven : q % 2 = 0 := by
              rcases hneg (by omega) with h | h <;> omega
            have hlk := look_nonneg_iff cs (i + 1) false
            simp only [scan, pairRule]
            rw [ih 0 (i + 1) false (look cs (i + 1) false) (q + 1) nodots (by simp)
              (fun h => ⟨by omega, rfl⟩)
              (fun h => Or.inr (by
                by_contra hc
                have : 0 ≤ look cs (i + 1) false := hlk.mpr (by omega)
                omega))
              (by omega)]
            by_cases hl : 0 ≤ look cs (i + 1) false
            · have : q + 1 < n := by have := hlk.mp hl; omega
              simp [h0, hl, quoteEntity, heven, this]
            · have : ¬ q + 1 < n := by
                intro hc
                exact hl (hlk.mpr (by omega))
              simp [h0, hl, quoteEntity, heven, this]
        have hq : quotesOutside (c :: cs) false = quotesOutside cs false := by
          simp [quotesOutside, c60, c34]
        have hl : ∀ j, look (c :: cs) j false = look cs (j + 1) false := by
          intro j; simp [look, c60, c34]
        rw [hq] at hn hneg
        rw [hl] at hfc
        by_cases c46 : c = 46
        · subst c46
          by_cases hh : cs.take 2 = [46, 46]
          · simp only [scan, pairRule]
            rw [ih 2 (i + 1) false fc q (by simp [hh]) (by simp) hfc hneg hn]
            simp [hh]
          · simp only [scan, pairRule]
            rw [ih 0 (i + 1) false fc q nodots (by simp) hfc hneg hn]
            simp [hh]
        have r := ih 0 (i + 1) false fc q nodots (by simp) hfc hneg hn
        by_cases c38 : c = 38
        · subst c38
          by_cases hh : cs.head? = some 35 <;> simp [scan, pairRule, hh, r]
        · simp [scan, pairRule, c60, c34, c46, c38, r]

theorem quoteEntity_eq_lquote (n k : Nat) :
    quoteEntity n k = esc_lquote ↔ k % 2 = 0 ∧ k + 1 < n := by
  unfold quoteEntity
  split_ifs with h1 h2
  · simp [esc_rquote, esc_lquote]; omega
  · simp; omega
  · simp [esc_quote, esc_lquote]; omega

theorem quoteEntity_eq_rquote (n k : Nat) : quoteEntity n k = esc_rquote ↔ k % 2 = 1 := by
  unfold quoteEntity
  split_ifs with h1 h2
  · simp [h1]
  · simp [esc_rquote, esc_lquote]; omega
  · simp [esc_rquote, esc_quote]; omega

theorem countP_even_odd (n : Nat) :
    (List.range n).countP (fun k => decide (k % 2 = 0)) =
      (List.range (n + 1)).countP (fun k => decide (k % 2 = 1)) := by
  induction n with
  | zero => decide
  | succ n ih =>
    rw [List.range_succ, List.countP_append, ih, List.range_succ (n := n + 1),
      List.countP_append]
    simp only [List.countP_cons, List.countP_nil, decide_eq_true_eq]
    split_ifs <;> omega

theorem quoteEntity_balanced (n : Nat) :
    (List.range n).countP (fun k => decide (quoteEntity n k = esc_lquote)) =
      (List.range n).countP (fun k => decide (quoteEntity n k = esc_rquote)) := by
  cases n with
  | zero => simp
  | succ n =>
    have h1 : (List.range (n + 1)).countP (fun k => decide (quoteEntity (n + 1) k = esc_lquote))
        = (List.range n).countP (fun k => decide (k % 2 = 0)) := by
      rw [List.range_succ, List.countP_append]
      have : ¬ (n % 2 = 0 ∧ n + 1 < n + 1) := by omega
      simp only [List.countP_cons, List.countP_nil, quoteEntity_eq_lquote, this,
        decide_False, Bool.false_eq_true, if_false, Nat.add_zero, Nat.zero_add]
      apply List.countP_congr
      intro k hk
      simp only [List.mem_range] at hk
      simp only [decide_eq_true_eq]
      constructor
      · exact fun h => h.1
      · exact fun h => ⟨h, by omega⟩
    rw [h1, countP_even_odd]
    apply List.countP_congr
    intro k _
    simp [quoteEntity_eq_rquote]

end Textile

namespace Textile

/-! ## A tag span at the end of the input -/

theorem look_in_tag (body : List Nat) (h : 62 ∉ body) :
    ∀ (j : Nat), look (body ++ [62]) j true = -1 := by
  induction body with
  | nil => intro j; simp [look]
  | cons c cs ih =>
    intro j
    simp only [List.mem_cons, not_or] at h
    have : c ≠ 62 := fun hc => h.1 hc.symm
    simp [look, this, ih h.2]

theorem look_append_tag (body : List Nat) (h : 62 ∉ body) :
    ∀ (p : List Nat), 60 ∉ p → ∀ (j : Nat),
      look (p ++ 60 :: (body ++ [62])) j false = look p j false := by
  intro p
  induction p with
  | nil => intro _ j; simp [look, look_in_tag body h]
  | cons c cs ih =>
    intro hp j
    simp only [List.mem_cons, not_or] at hp
    have : c ≠ 60 := fun hc => hp.1 hc.symm
    simp [look, this, ih hp.2]

theorem scan_in_tag (sq : Bool) (body : List Nat) (h : 62 ∉ body) :
    ∀ (i : Nat) (fc : Int), scan false sq (body ++ [62]) 0 i true fc = some (body ++ [62]) := by
  induction body with
  | nil => intro i fc; simp [scan]
  | cons c cs ih =>
    intro i fc
    simp only [List.mem_cons, not_or] at h
    have : c ≠ 62 := fun hc => h.1 hc.symm
    simp [scan, this, ih h.2]

theorem scan_append_tag (sq : Bool) (body : List Nat) (h : 62 ∉ body) :
    ∀ (p : List Nat) (k i : Nat) (fc : Int), 60 ∉ p → k ≤ p.length →
      scan false sq (p ++ 60 :: (body ++ [62])) k i false fc =
        (scan false sq p k i false fc).map (· ++ 60 :: (body ++ [62])) := by
  intro p
  induction p with
  | nil =>
    intro k i fc _ hk
    have : k = 0 := by simpa using hk
    subst this
    simp [scan, scan_in_tag sq body h]
  | cons c cs ih =>
    intro k i fc hp hk
    simp only [List.mem_cons, not_or] at hp
    have c60 : c ≠ 60 := fun hc => hp.1 hc.symm
    cases k with
    | succ k =>
      simp only [List.cons_append, scan]
      exact ih k (i + 1) fc hp.2 (by simpa using hk)
    | zero =>
      have r := fun fc => ih 0 (i + 1) fc hp.2 (by simp)
      have hhead : (cs ++ 60 :: (body ++ [62])).head? = some 35 ↔ cs.head? = some 35 := by
        cases cs <;> simp
      have htake : (cs ++ 60 :: (body ++ [62])).take 2 = [46, 46] ↔ cs.take 2 = [46, 46] := by
        match cs with
        | [] => simp
        | [a] => simp
        | a :: b :: rest => simp
      rw [List.cons_append]
      simp only [scan, Bool.false_eq_true, false_and, if_false, c60, hhead,
        htake, look_append_tag body h cs hp.2, r]
      by_cases hh : cs.take 2 = [46, 46]
      · have h2 : 2 ≤ cs.length := by
          have := congrArg List.length hh
          simp at this
          omega
        rw [ih 2 (i + 1) fc hp.2 h2]
        split_ifs <;> simp [Option.map_map, Function.comp_def]
      · split_ifs <;> simp [Option.map_map, Function.comp_def]

end Textile

namespace Textile

theorem EntityEscape_encodeAllRule (b : List Nat) :
    EntityEscape b true false = .done (encodeAllRule b 0) := by
  rw [EntityEscape_eq_scan, scan_encodeAllRule]
  simp [ofScan]

/-! ## The entity escaper: the claims -/

/-- C1: a byte sequence with no `<`, `>`, `"`, `&` and no three consecutive dots is
written out unchanged by `EntityEscape`, whatever `encode_all` and `smart_quotes` are. -/
theorem C1_preserves_unmatched (b : List Nat) (encode_all smart_quotes : Bool)
    (h1 : 60 ∉ b) (h2 : 62 ∉ b) (h3 : 34 ∉ b) (h4 : 38 ∉ b) (h5 : ¬ [46, 46, 46] <:+: b) :
    EntityEscape b encode_all smart_quotes = .done b := by
  rw [EntityEscape_eq_scan, scan_inert _ _ b (inert_of_plain b h1 h2 h3 h4 h5)]
  simp [ofScan]

/-- C1 at the text `Hello.. there`. -/
theorem C1_preserves_unmatched_witness :
    60 ∉ str "Hello.. there" ∧ 62 ∉ str "Hello.. there" ∧ 34 ∉ str "Hello.. there" ∧
    38 ∉ str "Hello.. there" ∧ ¬ [46, 46, 46] <:+: str "Hello.. there" ∧
    EntityEscape (str "Hello.. there") false true = .done (str "Hello.. there") :=
  ⟨by decide, by decide, by decide, by decide, by decide,
    C1_preserves_unmatched _ _ _ (by decide) (by decide) (by decide) (by decide) (by decide)⟩

/-- C2 as stated fails at six dots: the scan resumes after the third dot and collapses
the next three dots as well, so `......` gives two ellipsis entities, not one entity
followed by three literal dots. -/
theorem C2_six_dots :
    EntityEscape (List.replicate 6 46) false true = .done (esc_elipses ++ esc_elipses) ∧
    EntityEscape (List.replicate 6 46) false true ≠
      .done (esc_elipses ++ List.replicate (6 - 3) 46) := by
  decide

/-- C2, amended: a run of `n` dots is written as `n / 3` ellipsis entities followed by
`n % 3` literal dots (one entity and `n - 3` dots when `3 ≤ n ≤ 5`). -/
theorem C2_ellipsis_groups (n : Nat) :
    EntityEscape (List.replicate n 46) false true =
      .done ((List.replicate (n / 3) esc_elipses).flatten ++ List.replicate (n % 3) 46) := by
  rw [EntityEscape_eq_scan, scan_dots]
  simp [ofScan]

/-- C3: on a byte sequence with no `<`, `>`, `"` and `.`, `EntityEscape(b, false, true)`
replaces every `&` that is not immediately followed by `#` by `&#38;` and keeps every
other byte, an `&` followed by `#` included. -/
theorem C3_ampersand_rule (b : List Nat)
    (h1 : 60 ∉ b) (h2 : 62 ∉ b) (h3 : 34 ∉ b) (h4 : 46 ∉ b) :
    EntityEscape b false true = .done (ampRule b) := by
  rw [EntityEscape_eq_scan, scan_ampRule b h1 h2 h3 h4]
  simp [ofScan]

/-- C3 at the text `&& &#1; &`. -/
theorem C3_ampersand_rule_witness :
    60 ∉ str "&& &#1; &" ∧ 62 ∉ str "&& &#1; &" ∧ 34 ∉ str "&& &#1; &" ∧
    46 ∉ str "&& &#1; &" ∧
    EntityEscape (str "&& &#1; &") false true = .done (ampRule (str "&& &#1; &")) ∧
    ampRule (str "&& &#1; &") = str "&#38;&#38; &#1; &#38;" :=
  ⟨by decide, by decide, by decide, by decide,
    C3_ampersand_rule _ (by decide) (by decide) (by decide) (by decide), by decide⟩

/-- C4: with `encode_all = false` and `smart_quotes = true`, the `n` quotes outside tag
spans are replaced in order: `q_k` by `&#8221;` when `k` is odd, by `&#8220;` when `k` is
even and `k + 1 < n`, by `&#34;` when `k` is even and last. As many left as right
entities are chosen, and a single quote becomes `&#34;`. -/
theorem C4_smart_quotes_pair (b : List Nat) :
    EntityEscape b false true = .done (pairRule (quotesOutside b false) b 0 false 0) ∧
    (List.range (quotesOutside b false)).countP
        (fun k => decide (quoteEntity (quotesOutside b false) k = esc_lquote)) =
      (List.range (quotesOutside b false)).countP
        (fun k => decide (quoteEntity (quotesOutside b false) k = esc_rquote)) ∧
    quoteEntity 1 0 = esc_quote := by
  refine ⟨?_, quoteEntity_balanced _, by decide⟩
  rw [EntityEscape_eq_scan,
    scan_pairRule (quotesOutside b false) b 0 0 false (-1) 0 (by simp) (by simp) (by simp)
      (by simp) (by simp)]
  simp [ofScan]

/-- C5: with `encode_all = false`, a tag span `<body>` after a text `p` without `<` is
copied unchanged and the text before it is escaped as it is on its own. -/
theorem C5_tag_pass_through (p body : List Nat) (smart_quotes : Bool)
    (hp : 60 ∉ p) (hb : 62 ∉ body) :
    ∃ o, EntityEscape p false smart_quotes = .done o ∧
      EntityEscape (p ++ 60 :: (body ++ [62])) false smart_quotes =
        .done (o ++ 60 :: (body ++ [62])) := by
  obtain ⟨o, ho, hs⟩ := EntityEscape_done p false smart_quotes (Or.inl rfl)
  refine ⟨o, ho, ?_⟩
  rw [EntityEscape_eq_scan, scan_append_tag smart_quotes body hb p 0 0 (-1) hp (by simp), hs]
  simp [ofScan]

/-- C5 at the text `a "b & c...` followed by the tag `<i title="x & y...">`. -/
theorem C5_tag_pass_through_witness :
    60 ∉ str "a \"b & c..." ∧ 62 ∉ str "i title=\"x & y...\"" ∧
    ∃ o, EntityEscape (str "a \"b & c...") false true = .done o ∧
      EntityEscape (str "a \"b & c..." ++ 60 :: (str "i title=\"x & y...\"" ++ [62])) false true =
        .done (o ++ 60 :: (str "i title=\"x & y...\"" ++ [62])) :=
  ⟨by decide, by decide, C5_tag_pass_through _ _ _ (by decide) (by decide)⟩

/-- C6: `EntityEscape(b, true, false)` replaces each `<`, `>` and `"` by its entity, each
`&` not followed by `#` by `&#38;` and each greedy group of three dots by `&#8230;`;
its output has no `<`, `>` or `"` byte. -/
theorem C6_encode_all (b : List Nat) :
    EntityEscape b true false = .done (encodeAllRule b 0) ∧
    60 ∉ encodeAllRule b 0 ∧ 62 ∉ encodeAllRule b 0 ∧ 34 ∉ encodeAllRule b 0 := by
  refine ⟨?_, fun h => (encodeAllRule_mem b 0 _ h).1 rfl,
    fun h => (encodeAllRule_mem b 0 _ h).2.1 rfl, fun h => (encodeAllRule_mem b 0 _ h).2.2 rfl⟩
  exact EntityEscape_encodeAllRule b

/-- C7 fails on the code: with `encode_all` and `smart_quotes` both true, the input
`"<">"` reaches the panic. The lookahead skips the span `<">` as a tag and remembers
the quote at index 4, while the main loop escapes `<` and meets the quote at index 2. -/
theorem C7_panic_reached : EntityEscape [34, 60, 34, 62, 34] true true = .panicked := by
  decide

/-- C9: the output of `EntityEscape(s, true, false)` is left unchanged by a second pass
`EntityEscape(·, false, true)`. -/
theorem C9_code_pass_stable (s : List Nat) :
    ∃ o, EntityEscape s true false = .done o ∧ EntityEscape o false true = .done o := by
  refine ⟨encodeAllRule s 0, (EntityEscape_encodeAllRule s), ?_⟩
  rw [EntityEscape_eq_scan, scan_inert _ _ _ (encodeAllRule_inert s 0)]
  simp [ofScan]

end Textile

namespace Textile

/-! ## The matcher finds matches only -/

theorem starRun_sound (p : Nat → Bool) (k : List Nat → Option (List (List Nat))) :
    ∀ (s : List Nat) (res : List (List Nat)), starRun p k s = some res →
      ∃ x s2, s = x ++ s2 ∧ (∀ a ∈ x, p a = true) ∧ k s2 = some res := by
  intro s
  induction s with
  | nil => intro res h; exact ⟨[], [], rfl, by simp, by simpa [starRun] using h⟩
  | cons c cs ih =>
    intro res h
    simp only [starRun] at h
    by_cases hp : p c = true
    · simp only [hp, if_true] at h
      cases hr : starRun p k cs with
      | some r =>
        rw [hr] at h
        simp only [Option.some.injEq] at h
        subst h
        obtain ⟨x, s2, e, hx, hk⟩ := ih r hr
        refine ⟨c :: x, s2, by simp [e], ?_, hk⟩
        intro a ha
        rcases List.mem_cons.mp ha with h1 | h1
        · rw [h1]; exact hp
        · exact hx a h1
      | none =>
        rw [hr] at h
        exact ⟨[], c :: cs, rfl, by simp, h⟩
    · simp only [hp, if_false] at h
      exact ⟨[], c :: cs, rfl, by simp, h⟩

theorem Re.run_sound :
    ∀ (r : Re) (s : List Nat) (c : List (List Nat))
      (k : List Nat → List (List Nat) → Option (List (List Nat))) (res : List (List Nat)),
      r.run s c k = some res →
      ∃ x s2 c2, s = x ++ s2 ∧ r.Matches x c c2 ∧ k s2 c2 = some res := by
  intro r
  induction r with
  | eps => intro s c k res h; exact ⟨[], s, c, rfl, ⟨rfl, rfl⟩, h⟩
  | sym a =>
    intro s c k res h
    cases s with
    | nil => simp [Re.run] at h
    | cons x xs =>
      simp only [Re.run] at h
      by_cases hx : x = a
      · simp only [hx, if_true] at h
        exact ⟨[a], xs, c, by simp [hx], ⟨rfl, rfl⟩, h⟩
      · simp [hx] at h
  | chr p =>
    intro s c k res h
    cases s with
    | nil => simp [Re.run] at h
    | cons a as =>
      simp only [Re.run] at h
      by_cases hp : p a = true
      · simp only [hp, if_true] at h
        exact ⟨[a], as, c, rfl, ⟨a, rfl, hp, rfl⟩, h⟩
      · simp [hp] at h
  | star p =>
    intro s c k res h
    obtain ⟨x, s2, e, hx, hk⟩ := starRun_sound p _ s res h
    exact ⟨x, s2, c, e, ⟨hx, rfl⟩, hk⟩
  | plus p =>
    intro s c k res h
    cases s with
    | nil => simp [Re.run] at h
    | cons a as =>
      simp only [Re.run] at h
      by_cases hp : p a = true
      · simp only [hp, if_true] at h
        obtain ⟨x, s2, e, hx, hk⟩ := starRun_sound p _ as res h
        refine ⟨a :: x, s2, c, by simp [e], ⟨by simp, ?_, rfl⟩, hk⟩
        intro b hb
        rcases List.mem_cons.mp hb with h1 | h1
        · rw [h1]; exact hp
        · exact hx b h1
      · simp [hp] at h
  | opt r ih =>
    intro s c k res h
    simp only [Re.run] at h
    cases hr : r.run s c k with
    | some r2 =>
      rw [hr] at h
      simp only [Option.some.injEq] at h
      subst h
      obtain ⟨x, s2, c2, e, hm, hk⟩ := ih s c k r2 hr
      exact ⟨x, s2, c2, e, Or.inl hm, hk⟩
    | none =>
      rw [hr] at h
      exact ⟨[], s, c, rfl, Or.inr ⟨rfl, rfl⟩, h⟩
  | cat a b iha ihb =>
    intro s c k res h
    simp only [Re.run] at h
    obtain ⟨x1, s1, c1, e1, hm1, hk1⟩ := iha s c _ res h
    obtain ⟨x2, s2, c2, e2, hm2, hk2⟩ := ihb s1 c1 k res hk1
    exact ⟨x1 ++ x2, s2, c2, by simp [e1, e2], ⟨x1, x2, c1, rfl, hm1, hm2⟩, hk2⟩
  | grp n r ih =>
    intro s c k res h
    simp only [Re.run] at h
    obtain ⟨x, s2, c1, e, hm, hk⟩ := ih s c _ res h
    have : s.take (s.length - s2.length) = x := by
      rw [e]; simp
    rw [this] at hk
    exact ⟨x, s2, c1.set n x, e, ⟨c1, hm, rfl⟩, hk⟩

theorem Regexp.FindStringSubmatch_sound (r : Regexp) (s : List Nat) (a : List (List Nat))
    (h : r.FindStringSubmatch s = some a) :
    r.re.Matches s (s :: List.replicate r.groups []) a := by
  obtain ⟨x, s2, c2, e, hm, hk⟩ := Re.run_sound r.re s _ _ a h
  by_cases h2 : s2 = []
  · subst h2
    simp only [if_true, Option.some.injEq] at hk
    subst hk
    simp only [List.append_nil] at e
    rw [e]
    rw [e] at hm
    exact hm
  · simp [h2] at hk

theorem Re.Matches_needs (ok : Nat → Bool) :
    ∀ (r : Re) (x : List Nat) (c c2 : List (List Nat)), r.Matches x c c2 → r.needs ok →
      ∃ a ∈ x, ok a = false := by
  intro r
  induction r with
  | eps => intro x c c2 _ hn; exact absurd hn (by simp [Re.needs])
  | sym a =>
    intro x c c2 hm hn
    exact ⟨a, by simp [hm.1], hn⟩
  | chr p =>
    intro x c c2 hm hn
    obtain ⟨a, e, hp, _⟩ := hm
    refine ⟨a, by simp [e], ?_⟩
    by_contra hc
    have := hn a (by simpa using hc)
    simp [hp] at this
  | star p => intro x c c2 _ hn; exact absurd hn (by simp [Re.needs])
  | plus p =>
    intro x c c2 hm hn
    obtain ⟨hne, hp, _⟩ := hm
    cases x with
    | nil => exact absurd rfl hne
    | cons a as =>
      refine ⟨a, by simp, ?_⟩
      by_contra hc
      have := hn a (by simpa using hc)
      simp [hp a (by simp)] at this
  | opt r _ => intro x c c2 _ hn; exact absurd hn (by simp [Re.needs])
  | cat a b iha ihb =>
    intro x c c2 hm hn
    obtain ⟨x1, x2, c1, e, hm1, hm2⟩ := hm
    rcases hn with hn | hn
    · obtain ⟨y, hy, hok⟩ := iha x1 c c1 hm1 hn
      exact ⟨y, by simp [e, hy], hok⟩
    · obtain ⟨y, hy, hok⟩ := ihb x2 c1 c2 hm2 hn
      exact ⟨y, by simp [e, hy], hok⟩
  | grp n r ih =>
    intro x c c2 hm hn
    obtain ⟨c1, hm1, _⟩ := hm
    exact ih x c c1 hm1 hn

/-- A pattern that needs a character that the text does not have finds no match. -/
theorem Regexp.FindStringSubmatch_none (ok : Nat → Bool) (r : Regexp) (s : List Nat)
    (hn : r.re.needs ok) (hs : ∀ a ∈ s, ok a = true) : r.FindStringSubmatch s = none := by
  cases h : r.FindStringSubmatch s with
  | none => rfl
  | some a =>
    obtain ⟨y, hy, hok⟩ := Re.Matches_needs ok r.re s _ a (r.FindStringSubmatch_sound s a h) hn
    rw [hs y hy] at hok
    exact absurd hok (by simp)

end Textile

namespace Textile

/-! ## Patterns that need a character -/

theorem needs_lit (ok : Nat → Bool) (c : Char) : (lit c).needs ok ↔ ok c.toNat = false := by
  simp [lit, Re.needs]

theorem needs_seq_cons (ok : Nat → Bool) (r : Re) (rs : List Re) :
    (seq (r :: rs)).needs ok ↔ r.needs ok ∨ (seq rs).needs ok := by
  simp [seq, Re.needs]

theorem needs_seq_nil (ok : Nat → Bool) : ¬ (seq []).needs ok := by
  simp [seq, Re.needs]

theorem needs_grp (ok : Nat → Bool) (n : Nat) (r : Re) : (Re.grp n r).needs ok ↔ r.needs ok := by
  simp [Re.needs]

theorem blockQuoteRegexp_needs (ok : Nat → Bool) (h : ok 46 = false) :
    blockQuoteRegexp.re.needs ok := by
  simp [blockQuoteRegexp, needs_seq_cons, needs_grp, needs_lit, h]

theorem preRegexp_needs (ok : Nat → Bool) (h : ok 46 = false) : preRegexp.re.needs ok := by
  simp [preRegexp, needs_seq_cons, needs_grp, needs_lit, h]

theorem codeRegexp_needs (ok : Nat → Bool) (h : ok 46 = false) : codeRegexp.re.needs ok := by
  simp [codeRegexp, needs_seq_cons, needs_grp, needs_lit, h]

theorem paragraphRegexp_needs (ok : Nat → Bool) (h : ok 46 = false) :
    paragraphRegexp.re.needs ok := by
  simp [paragraphRegexp, needs_seq_cons, needs_grp, needs_lit, h]

theorem headingRegexp_needs (ok : Nat → Bool) (h : ok 46 = false) :
    headingRegexp.re.needs ok := by
  simp [headingRegexp, needs_seq_cons, needs_grp, needs_lit, h]

theorem footnoteRegexp_needs (ok : Nat → Bool) (h : ok 46 = false) :
    footnoteRegexp.re.needs ok := by
  simp [footnoteRegexp, needs_seq_cons, needs_grp, needs_lit, h]

theorem listRegexp_needs (ok : Nat → Bool) (h1 : ok 42 = false) (h2 : ok 35 = false) :
    listRegexp.re.needs ok := by
  simp only [listRegexp, needs_seq_cons, needs_grp]
  left
  intro x hx
  by_contra hc
  have : ¬ x = 42 → x = 35 := by simpa [oneOf] using hc
  by_cases e : x = 42
  · simp [e, h1] at hx
  · simp [this e, h2] at hx

theorem emphasisRegexp_needs (ok : Nat → Bool) (h : ok 95 = false) :
    emphasisRegexp.re.needs ok := by
  simp [emphasisRegexp, needs_seq_cons, needs_grp, needs_lit, h]

theorem strongRegexp_needs (ok : Nat → Bool) (h : ok 42 = false) :
    strongRegexp.re.needs ok := by
  simp [strongRegexp, needs_seq_cons, needs_grp, needs_lit, h]

theorem subRegexp_needs (ok : Nat → Bool) (h : ok 126 = false) : subRegexp.re.needs ok := by
  simp [subRegexp, needs_seq_cons, needs_grp, needs_lit, h]

theorem supRegexp_needs (ok : Nat → Bool) (h : ok 94 = false) : supRegexp.re.needs ok := by
  simp [supRegexp, needs_seq_cons, needs_grp, needs_lit, h]

theorem imgRegexp_needs (ok : Nat → Bool) (h : ok 33 = false) : imgRegexp.re.needs ok := by
  simp [imgRegexp, needs_seq_cons, needs_grp, needs_lit, h]

theorem altImgRegexp_needs (ok : Nat → Bool) (h : ok 33 = false ∨ ok 40 = false) :
    altImgRegexp.re.needs ok := by
  rcases h with h | h <;> simp [altImgRegexp, needs_seq_cons, needs_grp, needs_lit, h]

theorem linkRegexp_needs (ok : Nat → Bool) (h : ok 34 = false ∨ ok 58 = false) :
    linkRegexp.re.needs ok := by
  rcases h with h | h <;> simp [linkRegexp, needs_seq_cons, needs_grp, needs_lit, h]

theorem titleLinkRegexp_needs (ok : Nat → Bool)
    (h : ok 34 = false ∨ ok 58 = false ∨ ok 40 = false) : titleLinkRegexp.re.needs ok := by
  rcases h with h | h | h <;> simp [titleLinkRegexp, needs_seq_cons, needs_grp, needs_lit, h]

theorem quoteLinkRegexp_needs (ok : Nat → Bool)
    (h : ok 34 = false ∨ ok 58 = false ∨ ok 91 = false) : quoteLinkRegexp.re.needs ok := by
  rcases h with h | h | h <;> simp [quoteLinkRegexp, needs_seq_cons, needs_grp, needs_lit, h]

theorem footnoteRefRegexp_needs (ok : Nat → Bool) (h : ok 91 = false) :
    footnoteRefRegexp.re.needs ok := by
  simp [footnoteRefRegexp, needs_seq_cons, needs_grp, needs_lit, h]

theorem bareTagRegexp_needs (ok : Nat → Bool) (h : ok 60 = false ∨ ok 62 = false) :
    bareTagRegexp.re.needs ok := by
  rcases h with h | h <;> simp [bareTagRegexp, needs_seq_cons, needs_grp, needs_lit, h]

end Textile

namespace Textile

/-! ## Lines without markup -/

@[simp] theorem Res.bind_done {α β : Type} (a : α) (f : α → Res β) :
    (Res.done a).bind f = f a := rfl

@[simp] theorem Res.bind_panicked {α β : Type} (f : α → Res β) :
    (Res.panicked : Res α).bind f = .panicked := rfl

@[simp] theorem Res.bind_outOfFuel {α β : Type} (f : α → Res β) :
    (Res.outOfFuel : Res α).bind f = .outOfFuel := rfl

/-- A line without the characters that the patterns need is returned as it is. -/
theorem transformLine2_literal (ok : Nat → Bool) (root_url hash : List Nat) (fuel : Nat)
    (s : List Nat) (hs : ∀ a ∈ s, ok a = true)
    (hTag : ok 60 = false ∨ ok 62 = false) (hLink : ok 34 = false ∨ ok 58 = false)
    (h33 : ok 33 = false) (h91 : ok 91 = false) (h95 : ok 95 = false) (h42 : ok 42 = false)
    (h94 : ok 94 = false) (h126 : ok 126 = false) :
    transformLine2 root_url hash (fuel + 1) s = .done s := by
  have h1 := bareTagRegexp.FindStringSubmatch_none ok s (bareTagRegexp_needs _ hTag) hs
  have h2 := quoteLinkRegexp.FindStringSubmatch_none ok s
    (quoteLinkRegexp_needs _ (Or.inr (Or.inr h91))) hs
  have h3 := titleLinkRegexp.FindStringSubmatch_none ok s
    (titleLinkRegexp_needs _ (by tauto)) hs
  have h4 := linkRegexp.FindStringSubmatch_none ok s (linkRegexp_needs _ hLink) hs
  have h5 := imgRegexp.FindStringSubmatch_none ok s (imgRegexp_needs _ h33) hs
  have h6 := altImgRegexp.FindStringSubmatch_none ok s (altImgRegexp_needs _ (Or.inl h33)) hs
  have h7 := footnoteRefRegexp.FindStringSubmatch_none ok s (footnoteRefRegexp_needs _ h91) hs
  have h8 := emphasisRegexp.FindStringSubmatch_none ok s (emphasisRegexp_needs _ h95) hs
  have h9 := strongRegexp.FindStringSubmatch_none ok s (strongRegexp_needs _ h42) hs
  have h10 := supRegexp.FindStringSubmatch_none ok s (supRegexp_needs _ h94) hs
  have h11 := subRegexp.FindStringSubmatch_none ok s (subRegexp_needs _ h126) hs
  simp [transformLine2, quoteLinkStep, titleLinkStep, linkStep, imgStep, altImgStep,
    footnoteRefStep, tagStep, regexpTags, h1, h2, h3, h4, h5, h6, h7, h8, h9, h10, h11]

theorem transformLine2_noMarkup (root_url hash : List Nat) (fuel : Nat) (s : List Nat)
    (hs : ∀ a ∈ s, noMarkup a = true) :
    transformLine2 root_url hash (fuel + 1) s = .done s :=
  transformLine2_literal noMarkup root_url hash fuel s hs (Or.inl (by decide))
    (Or.inl (by decide)) (by decide) (by decide) (by decide) (by decide) (by decide) (by decide)

theorem replaceAll_of_head_not_mem (new : List Nat) (x : Nat) (rest : List Nat) :
    ∀ (s : List Nat), x ∉ s → replaceAll (x :: rest) new s 0 = s := by
  intro s
  induction s with
  | nil => intro _; simp [replaceAll]
  | cons c cs ih =>
    intro h
    simp only [List.mem_cons, not_or] at h
    have : (x :: rest).isPrefixOf (c :: cs) = false := by
      simp [List.isPrefixOf, h.1]
    simp [replaceAll, this, ih h.2]

theorem unescapeParts_of_no_percent (s : List Nat) (h : 37 ∉ s) : unescapeParts s = s := by
  have : str "%%%%" = 37 :: [37, 37, 37] := by decide
  simp [unescapeParts, replacements, this, replaceAll_of_head_not_mem _ 37 _ s h]

theorem plain_noMarkup (x : Nat) (h : plain x = true) : noMarkup x = true := by
  simp only [plain, inRange, Bool.or_eq_true, Bool.and_eq_true, decide_eq_true_eq,
    beq_iff_eq, Char.reduceToNat] at h
  have : x ∉ [60, 91, 34, 33, 95, 42, 94, 126] := by
    simp only [List.mem_cons, List.mem_singleton, List.not_mem_nil, or_false]
    omega
  simp [noMarkup, this]

theorem transformLine_plain (root_url hash : List Nat) (fuel : Nat) (s : List Nat)
    (hs : ∀ a ∈ s, plain a = true) :
    transformLine root_url hash (fuel + 1) s = .done s := by
  have h37 : 37 ∉ s := by
    intro h
    have := hs 37 h
    simp [plain, inRange] at this
  simp [transformLine, transformLine2_noMarkup root_url hash fuel s
    (fun a ha => plain_noMarkup a (hs a ha)), unescapeParts_of_no_percent s h37]

end Textile

namespace Textile

/-! ## Bare lines -/

/-- On a line without `.`, `*` and `#` no block handler runs. -/
theorem runHandlers_none (ok : Nat → Bool) (fuel : Nat) (st : State) (s : List Nat)
    (hs : ∀ a ∈ s, ok a = true) (h46 : ok 46 = false) (h42 : ok 42 = false)
    (h35 : ok 35 = false) :
    runHandlers st s (blockHandlers fuel) = .done (st, false) := by
  have h1 := blockQuoteRegexp.FindStringSubmatch_none ok s (blockQuoteRegexp_needs _ h46) hs
  have h2 := preRegexp.FindStringSubmatch_none ok s (preRegexp_needs _ h46) hs
  have h3 := codeRegexp.FindStringSubmatch_none ok s (codeRegexp_needs _ h46) hs
  have h4 := paragraphRegexp.FindStringSubmatch_none ok s (paragraphRegexp_needs _ h46) hs
  have h5 := headingRegexp.FindStringSubmatch_none ok s (headingRegexp_needs _ h46) hs
  have h6 := footnoteRegexp.FindStringSubmatch_none ok s (footnoteRegexp_needs _ h46) hs
  have h7 := listRegexp.FindStringSubmatch_none ok s (listRegexp_needs _ h42 h35) hs
  simp [runHandlers, blockHandlers, h1, h2, h3, h4, h5, h6, h7]

theorem runHandlers_plain (fuel : Nat) (st : State) (s : List Nat)
    (hs : ∀ a ∈ s, plain a = true) :
    runHandlers st s (blockHandlers fuel) = .done (st, false) :=
  runHandlers_none plain fuel st s hs (by decide) (by decide) (by decide)

theorem State.step_plain (fuel : Nat) (st : State) (s : List Nat) (hst : st.idle)
    (hne : s ≠ []) (hs : ∀ a ∈ s, plain a = true) :
    st.step (fuel + 1) s = .done (st.write (str "<p>" ++ s ++ str "</p>")) ∧
      (st.write (str "<p>" ++ s ++ str "</p>")).idle := by
  obtain ⟨b1, b2, b3, b4, b5, b6, b7⟩ := hst
  have hm := fun a ha => plain_noMarkup a (hs a ha)
  have l1 := linkRegexp.FindStringSubmatch_none noMarkup s
    (linkRegexp_needs _ (Or.inl (by decide))) hm
  have l2 := titleLinkRegexp.FindStringSubmatch_none noMarkup s
    (titleLinkRegexp_needs _ (Or.inl (by decide))) hm
  have l3 := imgRegexp.FindStringSubmatch_none noMarkup s (imgRegexp_needs _ (by decide)) hm
  have l4 := altImgRegexp.FindStringSubmatch_none noMarkup s
    (altImgRegexp_needs _ (Or.inl (by decide))) hm
  have hlen : s.length ≠ 0 := by simpa using hne
  constructor
  · simp [State.step, hlen, runHandlers_plain (fuel + 1) st s hs, b1, b2, b3, b4, b5, b6, b7,
      State.clearListLevels, Regexp.MatchString, l1, l2, l3, l4, State.transformLine,
      transformLine_plain st.root_url st.hash fuel s hs]
  · simp [State.idle, State.write, b1, b2, b3, b4, b5, b6, b7]

end Textile

namespace Textile

theorem State.run_plain (fuel : Nat) :
    ∀ (ls : List (List Nat)) (st : State), st.idle →
      (∀ l ∈ ls, l ≠ [] ∧ ∀ a ∈ l, plain a = true) →
      ∃ st2, st.run (fuel + 1) ls = .done st2 ∧ st2.idle ∧ st2.w = st.w ++ paragraphs ls := by
  intro ls
  induction ls with
  | nil => intro st hst _; exact ⟨st, rfl, hst, by simp [paragraphs]⟩
  | cons l ls ih =>
    intro st hst hl
    obtain ⟨h1, h2⟩ := State.step_plain fuel st l hst (hl l (by simp)).1 (hl l (by simp)).2
    obtain ⟨st2, e, hi, hw⟩ := ih _ h2 (fun x hx => hl x (by simp [hx]))
    refine ⟨st2, by rw [State.run, h1]; exact e, hi, ?_⟩
    rw [hw]
    simp [State.write, paragraphs]

theorem State.checkAll_idle (st : State) (h : st.idle) : st.checkAll = st := by
  obtain ⟨b1, b2, b3, b4, b5, b6, b7⟩ := h
  simp [State.checkAll, State.checkBlockQuote, State.checkPre, State.checkCode,
    State.clearListLevels, b1, b3, b5, b7]

theorem State.clearListLevels_idle (st : State) (h : st.idle) : st.clearListLevels = st := by
  simp [State.clearListLevels, h.2.2.2.2.2.2]

theorem splitLines_append (l : List Nat) (h : ∀ a ∈ l, plain a = true) :
    ∀ (rest cur : List Nat), splitLines (l ++ rest) cur = splitLines rest (cur ++ l) := by
  induction l with
  | nil => intro rest cur; simp
  | cons c cs ih =>
    intro rest cur
    have hc : ¬ (c = 13 ∨ c = 10) := by
      have := h c (by simp)
      simp only [plain, inRange, Bool.or_eq_true, Bool.and_eq_true, decide_eq_true_eq,
        beq_iff_eq, Char.reduceToNat] at this
      omega
    simp [splitLines, hc, ih (fun a ha => h a (by simp [ha]))]

theorem splitLines_joinLines :
    ∀ (ls : List (List Nat)), ls ≠ [] → (∀ l ∈ ls, ∀ a ∈ l, plain a = true) →
      splitLines (joinLines ls) [] = ls := by
  intro ls
  induction ls with
  | nil => intro h; exact absurd rfl h
  | cons l ls ih =>
    intro _ hl
    cases ls with
    | nil =>
      have := splitLines_append l (hl l (by simp)) [] []
      simpa [joinLines, splitLines] using this
    | cons l2 ls =>
      have := splitLines_append l (hl l (by simp)) (10 :: joinLines (l2 :: ls)) []
      simp only [joinLines]
      rw [this]
      simp [splitLines, ih (by simp) (fun x hx => hl x (by simp [hx]))]

/-! ## The final pass over tags and plain text -/

theorem scan_plain_append (ea sq : Bool) (l : List Nat) (h : ∀ a ∈ l, plain a = true) :
    ∀ (rest : List Nat) (i : Nat) (fc : Int),
      scan ea sq (l ++ rest) 0 i false fc =
        (scan ea sq rest 0 (i + l.length) false fc).map (l ++ ·) := by
  induction l with
  | nil => intro rest i fc; simp
  | cons c cs ih =>
    intro rest i fc
    have hc := h c (by simp)
    simp only [plain, inRange, Bool.or_eq_true, Bool.and_eq_true, decide_eq_true_eq,
      beq_iff_eq, Char.reduceToNat] at hc
    have c60 : c ≠ 60 := by omega
    have c62 : c ≠ 62 := by omega
    have c34 : c ≠ 34 := by omega
    have c46 : c ≠ 46 := by omega
    have c38 : c ≠ 38 := by omega
    rw [List.cons_append]
    simp only [scan, Bool.false_eq_true, false_and, if_false, c60, c62, c34, c46, c38]
    rw [ih (fun a ha => h a (by simp [ha]))]
    simp [Option.map_map, Function.comp_def, Nat.add_assoc, Nat.add_comm 1]

theorem scan_in_tag_append (sq : Bool) (body : List Nat) (h : 62 ∉ body) :
    ∀ (rest : List Nat) (i : Nat) (fc : Int),
      scan false sq (body ++ 62 :: rest) 0 i true fc =
        (scan false sq rest 0 (i + body.length + 1) false fc).map ((body ++ [62]) ++ ·) := by
  induction body with
  | nil => intro rest i fc; simp [scan]
  | cons c cs ih =>
    intro rest i fc
    simp only [List.mem_cons, not_or] at h
    have hc : c ≠ 62 := fun e => h.1 e.symm
    rw [List.cons_append]
    simp only [scan, hc, ne_eq, not_false_eq_true, and_self, if_true]
    rw [ih h.2]
    simp [Option.map_map, Function.comp_def, Nat.add_assoc, Nat.add_comm 1]

theorem scan_tag_append (sq : Bool) (body : List Nat) (h : 62 ∉ body) (rest : List Nat)
    (i : Nat) (fc : Int) :
    scan false sq (60 :: (body ++ 62 :: rest)) 0 i false fc =
      (scan false sq rest 0 (i + 1 + body.length + 1) false fc).map
        ((60 :: (body ++ [62])) ++ ·) := by
  simp only [scan, Bool.false_eq_true, false_and, if_false, if_true]
  rw [scan_in_tag_append sq body h]
  simp [Option.map_map, Function.comp_def]

theorem scan_paragraphs (sq : Bool) :
    ∀ (ls : List (List Nat)), (∀ l ∈ ls, ∀ a ∈ l, plain a = true) → ∀ (i : Nat) (fc : Int),
      scan false sq (paragraphs ls) 0 i false fc = some (paragraphs ls) := by
  intro ls
  induction ls with
  | nil => intro _ i fc; simp [paragraphs, scan]
  | cons l ls ih =>
    intro hl i fc
    have e1 : str "<p>" = 60 :: ([112] ++ [62]) := by decide
    have e2 : str "</p>" = 60 :: ([47, 112] ++ [62]) := by decide
    have e : paragraphs (l :: ls) =
        60 :: ([112] ++ 62 :: (l ++ (60 :: ([47, 112] ++ 62 :: paragraphs ls)))) := by
      simp [paragraphs, e1, e2]
    rw [e, scan_tag_append sq [112] (by decide), scan_plain_append false sq l (hl l (by simp)),
      scan_tag_append sq [47, 112] (by decide), ih (fun x hx => hl x (by simp [hx]))]
    simp

end Textile

namespace Textile

/-- C10: a text of non-empty lines of ASCII letters, digits and spaces, separated by
`\n`, is rendered by `TextileFormatter` as one paragraph `<p>line</p>` per line. -/
theorem C10_bare_lines_paragraphs (fuel : Nat) (ls : List (List Nat)) (hf : 0 < fuel)
    (hne : ls ≠ []) (hl : ∀ l ∈ ls, l ≠ [] ∧ ∀ a ∈ l, plain a = true) :
    TextileFormatter fuel (joinLines ls) = .done (paragraphs ls) := by
  obtain ⟨n, rfl⟩ : ∃ n, fuel = n + 1 := ⟨fuel - 1, by omega⟩
  have hp : ∀ l ∈ ls, ∀ a ∈ l, plain a = true := fun l h => (hl l h).2
  have hidle : (initialState []).idle := by simp [State.idle, initialState]
  obtain ⟨st2, e, hi, hw⟩ := State.run_plain n ls (initialState []) hidle hl
  have hw2 : st2.w = paragraphs ls := by simpa [initialState] using hw
  rw [TextileFormatter, formatter, State.transform, splitLines_joinLines ls hne hp, e]
  simp only [Res.bind_done, State.checkAll_idle st2 hi, State.clearListLevels_idle st2 hi]
  rw [EntityEscape_eq_scan, hw2, scan_paragraphs true ls hp]
  simp [ofScan]

/-- C10 at the text `Hello\nthere`. -/
theorem C10_bare_lines_paragraphs_witness :
    0 < 1 ∧ [str "Hello", str "there"] ≠ [] ∧
    (∀ l ∈ [str "Hello", str "there"], l ≠ [] ∧ ∀ a ∈ l, plain a = true) ∧
    TextileFormatter 1 (joinLines [str "Hello", str "there"]) =
      .done (paragraphs [str "Hello", str "there"]) ∧
    joinLines [str "Hello", str "there"] = str "Hello\nthere" ∧
    paragraphs [str "Hello", str "there"] = str "<p>Hello</p><p>there</p>" :=
  ⟨by decide, by decide, by decide,
    C10_bare_lines_paragraphs 1 _ (by decide) (by decide) (by decide), by decide, by decide⟩

end Textile

namespace Textile

/-! ## The formatter never reaches the panic -/

theorem Res.bind_ne_panicked {α β : Type} (r : Res α) (f : α → Res β)
    (hr : r ≠ .panicked) (hf : ∀ a, f a ≠ .panicked) : r.bind f ≠ .panicked := by
  cases r with
  | done a => exact hf a
  | panicked => exact absurd rfl hr
  | outOfFuel => simp [Res.bind]

theorem EntityEscapeString_ne_panicked (s : List Nat) (ea sq : Bool)
    (h : ea = false ∨ sq = false) : EntityEscapeString s ea sq ≠ .panicked := by
  obtain ⟨o, ho, _⟩ := EntityEscape_done s ea sq h
  simp [EntityEscapeString, ho]

theorem escapeParts_done (s : List Nat) : ∃ o, escapeParts s = .done o := by
  obtain ⟨o, ho, _⟩ := EntityEscape_done s false false (Or.inl rfl)
  exact ⟨replacements.foldl (fun s r => replaceAll r.1 r.2 s 0) o,
    by simp [escapeParts, EntityEscapeString, ho]⟩

theorem escapeParts_ne_panicked (s : List Nat) : escapeParts s ≠ .panicked := by
  obtain ⟨o, ho⟩ := escapeParts_done s
  simp [ho]

theorem tagStep_ne_panicked (self : List Nat → Outcome) (hself : ∀ s, self s ≠ .panicked)
    (s : List Nat) (val : Regexp × List Nat) : tagStep self s val ≠ .panicked := by
  unfold tagStep
  split
  · simp
  · exact Res.bind_ne_panicked _ _ (hself _) fun _ =>
      Res.bind_ne_panicked _ _ (hself _) fun _ => by simp

theorem quoteLinkStep_ne_panicked (root : List Nat) (self : List Nat → Outcome)
    (hself : ∀ s, self s ≠ .panicked) (s : List Nat) :
    quoteLinkStep root self s ≠ .panicked := by
  unfold quoteLinkStep
  split
  · simp
  · exact Res.bind_ne_panicked _ _ (hself _) fun _ =>
      Res.bind_ne_panicked _ _ (escapeParts_ne_panicked _) fun _ =>
      Res.bind_ne_panicked _ _ (hself _) fun _ =>
      Res.bind_ne_panicked _ _ (hself _) fun _ => by simp

theorem titleLinkStep_ne_panicked (root : List Nat) (self : List Nat → Outcome)
    (hself : ∀ s, self s ≠ .panicked) (s : List Nat) :
    titleLinkStep root self s ≠ .panicked := by
  unfold titleLinkStep
  split
  · simp
  · exact Res.bind_ne_panicked _ _ (hself _) fun _ =>
      Res.bind_ne_panicked _ _ (escapeParts_ne_panicked _) fun _ =>
      Res.bind_ne_panicked _ _ (hself _) fun _ =>
      Res.bind_ne_panicked _ _ (hself _) fun _ =>
      Res.bind_ne_panicked _ _ (hself _) fun _ => by simp

theorem linkStep_ne_panicked (root : List Nat) (self : List Nat → Outcome)
    (hself : ∀ s, self s ≠ .panicked) (s : List Nat) : linkStep root self s ≠ .panicked := by
  unfold linkStep
  split
  · simp
  · exact Res.bind_ne_panicked _ _ (hself _) fun _ =>
      Res.bind_ne_panicked _ _ (escapeParts_ne_panicked _) fun _ =>
      Res.bind_ne_panicked _ _ (hself _) fun _ =>
      Res.bind_ne_panicked _ _ (hself _) fun _ => by simp

theorem imgStep_ne_panicked (root : List Nat) (self : List Nat → Outcome)
    (hself : ∀ s, self s ≠ .panicked) (s : List Nat) : imgStep root self s ≠ .panicked := by
  unfold imgStep
  split
  · simp
  · exact Res.bind_ne_panicked _ _ (hself _) fun _ =>
      Res.bind_ne_panicked _ _ (escapeParts_ne_panicked _) fun _ =>
      Res.bind_ne_panicked _ _ (hself _) fun _ => by simp

theorem altImgStep_ne_panicked (root : List Nat) (self : List Nat → Outcome)
    (hself : ∀ s, self s ≠ .panicked) (s : List Nat) : altImgStep root self s ≠ .panicked := by
  unfold altImgStep
  split
  · simp
  · exact Res.bind_ne_panicked _ _ (hself _) fun _ =>
      Res.bind_ne_panicked _ _ (escapeParts_ne_panicked _) fun _ =>
      Res.bind_ne_panicked _ _ (hself _) fun _ =>
      Res.bind_ne_panicked _ _ (hself _) fun _ => escapeParts_ne_panicked _

theorem footnoteRefStep_ne_panicked (hash : List Nat) (self : List Nat → Outcome)
    (hself : ∀ s, self s ≠ .panicked) (s : List Nat) :
    footnoteRefStep hash self s ≠ .panicked := by
  unfold footnoteRefStep
  split
  · simp
  · exact Res.bind_ne_panicked _ _ (hself _) fun _ =>
      Res.bind_ne_panicked _ _ (escapeParts_ne_panicked _) fun _ =>
      Res.bind_ne_panicked _ _ (hself _) fun _ => by simp

theorem transformLine2_ne_panicked (root hash : List Nat) :
    ∀ (fuel : Nat) (s : List Nat), transformLine2 root hash fuel s ≠ .panicked := by
  intro fuel
  induction fuel with
  | zero => intro s; simp [transformLine2]
  | succ n ih =>
    intro s
    rw [transformLine2]
    split
    · exact Res.bind_ne_panicked _ _ (ih _) fun _ =>
        Res.bind_ne_panicked _ _ (ih _) fun _ => by simp
    · refine Res.bind_ne_panicked _ _ (quoteLinkStep_ne_panicked root _ ih _) fun _ =>
        Res.bind_ne_panicked _ _ (titleLinkStep_ne_panicked root _ ih _) fun _ =>
        Res.bind_ne_panicked _ _ (linkStep_ne_panicked root _ ih _) fun _ =>
        Res.bind_ne_panicked _ _ (imgStep_ne_panicked root _ ih _) fun _ =>
        Res.bind_ne_panicked _ _ (altImgStep_ne_panicked root _ ih _) fun _ =>
        Res.bind_ne_panicked _ _ (footnoteRefStep_ne_panicked hash _ ih _) fun s6 => ?_
      simp only [regexpTags, List.foldl]
      exact Res.bind_ne_panicked _ _
        (Res.bind_ne_panicked _ _
          (Res.bind_ne_panicked _ _
            (Res.bind_ne_panicked _ _ (by simp) fun _ => tagStep_ne_panicked _ ih _ _)
            fun _ => tagStep_ne_panicked _ ih _ _)
          fun _ => tagStep_ne_panicked _ ih _ _)
        fun _ => tagStep_ne_panicked _ ih _ _

theorem transformLine_ne_panicked (root hash : List Nat) (fuel : Nat) (s : List Nat) :
    transformLine root hash fuel s ≠ .panicked :=
  Res.bind_ne_panicked _ _ (transformLine2_ne_panicked root hash fuel s) fun _ => by simp

end Textile

namespace Textile

theorem State.checkPre_inPre (st : State) : st.checkPre.inPre = false := by
  unfold State.checkPre
  split <;> simp_all [State.write]

theorem State.checkCode_inCode (st : State) : st.checkCode.inCode = false := by
  unfold State.checkCode
  split <;> simp_all [State.write]

theorem State.checkCode_inPre (st : State) : st.checkCode.inPre = st.inPre := by
  unfold State.checkCode
  split <;> simp [State.write]

theorem State.checkPre_inCode (st : State) : st.checkPre.inCode = st.inCode := by
  unfold State.checkPre
  split <;> simp [State.write]

theorem State.checkBlockQuote_inPre (st : State) : st.checkBlockQuote.inPre = st.inPre := by
  unfold State.checkBlockQuote
  split
  · split <;> simp [State.write]
  · rfl

theorem State.checkBlockQuote_inCode (st : State) : st.checkBlockQuote.inCode = st.inCode := by
  unfold State.checkBlockQuote
  split
  · split <;> simp [State.write]
  · rfl

theorem State.closeLists_inPre : ∀ (n : Nat) (st : State),
    (State.closeLists n st).inPre = st.inPre ∧ (State.closeLists n st).inCode = st.inCode := by
  intro n
  induction n with
  | zero => intro st; simp [State.closeLists]
  | succ n ih => intro st; simp [State.closeLists, ih, State.write]

theorem State.clearListLevels_flags (st : State) :
    st.clearListLevels.inPre = st.inPre ∧ st.clearListLevels.inCode = st.inCode := by
  unfold State.clearListLevels
  split
  · simp [State.closeLists_inPre]
  · simp

theorem State.checks_flags (st : State) :
    st.checkBlockQuote.checkPre.checkCode.inPre = false ∧
      st.checkBlockQuote.checkPre.checkCode.inCode = false := by
  simp [State.checkCode_inCode, State.checkCode_inPre, State.checkPre_inPre]

theorem State.checkAll_flags (st : State) :
    st.checkAll.inPre = false ∧ st.checkAll.inCode = false := by
  simp [State.checkAll, State.clearListLevels_flags, State.checks_flags]

theorem handlerSafe_bind (r : Outcome) (f : List Nat → Res (State × Bool))
    (hr : r ≠ .panicked) (hf : ∀ t, handlerSafe (f t)) : handlerSafe (r.bind f) := by
  cases r with
  | done a => exact hf a
  | panicked => exact absurd rfl hr
  | outOfFuel => simp [handlerSafe, Res.bind]

theorem handlerSafe_done (st : State) (b : Bool) (h : st.exclusive) :
    handlerSafe (.done (st, b)) := by
  refine ⟨by simp, ?_⟩
  intro p hp
  simp only [Res.done.injEq] at hp
  rw [← hp]
  exact h

theorem blockQuoteHandler_safe (fuel : Nat) (st : State) (args : List (List Nat)) :
    handlerSafe (blockQuoteHandler fuel st args) := by
  have hf := st.checks_flags
  unfold blockQuoteHandler
  refine handlerSafe_bind _ _ (transformLine_ne_panicked _ _ _ _) fun t => ?_
  apply handlerSafe_done
  simp only [State.exclusive]
  split <;> simp [State.write, hf]

theorem preHandler_safe (st : State) (args : List (List Nat)) :
    handlerSafe (preHandler st args) := by
  have hf := st.checks_flags
  unfold preHandler
  refine handlerSafe_bind _ _ (EntityEscapeString_ne_panicked _ _ _ (Or.inl rfl)) fun t => ?_
  apply handlerSafe_done
  simp [State.exclusive, State.write, hf]

theorem codeHandler_safe (st : State) (args : List (List Nat)) :
    handlerSafe (codeHandler st args) := by
  have hf := st.checks_flags
  unfold codeHandler
  refine handlerSafe_bind _ _ (EntityEscapeString_ne_panicked _ _ _ (Or.inr rfl)) fun t => ?_
  apply handlerSafe_done
  simp [State.exclusive, State.write, hf]

theorem paragraphHandler_safe (fuel : Nat) (st : State) (args : List (List Nat)) :
    handlerSafe (paragraphHandler fuel st args) := by
  have hf := st.checks_flags
  unfold paragraphHandler
  refine handlerSafe_bind _ _ (transformLine_ne_panicked _ _ _ _) fun t => ?_
  apply handlerSafe_done
  simp [State.exclusive, State.write, hf]

theorem headingHandler_safe (fuel : Nat) (st : State) (args : List (List Nat)) :
    handlerSafe (headingHandler fuel st args) := by
  have hf := st.checks_flags
  unfold headingHandler
  refine handlerSafe_bind _ _ (transformLine_ne_panicked _ _ _ _) fun t => ?_
  apply handlerSafe_done
  simp [State.exclusive, State.write, hf]

theorem footnoteHandler_safe (fuel : Nat) (st : State) (args : List (List Nat)) :
    handlerSafe (footnoteHandler fuel st args) := by
  have hf := st.checks_flags
  unfold footnoteHandler
  refine handlerSafe_bind _ _ (transformLine_ne_panicked _ _ _ _) fun t => ?_
  apply handlerSafe_done
  simp [State.exclusive, State.write, hf]

theorem listHandler_safe (fuel : Nat) (st : State) (args : List (List Nat)) :
    handlerSafe (listHandler fuel st args) := by
  have hp : st.checkBlockQuote.checkPre.inPre = false := State.checkPre_inPre _
  have hf := st.checks_flags
  simp only [listHandler]
  by_cases hc : st.checkBlockQuote.checkPre.inCode = true
  · rw [if_pos hc]
    apply handlerSafe_done
    simp [State.exclusive, hp]
  · rw [if_neg hc]
    refine handlerSafe_bind _ _ (transformLine_ne_panicked _ _ _ _) fun t => ?_
    apply handlerSafe_done
    simp only [State.exclusive]
    split_ifs <;> simp [State.write, hf, State.closeLists_inPre]

theorem runHandlers_safe (fuel : Nat) (st : State) (s : List Nat) (h : st.exclusive) :
    handlerSafe (runHandlers st s (blockHandlers fuel)) := by
  simp only [blockHandlers, runHandlers]
  split
  · exact blockQuoteHandler_safe _ _ _
  split
  · exact preHandler_safe _ _
  split
  · exact codeHandler_safe _ _
  split
  · exact paragraphHandler_safe _ _ _
  split
  · exact headingHandler_safe _ _ _
  split
  · exact footnoteHandler_safe _ _ _
  split
  · exact listHandler_safe _ _ _
  exact handlerSafe_done st false h

end Textile

namespace Textile

theorem Res.safe_done (st : State) (h : st.exclusive) : Res.safe (.done st) := by
  refine ⟨by simp, ?_⟩
  intro st2 h2
  simp only [Res.done.injEq] at h2
  rw [← h2]
  exact h

theorem Res.safe_bind (r : Outcome) (f : List Nat → Res State)
    (hr : r ≠ .panicked) (hf : ∀ t, Res.safe (f t)) : Res.safe (r.bind f) := by
  cases r with
  | done a => exact hf a
  | panicked => exact absurd rfl hr
  | outOfFuel => simp [Res.safe, Res.bind]

theorem State.exclusive_write (st : State) (x : List Nat) (h : st.exclusive) :
    (st.write x).exclusive := by
  simpa [State.exclusive, State.write] using h

theorem State.exclusive_clearListLevels (st : State) (h : st.exclusive) :
    st.clearListLevels.exclusive := by
  simpa [State.exclusive, State.clearListLevels_flags] using h

theorem State.step_safe (fuel : Nat) (st : State) (s : List Nat) (h : st.exclusive) :
    Res.safe (st.step fuel s) := by
  unfold State.step
  split
  · apply Res.safe_done
    simp [State.exclusive, State.checkAll_flags]
  · obtain ⟨h1, h2⟩ := runHandlers_safe fuel st s h
    cases hr : runHandlers st s (blockHandlers fuel) with
    | panicked => exact absurd hr h1
    | outOfFuel => simp [Res.safe, Res.bind]
    | done r =>
      have hex : r.1.exclusive := h2 r hr
      simp only [Res.bind_done]
      split
      · exact Res.safe_done _ hex
      split
      · refine Res.safe_bind _ _ (EntityEscapeString_ne_panicked _ _ _ ?_) fun t =>
          Res.safe_done _ (State.exclusive_write _ _ hex)
        by_contra hc
        simp only [not_or, Bool.not_eq_false] at hc
        exact hex hc
      · have hex2 := State.exclusive_clearListLevels _ hex
        split
        · exact Res.safe_bind _ _ (transformLine_ne_panicked _ _ _ _) fun t =>
            Res.safe_done _ (State.exclusive_write _ _ hex2)
        split
        · split
          · exact Res.safe_bind _ _ (transformLine_ne_panicked _ _ _ _) fun t =>
              Res.safe_done _ (State.exclusive_write _ _ hex2)
          split
          · exact Res.safe_bind _ _ (transformLine_ne_panicked _ _ _ _) fun t =>
              Res.safe_done _ (State.exclusive_write _ _ hex2)
          · exact Res.safe_done _ hex2
        · exact Res.safe_bind _ _ (transformLine_ne_panicked _ _ _ _) fun t =>
            Res.safe_done _ (State.exclusive_write _ _ hex2)

theorem State.run_safe (fuel : Nat) :
    ∀ (ls : List (List Nat)) (st : State), st.exclusive → Res.safe (st.run fuel ls) := by
  intro ls
  induction ls with
  | nil => intro st h; exact Res.safe_done st h
  | cons l ls ih =>
    intro st h
    obtain ⟨h1, h2⟩ := State.step_safe fuel st l h
    rw [State.run]
    cases hs : st.step fuel l with
    | panicked => exact absurd hs h1
    | outOfFuel => simp [Res.safe, Res.bind]
    | done st2 => exact ih st2 (h2 st2 hs)

theorem formatter_ne_panicked (fuel : Nat) (root b : List Nat) :
    formatter fuel root b ≠ .panicked := by
  have hinit : (initialState root).exclusive := by simp [State.exclusive, initialState]
  obtain ⟨h1, _⟩ := State.run_safe fuel (splitLines b []) (initialState root) hinit
  unfold formatter State.transform
  cases hr : (initialState root).run fuel (splitLines b []) with
  | panicked => exact absurd hr h1
  | outOfFuel => simp [Res.bind]
  | done st =>
    simp only [Res.bind_done]
    obtain ⟨o, ho, _⟩ := EntityEscape_done st.checkAll.clearListLevels.w false true (Or.inl rfl)
    simp [ho]

end Textile

namespace Textile

/-! ## A root URL for which the inline transformer does not return -/

theorem starRun_append_of_some (p : Nat → Bool) (k : List Nat → Option (List (List Nat)))
    (t : List Nat) (r : List (List Nat)) (h : starRun p k t = some r) :
    ∀ (pre : List Nat), (∀ a ∈ pre, p a = true) → starRun p k (pre ++ t) = some r := by
  intro pre
  induction pre with
  | nil => intro _; simpa using h
  | cons c cs ih =>
    intro hp
    rw [List.cons_append]
    simp only [starRun, hp c (by simp), if_true, ih (fun a ha => hp a (by simp [ha]))]

theorem imgRegexp_find_q (pre : List Nat) (hp : ∀ a ∈ pre, dot a = true) :
    imgRegexp.FindStringSubmatch (pre ++ str "!/q!") =
      some [pre ++ str "!/q!", pre, str "/q", []] := by
  have e : str "!/q!" = [33, 47, 113, 33] := by decide
  have e2 : str "/q" = [47, 113] := by decide
  simp only [Regexp.FindStringSubmatch, imgRegexp, seq, Re.run, urlNoParensRegexp]
  apply starRun_append_of_some _ _ _ _ _ pre hp
  rw [e, e2]
  simp [starRun, dot, lit, urlNoParensChar, inRange, oneOf, notIn, List.replicate]

theorem strongRegexp_find_z (pre : List Nat) (hp : ∀ a ∈ pre, dot a = true) :
    strongRegexp.FindStringSubmatch (pre ++ str "*z*/q\">") =
      some [pre ++ str "*z*/q\">", pre, str "z", str "/q\">"] := by
  have e : str "*z*/q\">" = [42, 122, 42, 47, 113, 34, 62] := by decide
  have e2 : str "z" = [122] := by decide
  have e3 : str "/q\">" = [47, 113, 34, 62] := by decide
  simp only [Regexp.FindStringSubmatch, strongRegexp, seq, Re.run]
  apply starRun_append_of_some _ _ _ _ _ pre hp
  rw [e, e2, e3]
  simp [starRun, dot, lit, notIn, List.replicate]

theorem imgOpenChar_dot (x : Nat) (h : imgOpenChar x = true) : dot x = true := by
  have : x ∈ str "<img src=\"/" := by simpa [imgOpenChar] using h
  have e : str "<img src=\"/" = [60, 105, 109, 103, 32, 115, 114, 99, 61, 34, 47] := by decide
  rw [e] at this
  simp only [List.mem_cons, List.mem_singleton, List.not_mem_nil, or_false] at this
  simp only [dot, bne_iff_ne, ne_eq]
  omega

/-- A text made of copies of `<img src="/` goes through the inline transformer
unchanged. -/
theorem transformLine2_imgOpen (root hash : List Nat) (fuel : Nat) (pre : List Nat)
    (hp : ∀ a ∈ pre, imgOpenChar a = true) :
    transformLine2 root hash (fuel + 1) pre = .done pre :=
  transformLine2_literal imgOpenChar root hash fuel pre hp (Or.inr (by decide))
    (Or.inr (by decide)) (by decide) (by decide) (by decide) (by decide) (by decide) (by decide)

end Textile

namespace Textile

theorem transformLine2_loop (hash : List Nat) :
    ∀ (fuel : Nat) (pre : List Nat), (∀ a ∈ pre, imgOpenChar a = true) →
      transformLine2 loopRoot hash fuel (pre ++ str "!/q!") = .outOfFuel := by
  intro fuel
  induction fuel with
  | zero => intro pre _; rfl
  | succ n ih =>
    intro pre hp
    have hdot : ∀ a ∈ pre, dot a = true := fun a ha => imgOpenChar_dot a (hp a ha)
    -- the characters of the line and of the text after the image step
    have hs : ∀ a ∈ pre ++ str "!/q!", (imgOpenChar a || [33, 47, 113].contains a) = true := by
      intro a ha
      rcases List.mem_append.mp ha with h | h
      · simp [hp a h]
      · have e : str "!/q!" = [33, 47, 113, 33] := by decide
        rw [e] at h
        simp only [List.mem_cons, List.mem_singleton, List.not_mem_nil, or_false] at h
        rcases h with h | h | h | h <;> subst h <;> decide
    have h1 := bareTagRegexp.FindStringSubmatch_none _ _
      (bareTagRegexp_needs _ (Or.inr (by decide))) hs
    have h2 := quoteLinkRegexp.FindStringSubmatch_none _ _
      (quoteLinkRegexp_needs _ (Or.inr (Or.inr (by decide)))) hs
    have h3 := titleLinkRegexp.FindStringSubmatch_none _ _
      (titleLinkRegexp_needs _ (Or.inr (Or.inl (by decide)))) hs
    have h4 := linkRegexp.FindStringSubmatch_none _ _
      (linkRegexp_needs _ (Or.inr (by decide))) hs
    have h5 := imgRegexp_find_q pre hdot
    rw [transformLine2, h1]
    simp only [quoteLinkStep, titleLinkStep, linkStep, imgStep, h2, h3, h4, h5, Res.bind_done,
      arg, List.getD_cons_zero, List.getD_cons_succ]
    cases n with
    | zero => rfl
    | succ m =>
      have hu : escapeParts (maybeAddRoot loopRoot (str "/q")) = .done (str "/!/q!*z*/q") := by
        decide
      rw [transformLine2_imgOpen loopRoot hash m pre hp,
        transformLine2_imgOpen loopRoot hash m [] (by simp), hu]
      simp only [Res.bind_done]
      have e5 : pre ++ str "<img src=\"" ++ str "/!/q!*z*/q" ++ str "\">" ++ [] =
          (pre ++ str "<img src=\"/" ++ str "!/q!") ++ str "*z*/q\">" := by
        have : str "<img src=\"" ++ str "/!/q!*z*/q" ++ str "\">" =
            str "<img src=\"/" ++ str "!/q!" ++ str "*z*/q\">" := by decide
        simp only [List.append_assoc, List.append_nil] at this ⊢
        rw [this]
      rw [e5]
      have hp2 : ∀ a ∈ pre ++ str "<img src=\"/", imgOpenChar a = true := by
        intro a ha
        rcases List.mem_append.mp ha with h | h
        · exact hp a h
        · simpa [imgOpenChar] using h
      have hs5 : ∀ a ∈ (pre ++ str "<img src=\"/" ++ str "!/q!") ++ str "*z*/q\">",
          (imgOpenChar a || [33, 47, 113, 42, 122, 34, 62].contains a) = true := by
        intro a ha
        rcases List.mem_append.mp ha with h | h
        · rcases List.mem_append.mp h with h | h
          · simp [hp2 a h]
          · have e : str "!/q!" = [33, 47, 113, 33] := by decide
            rw [e] at h
            simp only [List.mem_cons, List.mem_singleton, List.not_mem_nil, or_false] at h
            rcases h with h | h | h | h <;> subst h <;> decide
        · have e : str "*z*/q\">" = [42, 122, 42, 47, 113, 34, 62] := by decide
          rw [e] at h
          simp only [List.mem_cons, List.mem_singleton, List.not_mem_nil, or_false] at h
          rcases h with h | h | h | h | h | h | h <;> subst h <;> decide
      have h6 := altImgRegexp.FindStringSubmatch_none _ _
        (altImgRegexp_needs _ (Or.inr (by decide))) hs5
      have h7 := footnoteRefRegexp.FindStringSubmatch_none _ _
        (footnoteRefRegexp_needs _ (by decide)) hs5
      have h8 := emphasisRegexp.FindStringSubmatch_none _ _
        (emphasisRegexp_needs _ (by decide)) hs5
      have h9 := strongRegexp_find_z (pre ++ str "<img src=\"/" ++ str "!/q!") (by
        intro a ha
        rcases List.mem_append.mp ha with h | h
        · exact imgOpenChar_dot a (hp2 a h)
        · have e : str "!/q!" = [33, 47, 113, 33] := by decide
          rw [e] at h
          simp only [List.mem_cons, List.mem_singleton, List.not_mem_nil, or_false] at h
          rcases h with h | h | h | h <;> subst h <;> decide)
      have hrec := ih (pre ++ str "<img src=\"/") hp2
      simp only [altImgStep, footnoteRefStep, h6, h7, Res.bind_done, regexpTags, List.foldl,
        tagStep, h8, h9, arg, List.getD_cons_zero, List.getD_cons_succ, hrec,
        Res.bind_outOfFuel]

end Textile

namespace Textile

theorem formatter_loop (fuel : Nat) : formatter fuel loopRoot (str "!/q!") = .outOfFuel := by
  have hl : splitLines (str "!/q!") [] = [str "!/q!"] := by decide
  have hs : ∀ a ∈ str "!/q!", [33, 47, 113].contains a = true := by decide
  have hh := runHandlers_none _ fuel (initialState loopRoot) (str "!/q!") hs
    (by decide) (by decide) (by decide)
  have l1 := linkRegexp.FindStringSubmatch_none _ _ (linkRegexp_needs _ (Or.inl (by decide))) hs
  have l2 := titleLinkRegexp.FindStringSubmatch_none _ _
    (titleLinkRegexp_needs _ (Or.inl (by decide))) hs
  have l3 := imgRegexp_find_q [] (by simp)
  have ht := transformLine2_loop emptyHash fuel [] (by simp)
  simp only [List.nil_append] at l3 ht
  have hlen : ¬ ((str "!/q!").length = 0 ∧ (!(initialState loopRoot).inLongBlockQuote) = true ∧
      (!(initialState loopRoot).inLongPre) = true ∧
      (!(initialState loopRoot).inLongCode) = true) := by decide
  have hstep : (initialState loopRoot).step fuel (str "!/q!") = .outOfFuel := by
    rw [State.step, if_neg hlen, hh]
    simp [initialState, State.clearListLevels, Regexp.MatchString, l1, l2, l3,
      State.transformLine, transformLine, ht]
  rw [formatter, State.transform, hl, State.run, hstep]
  rfl

end Textile

namespace Textile

/-! ## Counting delimiters -/

@[simp] theorem delims_nil : delims [] = 0 := rfl

@[simp] theorem delims_append (a b : List Nat) : delims (a ++ b) = delims a + delims b := by
  simp [delims, List.countP_append]

theorem delims_cons (c : Nat) (cs : List Nat) :
    delims (c :: cs) = (if isDelim c then 1 else 0) + delims cs := by
  simp only [delims, List.countP_cons]
  omega

theorem delims_cons_le (c : Nat) (cs : List Nat) : delims cs ≤ delims (c :: cs) := by
  rw [delims_cons]; omega

theorem scan_delims (ea sq : Bool) :
    ∀ (cs : List Nat) (k i : Nat) (t : Bool) (fc : Int) (o : List Nat),
      scan ea sq cs k i t fc = some o → delims o ≤ delims cs := by
  intro cs
  induction cs with
  | nil => intro k i t fc o h; simp [scan] at h; simp [← h]
  | cons c cs ih =>
    intro k i t fc o h
    have e1 : delims esc_lt = 0 := by decide
    have e2 : delims esc_gt = 0 := by decide
    have e3 : delims esc_quote = 0 := by decide
    have e4 : delims esc_lquote = 0 := by decide
    have e5 : delims esc_rquote = 0 := by decide
    have e6 : delims esc_elipses = 0 := by decide
    have e7 : delims esc_amp = 0 := by decide
    cases k with
    | succ k =>
      simp only [scan] at h
      exact le_trans (ih _ _ _ _ _ h) (delims_cons_le c cs)
    | zero =>
      simp only [scan] at h
      split_ifs at h <;>
        first
          | (simp at h; done)
          | (simp only [Option.map_eq_some'] at h
             obtain ⟨o2, h2, rfl⟩ := h
             have := ih _ _ _ _ _ h2
             have hc := delims_cons c cs
             try simp only [delims_append, e1, e2, e3, e4, e5, e6, e7]
             first
               | omega
               | (rw [delims_cons]; omega))

theorem replaceAll_delims (old new : List Nat) (hnew : delims new = 0) :
    ∀ (s : List Nat) (k : Nat), delims (replaceAll old new s k) ≤ delims s := by
  intro s
  induction s with
  | nil => intro k; simp [replaceAll]
  | cons c cs ih =>
    intro k
    cases k with
    | succ k =>
      simp only [replaceAll]
      exact le_trans (ih k) (delims_cons_le c cs)
    | zero =>
      simp only [replaceAll]
      split_ifs
      · rw [delims_append, hnew]
        have := ih (old.length - 1)
        have := delims_cons_le c cs
        omega
      · rw [delims_cons, delims_cons]
        have := ih 0
        omega

theorem escapeParts_delims (s o : List Nat) (h : escapeParts s = .done o) :
    delims o ≤ delims s := by
  obtain ⟨o1, h1, h2⟩ := EntityEscape_done s false false (Or.inl rfl)
  have hd := scan_delims false false s 0 0 false (-1) o1 h2
  simp only [escapeParts, EntityEscapeString, h1, Res.bind_done, replacements, List.foldl,
    Res.done.injEq] at h
  rw [← h]
  exact le_trans (replaceAll_delims _ _ (by decide) o1 0) hd

theorem maybeAddRoot_delims (root url : List Nat) (h : delims root = 0) :
    delims (maybeAddRoot root url) = delims url := by
  unfold maybeAddRoot
  split <;> simp [h]

theorem digitChar_not_delim (d : Nat) (h : d < 10) : isDelim (Nat.digitChar d).toNat = false := by
  interval_cases d <;> decide

theorem toDigitsCore_delims :
    ∀ (fuel n : Nat) (ds : List Char), delims (ds.map Char.toNat) = 0 →
      delims ((Nat.toDigitsCore 10 fuel n ds).map Char.toNat) = 0 := by
  intro fuel
  induction fuel with
  | zero => intro n ds h; simpa [Nat.toDigitsCore] using h
  | succ f ih =>
    intro n ds h
    have hd : delims (((n % 10).digitChar :: ds).map Char.toNat) = 0 := by
      rw [List.map_cons, delims_cons, digitChar_not_delim _ (Nat.mod_lt _ (by decide)), h]
      simp
    simp only [Nat.toDigitsCore]
    split
    · exact hd
    · exact ih _ _ hd

theorem decimal_delims (n : Nat) : delims (decimal n) = 0 :=
  toDigitsCore_delims _ _ [] (by simp)

theorem footnoteAnchor_delims (hash : List Nat) (n : Nat) (h : delims hash = 0) :
    delims (footnoteAnchor hash n) = 0 := by
  have e1 : delims (str "<a id=fnr") = 0 := by decide
  have e2 : delims (str "-") = 0 := by decide
  have e3 : delims (str " href=#fn") = 0 := by decide
  have e4 : delims (str " title=\"Jump to footnote ") = 0 := by decide
  have e5 : delims (str "\"><sup class=footnote>") = 0 := by decide
  have e6 : delims (str "</sup></a>") = 0 := by decide
  simp [footnoteAnchor, decimal_delims, h, e1, e2, e3, e4, e5, e6]

end Textile

namespace Textile

/-! ## The pieces of a match -/

theorem Re.Matches_of_no_groups :
    ∀ (r : Re) (x : List Nat) (c c2 : List (List Nat)), r.groupIds = [] → r.Matches x c c2 →
      c2 = c := by
  intro r
  induction r with
  | eps => intro x c c2 _ h; exact h.2
  | sym a => intro x c c2 _ h; exact h.2
  | chr p => intro x c c2 _ h; obtain ⟨_, _, _, e⟩ := h; exact e
  | star p => intro x c c2 _ h; exact h.2
  | plus p => intro x c c2 _ h; exact h.2.2
  | opt r ih =>
    intro x c c2 hg h
    rcases h with h | h
    · exact ih x c c2 hg h
    · exact h.2
  | cat a b iha ihb =>
    intro x c c2 hg h
    simp only [Re.groupIds, List.append_eq_nil] at hg
    obtain ⟨x1, x2, c1, _, h1, h2⟩ := h
    rw [ihb x2 c1 c2 hg.2 h2, iha x1 c c1 hg.1 h1]
  | grp n r _ => intro x c c2 hg _; simp [Re.groupIds] at hg

theorem Re.flat_of_no_groups : ∀ (r : Re), r.groupIds = [] → r.flat = true := by
  intro r
  induction r with
  | opt r ih => intro hg; simpa [Re.flat] using ih (by simpa [Re.groupIds] using hg)
  | cat a b iha ihb =>
    intro hg
    simp only [Re.groupIds, List.append_eq_nil] at hg
    simp [Re.flat, iha hg.1, ihb hg.2]
  | grp n r _ => intro hg; simp [Re.groupIds] at hg
  | _ => intro _; rfl

theorem capsCount_set (q sel : Nat → Bool) (x : List Nat) :
    ∀ (c : List (List Nat)) (n i : Nat),
      capsCount q sel (c.set n x) i ≤ capsCount q sel c i + (if sel (i + n) then x.countP q else 0) := by
  intro c
  induction c with
  | nil => intro n i; simp [capsCount]
  | cons y ys ih =>
    intro n i
    cases n with
    | zero =>
      simp only [List.set_cons_zero, capsCount, Nat.add_zero]
      split_ifs <;> omega
    | succ n =>
      simp only [List.set_cons_succ, capsCount]
      have := ih n (i + 1)
      have e : i + 1 + n = i + (n + 1) := by omega
      rw [e] at this
      omega

theorem Re.account (q sel : Nat → Bool) :
    ∀ (r : Re) (x : List Nat) (c c2 : List (List Nat)), r.Matches x c c2 → r.flat = true →
      c2.length = c.length ∧
        capsCount q sel c2 0 + r.least q sel ≤ x.countP q + capsCount q sel c 0 := by
  intro r
  induction r with
  | eps => intro x c c2 h _; rw [h.2]; simp [Re.least]
  | sym a =>
    intro x c c2 h _
    rw [h.2, h.1]
    simp only [Re.least, List.countP_cons, List.countP_nil, true_and]
    split_ifs <;> omega
  | chr p => intro x c c2 h _; obtain ⟨_, _, _, e⟩ := h; rw [e]; simp [Re.least]
  | star p => intro x c c2 h _; rw [h.2]; simp [Re.least]
  | plus p => intro x c c2 h _; rw [h.2.2]; simp [Re.least]
  | opt r ih =>
    intro x c c2 h hf
    rcases h with h | h
    · have := ih x c c2 h (by simpa [Re.flat] using hf)
      simp only [Re.least]
      omega
    · rw [h.2]; simp [Re.least]
  | cat a b iha ihb =>
    intro x c c2 h hf
    simp only [Re.flat, Bool.and_eq_true] at hf
    obtain ⟨x1, x2, c1, e, h1, h2⟩ := h
    have r1 := iha x1 c c1 h1 hf.1
    have r2 := ihb x2 c1 c2 h2 hf.2
    rw [e, List.countP_append]
    simp only [Re.least]
    omega
  | grp n r ih =>
    intro x c c2 h hf
    obtain ⟨c1, h1, e⟩ := h
    have hg : r.groupIds = [] := by simpa [Re.flat] using hf
    have hc : c1 = c := Re.Matches_of_no_groups r x c c1 hg h1
    subst hc
    have hflat : r.flat = true := Re.flat_of_no_groups r hg
    have r1 := ih x c1 c1 h1 hflat
    have hs := capsCount_set q sel x c1 n 0
    rw [e]
    refine ⟨List.length_set _ _ _, ?_⟩
    simp only [Re.least, Nat.zero_add] at hs ⊢
    split_ifs at hs ⊢ <;> omega

end Textile

namespace Textile

theorem capsCount_replicate_nil (q sel : Nat → Bool) :
    ∀ (g i : Nat), capsCount q sel (List.replicate g []) i = 0 := by
  intro g
  induction g with
  | zero => intro i; rfl
  | succ g ih => intro i; simp [List.replicate_succ, capsCount, ih]

/-- The captures of a match: as many as the pattern has groups, and their selected
characters, with those that the pattern takes outside the groups, are characters of the
text. -/
theorem Regexp.pieces (q sel : Nat → Bool) (r : Regexp) (s : List Nat) (a : List (List Nat))
    (h : r.FindStringSubmatch s = some a) (hf : r.re.flat = true) (h0 : sel 0 = false) :
    a.length = r.groups + 1 ∧ capsCount q sel a 0 + r.re.least q sel ≤ s.countP q := by
  have hm := r.FindStringSubmatch_sound s a h
  obtain ⟨h1, h2⟩ := Re.account q sel r.re s _ a hm hf
  simp only [capsCount, h0, Bool.false_eq_true, if_false, capsCount_replicate_nil, Nat.add_zero,
    Nat.zero_add, List.length_cons, List.length_replicate] at h1 h2
  exact ⟨h1, h2⟩

theorem caps_of_length_4 (a : List (List Nat)) (h : a.length = 4) :
    a = [arg a 0, arg a 1, arg a 2, arg a 3] := by
  match a, h with
  | [_, _, _, _], _ => rfl

theorem caps_of_length_5 (a : List (List Nat)) (h : a.length = 5) :
    a = [arg a 0, arg a 1, arg a 2, arg a 3, arg a 4] := by
  match a, h with
  | [_, _, _, _, _], _ => rfl

theorem caps_of_length_6 (a : List (List Nat)) (h : a.length = 6) :
    a = [arg a 0, arg a 1, arg a 2, arg a 3, arg a 4, arg a 5] := by
  match a, h with
  | [_, _, _, _, _, _], _ => rfl

/-- The captures of a pattern with three groups that takes a delimiter. -/
theorem pieces3 (r : Regexp) (s : List Nat) (a : List (List Nat))
    (h : r.FindStringSubmatch s = some a) (hf : r.re.flat = true) (hg : r.groups = 3)
    (hl : 1 ≤ r.re.least isDelim (fun i => i != 0)) :
    delims (arg a 1) + delims (arg a 2) + delims (arg a 3) + 1 ≤ delims s := by
  obtain ⟨h1, h2⟩ := Regexp.pieces isDelim (fun i => i != 0) r s a h hf (by decide)
  rw [hg] at h1
  rw [caps_of_length_4 a h1] at h2
  simp only [capsCount, bne_self_eq_false, Bool.false_eq_true, if_false] at h2
  simp only [delims]
  have e1 : ((0 + 1 != 0) = true) := by decide
  have e2 : ((0 + 1 + 1 != 0) = true) := by decide
  have e3 : ((0 + 1 + 1 + 1 != 0) = true) := by decide
  simp only [e1, e2, e3, if_true] at h2
  omega

/-- The captures of a pattern with four groups that takes a delimiter. -/
theorem pieces4 (r : Regexp) (s : List Nat) (a : List (List Nat))
    (h : r.FindStringSubmatch s = some a) (hf : r.re.flat = true) (hg : r.groups = 4)
    (hl : 1 ≤ r.re.least isDelim (fun i => i != 0)) :
    delims (arg a 1) + delims (arg a 2) + delims (arg a 3) + delims (arg a 4) + 1 ≤
      delims s := by
  obtain ⟨h1, h2⟩ := Regexp.pieces isDelim (fun i => i != 0) r s a h hf (by decide)
  rw [hg] at h1
  rw [caps_of_length_5 a h1] at h2
  simp only [capsCount, bne_self_eq_false, Bool.false_eq_true, if_false] at h2
  simp only [delims]
  have e1 : ((0 + 1 != 0) = true) := by decide
  have e2 : ((0 + 1 + 1 != 0) = true) := by decide
  have e3 : ((0 + 1 + 1 + 1 != 0) = true) := by decide
  have e4 : ((0 + 1 + 1 + 1 + 1 != 0) = true) := by decide
  simp only [e1, e2, e3, e4, if_true] at h2
  omega

/-- The captures of a pattern with five groups that takes a delimiter. -/
theorem pieces5 (r : Regexp) (s : List Nat) (a : List (List Nat))
    (h : r.FindStringSubmatch s = some a) (hf : r.re.flat = true) (hg : r.groups = 5)
    (hl : 1 ≤ r.re.least isDelim (fun i => i != 0)) :
    delims (arg a 1) + delims (arg a 2) + delims (arg a 3) + delims (arg a 4) +
      delims (arg a 5) + 1 ≤ delims s := by
  obtain ⟨h1, h2⟩ := Regexp.pieces isDelim (fun i => i != 0) r s a h hf (by decide)
  rw [hg] at h1
  rw [caps_of_length_6 a h1] at h2
  simp only [capsCount, bne_self_eq_false, Bool.false_eq_true, if_false] at h2
  simp only [delims]
  have e1 : ((0 + 1 != 0) = true) := by decide
  have e2 : ((0 + 1 + 1 != 0) = true) := by decide
  have e3 : ((0 + 1 + 1 + 1 != 0) = true) := by decide
  have e4 : ((0 + 1 + 1 + 1 + 1 != 0) = true) := by decide
  have e5 : ((0 + 1 + 1 + 1 + 1 + 1 != 0) = true) := by decide
  simp only [e1, e2, e3, e4, e5, if_true] at h2
  omega

/-- The pieces of a bare tag: the text before and the text after the tag are shorter
than the line, and the three pieces have the delimiters of the line. -/
theorem bareTag_pieces (s : List Nat) (a : List (List Nat))
    (h : bareTagRegexp.FindStringSubmatch s = some a) :
    (arg a 1).length < s.length ∧ (arg a 3).length < s.length ∧
      delims (arg a 1) + delims (arg a 2) + delims (arg a 3) ≤ delims s := by
  obtain ⟨h1, h2⟩ := Regexp.pieces isDelim (fun i => i != 0) bareTagRegexp s a h (by decide)
    (by decide)
  obtain ⟨_, h3⟩ := Regexp.pieces (fun _ => true) (fun i => i == 1 || i == 3) bareTagRegexp s a h
    (by decide) (by decide)
  have hg : bareTagRegexp.groups = 3 := rfl
  have hl : bareTagRegexp.re.least (fun _ => true) (fun i => i == 1 || i == 3) = 2 := by decide
  rw [hg] at h1
  rw [hl] at h3
  rw [caps_of_length_4 a h1] at h2 h3
  simp only [capsCount, List.countP_true] at h2 h3
  have e1 : ((0 + 1 != 0) = true) := by decide
  have e2 : ((0 + 1 + 1 != 0) = true) := by decide
  have e3 : ((0 + 1 + 1 + 1 != 0) = true) := by decide
  have f0 : ((0 == 1 || 0 == 3) = false) := by decide
  have f1 : ((0 + 1 == 1 || 0 + 1 == 3) = true) := by decide
  have f2 : ((0 + 1 + 1 == 1 || 0 + 1 + 1 == 3) = false) := by decide
  have f3 : ((0 + 1 + 1 + 1 == 1 || 0 + 1 + 1 + 1 == 3) = true) := by decide
  simp only [e1, e2, e3, f0, f1, f2, f3, if_true, bne_self_eq_false, Bool.false_eq_true,
    if_false] at h2 h3
  simp only [delims]
  omega

end Textile

namespace Textile

/-! ## Enough fuel -/

theorem Eventually.pure {α : Type} (a : α) : Eventually (fun _ => Res.done a) a :=
  ⟨0, fun _ _ => rfl⟩

theorem Eventually.of_eq {α : Type} (r : Res α) (a : α) (h : r = .done a) :
    Eventually (fun _ => r) a :=
  ⟨0, fun _ _ => h⟩

theorem Eventually.bind {α β : Type} {f : Nat → Res α} {g : Nat → α → Res β} {a : α} {b : β}
    (hf : Eventually f a) (hg : Eventually (fun n => g n a) b) :
    Eventually (fun n => (f n).bind (g n)) b := by
  obtain ⟨n1, h1⟩ := hf
  obtain ⟨n2, h2⟩ := hg
  refine ⟨max n1 n2, fun fuel hfuel => ?_⟩
  simp only [h1 fuel (le_trans (le_max_left _ _) hfuel), Res.bind_done]
  exact h2 fuel (le_trans (le_max_right _ _) hfuel)

theorem Eventually.succ {α : Type} {f : Nat → Res α} {a : α}
    (h : Eventually (fun n => f (n + 1)) a) : Eventually f a := by
  obtain ⟨n, hn⟩ := h
  refine ⟨n + 1, fun fuel hfuel => ?_⟩
  obtain ⟨m, rfl⟩ : ∃ m, fuel = m + 1 := ⟨fuel - 1, by omega⟩
  exact hn m (by omega)

theorem Eventually.unique {α : Type} {f : Nat → Res α} {a b : α}
    (ha : Eventually f a) (hb : Eventually f b) : a = b := by
  obtain ⟨n1, h1⟩ := ha
  obtain ⟨n2, h2⟩ := hb
  have e1 := h1 (max n1 n2) (le_max_left _ _)
  have e2 := h2 (max n1 n2) (le_max_right _ _)
  rw [e1] at e2
  exact Res.done.inj e2

theorem escapeParts_root (root url : List Nat) (hroot : delims root = 0) :
    ∃ u, escapeParts (maybeAddRoot root url) = .done u ∧ delims u ≤ delims url := by
  obtain ⟨u, hu⟩ := escapeParts_done (maybeAddRoot root url)
  refine ⟨u, hu, ?_⟩
  have := escapeParts_delims _ _ hu
  rw [maybeAddRoot_delims root url hroot] at this
  exact this

theorem quoteLinkStep_settles (root hash s : List Nat) (hroot : delims root = 0)
    (H : ∀ c, delims c < delims s → Settles root hash c) :
    ∃ out, Eventually (fun n => quoteLinkStep root (transformLine2 root hash n) s) out ∧
      delims out ≤ delims s := by
  cases h : quoteLinkRegexp.FindStringSubmatch s with
  | none => exact ⟨s, by simp only [quoteLinkStep, h]; exact Eventually.pure s, le_refl _⟩
  | some a =>
    have hp := pieces4 quoteLinkRegexp s a h (by decide) rfl (by decide)
    obtain ⟨x, hx, dx⟩ := H (arg a 1) (by omega)
    obtain ⟨t, ht, dt⟩ := H (arg a 2) (by omega)
    obtain ⟨y, hy, dy⟩ := H (arg a 4) (by omega)
    obtain ⟨u, hu, du⟩ := escapeParts_root root (arg a 3) hroot
    have e1 : delims (str "<a href=\"") = 0 := by decide
    have e2 : delims (str "\">") = 0 := by decide
    have e3 : delims (str "</a>") = 0 := by decide
    refine ⟨x ++ str "<a href=\"" ++ u ++ str "\">" ++ t ++ str "</a>" ++ y, ?_, ?_⟩
    · simp only [quoteLinkStep, h]
      exact Eventually.bind hx (Eventually.bind (Eventually.of_eq _ _ hu)
        (Eventually.bind ht (Eventually.bind hy (Eventually.pure _))))
    · simp only [delims_append, e1, e2, e3]
      omega

theorem titleLinkStep_settles (root hash s : List Nat) (hroot : delims root = 0)
    (H : ∀ c, delims c < delims s → Settles root hash c) :
    ∃ out, Eventually (fun n => titleLinkStep root (transformLine2 root hash n) s) out ∧
      delims out ≤ delims s := by
  cases h : titleLinkRegexp.FindStringSubmatch s with
  | none => exact ⟨s, by simp only [titleLinkStep, h]; exact Eventually.pure s, le_refl _⟩
  | some a =>
    have hp := pieces5 titleLinkRegexp s a h (by decide) rfl (by decide)
    obtain ⟨x, hx, dx⟩ := H (arg a 1) (by omega)
    obtain ⟨ti, hti, dti⟩ := H (arg a 3) (by omega)
    obtain ⟨t, ht, dt⟩ := H (arg a 2) (by omega)
    obtain ⟨y, hy, dy⟩ := H (arg a 5) (by omega)
    obtain ⟨u, hu, du⟩ := escapeParts_root root (arg a 4) hroot
    have e1 : delims (str "<a href=\"") = 0 := by decide
    have e2 : delims (str "\">") = 0 := by decide
    have e3 : delims (str "</a>") = 0 := by decide
    have e4 : delims (str "\" title=\"") = 0 := by decide
    refine ⟨x ++ str "<a href=\"" ++ u ++ str "\" title=\"" ++ ti ++ str "\">" ++ t ++
      str "</a>" ++ y, ?_, ?_⟩
    · simp only [titleLinkStep, h]
      exact Eventually.bind hx (Eventually.bind (Eventually.of_eq _ _ hu)
        (Eventually.bind hti (Eventually.bind ht (Eventually.bind hy (Eventually.pure _)))))
    · simp only [delims_append, e1, e2, e3, e4]
      omega

theorem linkStep_settles (root hash s : List Nat) (hroot : delims root = 0)
    (H : ∀ c, delims c < delims s → Settles root hash c) :
    ∃ out, Eventually (fun n => linkStep root (transformLine2 root hash n) s) out ∧
      delims out ≤ delims s := by
  cases h : linkRegexp.FindStringSubmatch s with
  | none => exact ⟨s, by simp only [linkStep, h]; exact Eventually.pure s, le_refl _⟩
  | some a =>
    have hp := pieces4 linkRegexp s a h (by decide) rfl (by decide)
    obtain ⟨x, hx, dx⟩ := H (arg a 1) (by omega)
    obtain ⟨t, ht, dt⟩ := H (arg a 2) (by omega)
    obtain ⟨y, hy, dy⟩ := H (arg a 4) (by omega)
    obtain ⟨u, hu, du⟩ := escapeParts_root root (arg a 3) hroot
    have e1 : delims (str "<a href=\"") = 0 := by decide
    have e2 : delims (str "\">") = 0 := by decide
    have e3 : delims (str "</a>") = 0 := by decide
    refine ⟨x ++ str "<a href=\"" ++ u ++ str "\">" ++ t ++ str "</a>" ++ y, ?_, ?_⟩
    · simp only [linkStep, h]
      exact Eventually.bind hx (Eventually.bind (Eventually.of_eq _ _ hu)
        (Eventually.bind ht (Eventually.bind hy (Eventually.pure _))))
    · simp only [delims_append, e1, e2, e3]
      omega

theorem imgStep_settles (root hash s : List Nat) (hroot : delims root = 0)
    (H : ∀ c, delims c < delims s → Settles root hash c) :
    ∃ out, Eventually (fun n => imgStep root (transformLine2 root hash n) s) out ∧
      delims out ≤ delims s := by
  cases h : imgRegexp.FindStringSubmatch s with
  | none => exact ⟨s, by simp only [imgStep, h]; exact Eventually.pure s, le_refl _⟩
  | some a =>
    have hp := pieces3 imgRegexp s a h (by decide) rfl (by decide)
    obtain ⟨x, hx, dx⟩ := H (arg a 1) (by omega)
    obtain ⟨y, hy, dy⟩ := H (arg a 3) (by omega)
    obtain ⟨u, hu, du⟩ := escapeParts_root root (arg a 2) hroot
    have e1 : delims (str "<img src=\"") = 0 := by decide
    have e2 : delims (str "\">") = 0 := by decide
    refine ⟨x ++ str "<img src=\"" ++ u ++ str "\">" ++ y, ?_, ?_⟩
    · simp only [imgStep, h]
      exact Eventually.bind hx (Eventually.bind (Eventually.of_eq _ _ hu)
        (Eventually.bind hy (Eventually.pure _)))
    · simp only [delims_append, e1, e2]
      omega

theorem altImgStep_settles (root hash s : List Nat) (hroot : delims root = 0)
    (H : ∀ c, delims c < delims s → Settles root hash c) :
    ∃ out, Eventually (fun n => altImgStep root (transformLine2 root hash n) s) out ∧
      delims out ≤ delims s := by
  cases h : altImgRegexp.FindStringSubmatch s with
  | none => exact ⟨s, by simp only [altImgStep, h]; exact Eventually.pure s, le_refl _⟩
  | some a =>
    have hp := pieces4 altImgRegexp s a h (by decide) rfl (by decide)
    obtain ⟨x, hx, dx⟩ := H (arg a 1) (by omega)
    obtain ⟨alt, halt, dalt⟩ := H (arg a 3) (by omega)
    obtain ⟨y, hy, dy⟩ := H (arg a 4) (by omega)
    obtain ⟨u, hu, du⟩ := escapeParts_root root (arg a 2) hroot
    obtain ⟨o, ho⟩ := escapeParts_done
      (x ++ str "<img src=\"" ++ u ++ str "\" alt=\"" ++ alt ++ str "\">" ++ y)
    have hd := escapeParts_delims _ _ ho
    have e1 : delims (str "<img src=\"") = 0 := by decide
    have e2 : delims (str "\">") = 0 := by decide
    have e3 : delims (str "\" alt=\"") = 0 := by decide
    refine ⟨o, ?_, ?_⟩
    · simp only [altImgStep, h]
      exact Eventually.bind hx (Eventually.bind (Eventually.of_eq _ _ hu)
        (Eventually.bind halt (Eventually.bind hy (Eventually.of_eq _ _ ho))))
    · simp only [delims_append, e1, e2, e3] at hd
      omega

theorem footnoteRefStep_settles (root hash s : List Nat) (hhash : delims hash = 0)
    (H : ∀ c, delims c < delims s → Settles root hash c) :
    ∃ out, Eventually (fun n => footnoteRefStep hash (transformLine2 root hash n) s) out ∧
      delims out ≤ delims s := by
  cases h : footnoteRefRegexp.FindStringSubmatch s with
  | none => exact ⟨s, by simp only [footnoteRefStep, h]; exact Eventually.pure s, le_refl _⟩
  | some a =>
    have hp := pieces3 footnoteRefRegexp s a h (by decide) rfl (by decide)
    obtain ⟨x, hx, dx⟩ := H (arg a 1) (by omega)
    obtain ⟨y, hy, dy⟩ := H (arg a 3) (by omega)
    obtain ⟨u, hu⟩ := escapeParts_done (footnoteAnchor hash (Atoi (arg a 2)))
    have du := escapeParts_delims _ _ hu
    rw [footnoteAnchor_delims hash _ hhash] at du
    refine ⟨x ++ u ++ y, ?_, ?_⟩
    · simp only [footnoteRefStep, h]
      exact Eventually.bind hx (Eventually.bind (Eventually.of_eq _ _ hu)
        (Eventually.bind hy (Eventually.pure _)))
    · simp only [delims_append]
      omega

theorem tagStep_settles (root hash s : List Nat) (val : Regexp × List Nat)
    (hf : val.1.re.flat = true) (hg : val.1.groups = 3)
    (hl : 1 ≤ val.1.re.least isDelim (fun i => i != 0)) (hv : delims val.2 = 0)
    (H : ∀ c, delims c < delims s → Settles root hash c) :
    ∃ out, Eventually (fun n => tagStep (transformLine2 root hash n) s val) out ∧
      delims out ≤ delims s := by
  cases h : val.1.FindStringSubmatch s with
  | none => exact ⟨s, by simp only [tagStep, h]; exact Eventually.pure s, le_refl _⟩
  | some a =>
    have hp := pieces3 val.1 s a h hf hg hl
    obtain ⟨x, hx, dx⟩ := H (arg a 1) (by omega)
    obtain ⟨y, hy, dy⟩ := H (arg a 3) (by omega)
    have e1 : delims (str "<") = 0 := by decide
    have e2 : delims (str ">") = 0 := by decide
    have e3 : delims (str "</") = 0 := by decide
    refine ⟨x ++ str "<" ++ val.2 ++ str ">" ++ arg a 2 ++ str "</" ++ val.2 ++ str ">" ++ y,
      ?_, ?_⟩
    · simp only [tagStep, h]
      exact Eventually.bind hx (Eventually.bind hy (Eventually.pure _))
    · simp only [delims_append, e1, e2, e3, hv]
      omega

end Textile

namespace Textile

/-- With a root URL and a hash without delimiters, the inline transformer returns on every
line: a call on a piece of a bare-tag match has a shorter line, every other recursive call
a line with fewer delimiters. -/
theorem transformLine2_settles (root hash : List Nat) (hroot : delims root = 0)
    (hhash : delims hash = 0) : ∀ (s : List Nat), Settles root hash s := by
  suffices h : ∀ (d L : Nat) (s : List Nat), delims s = d → s.length = L → Settles root hash s
    from fun s => h _ _ s rfl rfl
  intro d
  induction d using Nat.strong_induction_on with
  | _ d ih1 =>
    intro L
    induction L using Nat.strong_induction_on with
    | _ L ih2 =>
      intro s hd hL
      have H : ∀ c, delims c < delims s → Settles root hash c :=
        fun c hc => ih1 (delims c) (by omega) c.length c rfl rfl
      cases hb : bareTagRegexp.FindStringSubmatch s with
      | some a =>
        obtain ⟨l1, l3, hsum⟩ := bareTag_pieces s a hb
        have small : ∀ c, delims c ≤ delims s → c.length < s.length → Settles root hash c := by
          intro c h1 h2
          by_cases hlt : delims c < delims s
          · exact H c hlt
          · exact ih2 c.length (by omega) c (by omega) rfl
        obtain ⟨x, hx, dx⟩ := small (arg a 1) (by omega) l1
        obtain ⟨y, hy, dy⟩ := small (arg a 3) (by omega) l3
        refine ⟨x ++ arg a 2 ++ y, Eventually.succ ?_, ?_⟩
        · simp only [transformLine2, hb]
          exact Eventually.bind hx (Eventually.bind hy (Eventually.pure _))
        · simp only [delims_append]
          omega
      | none =>
        obtain ⟨s1, h1, d1⟩ := quoteLinkStep_settles root hash s hroot H
        have H1 : ∀ c, delims c < delims s1 → Settles root hash c := fun c hc => H c (by omega)
        obtain ⟨s2, h2, d2⟩ := titleLinkStep_settles root hash s1 hroot H1
        have H2 : ∀ c, delims c < delims s2 → Settles root hash c := fun c hc => H c (by omega)
        obtain ⟨s3, h3, d3⟩ := linkStep_settles root hash s2 hroot H2
        have H3 : ∀ c, delims c < delims s3 → Settles root hash c := fun c hc => H c (by omega)
        obtain ⟨s4, h4, d4⟩ := imgStep_settles root hash s3 hroot H3
        have H4 : ∀ c, delims c < delims s4 → Settles root hash c := fun c hc => H c (by omega)
        obtain ⟨s5, h5, d5⟩ := altImgStep_settles root hash s4 hroot H4
        have H5 : ∀ c, delims c < delims s5 → Settles root hash c := fun c hc => H c (by omega)
        obtain ⟨s6, h6, d6⟩ := footnoteRefStep_settles root hash s5 hhash H5
        have H6 : ∀ c, delims c < delims s6 → Settles root hash c := fun c hc => H c (by omega)
        obtain ⟨s7, h7, d7⟩ := tagStep_settles root hash s6 (emphasisRegexp, str "em")
          (by decide) rfl (by decide) (by decide) H6
        have H7 : ∀ c, delims c < delims s7 → Settles root hash c := fun c hc => H c (by omega)
        obtain ⟨s8, h8, d8⟩ := tagStep_settles root hash s7 (strongRegexp, str "strong")
          (by decide) rfl (by decide) (by decide) H7
        have H8 : ∀ c, delims c < delims s8 → Settles root hash c := fun c hc => H c (by omega)
        obtain ⟨s9, h9, d9⟩ := tagStep_settles root hash s8 (supRegexp, str "sup")
          (by decide) rfl (by decide) (by decide) H8
        have H9 : ∀ c, delims c < delims s9 → Settles root hash c := fun c hc => H c (by omega)
        obtain ⟨s10, h10, d10⟩ := tagStep_settles root hash s9 (subRegexp, str "sub")
          (by decide) rfl (by decide) (by decide) H9
        refine ⟨s10, Eventually.succ ?_, by omega⟩
        simp only [transformLine2, hb, regexpTags, List.foldl, Res.bind_done]
        exact Eventually.bind h1 (Eventually.bind h2 (Eventually.bind h3 (Eventually.bind h4
          (Eventually.bind h5 (Eventually.bind h6 (Eventually.bind
            (Eventually.bind (Eventually.bind h7 h8) h9) h10))))))

end Textile

namespace Textile

/-! ## The state machine returns -/

theorem State.sameKeys_refl (st : State) : st.sameKeys st := ⟨rfl, rfl⟩

theorem State.sameKeys_trans {a b c : State} (h1 : a.sameKeys b) (h2 : b.sameKeys c) :
    a.sameKeys c := ⟨h2.1.trans h1.1, h2.2.trans h1.2⟩

theorem State.quiet_of_sameKeys {a b : State} (h : a.sameKeys b) (hq : a.quiet) : b.quiet := by
  simpa [State.quiet, h.1, h.2] using hq

theorem State.sameKeys_write (st : State) (x : List Nat) : st.sameKeys (st.write x) := ⟨rfl, rfl⟩

theorem State.sameKeys_checkBlockQuote (st : State) : st.sameKeys st.checkBlockQuote := by
  unfold State.checkBlockQuote
  split
  · split <;> exact ⟨rfl, rfl⟩
  · exact ⟨rfl, rfl⟩

theorem State.sameKeys_checkPre (st : State) : st.sameKeys st.checkPre := by
  unfold State.checkPre
  split <;> exact ⟨rfl, rfl⟩

theorem State.sameKeys_checkCode (st : State) : st.sameKeys st.checkCode := by
  unfold State.checkCode
  split <;> exact ⟨rfl, rfl⟩

theorem State.sameKeys_closeLists : ∀ (n : Nat) (st : State), st.sameKeys (State.closeLists n st) := by
  intro n
  induction n with
  | zero => intro st; exact ⟨rfl, rfl⟩
  | succ n ih =>
    intro st
    simp only [State.closeLists]
    exact State.sameKeys_trans ⟨rfl, rfl⟩ (ih _)

theorem State.sameKeys_clearListLevels (st : State) : st.sameKeys st.clearListLevels := by
  unfold State.clearListLevels
  split
  · exact State.sameKeys_trans (State.sameKeys_closeLists _ st) ⟨rfl, rfl⟩
  · exact ⟨rfl, rfl⟩

theorem State.sameKeys_checks (st : State) : st.sameKeys st.checkBlockQuote.checkPre.checkCode :=
  State.sameKeys_trans (State.sameKeys_trans (State.sameKeys_checkBlockQuote st)
    (State.sameKeys_checkPre _)) (State.sameKeys_checkCode _)

theorem State.sameKeys_checkAll (st : State) : st.sameKeys st.checkAll :=
  State.sameKeys_trans (State.sameKeys_checks st) (State.sameKeys_clearListLevels _)

theorem State.transformLine_settles (st : State) (hq : st.quiet) (s : List Nat) :
    ∃ t, Eventually (fun n => st.transformLine n s) t := by
  obtain ⟨r, hr, _⟩ := transformLine2_settles st.root_url st.hash hq.1 hq.2 s
  exact ⟨unescapeParts r, Eventually.bind hr (Eventually.pure _)⟩

end Textile

namespace Textile

theorem settles_transform {α : Type} (st : State) (hq : st.quiet) (s : List Nat)
    (f : List Nat → α) :
    ∃ t, Eventually (fun n => (st.transformLine n s).bind fun t => .done (f t)) (f t) := by
  obtain ⟨t, ht⟩ := st.transformLine_settles hq s
  exact ⟨t, Eventually.bind ht (Eventually.pure _)⟩

theorem blockQuoteHandler_settles (st : State) (hq : st.quiet) (args : List (List Nat)) :
    ∃ p, Eventually (fun n => blockQuoteHandler n st args) p ∧ st.sameKeys p.1 := by
  have hk := State.sameKeys_checks st
  simp only [blockQuoteHandler]
  obtain ⟨t, ht⟩ := settles_transform _ (State.quiet_of_sameKeys
    (State.sameKeys_trans hk ⟨rfl, rfl⟩) hq) _ _
  refine ⟨_, ht, ?_⟩
  simp only
  split <;> exact State.sameKeys_trans hk ⟨rfl, rfl⟩

theorem paragraphHandler_settles (st : State) (hq : st.quiet) (args : List (List Nat)) :
    ∃ p, Eventually (fun n => paragraphHandler n st args) p ∧ st.sameKeys p.1 := by
  have hk := State.sameKeys_checks st
  simp only [paragraphHandler]
  obtain ⟨t, ht⟩ := settles_transform _ (State.quiet_of_sameKeys
    (State.sameKeys_trans hk ⟨rfl, rfl⟩) hq) _ _
  exact ⟨_, ht, State.sameKeys_trans hk ⟨rfl, rfl⟩⟩

theorem headingHandler_settles (st : State) (hq : st.quiet) (args : List (List Nat)) :
    ∃ p, Eventually (fun n => headingHandler n st args) p ∧ st.sameKeys p.1 := by
  have hk := State.sameKeys_checks st
  simp only [headingHandler]
  obtain ⟨t, ht⟩ := settles_transform _ (State.quiet_of_sameKeys
    (State.sameKeys_trans hk ⟨rfl, rfl⟩) hq) _ _
  exact ⟨_, ht, State.sameKeys_trans hk ⟨rfl, rfl⟩⟩

theorem footnoteHandler_settles (st : State) (hq : st.quiet) (args : List (List Nat)) :
    ∃ p, Eventually (fun n => footnoteHandler n st args) p ∧ st.sameKeys p.1 := by
  have hk := State.sameKeys_checks st
  simp only [footnoteHandler]
  obtain ⟨t, ht⟩ := settles_transform _ (State.quiet_of_sameKeys
    (State.sameKeys_trans hk ⟨rfl, rfl⟩) hq) _ _
  exact ⟨_, ht, State.sameKeys_trans hk ⟨rfl, rfl⟩⟩

theorem preHandler_settles (st : State) (args : List (List Nat)) :
    ∃ p, preHandler st args = .done p ∧ st.sameKeys p.1 := by
  have hk := State.sameKeys_checks st
  obtain ⟨o, ho, _⟩ := EntityEscape_done (arg args 3) false true (Or.inl rfl)
  simp only [preHandler, EntityEscapeString, ho, Res.bind_done]
  exact ⟨_, rfl, State.sameKeys_trans hk ⟨rfl, rfl⟩⟩

theorem codeHandler_settles (st : State) (args : List (List Nat)) :
    ∃ p, codeHandler st args = .done p ∧ st.sameKeys p.1 := by
  have hk := State.sameKeys_checks st
  obtain ⟨o, ho, _⟩ := EntityEscape_done (arg args 3) true false (Or.inr rfl)
  simp only [codeHandler, EntityEscapeString, ho, Res.bind_done]
  exact ⟨_, rfl, State.sameKeys_trans hk ⟨rfl, rfl⟩⟩

theorem listHandler_settles (st : State) (hq : st.quiet) (args : List (List Nat)) :
    ∃ p, Eventually (fun n => listHandler n st args) p ∧ st.sameKeys p.1 := by
  have hk1 : st.sameKeys st.checkBlockQuote.checkPre :=
    State.sameKeys_trans (State.sameKeys_checkBlockQuote st) (State.sameKeys_checkPre _)
  have hk := State.sameKeys_checks st
  simp only [listHandler]
  by_cases hc : st.checkBlockQuote.checkPre.inCode = true
  · simp only [hc, if_true]
    exact ⟨_, Eventually.pure _, hk1⟩
  · simp only [hc, Bool.false_eq_true, if_false]
    obtain ⟨t, ht⟩ := settles_transform _ (State.quiet_of_sameKeys
      (State.sameKeys_trans hk (show State.sameKeys _
        { (if (arg args 1).getD 0 0 = '*'.toNat then
            { st.checkBlockQuote.checkPre.checkCode with listType := str "ul" }
          else { st.checkBlockQuote.checkPre.checkCode with listType := str "ol" }) with
          currentClassPart := classPart (arg args 2) } from by
        split <;> exact ⟨rfl, rfl⟩)) hq) _ _
    refine ⟨_, ht, ?_⟩
    simp only
    refine State.sameKeys_trans hk ?_
    have hcl := fun n st => State.sameKeys_closeLists n st
    simp only [State.sameKeys] at hcl ⊢
    split_ifs <;> simp [State.write, hcl]

end Textile

namespace Textile

theorem runHandlers_settles (st : State) (hq : st.quiet) (s : List Nat) :
    ∃ p, Eventually (fun n => runHandlers st s (blockHandlers n)) p ∧ st.sameKeys p.1 := by
  simp only [blockHandlers, runHandlers]
  cases h1 : blockQuoteRegexp.FindStringSubmatch s with
  | some a => exact blockQuoteHandler_settles st hq a
  | none =>
  cases h2 : preRegexp.FindStringSubmatch s with
  | some a =>
    obtain ⟨p, hp, hk⟩ := preHandler_settles st a
    exact ⟨p, Eventually.of_eq _ _ hp, hk⟩
  | none =>
  cases h3 : codeRegexp.FindStringSubmatch s with
  | some a =>
    obtain ⟨p, hp, hk⟩ := codeHandler_settles st a
    exact ⟨p, Eventually.of_eq _ _ hp, hk⟩
  | none =>
  cases h4 : paragraphRegexp.FindStringSubmatch s with
  | some a => exact paragraphHandler_settles st hq a
  | none =>
  cases h5 : headingRegexp.FindStringSubmatch s with
  | some a => exact headingHandler_settles st hq a
  | none =>
  cases h6 : footnoteRegexp.FindStringSubmatch s with
  | some a => exact footnoteHandler_settles st hq a
  | none =>
  cases h7 : listRegexp.FindStringSubmatch s with
  | some a => exact listHandler_settles st hq a
  | none => exact ⟨(st, false), Eventually.pure _, State.sameKeys_refl st⟩

theorem State.step_settles (st : State) (hq : st.quiet) (hex : st.exclusive) (s : List Nat) :
    ∃ st2, Eventually (fun n => st.step n s) st2 ∧ st.sameKeys st2 ∧ st2.exclusive := by
  suffices h : ∃ st2, Eventually (fun n => st.step n s) st2 ∧ st.sameKeys st2 by
    obtain ⟨st2, h1, h2⟩ := h
    obtain ⟨n, hn⟩ := h1
    exact ⟨st2, ⟨n, hn⟩, h2, (State.step_safe n st s hex).2 st2 (hn n (le_refl n))⟩
  by_cases hblank : s.length = 0 ∧ (!st.inLongBlockQuote) = true ∧ (!st.inLongPre) = true ∧
      (!st.inLongCode) = true
  · refine ⟨st.checkAll, ?_, State.sameKeys_checkAll st⟩
    simp only [State.step, hblank, and_self, if_true]
    exact Eventually.pure _
  · obtain ⟨p, hp, hk⟩ := runHandlers_settles st hq s
    have hpex : p.1.exclusive := by
      obtain ⟨n, hn⟩ := hp
      exact (runHandlers_safe n st s hex).2 p (hn n (le_refl n))
    have hq2 : p.1.clearListLevels.quiet :=
      State.quiet_of_sameKeys (State.sameKeys_trans hk (State.sameKeys_clearListLevels _)) hq
    have hk2 : st.sameKeys p.1.clearListLevels :=
      State.sameKeys_trans hk (State.sameKeys_clearListLevels _)
    simp only [State.step, hblank, if_false]
    by_cases h2 : p.2 = true
    · refine ⟨p.1, Eventually.bind hp ?_, hk⟩
      simp only [h2, if_true]
      exact Eventually.pure _
    by_cases h3 : p.1.inPre = true ∨ p.1.inCode = true
    · obtain ⟨o, ho, _⟩ := EntityEscape_done s p.1.inCode p.1.inPre (by
        by_contra hc
        simp only [not_or, Bool.not_eq_false] at hc
        exact hpex hc)
      refine ⟨p.1.write (o ++ str "\n"), Eventually.bind hp ?_, State.sameKeys_trans hk ⟨rfl, rfl⟩⟩
      simp only [h2, Bool.false_eq_true, if_false, h3, if_true, EntityEscapeString, ho,
        Res.bind_done]
      exact Eventually.pure _
    by_cases h4 : (!(linkRegexp.MatchString s || titleLinkRegexp.MatchString s) &&
        (imgRegexp.MatchString s || altImgRegexp.MatchString s)) = true
    · obtain ⟨t, ht⟩ := settles_transform p.1.clearListLevels hq2 s
        (fun t => p.1.clearListLevels.write t)
      refine ⟨p.1.clearListLevels.write t, Eventually.bind hp ?_,
        State.sameKeys_trans hk2 ⟨rfl, rfl⟩⟩
      simp only [h2, Bool.false_eq_true, if_false, h3, h4, if_true]
      exact ht
    by_cases h5 : p.1.clearListLevels.inBlockQuote = true
    · by_cases h6 : (!p.1.clearListLevels.inLongBlockQuote) = true
      · obtain ⟨t, ht⟩ := settles_transform p.1.clearListLevels hq2 s
          (fun t => p.1.clearListLevels.write (str "<br>" ++ t))
        refine ⟨p.1.clearListLevels.write (str "<br>" ++ t), Eventually.bind hp ?_,
          State.sameKeys_trans hk2 ⟨rfl, rfl⟩⟩
        simp only [h2, Bool.false_eq_true, if_false, h3, h4, h5, h6, if_true]
        exact ht
      by_cases h7 : s.length ≠ 0
      · obtain ⟨t, ht⟩ := settles_transform p.1.clearListLevels hq2 s
          (fun t => p.1.clearListLevels.write
            (str "<p" ++ p.1.clearListLevels.currentClassPart ++ str ">" ++ t ++ str "</p>"))
        refine ⟨p.1.clearListLevels.write
          (str "<p" ++ p.1.clearListLevels.currentClassPart ++ str ">" ++ t ++ str "</p>"),
          Eventually.bind hp ?_, State.sameKeys_trans hk2 ⟨rfl, rfl⟩⟩
        simp only [h2, Bool.false_eq_true, if_false, h3, h4, h5, h6, if_pos h7, if_true]
        exact ht
      · refine ⟨p.1.clearListLevels, Eventually.bind hp ?_, hk2⟩
        simp only [h2, Bool.false_eq_true, if_false, h3, h4, h5, h6, if_neg h7, if_true]
        exact Eventually.pure _
    · obtain ⟨t, ht⟩ := settles_transform p.1.clearListLevels hq2 s
        (fun t => p.1.clearListLevels.write (str "<p>" ++ t ++ str "</p>"))
      refine ⟨p.1.clearListLevels.write (str "<p>" ++ t ++ str "</p>"), Eventually.bind hp ?_,
        State.sameKeys_trans hk2 ⟨rfl, rfl⟩⟩
      simp only [h2, Bool.false_eq_true, if_false, h3, h4, h5, if_true]
      exact ht

theorem State.run_settles :
    ∀ (ls : List (List Nat)) (st : State), st.quiet → st.exclusive →
      ∃ st2, Eventually (fun n => st.run n ls) st2 := by
  intro ls
  induction ls with
  | nil => intro st _ _; exact ⟨st, Eventually.pure _⟩
  | cons l ls ih =>
    intro st hq hex
    obtain ⟨st1, h1, hk, hex1⟩ := st.step_settles hq hex l
    obtain ⟨st2, h2⟩ := ih st1 (State.quiet_of_sameKeys hk hq) hex1
    exact ⟨st2, Eventually.bind h1 h2⟩

/-- With a root URL without delimiters the formatter returns. -/
theorem formatter_settles (root b : List Nat) (hroot : delims root = 0) :
    ∃ out, Eventually (fun n => formatter n root b) out := by
  obtain ⟨st, hst⟩ := State.run_settles (splitLines b []) (initialState root)
    ⟨hroot, (by decide : delims emptyHash = 0)⟩ (by simp [State.exclusive, initialState])
  obtain ⟨o, ho, _⟩ := EntityEscape_done st.checkAll.clearListLevels.w false true (Or.inl rfl)
  refine ⟨o, Eventually.bind (Eventually.bind hst (Eventually.pure _)) (Eventually.of_eq _ _ ho)⟩

end Textile

namespace Textile

/-! ## Counting marks -/

@[simp] theorem marks_nil : marks [] = 0 := rfl

@[simp] theorem marks_append (a b : List Nat) : marks (a ++ b) = marks a + marks b := by
  simp [marks, List.countP_append]

theorem marks_cons (c : Nat) (cs : List Nat) :
    marks (c :: cs) = (if isMark c then 1 else 0) + marks cs := by
  simp only [marks, List.countP_cons]
  omega

theorem rootMarks_append (a b : List Nat) : rootMarks (a ++ b) = rootMarks a + rootMarks b := by
  simp [rootMarks, List.countP_append]

theorem rootMarks_le_marks (s : List Nat) : rootMarks s ≤ marks s := by
  apply List.countP_mono_left
  intro x _ hx
  simp only [isRootMark, List.contains_eq_any_beq, List.any_cons, List.any_nil, Bool.or_false,
    Bool.or_eq_true, beq_iff_eq] at hx
  simp only [isMark, List.contains_eq_any_beq, List.any_cons, List.any_nil, Bool.or_false,
    Bool.or_eq_true, beq_iff_eq]
  omega

/-- The escaper brings no character of a kind that its entities do not hold. -/
theorem scan_countP (q : Nat → Bool) (ea sq : Bool)
    (h1 : esc_lt.countP q = 0) (h2 : esc_gt.countP q = 0) (h3 : esc_quote.countP q = 0)
    (h4 : esc_lquote.countP q = 0) (h5 : esc_rquote.countP q = 0)
    (h6 : esc_elipses.countP q = 0) (h7 : esc_amp.countP q = 0) :
    ∀ (cs : List Nat) (k i : Nat) (t : Bool) (fc : Int) (o : List Nat),
      scan ea sq cs k i t fc = some o → o.countP q ≤ cs.countP q := by
  intro cs
  induction cs with
  | nil => intro k i t fc o h; simp [scan] at h; simp [← h]
  | cons c cs ih =>
    intro k i t fc o h
    have hle : cs.countP q ≤ (c :: cs).countP q := by
      rw [List.countP_cons]; omega
    cases k with
    | succ k =>
      simp only [scan] at h
      exact le_trans (ih _ _ _ _ _ h) hle
    | zero =>
      simp only [scan] at h
      split_ifs at h <;>
        first
          | (simp at h; done)
          | (simp only [Option.map_eq_some'] at h
             obtain ⟨o2, hh, rfl⟩ := h
             have := ih _ _ _ _ _ hh
             try simp only [List.countP_append, h1, h2, h3, h4, h5, h6, h7]
             first
               | omega
               | (rw [List.countP_cons, List.countP_cons]; omega))

theorem replaceAll_marks (new : List Nat) (hnew : marks new = 0) :
    ∀ (s : List Nat), marks (replaceAll [95] new s 0) ≤ rootMarks s := by
  intro s
  induction s with
  | nil => simp [replaceAll]
  | cons c cs ih =>
    simp only [replaceAll]
    by_cases hc : c = 95
    · subst hc
      have hp : List.isPrefixOf [95] (95 :: cs) = true := by simp [List.isPrefixOf]
      rw [if_pos hp, marks_append, hnew]
      simp only [List.length_singleton, Nat.sub_self, Nat.zero_add]
      have : rootMarks (95 :: cs) = rootMarks cs := by
        simp [rootMarks, List.countP_cons, isRootMark]
      rw [this]
      exact ih
    · have hp : List.isPrefixOf [95] (c :: cs) = false := by
        simp [List.isPrefixOf, Ne.symm hc]
      rw [hp]
      simp only [Bool.false_eq_true, if_false]
      have e : isMark c = isRootMark c := by
        simp only [isMark, isRootMark, List.contains_eq_any_beq, List.any_cons, List.any_nil,
          Bool.or_false, beq_iff_eq]
        have : (c == 95) = false := by simpa using hc
        simp [this]
      rw [marks_cons, e]
      have : rootMarks (c :: cs) = (if isRootMark c then 1 else 0) + rootMarks cs := by
        simp only [rootMarks, List.countP_cons]
        omega
      rw [this]
      omega

theorem escapeParts_marks (s o : List Nat) (h : escapeParts s = .done o) :
    marks o ≤ rootMarks s := by
  obtain ⟨o1, h1, h2⟩ := EntityEscape_done s false false (Or.inl rfl)
  have hd := scan_countP isRootMark false false (by decide) (by decide) (by decide) (by decide)
    (by decide) (by decide) (by decide) s 0 0 false (-1) o1 h2
  simp only [escapeParts, EntityEscapeString, h1, Res.bind_done, replacements, List.foldl,
    Res.done.injEq] at h
  rw [← h]
  have e : str "_" = [95] := by decide
  rw [e]
  exact le_trans (replaceAll_marks _ (by decide) o1) hd

theorem maybeAddRoot_rootMarks (root url : List Nat) (h : rootMarks root = 0) :
    rootMarks (maybeAddRoot root url) = rootMarks url := by
  unfold maybeAddRoot
  split <;> simp [h, rootMarks_append]

theorem escapeParts_mild (root url : List Nat) (hroot : rootMarks root = 0) :
    ∃ u, escapeParts (maybeAddRoot root url) = .done u ∧ marks u ≤ marks url := by
  obtain ⟨u, hu⟩ := escapeParts_done (maybeAddRoot root url)
  refine ⟨u, hu, ?_⟩
  have := escapeParts_marks _ _ hu
  rw [maybeAddRoot_rootMarks root url hroot] at this
  exact le_trans this (rootMarks_le_marks url)

theorem digitChar_not_mark (d : Nat) (h : d < 10) : isMark (Nat.digitChar d).toNat = false := by
  interval_cases d <;> decide

theorem toDigitsCore_marks :
    ∀ (fuel n : Nat) (ds : List Char), marks (ds.map Char.toNat) = 0 →
      marks ((Nat.toDigitsCore 10 fuel n ds).map Char.toNat) = 0 := by
  intro fuel
  induction fuel with
  | zero => intro n ds h; simpa [Nat.toDigitsCore] using h
  | succ f ih =>
    intro n ds h
    have hd : marks (((n % 10).digitChar :: ds).map Char.toNat) = 0 := by
      rw [List.map_cons, marks_cons, digitChar_not_mark _ (Nat.mod_lt _ (by decide)), h]
      simp
    simp only [Nat.toDigitsCore]
    split
    · exact hd
    · exact ih _ _ hd

theorem decimal_marks (n : Nat) : marks (decimal n) = 0 :=
  toDigitsCore_marks _ _ [] (by simp)

/-- The anchor of a footnote reference holds the two quotes of its title. -/
theorem footnoteAnchor_marks (hash : List Nat) (n : Nat) (h : marks hash = 0) :
    marks (footnoteAnchor hash n) = 2 := by
  have e1 : marks (str "<a id=fnr") = 0 := by decide
  have e2 : marks (str "-") = 0 := by decide
  have e3 : marks (str " href=#fn") = 0 := by decide
  have e4 : marks (str " title=\"Jump to footnote ") = 1 := by decide
  have e5 : marks (str "\"><sup class=footnote>") = 1 := by decide
  have e6 : marks (str "</sup></a>") = 0 := by decide
  simp [footnoteAnchor, decimal_marks, h, e1, e2, e3, e4, e5, e6]

end Textile

namespace Textile

/-! ## The marks of the pieces of a match -/

/-- The captures of a pattern with three groups that takes `k` marks. -/
theorem marks_pieces3 (r : Regexp) (s : List Nat) (a : List (List Nat))
    (h : r.FindStringSubmatch s = some a) (hf : r.re.flat = true) (hg : r.groups = 3) (k : Nat)
    (hl : k ≤ r.re.least isMark (fun i => i != 0)) :
    marks (arg a 1) + marks (arg a 2) + marks (arg a 3) + k ≤ marks s := by
  obtain ⟨h1, h2⟩ := Regexp.pieces isMark (fun i => i != 0) r s a h hf (by decide)
  rw [hg] at h1
  rw [caps_of_length_4 a h1] at h2
  simp only [capsCount, bne_self_eq_false, Bool.false_eq_true, if_false] at h2
  simp only [marks]
  have e1 : ((0 + 1 != 0) = true) := by decide
  have e2 : ((0 + 1 + 1 != 0) = true) := by decide
  have e3 : ((0 + 1 + 1 + 1 != 0) = true) := by decide
  simp only [e1, e2, e3, if_true] at h2
  omega

/-- The captures of a pattern with four groups that takes `k` marks. -/
theorem marks_pieces4 (r : Regexp) (s : List Nat) (a : List (List Nat))
    (h : r.FindStringSubmatch s = some a) (hf : r.re.flat = true) (hg : r.groups = 4) (k : Nat)
    (hl : k ≤ r.re.least isMark (fun i => i != 0)) :
    marks (arg a 1) + marks (arg a 2) + marks (arg a 3) + marks (arg a 4) + k ≤ marks s := by
  obtain ⟨h1, h2⟩ := Regexp.pieces isMark (fun i => i != 0) r s a h hf (by decide)
  rw [hg] at h1
  rw [caps_of_length_5 a h1] at h2
  simp only [capsCount, bne_self_eq_false, Bool.false_eq_true, if_false] at h2
  simp only [marks]
  have e1 : ((0 + 1 != 0) = true) := by decide
  have e2 : ((0 + 1 + 1 != 0) = true) := by decide
  have e3 : ((0 + 1 + 1 + 1 != 0) = true) := by decide
  have e4 : ((0 + 1 + 1 + 1 + 1 != 0) = true) := by decide
  simp only [e1, e2, e3, e4, if_true] at h2
  omega

/-- The captures of a pattern with five groups that takes `k` marks. -/
theorem marks_pieces5 (r : Regexp) (s : List Nat) (a : List (List Nat))
    (h : r.FindStringSubmatch s = some a) (hf : r.re.flat = true) (hg : r.groups = 5) (k : Nat)
    (hl : k ≤ r.re.least isMark (fun i => i != 0)) :
    marks (arg a 1) + marks (arg a 2) + marks (arg a 3) + marks (arg a 4) +
      marks (arg a 5) + k ≤ marks s := by
  obtain ⟨h1, h2⟩ := Regexp.pieces isMark (fun i => i != 0) r s a h hf (by decide)
  rw [hg] at h1
  rw [caps_of_length_6 a h1] at h2
  simp only [capsCount, bne_self_eq_false, Bool.false_eq_true, if_false] at h2
  simp only [marks]
  have e1 : ((0 + 1 != 0) = true) := by decide
  have e2 : ((0 + 1 + 1 != 0) = true) := by decide
  have e3 : ((0 + 1 + 1 + 1 != 0) = true) := by decide
  have e4 : ((0 + 1 + 1 + 1 + 1 != 0) = true) := by decide
  have e5 : ((0 + 1 + 1 + 1 + 1 + 1 != 0) = true) := by decide
  simp only [e1, e2, e3, e4, e5, if_true] at h2
  omega

/-! ## Enough fuel with a root URL that has a colon -/

theorem quoteLinkStep_rests (root hash s : List Nat) (hroot : rootMarks root = 0)
    (H : ∀ c, marks c < marks s → Rests root hash c) :
    ∃ out, Eventually (fun n => quoteLinkStep root (transformLine2 root hash n) s) out ∧
      marks out ≤ marks s := by
  cases h : quoteLinkRegexp.FindStringSubmatch s with
  | none => exact ⟨s, by simp only [quoteLinkStep, h]; exact Eventually.pure s, le_refl _⟩
  | some a =>
    have hp := marks_pieces4 quoteLinkRegexp s a h (by decide) rfl 4 (by decide)
    obtain ⟨x, hx, dx⟩ := H (arg a 1) (by omega)
    obtain ⟨t, ht, dt⟩ := H (arg a 2) (by omega)
    obtain ⟨y, hy, dy⟩ := H (arg a 4) (by omega)
    obtain ⟨u, hu, du⟩ := escapeParts_mild root (arg a 3) hroot
    have e1 : marks (str "<a href=\"") = 1 := by decide
    have e2 : marks (str "\">") = 1 := by decide
    have e3 : marks (str "</a>") = 0 := by decide
    refine ⟨x ++ str "<a href=\"" ++ u ++ str "\">" ++ t ++ str "</a>" ++ y, ?_, ?_⟩
    · simp only [quoteLinkStep, h]
      exact Eventually.bind hx (Eventually.bind (Eventually.of_eq _ _ hu)
        (Eventually.bind ht (Eventually.bind hy (Eventually.pure _))))
    · simp only [marks_append, e1, e2, e3]
      omega

theorem titleLinkStep_rests (root hash s : List Nat) (hroot : rootMarks root = 0)
    (H : ∀ c, marks c < marks s → Rests root hash c) :
    ∃ out, Eventually (fun n => titleLinkStep root (transformLine2 root hash n) s) out ∧
      marks out ≤ marks s := by
  cases h : titleLinkRegexp.FindStringSubmatch s with
  | none => exact ⟨s, by simp only [titleLinkStep, h]; exact Eventually.pure s, le_refl _⟩
  | some a =>
    have hp := marks_pieces5 titleLinkRegexp s a h (by decide) rfl 4 (by decide)
    obtain ⟨x, hx, dx⟩ := H (arg a 1) (by omega)
    obtain ⟨ti, hti, dti⟩ := H (arg a 3) (by omega)
    obtain ⟨t, ht, dt⟩ := H (arg a 2) (by omega)
    obtain ⟨y, hy, dy⟩ := H (arg a 5) (by omega)
    obtain ⟨u, hu, du⟩ := escapeParts_mild root (arg a 4) hroot
    have e1 : marks (str "<a href=\"") = 1 := by decide
    have e2 : marks (str "\">") = 1 := by decide
    have e3 : marks (str "</a>") = 0 := by decide
    have e4 : marks (str "\" title=\"") = 2 := by decide
    refine ⟨x ++ str "<a href=\"" ++ u ++ str "\" title=\"" ++ ti ++ str "\">" ++ t ++
      str "</a>" ++ y, ?_, ?_⟩
    · simp only [titleLinkStep, h]
      exact Eventually.bind hx (Eventually.bind (Eventually.of_eq _ _ hu)
        (Eventually.bind hti (Eventually.bind ht (Eventually.bind hy (Eventually.pure _)))))
    · simp only [marks_append, e1, e2, e3, e4]
      omega

theorem linkStep_rests (root hash s : List Nat) (hroot : rootMarks root = 0)
    (H : ∀ c, marks c < marks s → Rests root hash c) :
    ∃ out, Eventually (fun n => linkStep root (transformLine2 root hash n) s) out ∧
      marks out ≤ marks s := by
  cases h : linkRegexp.FindStringSubmatch s with
  | none => exact ⟨s, by simp only [linkStep, h]; exact Eventually.pure s, le_refl _⟩
  | some a =>
    have hp := marks_pieces4 linkRegexp s a h (by decide) rfl 2 (by decide)
    obtain ⟨x, hx, dx⟩ := H (arg a 1) (by omega)
    obtain ⟨t, ht, dt⟩ := H (arg a 2) (by omega)
    obtain ⟨y, hy, dy⟩ := H (arg a 4) (by omega)
    obtain ⟨u, hu, du⟩ := escapeParts_mild root (arg a 3) hroot
    have e1 : marks (str "<a href=\"") = 1 := by decide
    have e2 : marks (str "\">") = 1 := by decide
    have e3 : marks (str "</a>") = 0 := by decide
    refine ⟨x ++ str "<a href=\"" ++ u ++ str "\">" ++ t ++ str "</a>" ++ y, ?_, ?_⟩
    · simp only [linkStep, h]
      exact Eventually.bind hx (Eventually.bind (Eventually.of_eq _ _ hu)
        (Eventually.bind ht (Eventually.bind hy (Eventually.pure _))))
    · simp only [marks_append, e1, e2, e3]
      omega

theorem imgStep_rests (root hash s : List Nat) (hroot : rootMarks root = 0)
    (H : ∀ c, marks c < marks s → Rests root hash c) :
    ∃ out, Eventually (fun n => imgStep root (transformLine2 root hash n) s) out ∧
      marks out ≤ marks s := by
  cases h : imgRegexp.FindStringSubmatch s with
  | none => exact ⟨s, by simp only [imgStep, h]; exact Eventually.pure s, le_refl _⟩
  | some a =>
    have hp := marks_pieces3 imgRegexp s a h (by decide) rfl 2 (by decide)
    obtain ⟨x, hx, dx⟩ := H (arg a 1) (by omega)
    obtain ⟨y, hy, dy⟩ := H (arg a 3) (by omega)
    obtain ⟨u, hu, du⟩ := escapeParts_mild root (arg a 2) hroot
    have e1 : marks (str "<img src=\"") = 1 := by decide
    have e2 : marks (str "\">") = 1 := by decide
    refine ⟨x ++ str "<img src=\"" ++ u ++ str "\">" ++ y, ?_, ?_⟩
    · simp only [imgStep, h]
      exact Eventually.bind hx (Eventually.bind (Eventually.of_eq _ _ hu)
        (Eventually.bind hy (Eventually.pure _)))
    · simp only [marks_append, e1, e2]
      omega

theorem altImgStep_rests (root hash s : List Nat) (hroot : rootMarks root = 0)
    (H : ∀ c, marks c < marks s → Rests root hash c) :
    ∃ out, Eventually (fun n => altImgStep root (transformLine2 root hash n) s) out ∧
      marks out ≤ marks s := by
  cases h : altImgRegexp.FindStringSubmatch s with
  | none => exact ⟨s, by simp only [altImgStep, h]; exact Eventually.pure s, le_refl _⟩
  | some a =>
    have hp := marks_pieces4 altImgRegexp s a h (by decide) rfl 4 (by decide)
    obtain ⟨x, hx, dx⟩ := H (arg a 1) (by omega)
    obtain ⟨alt, halt, dalt⟩ := H (arg a 3) (by omega)
    obtain ⟨y, hy, dy⟩ := H (arg a 4) (by omega)
    obtain ⟨u, hu, du⟩ := escapeParts_mild root (arg a 2) hroot
    obtain ⟨o, ho⟩ := escapeParts_done
      (x ++ str "<img src=\"" ++ u ++ str "\" alt=\"" ++ alt ++ str "\">" ++ y)
    have hd := le_trans (escapeParts_marks _ _ ho) (rootMarks_le_marks _)
    have e1 : marks (str "<img src=\"") = 1 := by decide
    have e2 : marks (str "\">") = 1 := by decide
    have e3 : marks (str "\" alt=\"") = 2 := by decide
    refine ⟨o, ?_, ?_⟩
    · simp only [altImgStep, h]
      exact Eventually.bind hx (Eventually.bind (Eventually.of_eq _ _ hu)
        (Eventually.bind halt (Eventually.bind hy (Eventually.of_eq _ _ ho))))
    · simp only [marks_append, e1, e2, e3] at hd
      omega

theorem footnoteRefStep_rests (root hash s : List Nat) (hhash : marks hash = 0)
    (H : ∀ c, marks c < marks s → Rests root hash c) :
    ∃ out, Eventually (fun n => footnoteRefStep hash (transformLine2 root hash n) s) out ∧
      marks out ≤ marks s := by
  cases h : footnoteRefRegexp.FindStringSubmatch s with
  | none => exact ⟨s, by simp only [footnoteRefStep, h]; exact Eventually.pure s, le_refl _⟩
  | some a =>
    have hp := marks_pieces3 footnoteRefRegexp s a h (by decide) rfl 2 (by decide)
    obtain ⟨x, hx, dx⟩ := H (arg a 1) (by omega)
    obtain ⟨y, hy, dy⟩ := H (arg a 3) (by omega)
    obtain ⟨u, hu⟩ := escapeParts_done (footnoteAnchor hash (Atoi (arg a 2)))
    have du := le_trans (escapeParts_marks _ _ hu) (rootMarks_le_marks _)
    rw [footnoteAnchor_marks hash _ hhash] at du
    refine ⟨x ++ u ++ y, ?_, ?_⟩
    · simp only [footnoteRefStep, h]
      exact Eventually.bind hx (Eventually.bind (Eventually.of_eq _ _ hu)
        (Eventually.bind hy (Eventually.pure _)))
    · simp only [marks_append]
      omega

theorem tagStep_rests (root hash s : List Nat) (val : Regexp × List Nat)
    (hf : val.1.re.flat = true) (hg : val.1.groups = 3)
    (hl : 1 ≤ val.1.re.least isMark (fun i => i != 0)) (hv : marks val.2 = 0)
    (H : ∀ c, marks c < marks s → Rests root hash c) :
    ∃ out, Eventually (fun n => tagStep (transformLine2 root hash n) s val) out ∧
      marks out ≤ marks s := by
  cases h : val.1.FindStringSubmatch s with
  | none => exact ⟨s, by simp only [tagStep, h]; exact Eventually.pure s, le_refl _⟩
  | some a =>
    have hp := marks_pieces3 val.1 s a h hf hg 1 hl
    obtain ⟨x, hx, dx⟩ := H (arg a 1) (by omega)
    obtain ⟨y, hy, dy⟩ := H (arg a 3) (by omega)
    have e1 : marks (str "<") = 0 := by decide
    have e2 : marks (str ">") = 0 := by decide
    have e3 : marks (str "</") = 0 := by decide
    refine ⟨x ++ str "<" ++ val.2 ++ str ">" ++ arg a 2 ++ str "</" ++ val.2 ++ str ">" ++ y,
      ?_, ?_⟩
    · simp only [tagStep, h]
      exact Eventually.bind hx (Eventually.bind hy (Eventually.pure _))
    · simp only [marks_append, e1, e2, e3, hv]
      omega

end Textile

namespace Textile

/-- The pieces of a bare tag have the marks of the line. -/
theorem bareTag_marks (s : List Nat) (a : List (List Nat))
    (h : bareTagRegexp.FindStringSubmatch s = some a) :
    marks (arg a 1) + marks (arg a 2) + marks (arg a 3) ≤ marks s := by
  have := marks_pieces3 bareTagRegexp s a h (by decide) rfl 0 (Nat.zero_le _)
  omega

/-- With a root URL that has no mark but underscores and a hash without marks, the inline
transformer returns on every line: a call on a piece of a bare-tag match has a shorter
line, every other recursive call a line with fewer marks. -/
theorem transformLine2_rests (root hash : List Nat) (hroot : rootMarks root = 0)
    (hhash : marks hash = 0) : ∀ (s : List Nat), Rests root hash s := by
  suffices h : ∀ (d L : Nat) (s : List Nat), marks s = d → s.length = L → Rests root hash s
    from fun s => h _ _ s rfl rfl
  intro d
  induction d using Nat.strong_induction_on with
  | _ d ih1 =>
    intro L
    induction L using Nat.strong_induction_on with
    | _ L ih2 =>
      intro s hd hL
      have H : ∀ c, marks c < marks s → Rests root hash c :=
        fun c hc => ih1 (marks c) (by omega) c.length c rfl rfl
      cases hb : bareTagRegexp.FindStringSubmatch s with
      | some a =>
        obtain ⟨l1, l3, _⟩ := bareTag_pieces s a hb
        have hsum := bareTag_marks s a hb
        have small : ∀ c, marks c ≤ marks s → c.length < s.length → Rests root hash c := by
          intro c h1 h2
          by_cases hlt : marks c < marks s
          · exact H c hlt
          · exact ih2 c.length (by omega) c (by omega) rfl
        obtain ⟨x, hx, dx⟩ := small (arg a 1) (by omega) l1
        obtain ⟨y, hy, dy⟩ := small (arg a 3) (by omega) l3
        refine ⟨x ++ arg a 2 ++ y, Eventually.succ ?_, ?_⟩
        · simp only [transformLine2, hb]
          exact Eventually.bind hx (Eventually.bind hy (Eventually.pure _))
        · simp only [marks_append]
          omega
      | none =>
        obtain ⟨s1, h1, d1⟩ := quoteLinkStep_rests root hash s hroot H
        have H1 : ∀ c, marks c < marks s1 → Rests root hash c := fun c hc => H c (by omega)
        obtain ⟨s2, h2, d2⟩ := titleLinkStep_rests root hash s1 hroot H1
        have H2 : ∀ c, marks c < marks s2 → Rests root hash c := fun c hc => H c (by omega)
        obtain ⟨s3, h3, d3⟩ := linkStep_rests root hash s2 hroot H2
        have H3 : ∀ c, marks c < marks s3 → Rests root hash c := fun c hc => H c (by omega)
        obtain ⟨s4, h4, d4⟩ := imgStep_rests root hash s3 hroot H3
        have H4 : ∀ c, marks c < marks s4 → Rests root hash c := fun c hc => H c (by omega)
        obtain ⟨s5, h5, d5⟩ := altImgStep_rests root hash s4 hroot H4
        have H5 : ∀ c, marks c < marks s5 → Rests root hash c := fun c hc => H c (by omega)
        obtain ⟨s6, h6, d6⟩ := footnoteRefStep_rests root hash s5 hhash H5
        have H6 : ∀ c, marks c < marks s6 → Rests root hash c := fun c hc => H c (by omega)
        obtain ⟨s7, h7, d7⟩ := tagStep_rests root hash s6 (emphasisRegexp, str "em")
          (by decide) rfl (by decide) (by decide) H6
        have H7 : ∀ c, marks c < marks s7 → Rests root hash c := fun c hc => H c (by omega)
        obtain ⟨s8, h8, d8⟩ := tagStep_rests root hash s7 (strongRegexp, str "strong")
          (by decide) rfl (by decide) (by decide) H7
        have H8 : ∀ c, marks c < marks s8 → Rests root hash c := fun c hc => H c (by omega)
        obtain ⟨s9, h9, d9⟩ := tagStep_rests root hash s8 (supRegexp, str "sup")
          (by decide) rfl (by decide) (by decide) H8
        have H9 : ∀ c, marks c < marks s9 → Rests root hash c := fun c hc => H c (by omega)
        obtain ⟨s10, h10, d10⟩ := tagStep_rests root hash s9 (subRegexp, str "sub")
          (by decide) rfl (by decide) (by decide) H9
        refine ⟨s10, Eventually.succ ?_, by omega⟩
        simp only [transformLine2, hb, regexpTags, List.foldl, Res.bind_done]
        exact Eventually.bind h1 (Eventually.bind h2 (Eventually.bind h3 (Eventually.bind h4
          (Eventually.bind h5 (Eventually.bind h6 (Eventually.bind
            (Eventually.bind (Eventually.bind h7 h8) h9) h10))))))

end Textile

namespace Textile

/-! ## The state machine returns with a root URL that has a colon -/

theorem State.mild_of_sameKeys {a b : State} (h : a.sameKeys b) (hq : a.mild) : b.mild := by
  simpa [State.mild, h.1, h.2] using hq

theorem State.transformLine_rests (st : State) (hq : st.mild) (s : List Nat) :
    ∃ t, Eventually (fun n => st.transformLine n s) t := by
  obtain ⟨r, hr, _⟩ := transformLine2_rests st.root_url st.hash hq.1 hq.2 s
  exact ⟨unescapeParts r, Eventually.bind hr (Eventually.pure _)⟩

theorem rests_transform {α : Type} (st : State) (hq : st.mild) (s : List Nat)
    (f : List Nat → α) :
    ∃ t, Eventually (fun n => (st.transformLine n s).bind fun t => .done (f t)) (f t) := by
  obtain ⟨t, ht⟩ := st.transformLine_rests hq s
  exact ⟨t, Eventually.bind ht (Eventually.pure _)⟩

theorem blockQuoteHandler_rests (st : State) (hq : st.mild) (args : List (List Nat)) :
    ∃ p, Eventually (fun n => blockQuoteHandler n st args) p ∧ st.sameKeys p.1 := by
  have hk := State.sameKeys_checks st
  simp only [blockQuoteHandler]
  obtain ⟨t, ht⟩ := rests_transform _ (State.mild_of_sameKeys
    (State.sameKeys_trans hk ⟨rfl, rfl⟩) hq) _ _
  refine ⟨_, ht, ?_⟩
  simp only
  split <;> exact State.sameKeys_trans hk ⟨rfl, rfl⟩

theorem paragraphHandler_rests (st : State) (hq : st.mild) (args : List (List Nat)) :
    ∃ p, Eventually (fun n => paragraphHandler n st args) p ∧ st.sameKeys p.1 := by
  have hk := State.sameKeys_checks st
  simp only [paragraphHandler]
  obtain ⟨t, ht⟩ := rests_transform _ (State.mild_of_sameKeys
    (State.sameKeys_trans hk ⟨rfl, rfl⟩) hq) _ _
  exact ⟨_, ht, State.sameKeys_trans hk ⟨rfl, rfl⟩⟩

theorem headingHandler_rests (st : State) (hq : st.mild) (args : List (List Nat)) :
    ∃ p, Eventually (fun n => headingHandler n st args) p ∧ st.sameKeys p.1 := by
  have hk := State.sameKeys_checks st
  simp only [headingHandler]
  obtain ⟨t, ht⟩ := rests_transform _ (State.mild_of_sameKeys
    (State.sameKeys_trans hk ⟨rfl, rfl⟩) hq) _ _
  exact ⟨_, ht, State.sameKeys_trans hk ⟨rfl, rfl⟩⟩

theorem footnoteHandler_rests (st : State) (hq : st.mild) (args : List (List Nat)) :
    ∃ p, Eventually (fun n => footnoteHandler n st args) p ∧ st.sameKeys p.1 := by
  have hk := State.sameKeys_checks st
  simp only [footnoteHandler]
  obtain ⟨t, ht⟩ := rests_transform _ (State.mild_of_sameKeys
    (State.sameKeys_trans hk ⟨rfl, rfl⟩) hq) _ _
  exact ⟨_, ht, State.sameKeys_trans hk ⟨rfl, rfl⟩⟩

theorem listHandler_rests (st : State) (hq : st.mild) (args : List (List Nat)) :
    ∃ p, Eventually (fun n => listHandler n st args) p ∧ st.sameKeys p.1 := by
  have hk1 : st.sameKeys st.checkBlockQuote.checkPre :=
    State.sameKeys_trans (State.sameKeys_checkBlockQuote st) (State.sameKeys_checkPre _)
  have hk := State.sameKeys_checks st
  simp only [listHandler]
  by_cases hc : st.checkBlockQuote.checkPre.inCode = true
  · simp only [hc, if_true]
    exact ⟨_, Eventually.pure _, hk1⟩
  · simp only [hc, Bool.false_eq_true, if_false]
    obtain ⟨t, ht⟩ := rests_transform _ (State.mild_of_sameKeys
      (State.sameKeys_trans hk (show State.sameKeys _
        { (if (arg args 1).getD 0 0 = '*'.toNat then
            { st.checkBlockQuote.checkPre.checkCode with listType := str "ul" }
          else { st.checkBlockQuote.checkPre.checkCode with listType := str "ol" }) with
          currentClassPart := classPart (arg args 2) } from by
        split <;> exact ⟨rfl, rfl⟩)) hq) _ _
    refine ⟨_, ht, ?_⟩
    simp only
    refine State.sameKeys_trans hk ?_
    have hcl := fun n st => State.sameKeys_closeLists n st
    simp only [State.sameKeys] at hcl ⊢
    split_ifs <;> simp [State.write, hcl]

theorem runHandlers_rests (st : State) (hq : st.mild) (s : List Nat) :
    ∃ p, Eventually (fun n => runHandlers st s (blockHandlers n)) p ∧ st.sameKeys p.1 := by
  simp only [blockHandlers, runHandlers]
  cases h1 : blockQuoteRegexp.FindStringSubmatch s with
  | some a => exact blockQuoteHandler_rests st hq a
  | none =>
  cases h2 : preRegexp.FindStringSubmatch s with
  | some a =>
    obtain ⟨p, hp, hk⟩ := preHandler_settles st a
    exact ⟨p, Eventually.of_eq _ _ hp, hk⟩
  | none =>
  cases h3 : codeRegexp.FindStringSubmatch s with
  | some a =>
    obtain ⟨p, hp, hk⟩ := codeHandler_settles st a
    exact ⟨p, Eventually.of_eq _ _ hp, hk⟩
  | none =>
  cases h4 : paragraphRegexp.FindStringSubmatch s with
  | some a => exact paragraphHandler_rests st hq a
  | none =>
  cases h5 : headingRegexp.FindStringSubmatch s with
  | some a => exact headingHandler_rests st hq a
  | none =>
  cases h6 : footnoteRegexp.FindStringSubmatch s with
  | some a => exact footnoteHandler_rests st hq a
  | none =>
  cases h7 : listRegexp.FindStringSubmatch s with
  | some a => exact listHandler_rests st hq a
  | none => exact ⟨(st, false), Eventually.pure _, State.sameKeys_refl st⟩

theorem State.step_rests (st : State) (hq : st.mild) (hex : st.exclusive) (s : List Nat) :
    ∃ st2, Eventually (fun n => st.step n s) st2 ∧ st.sameKeys st2 ∧ st2.exclusive := by
  suffices h : ∃ st2, Eventually (fun n => st.step n s) st2 ∧ st.sameKeys st2 by
    obtain ⟨st2, h1, h2⟩ := h
    obtain ⟨n, hn⟩ := h1
    exact ⟨st2, ⟨n, hn⟩, h2, (State.step_safe n st s hex).2 st2 (hn n (le_refl n))⟩
  by_cases hblank : s.length = 0 ∧ (!st.inLongBlockQuote) = true ∧ (!st.inLongPre) = true ∧
      (!st.inLongCode) = true
  · refine ⟨st.checkAll, ?_, State.sameKeys_checkAll st⟩
    simp only [State.step, hblank, and_self, if_true]
    exact Eventually.pure _
  · obtain ⟨p, hp, hk⟩ := runHandlers_rests st hq s
    have hpex : p.1.exclusive := by
      obtain ⟨n, hn⟩ := hp
      exact (runHandlers_safe n st s hex).2 p (hn n (le_refl n))
    have hq2 : p.1.clearListLevels.mild :=
      State.mild_of_sameKeys (State.sameKeys_trans hk (State.sameKeys_clearListLevels _)) hq
    have hk2 : st.sameKeys p.1.clearListLevels :=
      State.sameKeys_trans hk (State.sameKeys_clearListLevels _)
    simp only [State.step, hblank, if_false]
    by_cases h2 : p.2 = true
    · refine ⟨p.1, Eventually.bind hp ?_, hk⟩
      simp only [h2, if_true]
      exact Eventually.pure _
    by_cases h3 : p.1.inPre = true ∨ p.1.inCode = true
    · obtain ⟨o, ho, _⟩ := EntityEscape_done s p.1.inCode p.1.inPre (by
        by_contra hc
        simp only [not_or, Bool.not_eq_false] at hc
        exact hpex hc)
      refine ⟨p.1.write (o ++ str "\n"), Eventually.bind hp ?_, State.sameKeys_trans hk ⟨rfl, rfl⟩⟩
      simp only [h2, Bool.false_eq_true, if_false, h3, if_true, EntityEscapeString, ho,
        Res.bind_done]
      exact Eventually.pure _
    by_cases h4 : (!(linkRegexp.MatchString s || titleLinkRegexp.MatchString s) &&
        (imgRegexp.MatchString s || altImgRegexp.MatchString s)) = true
    · obtain ⟨t, ht⟩ := rests_transform p.1.clearListLevels hq2 s
        (fun t => p.1.clearListLevels.write t)
      refine ⟨p.1.clearListLevels.write t, Eventually.bind hp ?_,
        State.sameKeys_trans hk2 ⟨rfl, rfl⟩⟩
      simp only [h2, Bool.false_eq_true, if_false, h3, h4, if_true]
      exact ht
    by_cases h5 : p.1.clearListLevels.inBlockQuote = true
    · by_cases h6 : (!p.1.clearListLevels.inLongBlockQuote) = true
      · obtain ⟨t, ht⟩ := rests_transform p.1.clearListLevels hq2 s
          (fun t => p.1.clearListLevels.write (str "<br>" ++ t))
        refine ⟨p.1.clearListLevels.write (str "<br>" ++ t), Eventually.bind hp ?_,
          State.sameKeys_trans hk2 ⟨rfl, rfl⟩⟩
        simp only [h2, Bool.false_eq_true, if_false, h3, h4, h5, h6, if_true]
        exact ht
      by_cases h7 : s.length ≠ 0
      · obtain ⟨t, ht⟩ := rests_transform p.1.clearListLevels hq2 s
          (fun t => p.1.clearListLevels.write
            (str "<p" ++ p.1.clearListLevels.currentClassPart ++ str ">" ++ t ++ str "</p>"))
        refine ⟨p.1.clearListLevels.write
          (str "<p" ++ p.1.clearListLevels.currentClassPart ++ str ">" ++ t ++ str "</p>"),
          Eventually.bind hp ?_, State.sameKeys_trans hk2 ⟨rfl, rfl⟩⟩
        simp only [h2, Bool.false_eq_true, if_false, h3, h4, h5, h6, if_pos h7, if_true]
        exact ht
      · refine ⟨p.1.clearListLevels, Eventually.bind hp ?_, hk2⟩
        simp only [h2, Bool.false_eq_true, if_false, h3, h4, h5, h6, if_neg h7, if_true]
        exact Eventually.pure _
    · obtain ⟨t, ht⟩ := rests_transform p.1.clearListLevels hq2 s
        (fun t => p.1.clearListLevels.write (str "<p>" ++ t ++ str "</p>"))
      refine ⟨p.1.clearListLevels.write (str "<p>" ++ t ++ str "</p>"), Eventually.bind hp ?_,
        State.sameKeys_trans hk2 ⟨rfl, rfl⟩⟩
      simp only [h2, Bool.false_eq_true, if_false, h3, h4, h5, if_true]
      exact ht

theorem State.run_rests :
    ∀ (ls : List (List Nat)) (st : State), st.mild → st.exclusive →
      ∃ st2, Eventually (fun n => st.run n ls) st2 := by
  intro ls
  induction ls with
  | nil => intro st _ _; exact ⟨st, Eventually.pure _⟩
  | cons l ls ih =>
    intro st hq hex
    obtain ⟨st1, h1, hk, hex1⟩ := st.step_rests hq hex l
    obtain ⟨st2, h2⟩ := ih st1 (State.mild_of_sameKeys hk hq) hex1
    exact ⟨st2, Eventually.bind h1 h2⟩

/-- With a root URL that has no mark but underscores the formatter returns. -/
theorem formatter_rests (root b : List Nat) (hroot : rootMarks root = 0) :
    ∃ out, Eventually (fun n => formatter n root b) out := by
  obtain ⟨st, hst⟩ := State.run_rests (splitLines b []) (initialState root)
    ⟨hroot, (by decide : marks emptyHash = 0)⟩ (by simp [State.exclusive, initialState])
  obtain ⟨o, ho, _⟩ := EntityEscape_done st.checkAll.clearListLevels.w false true (Or.inl rfl)
  refine ⟨o, Eventually.bind (Eventually.bind hst (Eventually.pure _)) (Eventually.of_eq _ _ ho)⟩

end Textile

namespace Textile

/-- C8 as stated fails: with the root URL `/!/q!*z*` the formatter does not run to
completion on the text `!/q!`, whatever the depth of recursion allowed. The image `!/q!`
gets the root URL in front of its target, the strong pattern then finds `*z*` in the new
`src` attribute and recurses on the text before it, which again ends in the image `!/q!`
of the root URL and is longer than the line before. -/
theorem C8_root_loop :
    ¬ ∃ fuel out, GetTextileFullLinkFormatter loopRoot fuel (str "!/q!") = .done out := by
  rintro ⟨fuel, out, h⟩
  rw [GetTextileFullLinkFormatter, formatter_loop fuel] at h
  exact absurd h (by simp)

/-- C8, amended: for every input text and every root URL the formatter never reaches the
panic of `EntityEscape`, and in every state that the state machine reaches the flags
`inCode` and `inPre` of the per-line call `EntityEscapeString(s, inCode, inPre)` are not
both set; the formatter runs to completion when the root URL has none of the characters
`"`, `!`, `[`, `]`, `(`, `)`, `*`, `^`, `~` (as `http://site` and the empty root URL of
`TextileFormatter`), and also when it has none of `:`, `!`, `[`, `_`, `*`, `^`, `~`. -/
theorem C8_never_panics (root b : List Nat) :
    (∀ fuel, formatter fuel root b ≠ .panicked) ∧
    (∀ fuel (ls : List (List Nat)) (st : State),
      (initialState root).run fuel ls = .done st → ¬ (st.inCode = true ∧ st.inPre = true)) ∧
    (rootMarks root = 0 ∨ delims root = 0 →
      ∃ out n, ∀ fuel, n ≤ fuel → formatter fuel root b = .done out) := by
  refine ⟨fun fuel => formatter_ne_panicked fuel root b, ?_, ?_⟩
  · intro fuel ls st h
    exact (State.run_safe fuel ls (initialState root)
      (by simp [State.exclusive, initialState])).2 st h
  · intro hroot
    rcases hroot with hroot | hroot
    · obtain ⟨out, n, hn⟩ := formatter_rests root b hroot
      exact ⟨out, n, hn⟩
    · obtain ⟨out, n, hn⟩ := formatter_settles root b hroot
      exact ⟨out, n, hn⟩

/-- C8, amended, at the root URL `http://site` and a text with a list item, links and
images that start with `/`, emphasis, a footnote reference and a code block. -/
theorem C8_never_panics_witness :
    (rootMarks (str "http://site") = 0 ∨ delims (str "http://site") = 0) ∧
    ∃ out n, ∀ fuel, n ≤ fuel →
      formatter fuel (str "http://site")
        (str "* \"a\":/bc _d_ !/i.png(alt)! \"t(u)\":/v *w*[1]\nbc. x") = .done out :=
  ⟨Or.inl (by decide),
    (C8_never_panics (str "http://site")
      (str "* \"a\":/bc _d_ !/i.png(alt)! \"t(u)\":/v *w*[1]\nbc. x")).2.2
      (Or.inl (by decide))⟩

end Textile

namespace Textile

/-! ## Texts of tags and quiet characters through the final pass -/

theorem scan_tagState (sq : Bool) :
    ∀ (s : List Nat) (t t2 : Bool), tagState s t = some t2 → ∀ (i : Nat) (fc : Int),
      scan false sq s 0 i t fc = some s := by
  intro s
  induction s with
  | nil => intro t t2 _ i fc; simp [scan]
  | cons c cs ih =>
    intro t t2 h i fc
    cases t with
    | true =>
      simp only [tagState] at h
      by_cases hc : c = 62
      · subst hc
        have := ih false t2 (by simpa using h) (i + 1) fc
        simp [scan, this]
      · have hb : (c != 62) = true := by simp [hc]
        rw [hb] at h
        have := ih true t2 h (i + 1) fc
        simp [scan, hc, this]
    | false =>
      simp only [tagState] at h
      by_cases h60 : c = 60
      · subst h60
        have := ih true t2 (by simpa using h) (i + 1) fc
        simp [scan, this]
      · rw [if_neg h60] at h
        by_cases hq : c = 34 ∨ c = 38 ∨ c = 46
        · rw [if_pos hq] at h; cases h
        · rw [if_neg hq] at h
          have := ih false t2 h (i + 1) fc
          simp only [not_or] at hq
          simp [scan, h60, hq.1, hq.2.1, hq.2.2, this]

theorem tagState_append :
    ∀ (a b : List Nat) (t : Bool), tagState (a ++ b) t = (tagState a t).bind (tagState b) := by
  intro a
  induction a with
  | nil => intro b t; simp [tagState]
  | cons c cs ih =>
    intro b t
    cases t with
    | true => simp [tagState, ih]
    | false =>
      simp only [List.cons_append, tagState]
      split_ifs <;> simp [ih]

theorem tagState_plain (l : List Nat) (h : ∀ a ∈ l, plain a = true) (t : Bool) :
    tagState l t = some t := by
  induction l with
  | nil => simp [tagState]
  | cons c cs ih =>
    have hc := h c (by simp)
    simp only [plain, inRange, Bool.or_eq_true, Bool.and_eq_true, decide_eq_true_eq,
      beq_iff_eq, Char.reduceToNat] at hc
    have ih2 := ih (fun a ha => h a (by simp [ha]))
    cases t with
    | true =>
      have : (c != 62) = true := by simp only [bne_iff_ne, ne_eq]; omega
      simp [tagState, this, ih2]
    | false =>
      have h1 : ¬ c = 60 := by omega
      have h2 : ¬ (c = 34 ∨ c = 38 ∨ c = 46) := by omega
      simp [tagState, h1, h2, ih2]

/-- The final pass `EntityEscape(., false, .)` copies a text of tags and quiet
characters. -/
theorem EntityEscape_tagState (s : List Nat) (sq t : Bool) (h : tagState s false = some t) :
    EntityEscape s false sq = .done s := by
  rw [EntityEscape_eq_scan, scan_tagState sq s false t h]
  simp [ofScan]

theorem tagState_listClosers (T : List Nat) (hT : ∀ a ∈ T, plain a = true) :
    ∀ (n : Nat), tagState (listClosers T n) false = some false := by
  intro n
  induction n with
  | zero => simp [listClosers, tagState]
  | succ n ih =>
    have e1 : tagState (str "</li></") false = some true := by decide
    have e2 : tagState (str ">") true = some false := by decide
    simp only [listClosers, List.append_assoc] at ih
    simp [listClosers, List.replicate_succ, tagState_append, e1, e2, tagState_plain T hT, ih]

theorem tagState_listItems :
    ∀ (ts : List (List Nat)), (∀ t ∈ ts, ∀ a ∈ t, plain a = true) →
      tagState (listItems ts) false = some false := by
  intro ts
  induction ts with
  | nil => intro _; simp [listItems, tagState]
  | cons t ts ih =>
    intro h
    have e1 : tagState (str "<li>") false = some false := by decide
    have e2 : tagState (str "</li>") false = some false := by decide
    have := ih (fun t ht => h t (by simp [ht]))
    simp only [listItems, List.append_assoc] at this
    simp [listItems, tagState_append, e1, e2, tagState_plain t (h t (by simp)), this]

theorem tagState_classParagraphs (cp : List Nat) (hcp : tagState cp true = some true) :
    ∀ (ls : List (List Nat)), (∀ l ∈ ls, ∀ a ∈ l, plain a = true) →
      tagState (classParagraphs cp ls) false = some false := by
  intro ls
  induction ls with
  | nil => intro _; simp [classParagraphs, tagState]
  | cons l ls ih =>
    intro h
    have e1 : tagState (str "<p") false = some true := by decide
    have e2 : tagState (str ">") true = some false := by decide
    have e3 : tagState (str "</p>") false = some false := by decide
    have := ih (fun t ht => h t (by simp [ht]))
    simp only [classParagraphs, List.append_assoc] at this
    simp [classParagraphs, tagState_append, e1, e2, e3, hcp, tagState_plain l (h l (by simp)),
      this]

/-! ## Lines of a text -/

theorem splitLines_append_line (l : List Nat) (h : ∀ a ∈ l, a ≠ 13 ∧ a ≠ 10) :
    ∀ (rest cur : List Nat), splitLines (l ++ rest) cur = splitLines rest (cur ++ l) := by
  induction l with
  | nil => intro rest cur; simp
  | cons c cs ih =>
    intro rest cur
    have hc : ¬ (c = 13 ∨ c = 10) := by
      have := h c (by simp)
      omega
    simp [splitLines, hc, ih (fun a ha => h a (by simp [ha]))]

/-- Lines without `\r` and `\n`, joined by `\n`, are split into the same lines. -/
theorem splitLines_joinLines_lines :
    ∀ (ls : List (List Nat)), ls ≠ [] → (∀ l ∈ ls, ∀ a ∈ l, a ≠ 13 ∧ a ≠ 10) →
      splitLines (joinLines ls) [] = ls := by
  intro ls
  induction ls with
  | nil => intro h; exact absurd rfl h
  | cons l ls ih =>
    intro _ hl
    cases ls with
    | nil =>
      have := splitLines_append_line l (hl l (by simp)) [] []
      simpa [joinLines, splitLines] using this
    | cons l2 ls =>
      have h2 := ih (by simp) (fun x hx => hl x (by simp [hx]))
      have := splitLines_append_line l (hl l (by simp)) (10 :: joinLines (l2 :: ls)) []
      simp only [joinLines, List.nil_append] at this ⊢
      rw [this]
      simp only [splitLines, Nat.reduceEqDiff, or_true, if_true]
      simp only [joinLines] at h2
      rw [h2]

theorem plain_not_newline (a : Nat) (h : plain a = true) : a ≠ 13 ∧ a ≠ 10 := by
  simp only [plain, inRange, Bool.or_eq_true, Bool.and_eq_true, decide_eq_true_eq,
    beq_iff_eq, Char.reduceToNat] at h
  omega

end Textile

namespace Textile

/-! ## Lines that the block patterns match -/

theorem starRun_all (p : Nat → Bool) (k : List Nat → Option (List (List Nat)))
    (t : List Nat) (r : List (List Nat)) (ht : ∀ a ∈ t, p a = true) (h : k [] = some r) :
    starRun p k t = some r := by
  have := starRun_append_of_some p k [] r (by simpa [starRun] using h) t ht
  simpa using this

theorem starRun_stop (p : Nat → Bool) (k : List Nat → Option (List (List Nat)))
    (x : List Nat) (c : Nat) (rest : List Nat) (r : List (List Nat))
    (hx : ∀ a ∈ x, p a = true) (hc : p c = false) (h : k (c :: rest) = some r) :
    starRun p k (x ++ c :: rest) = some r :=
  starRun_append_of_some p k (c :: rest) r (by simp [starRun, hc, h]) x hx

theorem plain_dot (a : Nat) (h : plain a = true) : dot a = true := by
  have := (plain_not_newline a h).2
  simpa [dot] using this

theorem take_prefix_sub (x y : List Nat) : (x ++ y).take ((x ++ y).length - y.length) = x := by
  simp

/-- A list-item line: a run `m` of markers, a space and the text `t`. -/
theorem listRegexp_find (c : Nat) (ms t : List Nat) (hc : c = 42 ∨ c = 35)
    (hm : ∀ a ∈ ms, a = 42 ∨ a = 35) (ht : ∀ a ∈ t, dot a = true) :
    listRegexp.FindStringSubmatch (c :: ms ++ 32 :: t) =
      some [c :: ms ++ 32 :: t, c :: ms, [], t] := by
  have pc : oneOf ['*', '#'] c = true := by rcases hc with h | h <;> subst h <;> decide
  have pm : ∀ a ∈ ms, oneOf ['*', '#'] a = true := by
    intro a ha
    rcases hm a ha with h | h <;> subst h <;> decide
  have e : List.take (ms.length + (t.length + 1) - t.length) (c :: (ms ++ 32 :: t)) =
      c :: ms := by
    have : ms.length + (t.length + 1) - t.length = ms.length + 1 := by omega
    rw [this]
    simp
  simp only [Regexp.FindStringSubmatch, listRegexp, seq, Re.run, List.cons_append, pc, if_true]
  apply starRun_stop _ _ ms 32 t _ pm (by decide)
  simp only [classGroup, seq, Re.run, lit, Char.reduceToNat, Nat.reduceEqDiff, if_false,
    if_true]
  apply starRun_all _ _ t _ ht
  simp [e, List.replicate]

/-- A blockquote opener without a class: `bq. t` and `bq.. t`. -/
theorem blockQuoteRegexp_find (long : Bool) (t : List Nat) (ht : ∀ a ∈ t, dot a = true) :
    blockQuoteRegexp.FindStringSubmatch
        (str "bq" ++ (if long then str ".." else str ".") ++ 32 :: t) =
      some [str "bq" ++ (if long then str ".." else str ".") ++ 32 :: t, [],
        if long then str ".." else str ".", t] := by
  have e1 : str "bq" = [98, 113] := by decide
  have e2 : str ".." = [46, 46] := by decide
  have e3 : str "." = [46] := by decide
  rw [e1, e2, e3]
  cases long with
  | false =>
    have e : List.take (t.length + 1 + 1 - (t.length + 1)) (46 :: 32 :: t) = [46] := by
      have : t.length + 1 + 1 - (t.length + 1) = 1 := by omega
      rw [this]
      simp
    simp only [Regexp.FindStringSubmatch, blockQuoteRegexp, seq, Re.run, List.cons_append,
      List.nil_append, classGroup, lit, Char.reduceToNat, Nat.reduceEqDiff, if_false, if_true,
      Bool.false_eq_true]
    apply starRun_all _ _ t _ ht
    simp [e, List.replicate]
  | true =>
    have e : List.take (t.length + 1 + 1 + 1 - (t.length + 1)) (46 :: 46 :: 32 :: t) =
        [46, 46] := by
      have : t.length + 1 + 1 + 1 - (t.length + 1) = 2 := by omega
      rw [this]
      simp
    simp only [Regexp.FindStringSubmatch, blockQuoteRegexp, seq, Re.run, List.cons_append,
      List.nil_append, classGroup, lit, Char.reduceToNat, Nat.reduceEqDiff, if_false, if_true]
    rw [starRun_all _ _ t _ ht]
    simp [e, List.replicate]

theorem take_class (x : Nat) (xs rest : List Nat) (n : Nat)
    (hn : n = xs.length + 3) :
    List.take n (40 :: x :: (xs ++ 41 :: rest)) = 40 :: x :: (xs ++ [41]) := by
  subst hn
  have h : List.take (xs.length + 1) (xs ++ 41 :: rest) = xs ++ [41] := by
    have := List.take_left (xs ++ [41]) rest
    simpa using this
  simp [List.take_succ_cons, h]

/-- A long blockquote opener with a class: `bq(c).. t`. -/
theorem blockQuoteRegexp_find_class (x : Nat) (xs t : List Nat)
    (hx : x ≠ 41) (hxs : 41 ∉ xs) (ht : ∀ a ∈ t, dot a = true) :
    blockQuoteRegexp.FindStringSubmatch (str "bq(" ++ x :: xs ++ str ").. " ++ t) =
      some [str "bq(" ++ x :: xs ++ str ").. " ++ t, 40 :: x :: (xs ++ [41]), str "..", t] := by
  have e1 : str "bq(" = [98, 113, 40] := by decide
  have e2 : str ").. " = [41, 46, 46, 32] := by decide
  have e3 : str ".." = [46, 46] := by decide
  have px : notIn [')'] x = true := by simp [notIn, hx]
  have pxs : ∀ a ∈ xs, notIn [')'] a = true := by
    intro a ha
    have : a ≠ 41 := fun h => hxs (h ▸ ha)
    simp [notIn, this]
  rw [e1, e2, e3]
  simp only [Regexp.FindStringSubmatch, blockQuoteRegexp, seq, Re.run, List.cons_append,
    List.nil_append, List.append_assoc, classGroup, lit, Char.reduceToNat, if_true, px]
  rw [starRun_stop _ _ xs 41 (46 :: 46 :: 32 :: t)
    [98 :: 113 :: 40 :: x :: (xs ++ 41 :: 46 :: 46 :: 32 :: t), 40 :: x :: (xs ++ [41]),
      [46, 46], t] pxs (by decide)]
  simp only [Nat.reduceEqDiff, if_true, if_false]
  rw [starRun_all _ _ t _ ht]
  have k1 := take_class x xs (46 :: 46 :: 32 :: t)
    ((40 :: x :: (xs ++ 41 :: 46 :: 46 :: 32 :: t)).length - (46 :: 46 :: 32 :: t).length)
    (by simp; omega)
  have k2 : List.take ((46 :: 46 :: 32 :: t).length - (32 :: t).length) (46 :: 46 :: 32 :: t) =
      [46, 46] := by
    have : (46 :: 46 :: 32 :: t).length - (32 :: t).length = 2 := by simp
    rw [this]
    simp
  simp only [List.length_nil, Nat.sub_zero, List.take_length, if_true]
  rw [k1, k2]
  simp [List.replicate]

end Textile

namespace Textile

/-! ## The list handler -/

theorem listClosers_succ (T : List Nat) (n : Nat) :
    listClosers T (n + 1) = str "</li></" ++ T ++ str ">" ++ listClosers T n := by
  simp [listClosers, List.replicate_succ]

theorem State.closeLists_eq :
    ∀ (n : Nat) (st : State), State.closeLists n st =
      { st with w := st.w ++ listClosers st.listType n,
                currentListLevel := st.currentListLevel - n } := by
  intro n
  induction n with
  | zero => intro st; simp [State.closeLists, listClosers]
  | succ n ih =>
    intro st
    rw [State.closeLists, ih, listClosers_succ]
    simp only [State.write, List.append_assoc]
    congr 1
    omega

theorem State.clearListLevels_eq (st : State) :
    st.clearListLevels =
      if st.currentListLevel > 0 then
        { st with w := st.w ++ listClosers st.listType st.currentListLevel,
                  currentListLevel := 0, currentClassPart := [] }
      else st := by
  simp only [State.clearListLevels, State.closeLists_eq, Nat.sub_zero, Nat.sub_self]

theorem State.checks_of_flagsClear (st : State) (h : st.flagsClear) :
    st.checkBlockQuote = st ∧ st.checkPre = st ∧ st.checkCode = st := by
  obtain ⟨h1, _, h3, _, h5, _⟩ := h
  simp [State.checkBlockQuote, State.checkPre, State.checkCode, h1, h3, h5]

/-- The list handler in a state without an open blockquote, pre or code block: the
item goes through the inline transformer, and the tags depend on the level. -/
theorem listHandler_eq (fuel : Nat) (st : State) (args : List (List Nat))
    (h1 : st.inBlockQuote = false) (h2 : st.inPre = false) (h3 : st.inCode = false) :
    listHandler fuel st args =
      (transformLine st.root_url st.hash fuel (arg args 3)).bind fun t =>
        .done ({ st with
          listType := if (arg args 1).getD 0 0 = 42 then str "ul" else str "ol",
          currentClassPart := classPart (arg args 2),
          currentListLevel := (arg args 1).length,
          w := st.w ++
            (if (arg args 1).length < st.currentListLevel then
              listClosers (if (arg args 1).getD 0 0 = 42 then str "ul" else str "ol")
                (st.currentListLevel - (arg args 1).length) ++ str "</li><li>" ++ t
            else if (arg args 1).length > st.currentListLevel then
              str "<" ++ (if (arg args 1).getD 0 0 = 42 then str "ul" else str "ol") ++
                classPart (arg args 2) ++ str "><li>" ++ t
            else str "</li><li>" ++ t) }, true) := by
  have c1 : st.checkBlockQuote = st := by simp [State.checkBlockQuote, h1]
  have c2 : st.checkPre = st := by simp [State.checkPre, h2]
  have c3 : st.checkCode = st := by simp [State.checkCode, h3]
  by_cases hT : (arg args 1).getD 0 0 = 42
  · have hT2 : (arg args 1)[0]?.getD 0 = 42 := by simpa using hT
    by_cases hl : (arg args 1).length < st.currentListLevel
    · simp [listHandler, c1, c2, c3, h3, hT2, hl, State.transformLine, State.closeLists_eq,
        State.write]
    · by_cases hg : (arg args 1).length > st.currentListLevel
      · simp [listHandler, c1, c2, c3, h3, hT2, hl, hg, State.transformLine, State.write]
      · simp [listHandler, c1, c2, c3, h3, hT2, hl, hg, State.transformLine, State.write]
  · have hT2 : ¬ (arg args 1)[0]?.getD 0 = 42 := by simpa using hT
    by_cases hl : (arg args 1).length < st.currentListLevel
    · simp [listHandler, c1, c2, c3, h3, hT2, hl, State.transformLine, State.closeLists_eq,
        State.write]
    · by_cases hg : (arg args 1).length > st.currentListLevel
      · simp [listHandler, c1, c2, c3, h3, hT2, hl, hg, State.transformLine, State.write]
      · simp [listHandler, c1, c2, c3, h3, hT2, hl, hg, State.transformLine, State.write]

/-- On a line without `.` only the list handler can run. -/
theorem runHandlers_no_dot (fuel : Nat) (st : State) (s : List Nat) (hs : ∀ a ∈ s, a ≠ 46) :
    runHandlers st s (blockHandlers fuel) =
      match listRegexp.FindStringSubmatch s with
      | some a => listHandler fuel st a
      | none => .done (st, false) := by
  have hs2 : ∀ a ∈ s, (fun x => decide (x ≠ 46)) a = true := by
    intro a ha
    simpa using hs a ha
  have h1 := blockQuoteRegexp.FindStringSubmatch_none _ s (blockQuoteRegexp_needs _ (by simp)) hs2
  have h2 := preRegexp.FindStringSubmatch_none _ s (preRegexp_needs _ (by simp)) hs2
  have h3 := codeRegexp.FindStringSubmatch_none _ s (codeRegexp_needs _ (by simp)) hs2
  have h4 := paragraphRegexp.FindStringSubmatch_none _ s (paragraphRegexp_needs _ (by simp)) hs2
  have h5 := headingRegexp.FindStringSubmatch_none _ s (headingRegexp_needs _ (by simp)) hs2
  have h6 := footnoteRegexp.FindStringSubmatch_none _ s (footnoteRegexp_needs _ (by simp)) hs2
  simp only [runHandlers, blockHandlers, h1, h2, h3, h4, h5, h6]
  all_goals (cases listRegexp.FindStringSubmatch s <;> rfl)

/-- A list-item line with a plain text in a state without an open block. -/
theorem State.step_list (fuel : Nat) (st : State) (c : Nat) (ms t : List Nat)
    (hc : c = 42 ∨ c = 35) (hm : ∀ a ∈ ms, a = 42 ∨ a = 35) (ht : ∀ a ∈ t, plain a = true)
    (h1 : st.inBlockQuote = false) (h2 : st.inPre = false) (h3 : st.inCode = false) :
    st.step (fuel + 1) (c :: ms ++ 32 :: t) =
      .done { st with
        listType := if c = 42 then str "ul" else str "ol",
        currentClassPart := [],
        currentListLevel := ms.length + 1,
        w := st.w ++
          (if ms.length + 1 < st.currentListLevel then
            listClosers (if c = 42 then str "ul" else str "ol")
              (st.currentListLevel - (ms.length + 1)) ++ str "</li><li>" ++ t
          else if ms.length + 1 > st.currentListLevel then
            str "<" ++ (if c = 42 then str "ul" else str "ol") ++ str "><li>" ++ t
          else str "</li><li>" ++ t) } := by
  have hd : ∀ a ∈ c :: ms ++ 32 :: t, a ≠ 46 := by
    intro a ha
    simp only [List.cons_append, List.mem_cons, List.mem_append] at ha
    rcases ha with h | h | h | h
    · omega
    · have := hm a h; omega
    · omega
    · have := plain_dot a (ht a h)
      have := ht a h
      simp only [plain, inRange, Bool.or_eq_true, Bool.and_eq_true, decide_eq_true_eq,
        beq_iff_eq, Char.reduceToNat] at this
      omega
  have hfind := listRegexp_find c ms t hc hm (fun a ha => plain_dot a (ht a ha))
  have hlen : ¬ ((c :: ms ++ 32 :: t).length = 0) := by simp
  have e1 : arg [c :: ms ++ 32 :: t, c :: ms, [], t] 1 = c :: ms := rfl
  have e2 : arg [c :: ms ++ 32 :: t, c :: ms, [], t] 2 = [] := rfl
  have e3 : arg [c :: ms ++ 32 :: t, c :: ms, [], t] 3 = t := rfl
  have e4 : classPart [] = [] := by simp [classPart]
  have e5 : (c :: ms).getD 0 0 = c := rfl
  have e6 : (c :: ms).length = ms.length + 1 := rfl
  simp only [State.step, hlen, false_and, if_false, runHandlers_no_dot (fuel + 1) st _ hd, hfind,
    listHandler_eq (fuel + 1) st _ h1 h2 h3, e1, e2, e3, e4, e5, e6,
    transformLine_plain st.root_url st.hash fuel t ht, Res.bind_done, if_true,
    List.append_nil]

end Textile

namespace Textile

/-! ## The blockquote handler and bare lines -/

theorem State.checks_keys (st : State) :
    st.checkBlockQuote.checkPre.checkCode.root_url = st.root_url ∧
      st.checkBlockQuote.checkPre.checkCode.hash = st.hash ∧
      st.checkBlockQuote.checkPre.checkCode.currentListLevel = st.currentListLevel ∧
      st.checkBlockQuote.checkPre.checkCode.listType = st.listType := by
  simp only [State.checkBlockQuote, State.checkPre, State.checkCode, State.write]
  split_ifs <;> simp

/-- The blockquote handler: the open blocks are closed, the text goes through the inline
transformer, and `</p>` follows it in the long form only. -/
theorem blockQuoteHandler_eq (fuel : Nat) (st : State) (args : List (List Nat)) :
    blockQuoteHandler fuel st args =
      (transformLine st.root_url st.hash fuel (arg args 3)).bind fun t =>
        .done ({ st.checkBlockQuote.checkPre.checkCode with
          inBlockQuote := true,
          inLongBlockQuote := decide (arg args 2 = str ".."),
          currentClassPart := classPart (arg args 1),
          w := st.checkBlockQuote.checkPre.checkCode.w ++
            (str "<blockquote" ++ classPart (arg args 1) ++ str "><p" ++
              classPart (arg args 1) ++ str ">" ++ t ++
              (if arg args 2 = str ".." then str "</p>" else [])) }, true) := by
  obtain ⟨k1, k2, _, _⟩ := st.checks_keys
  by_cases hl : arg args 2 = str ".."
  · simp [blockQuoteHandler, State.transformLine, State.write, hl, k1, k2]
  · simp [blockQuoteHandler, State.transformLine, State.write, hl, k1, k2]

/-- The paragraph handler. -/
theorem paragraphHandler_eq (fuel : Nat) (st : State) (args : List (List Nat)) :
    paragraphHandler fuel st args =
      (transformLine st.root_url st.hash fuel (arg args 2)).bind fun t =>
        .done ({ st.checkBlockQuote.checkPre.checkCode with
          currentClassPart := classPart (arg args 1),
          w := st.checkBlockQuote.checkPre.checkCode.w ++
            (str "<p" ++ classPart (arg args 1) ++ str ">" ++ t ++ str "</p>") }, true) := by
  obtain ⟨k1, k2, _, _⟩ := st.checks_keys
  simp [paragraphHandler, State.transformLine, State.write, k1, k2]

theorem plain_matchers (s : List Nat) (hs : ∀ a ∈ s, plain a = true) :
    linkRegexp.MatchString s = false ∧ titleLinkRegexp.MatchString s = false ∧
      imgRegexp.MatchString s = false ∧ altImgRegexp.MatchString s = false := by
  have hm := fun a ha => plain_noMarkup a (hs a ha)
  have l1 := linkRegexp.FindStringSubmatch_none noMarkup s
    (linkRegexp_needs _ (Or.inl (by decide))) hm
  have l2 := titleLinkRegexp.FindStringSubmatch_none noMarkup s
    (titleLinkRegexp_needs _ (Or.inl (by decide))) hm
  have l3 := imgRegexp.FindStringSubmatch_none noMarkup s (imgRegexp_needs _ (by decide)) hm
  have l4 := altImgRegexp.FindStringSubmatch_none noMarkup s
    (altImgRegexp_needs _ (Or.inl (by decide))) hm
  simp [Regexp.MatchString, l1, l2, l3, l4]

/-- A plain line that is not blank, in a state outside pre and code blocks. -/
theorem State.step_bare (fuel : Nat) (st : State) (s : List Nat) (hne : s ≠ [])
    (hs : ∀ a ∈ s, plain a = true) (h2 : st.inPre = false) (h3 : st.inCode = false) :
    st.step (fuel + 1) s =
      .done (st.clearListLevels.write
        (if st.inBlockQuote then
          (if st.inLongBlockQuote then
            str "<p" ++ st.clearListLevels.currentClassPart ++ str ">" ++ s ++ str "</p>"
          else str "<br>" ++ s)
        else str "<p>" ++ s ++ str "</p>")) := by
  obtain ⟨l1, l2, l3, l4⟩ := plain_matchers s hs
  have hlen : s.length ≠ 0 := by simpa using hne
  have f1 : st.clearListLevels.inBlockQuote = st.inBlockQuote := by
    rw [State.clearListLevels_eq]; split_ifs <;> rfl
  have f2 : st.clearListLevels.inLongBlockQuote = st.inLongBlockQuote := by
    rw [State.clearListLevels_eq]; split_ifs <;> rfl
  have f3 : st.clearListLevels.root_url = st.root_url := by
    rw [State.clearListLevels_eq]; split_ifs <;> rfl
  have f4 : st.clearListLevels.hash = st.hash := by
    rw [State.clearListLevels_eq]; split_ifs <;> rfl
  cases hb : st.inBlockQuote <;> cases hl : st.inLongBlockQuote <;>
    simp [State.step, hlen, runHandlers_plain (fuel + 1) st s hs, h2, h3, l1, l2, l3, l4,
      State.transformLine, f1, f2, f3, f4, hb, hl,
      transformLine_plain st.root_url st.hash fuel s hs]

/-- A blank line inside a long blockquote is skipped. -/
theorem State.step_blank_long (fuel : Nat) (st : State) (h1 : st.inBlockQuote = true)
    (hl : st.inLongBlockQuote = true) (h2 : st.inPre = false) (h3 : st.inCode = false) :
    st.step fuel [] = .done st.clearListLevels := by
  obtain ⟨l1, l2, l3, l4⟩ := plain_matchers [] (by simp)
  have f1 : st.clearListLevels.inBlockQuote = st.inBlockQuote := by
    rw [State.clearListLevels_eq]; split_ifs <;> rfl
  have f2 : st.clearListLevels.inLongBlockQuote = st.inLongBlockQuote := by
    rw [State.clearListLevels_eq]; split_ifs <;> rfl
  simp [State.step, runHandlers_plain fuel st [] (by simp), h1, hl, h2, h3, l1, l2, l3, l4,
    f1, f2]

end Textile

namespace Textile

/-! ## The flags of the state machine -/

theorem Res.bind_eq_done {α β : Type} (r : Res α) (f : α → Res β) (b : β)
    (h : r.bind f = .done b) : ∃ a, r = .done a ∧ f a = .done b := by
  cases r with
  | done a => exact ⟨a, rfl, h⟩
  | panicked => simp at h
  | outOfFuel => simp at h

theorem State.flagsClear_invariant (st : State) (h : st.flagsClear) : st.blockInvariant := by
  obtain ⟨h1, h2, h3, h4, h5, h6⟩ := h
  simp [State.blockInvariant, h1, h2, h3, h4, h5, h6]

theorem State.checks_clear (st : State) (h : st.blockInvariant) :
    st.checkBlockQuote.checkPre.checkCode.flagsClear := by
  obtain ⟨w, b1, b2, b3, b4, b5, b6, lt, ll, cp, ru, ha⟩ := st
  simp only [State.blockInvariant] at h
  cases b1 <;> cases b2 <;> cases b3 <;> cases b4 <;> cases b5 <;> cases b6 <;>
    simp_all [State.flagsClear, State.checkBlockQuote, State.checkPre, State.checkCode,
      State.write]

theorem State.checks_pre_invariant (st : State) (h : st.blockInvariant) :
    st.checkBlockQuote.checkPre.blockInvariant := by
  obtain ⟨w, b1, b2, b3, b4, b5, b6, lt, ll, cp, ru, ha⟩ := st
  simp only [State.blockInvariant] at h
  cases b1 <;> cases b2 <;> cases b3 <;> cases b4 <;> cases b5 <;> cases b6 <;>
    simp_all [State.blockInvariant, State.checkBlockQuote, State.checkPre, State.write]

theorem State.clearListLevels_invariant (st : State) (h : st.blockInvariant) :
    st.clearListLevels.blockInvariant := by
  rw [State.clearListLevels_eq]
  split_ifs
  · exact h
  · exact h

theorem State.checkAll_clear (st : State) (h : st.blockInvariant) : st.checkAll.flagsClear := by
  have := st.checks_clear h
  simp only [State.checkAll, State.clearListLevels_eq]
  split_ifs
  · exact this
  · exact this

theorem blockQuoteHandler_invariant (fuel : Nat) (st : State) (args : List (List Nat))
    (h : st.blockInvariant) (p : State × Bool) (hp : blockQuoteHandler fuel st args = .done p) :
    p.1.blockInvariant := by
  obtain ⟨_, _, c3, c4, c5, c6⟩ := st.checks_clear h
  rw [blockQuoteHandler_eq] at hp
  obtain ⟨t, _, ht⟩ := Res.bind_eq_done _ _ _ hp
  simp only [Res.done.injEq] at ht
  subst ht
  simp [State.blockInvariant, c3, c4, c5, c6]

theorem preHandler_invariant (st : State) (args : List (List Nat))
    (h : st.blockInvariant) (p : State × Bool) (hp : preHandler st args = .done p) :
    p.1.blockInvariant := by
  obtain ⟨c1, c2, _, _, c5, c6⟩ := st.checks_clear h
  obtain ⟨t, _, ht⟩ := Res.bind_eq_done _ _ _ hp
  simp only [Res.done.injEq] at ht
  subst ht
  simp [State.blockInvariant, State.write, c1, c2, c5, c6]

theorem codeHandler_invariant (st : State) (args : List (List Nat))
    (h : st.blockInvariant) (p : State × Bool) (hp : codeHandler st args = .done p) :
    p.1.blockInvariant := by
  obtain ⟨c1, c2, c3, c4, _, _⟩ := st.checks_clear h
  obtain ⟨t, _, ht⟩ := Res.bind_eq_done _ _ _ hp
  simp only [Res.done.injEq] at ht
  subst ht
  simp [State.blockInvariant, State.write, c1, c2, c3, c4]

theorem paragraphHandler_invariant (fuel : Nat) (st : State) (args : List (List Nat))
    (h : st.blockInvariant) (p : State × Bool) (hp : paragraphHandler fuel st args = .done p) :
    p.1.blockInvariant := by
  obtain ⟨c1, c2, c3, c4, c5, c6⟩ := st.checks_clear h
  obtain ⟨t, _, ht⟩ := Res.bind_eq_done _ _ _ hp
  simp only [Res.done.injEq] at ht
  subst ht
  simp [State.blockInvariant, State.write, c1, c2, c3, c4, c5, c6]

theorem headingHandler_invariant (fuel : Nat) (st : State) (args : List (List Nat))
    (h : st.blockInvariant) (p : State × Bool) (hp : headingHandler fuel st args = .done p) :
    p.1.blockInvariant := by
  obtain ⟨c1, c2, c3, c4, c5, c6⟩ := st.checks_clear h
  obtain ⟨t, _, ht⟩ := Res.bind_eq_done _ _ _ hp
  simp only [Res.done.injEq] at ht
  subst ht
  simp [State.blockInvariant, State.write, c1, c2, c3, c4, c5, c6]

theorem footnoteHandler_invariant (fuel : Nat) (st : State) (args : List (List Nat))
    (h : st.blockInvariant) (p : State × Bool) (hp : footnoteHandler fuel st args = .done p) :
    p.1.blockInvariant := by
  obtain ⟨c1, c2, c3, c4, c5, c6⟩ := st.checks_clear h
  obtain ⟨t, _, ht⟩ := Res.bind_eq_done _ _ _ hp
  simp only [Res.done.injEq] at ht
  subst ht
  simp [State.blockInvariant, State.write, c1, c2, c3, c4, c5, c6]

theorem listHandler_invariant (fuel : Nat) (st : State) (args : List (List Nat))
    (h : st.blockInvariant) (p : State × Bool) (hp : listHandler fuel st args = .done p) :
    p.1.blockInvariant := by
  have hpre := st.checks_pre_invariant h
  obtain ⟨c1, c2, c3, c4, c5, c6⟩ := st.checks_clear h
  simp only [listHandler] at hp
  by_cases hc : st.checkBlockQuote.checkPre.inCode = true
  · rw [if_pos hc] at hp
    simp only [Res.done.injEq] at hp
    subst hp
    exact hpre
  · rw [if_neg hc] at hp
    obtain ⟨t, _, ht⟩ := Res.bind_eq_done _ _ _ hp
    simp only [Res.done.injEq] at ht
    subst ht
    simp only [State.closeLists_eq, State.write, State.blockInvariant]
    split_ifs <;> simp [c1, c2, c3, c4, c5, c6]

theorem runHandlers_invariant (fuel : Nat) (st : State) (s : List Nat) (h : st.blockInvariant)
    (p : State × Bool) (hp : runHandlers st s (blockHandlers fuel) = .done p) :
    p.1.blockInvariant := by
  simp only [blockHandlers, runHandlers] at hp
  split at hp
  · exact blockQuoteHandler_invariant _ _ _ h p hp
  split at hp
  · exact preHandler_invariant _ _ h p hp
  split at hp
  · exact codeHandler_invariant _ _ h p hp
  split at hp
  · exact paragraphHandler_invariant _ _ _ h p hp
  split at hp
  · exact headingHandler_invariant _ _ _ h p hp
  split at hp
  · exact footnoteHandler_invariant _ _ _ h p hp
  split at hp
  · exact listHandler_invariant _ _ _ h p hp
  simp only [Res.done.injEq] at hp
  subst hp
  exact h

theorem State.write_invariant (st : State) (x : List Nat) (h : st.blockInvariant) :
    (st.write x).blockInvariant := h

theorem State.step_invariant (fuel : Nat) (st : State) (s : List Nat) (h : st.blockInvariant)
    (st2 : State) (h2 : st.step fuel s = .done st2) : st2.blockInvariant := by
  unfold State.step at h2
  split at h2
  · simp only [Res.done.injEq] at h2
    subst h2
    exact State.flagsClear_invariant _ (st.checkAll_clear h)
  · obtain ⟨r, hr, h3⟩ := Res.bind_eq_done _ _ _ h2
    have hi := runHandlers_invariant fuel st s h r hr
    have hc := State.clearListLevels_invariant _ hi
    simp only at h3
    split at h3
    · simp only [Res.done.injEq] at h3
      subst h3
      exact hi
    split at h3
    · obtain ⟨t, _, ht⟩ := Res.bind_eq_done _ _ _ h3
      simp only [Res.done.injEq] at ht
      subst ht
      exact hi
    split at h3
    · obtain ⟨t, _, ht⟩ := Res.bind_eq_done _ _ _ h3
      simp only [Res.done.injEq] at ht
      subst ht
      exact hc
    split at h3
    · split at h3
      · obtain ⟨t, _, ht⟩ := Res.bind_eq_done _ _ _ h3
        simp only [Res.done.injEq] at ht
        subst ht
        exact hc
      split at h3
      · obtain ⟨t, _, ht⟩ := Res.bind_eq_done _ _ _ h3
        simp only [Res.done.injEq] at ht
        subst ht
        exact hc
      · simp only [Res.done.injEq] at h3
        subst h3
        exact hc
    · obtain ⟨t, _, ht⟩ := Res.bind_eq_done _ _ _ h3
      simp only [Res.done.injEq] at ht
      subst ht
      exact hc

theorem State.run_invariant (fuel : Nat) :
    ∀ (ls : List (List Nat)) (st : State), st.blockInvariant →
      ∀ st2, st.run fuel ls = .done st2 → st2.blockInvariant := by
  intro ls
  induction ls with
  | nil =>
    intro st h st2 h2
    simp only [State.run, Res.done.injEq] at h2
    subst h2
    exact h
  | cons l ls ih =>
    intro st h st2 h2
    simp only [State.run] at h2
    obtain ⟨st1, h1, h3⟩ := Res.bind_eq_done _ _ _ h2
    exact ih st1 (State.step_invariant fuel st l h st1 h1) st2 h3

theorem initialState_invariant (root : List Nat) : (initialState root).blockInvariant := by
  simp [State.blockInvariant, initialState]

end Textile

namespace Textile

/-! ## Closing everything -/

theorem State.checkAll_w (st : State) : st.checkAll.w = st.w ++ st.closers := by
  obtain ⟨w, b1, b2, b3, b4, b5, b6, lt, ll, cp, ru, ha⟩ := st
  simp only [State.checkAll, State.clearListLevels_eq]
  cases b1 <;> cases b2 <;> cases b3 <;> cases b5 <;>
    simp [State.closers, State.checkBlockQuote, State.checkPre, State.checkCode, State.write] <;>
    (split_ifs with h0
     · rfl
     · have : ll = 0 := by omega
       subst this
       simp [listClosers])

theorem State.checkAll_level (st : State) : st.checkAll.currentListLevel = 0 := by
  simp only [State.checkAll, State.clearListLevels_eq]
  split_ifs with h
  · rfl
  · omega

theorem State.clearListLevels_of_level (st : State) (h : st.currentListLevel = 0) :
    st.clearListLevels = st := by
  simp [State.clearListLevels, h]

theorem State.checkAll_twice (st : State) : st.checkAll.clearListLevels = st.checkAll :=
  State.clearListLevels_of_level _ st.checkAll_level

/-- The output of the formatter from the state that the lines lead to. -/
theorem formatter_of_run (fuel : Nat) (root b : List Nat) (ls : List (List Nat)) (st : State)
    (t : Bool) (hls : splitLines b [] = ls) (hrun : (initialState root).run fuel ls = .done st)
    (ht : tagState (st.w ++ st.closers) false = some t) :
    formatter fuel root b = .done (st.w ++ st.closers) := by
  simp only [formatter, State.transform, hls, hrun, Res.bind_done, State.checkAll_twice,
    State.checkAll_w]
  exact EntityEscape_tagState _ true t ht

/-- A blockquote opener without a class in a state without an open block. -/
theorem State.step_blockQuote (fuel : Nat) (st : State) (long : Bool) (t : List Nat)
    (ht : ∀ a ∈ t, plain a = true) (hf : st.flagsClear) :
    st.step (fuel + 1) (str "bq" ++ (if long then str ".." else str ".") ++ 32 :: t) =
      .done { st with
        inBlockQuote := true, inLongBlockQuote := long, currentClassPart := [],
        w := st.w ++ (str "<blockquote><p>" ++ t ++ (if long then str "</p>" else [])) } := by
  obtain ⟨c1, c2, c3⟩ := st.checks_of_flagsClear hf
  have hfind := blockQuoteRegexp_find long t (fun a ha => plain_dot a (ht a ha))
  have hlen : ¬ ((str "bq" ++ (if long then str ".." else str ".") ++ 32 :: t).length = 0) := by
    have : str "bq" = [98, 113] := by decide
    simp [this]
  have e4 : classPart [] = [] := by simp [classPart]
  have e5 : str "<blockquote" ++ str "><p" ++ str ">" = str "<blockquote><p>" := by decide
  simp only [State.step, hlen, false_and, if_false, runHandlers, blockHandlers, hfind,
    blockQuoteHandler_eq, c1, c2, c3, arg, List.getD_cons_succ, List.getD_cons_zero, e4,
    transformLine_plain st.root_url st.hash fuel t ht, Res.bind_done, if_true,
    List.append_nil]
  cases long
  · have : ¬ (str "." = str "..") := by decide
    simp [this, ← e5]
  · simp [← e5]

/-- A long blockquote opener with the class `x :: xs` in a state without an open block. -/
theorem State.step_blockQuote_class (fuel : Nat) (st : State) (x : Nat) (xs t : List Nat)
    (hx : plain x = true) (hxs : ∀ a ∈ xs, plain a = true)
    (ht : ∀ a ∈ t, plain a = true) (hf : st.flagsClear) :
    st.step (fuel + 1) (str "bq(" ++ x :: xs ++ str ").. " ++ t) =
      .done { st with
        inBlockQuote := true, inLongBlockQuote := true,
        currentClassPart := str " class=" ++ x :: xs,
        w := st.w ++ (str "<blockquote" ++ (str " class=" ++ x :: xs) ++ str "><p" ++
          (str " class=" ++ x :: xs) ++ str ">" ++ t ++ str "</p>") } := by
  obtain ⟨c1, c2, c3⟩ := st.checks_of_flagsClear hf
  have p41 : ∀ a, plain a = true → a ≠ 41 := by
    intro a ha
    simp only [plain, inRange, Bool.or_eq_true, Bool.and_eq_true, decide_eq_true_eq,
      beq_iff_eq, Char.reduceToNat] at ha
    omega
  have hfind := blockQuoteRegexp_find_class x xs t (p41 x hx)
    (fun h => p41 41 (hxs 41 h) rfl) (fun a ha => plain_dot a (ht a ha))
  have hlen : ¬ ((str "bq(" ++ x :: xs ++ str ").. " ++ t).length = 0) := by simp
  have e4 : classPart (40 :: x :: (xs ++ [41])) = str " class=" ++ x :: xs := by
    simp [classPart]
  simp only [State.step, hlen, false_and, if_false, runHandlers, blockHandlers, hfind,
    blockQuoteHandler_eq, c1, c2, c3, arg, List.getD_cons_succ, List.getD_cons_zero, e4,
    transformLine_plain st.root_url st.hash fuel t ht, Res.bind_done, if_true, decide_True]

end Textile

namespace Textile

/-! ## Runs over the lines of a list -/

theorem tagState_flatten :
    ∀ (xs : List (List Nat)), (∀ x ∈ xs, tagState x false = some false) →
      tagState xs.flatten false = some false := by
  intro xs
  induction xs with
  | nil => intro _; simp [tagState]
  | cons x xs ih =>
    intro h
    simp [tagState_append, h x (by simp), ih (fun y hy => h y (by simp [hy]))]

theorem listItems_shift :
    ∀ (rest : List (List Nat)) (t : List Nat),
      str "<li>" ++ t ++ (rest.map fun u => str "</li><li>" ++ u).flatten ++ str "</li>" =
        listItems (t :: rest) := by
  intro rest
  induction rest with
  | nil => intro t; simp [listItems]
  | cons u rest ih =>
    intro t
    have e : str "</li>" ++ str "<li>" = str "</li><li>" := by decide
    have e2 : ∀ x : List Nat, str "</li><li>" ++ x = str "</li>" ++ (str "<li>" ++ x) := by
      intro x
      rw [← List.append_assoc, e]
    have e3 : listItems (t :: u :: rest) =
        str "<li>" ++ t ++ str "</li>" ++ listItems (u :: rest) := by
      simp [listItems]
    rw [e3, ← ih u]
    simp only [List.map_cons, List.flatten_cons, List.append_assoc, e2]

/-- The items of a flat list after the first one. -/
theorem State.run_flat (fuel : Nat) (c : Nat) (hc : c = 42 ∨ c = 35) :
    ∀ (ts : List (List Nat)) (st : State), (∀ t ∈ ts, ∀ a ∈ t, plain a = true) →
      st.flagsClear → st.currentListLevel = 1 →
      st.listType = (if c = 42 then str "ul" else str "ol") →
      ∃ st2, st.run (fuel + 1) (ts.map fun t => c :: 32 :: t) = .done st2 ∧ st2.flagsClear ∧
        st2.currentListLevel = 1 ∧ st2.listType = (if c = 42 then str "ul" else str "ol") ∧
        st2.w = st.w ++ (ts.map fun u => str "</li><li>" ++ u).flatten := by
  intro ts
  induction ts with
  | nil => intro st _ hf hl hT; exact ⟨st, rfl, hf, hl, hT, by simp⟩
  | cons t ts ih =>
    intro st hp hf hl hT
    have hstep := State.step_list fuel st c [] t hc (by simp) (hp t (by simp)) hf.1 hf.2.2.1
      hf.2.2.2.2.1
    simp only [List.length_nil, Nat.zero_add, hl, Nat.lt_irrefl, if_false, gt_iff_lt] at hstep
    obtain ⟨st2, h1, h2, h3, h4, h5⟩ := ih _ (fun u hu => hp u (by simp [hu]))
      (show State.flagsClear { st with
        listType := if c = 42 then str "ul" else str "ol", currentClassPart := [],
        currentListLevel := 1, w := st.w ++ (str "</li><li>" ++ t) } from hf) rfl rfl
    refine ⟨st2, ?_, h2, h3, h4, ?_⟩
    · simp only [List.map_cons, State.run]
      have e : c :: 32 :: t = c :: [] ++ 32 :: t := rfl
      rw [e, hstep]
      exact h1
    · rw [h5]
      simp

/-- The items of a list that goes one level deeper at every line. -/
theorem State.run_nested (fuel : Nat) :
    ∀ (ts : List (List Nat)) (i : Nat) (st : State), (∀ t ∈ ts, ∀ a ∈ t, plain a = true) →
      st.flagsClear → st.currentListLevel = i → (ts = [] → st.listType = str "ul") →
      ∃ st2, st.run (fuel + 1) (nestedLines ts (i + 1)) = .done st2 ∧ st2.flagsClear ∧
        st2.currentListLevel = i + ts.length ∧ st2.listType = str "ul" ∧
        st2.w = st.w ++ (ts.map fun u => str "<ul><li>" ++ u).flatten := by
  intro ts
  induction ts with
  | nil => intro i st _ hf hl hT; exact ⟨st, rfl, hf, by simpa using hl, hT rfl, by simp⟩
  | cons t ts ih =>
    intro i st hp hf hl hT
    have hstep := State.step_list fuel st 42 (List.replicate i 42) t (Or.inl rfl)
      (fun a ha => Or.inl (List.eq_of_mem_replicate ha)) (hp t (by simp)) hf.1 hf.2.2.1
      hf.2.2.2.2.1
    have e1 : str "<" ++ str "ul" ++ str "><li>" = str "<ul><li>" := by decide
    simp only [List.length_replicate, hl, Nat.lt_irrefl, if_false, gt_iff_lt,
      Nat.lt_succ_self, if_true, show ¬ (i + 1 < i) by omega, ← List.append_assoc, e1]
      at hstep
    obtain ⟨st2, h1, h2, h3, h4, h5⟩ := ih (i + 1) _ (fun u hu => hp u (by simp [hu]))
      (show State.flagsClear { st with
        listType := str "ul", currentClassPart := [],
        currentListLevel := i + 1, w := st.w ++ str "<ul><li>" ++ t } from hf) rfl
      (fun _ => rfl)
    refine ⟨st2, ?_, h2, ?_, h4, ?_⟩
    · simp only [nestedLines, State.run]
      have e : List.replicate (i + 1) 42 ++ 32 :: t = 42 :: List.replicate i 42 ++ 32 :: t := by
        simp [List.replicate_succ]
      rw [e, hstep]
      exact h1
    · rw [h3]
      simp only [List.length_cons]
      omega
    · rw [h5]
      simp

/-! ## Runs inside a blockquote -/

/-- The continuation lines of a short blockquote. -/
theorem State.run_short (fuel : Nat) :
    ∀ (cs : List (List Nat)) (st : State),
      (∀ c ∈ cs, c ≠ [] ∧ ∀ a ∈ c, plain a = true) →
      st.inBlockQuote = true → st.inLongBlockQuote = false → st.inPre = false →
      st.inCode = false → st.currentListLevel = 0 →
      ∃ st2, st.run (fuel + 1) cs = .done st2 ∧ st2.inBlockQuote = true ∧
        st2.inLongBlockQuote = false ∧ st2.inPre = false ∧ st2.inCode = false ∧
        st2.currentListLevel = 0 ∧ st2.listType = st.listType ∧
        st2.w = st.w ++ (cs.map fun c => str "<br>" ++ c).flatten := by
  intro cs
  induction cs with
  | nil => intro st _ h1 h2 h3 h4 h5; exact ⟨st, rfl, h1, h2, h3, h4, h5, rfl, by simp⟩
  | cons c cs ih =>
    intro st hp h1 h2 h3 h4 h5
    have hstep := State.step_bare fuel st c (hp c (by simp)).1 (hp c (by simp)).2 h3 h4
    rw [State.clearListLevels_of_level st h5] at hstep
    simp only [h1, h2, if_true, Bool.false_eq_true, if_false] at hstep
    obtain ⟨st2, k1, k2, k3, k4, k5, k6, k7, k8⟩ := ih (st.write (str "<br>" ++ c))
      (fun u hu => hp u (by simp [hu])) h1 h2 h3 h4 h5
    refine ⟨st2, ?_, k2, k3, k4, k5, k6, k7, ?_⟩
    · simp only [State.run, hstep, Res.bind_done]
      exact k1
    · rw [k8]
      simp [State.write]

/-- The paragraphs of a long blockquote, each after a blank line. -/
theorem State.run_long (fuel : Nat) :
    ∀ (ps : List (List Nat)) (st : State),
      (∀ p ∈ ps, p ≠ [] ∧ ∀ a ∈ p, plain a = true) →
      st.inBlockQuote = true → st.inLongBlockQuote = true → st.inPre = false →
      st.inCode = false → st.currentListLevel = 0 →
      ∃ st2, st.run (fuel + 1) (withBlanks ps) = .done st2 ∧ st2.inBlockQuote = true ∧
        st2.inLongBlockQuote = true ∧ st2.inPre = false ∧ st2.inCode = false ∧
        st2.currentListLevel = 0 ∧ st2.listType = st.listType ∧
        st2.w = st.w ++ classParagraphs st.currentClassPart ps := by
  intro ps
  induction ps with
  | nil =>
    intro st _ h1 h2 h3 h4 h5
    exact ⟨st, rfl, h1, h2, h3, h4, h5, rfl, by simp [classParagraphs]⟩
  | cons p ps ih =>
    intro st hp h1 h2 h3 h4 h5
    have hblank := State.step_blank_long (fuel + 1) st h1 h2 h3 h4
    have hstep := State.step_bare fuel st p (hp p (by simp)).1 (hp p (by simp)).2 h3 h4
    rw [State.clearListLevels_of_level st h5] at hstep hblank
    simp only [h1, h2, if_true] at hstep
    obtain ⟨st2, k1, k2, k3, k4, k5, k6, k7, k8⟩ := ih
      (st.write (str "<p" ++ st.currentClassPart ++ str ">" ++ p ++ str "</p>"))
      (fun u hu => hp u (by simp [hu])) h1 h2 h3 h4 h5
    refine ⟨st2, ?_, k2, k3, k4, k5, k6, k7, ?_⟩
    · simp only [withBlanks, List.map_cons, List.flatten_cons, List.cons_append,
        List.nil_append, State.run, hblank, hstep, Res.bind_done]
      exact k1
    · rw [k8]
      simp [State.write, classParagraphs]

/-- Paragraphs after blank lines, outside every block. -/
theorem State.run_blank_paragraphs (fuel : Nat) :
    ∀ (ps : List (List Nat)) (st : State),
      (∀ p ∈ ps, p ≠ [] ∧ ∀ a ∈ p, plain a = true) → st.idle →
      ∃ st2, st.run (fuel + 1) (withBlanks ps) = .done st2 ∧ st2.idle ∧
        st2.w = st.w ++ paragraphs ps := by
  intro ps
  induction ps with
  | nil => intro st _ h; exact ⟨st, rfl, h, by simp [paragraphs]⟩
  | cons p ps ih =>
    intro st hp h
    have hblank : st.step (fuel + 1) [] = .done st := by
      simp [State.step, h.2.1, h.2.2.2.1, h.2.2.2.2.2.1, State.checkAll_idle st h]
    obtain ⟨hstep, hidle⟩ := State.step_plain fuel st p h (hp p (by simp)).1 (hp p (by simp)).2
    obtain ⟨st2, k1, k2, k3⟩ := ih _ (fun u hu => hp u (by simp [hu])) hidle
    refine ⟨st2, ?_, k2, ?_⟩
    · simp only [withBlanks, List.map_cons, List.flatten_cons, List.cons_append,
        List.nil_append, State.run, hblank, hstep, Res.bind_done]
      exact k1
    · rw [k3]
      simp [State.write, paragraphs]

end Textile

namespace Textile

/-! ## Rendering of lists -/

theorem initialState_flagsClear (root : List Nat) : (initialState root).flagsClear := by
  simp [State.flagsClear, initialState]

theorem State.closers_of_flagsClear (st : State) (h : st.flagsClear) :
    st.closers = listClosers st.listType st.currentListLevel := by
  obtain ⟨h1, _, h3, _, h5, _⟩ := h
  simp [State.closers, h1, h3, h5]

theorem lines_no_newline (f : List Nat → List Nat) (ts : List (List Nat))
    (h : ∀ t ∈ ts, ∀ a ∈ f t, a ≠ 13 ∧ a ≠ 10) :
    ∀ l ∈ ts.map f, ∀ a ∈ l, a ≠ 13 ∧ a ≠ 10 := by
  intro l hl a ha
  obtain ⟨t, ht, rfl⟩ := List.mem_map.1 hl
  exact h t ht a ha

/-- A flat list with the marker `c`. -/
theorem formatter_flat_list (fuel : Nat) (c : Nat) (T : List Nat)
    (hc : (c = 42 ∧ T = str "ul") ∨ (c = 35 ∧ T = str "ol"))
    (ts : List (List Nat)) (hne : ts ≠ []) (hp : ∀ t ∈ ts, ∀ a ∈ t, plain a = true) :
    formatter (fuel + 1) [] (joinLines (ts.map fun t => c :: 32 :: t)) =
      .done (str "<" ++ T ++ str ">" ++ listItems ts ++ str "</" ++ T ++ str ">") := by
  have hT : T = (if c = 42 then str "ul" else str "ol") := by
    rcases hc with ⟨h1, h2⟩ | ⟨h1, h2⟩ <;> subst h1 <;> subst h2 <;> simp
  have hTp : ∀ a ∈ T, plain a = true := by
    rcases hc with ⟨_, h2⟩ | ⟨_, h2⟩ <;> subst h2 <;> decide
  have hc2 : c = 42 ∨ c = 35 := by
    rcases hc with ⟨h1, _⟩ | ⟨h1, _⟩ <;> simp [h1]
  cases ts with
  | nil => exact absurd rfl hne
  | cons t rest =>
    have hsplit := splitLines_joinLines_lines ((t :: rest).map fun t => c :: 32 :: t) (by simp)
      (lines_no_newline _ _ (by
        intro u hu a ha
        simp only [List.mem_cons] at ha
        rcases ha with h | h | h
        · omega
        · omega
        · exact plain_not_newline a (hp u hu a h)))
    have hstep := State.step_list fuel (initialState []) c [] t hc2 (by simp) (hp t (by simp))
      rfl rfl rfl
    simp only [List.length_nil, Nat.zero_add, initialState, Nat.not_lt_zero, if_false,
      Nat.lt_one_iff, gt_iff_lt, Nat.zero_lt_one, if_true, List.nil_append, ← hT] at hstep
    obtain ⟨st2, h1, h2, h3, h4, h5⟩ := State.run_flat fuel c hc2 rest
      { initialState [] with
        listType := T, currentClassPart := [], currentListLevel := 1,
        w := str "<" ++ T ++ str "><li>" ++ t }
      (fun u hu => hp u (by simp [hu])) (initialState_flagsClear []) rfl hT
    have hrun : (initialState []).run (fuel + 1) ((t :: rest).map fun t => c :: 32 :: t) =
        .done st2 := by
      simp only [List.map_cons, State.run]
      have e : c :: 32 :: t = c :: [] ++ 32 :: t := rfl
      rw [e]
      simp only [initialState] at hstep h1 ⊢
      rw [hstep]
      exact h1
    have hout : st2.w ++ st2.closers =
        str "<" ++ T ++ str ">" ++ listItems (t :: rest) ++ str "</" ++ T ++ str ">" := by
      have e1 : str "</li></" = str "</li>" ++ str "</" := by decide
      have e2 : str "><li>" = str ">" ++ str "<li>" := by decide
      rw [State.closers_of_flagsClear st2 h2, h3, h4, ← hT, h5, ← listItems_shift]
      simp [listClosers, e1, e2]
    have e3 : tagState (str "<") false = some true := by decide
    have e4 : tagState (str ">") true = some false := by decide
    have e5 : tagState (str "</") false = some true := by decide
    have htag : tagState (st2.w ++ st2.closers) false = some false := by
      rw [hout]
      simp [tagState_append, e3, e4, e5, tagState_plain T hTp true,
        tagState_listItems (t :: rest) hp]
    rw [formatter_of_run (fuel + 1) [] _ _ st2 false hsplit hrun htag, hout]

/-- A list that goes one level deeper at every item. -/
theorem formatter_nested_list (fuel : Nat) (ts : List (List Nat)) (hne : ts ≠ [])
    (hp : ∀ t ∈ ts, ∀ a ∈ t, plain a = true) :
    formatter (fuel + 1) [] (joinLines (nestedLines ts 1)) =
      .done ((ts.map fun t => str "<ul><li>" ++ t).flatten ++
        (List.replicate ts.length (str "</li></ul>")).flatten) := by
  have hno : ∀ (ts : List (List Nat)) (i : Nat), (∀ t ∈ ts, ∀ a ∈ t, plain a = true) →
      ∀ l ∈ nestedLines ts i, ∀ a ∈ l, a ≠ 13 ∧ a ≠ 10 := by
    intro ts
    induction ts with
    | nil => intro i _ l hl; simp [nestedLines] at hl
    | cons t ts ih =>
      intro i hp l hl a ha
      simp only [nestedLines, List.mem_cons] at hl
      rcases hl with h | h
      · subst h
        simp only [List.mem_append, List.mem_cons] at ha
        rcases ha with h | h | h
        · have := List.eq_of_mem_replicate h; omega
        · omega
        · exact plain_not_newline a (hp t (by simp) a h)
      · exact ih (i + 1) (fun u hu => hp u (by simp [hu])) l h a ha
  have hne2 : nestedLines ts 1 ≠ [] := by
    cases ts with
    | nil => exact absurd rfl hne
    | cons t rest => simp [nestedLines]
  have hsplit := splitLines_joinLines_lines (nestedLines ts 1) hne2 (hno ts 1 hp)
  obtain ⟨st2, h1, h2, h3, h4, h5⟩ := State.run_nested fuel ts 0 (initialState []) hp
    (initialState_flagsClear []) rfl (fun h => absurd h hne)
  have e0 : str "</li></" ++ str "ul" ++ str ">" = str "</li></ul>" := by decide
  have hout : st2.w ++ st2.closers = (ts.map fun t => str "<ul><li>" ++ t).flatten ++
      (List.replicate ts.length (str "</li></ul>")).flatten := by
    rw [State.closers_of_flagsClear st2 h2, h3, h4, h5]
    simp [listClosers, initialState, e0]
  have htag : tagState (st2.w ++ st2.closers) false = some false := by
    have k1 : tagState (ts.map fun t => str "<ul><li>" ++ t).flatten false = some false := by
      apply tagState_flatten
      intro x hx
      obtain ⟨t, ht, rfl⟩ := List.mem_map.1 hx
      have e : tagState (str "<ul><li>") false = some false := by decide
      simp [tagState_append, e, tagState_plain t (hp t ht) false]
    have k2 : tagState (List.replicate ts.length (str "</li></ul>")).flatten false =
        some false := by
      apply tagState_flatten
      intro x hx
      rw [List.eq_of_mem_replicate hx]
      decide
    rw [hout, tagState_append, k1]
    exact k2
  rw [formatter_of_run (fuel + 1) [] _ _ st2 false hsplit h1 htag, hout]

end Textile

namespace Textile

/-! ## Rendering of blockquotes -/

theorem opener_no_newline (pre t : List Nat) (hpre : ∀ a ∈ pre, a ≠ 13 ∧ a ≠ 10)
    (ht : ∀ a ∈ t, plain a = true) : ∀ a ∈ pre ++ t, a ≠ 13 ∧ a ≠ 10 := by
  intro a ha
  rcases List.mem_append.1 ha with h | h
  · exact hpre a h
  · exact plain_not_newline a (ht a h)

theorem withBlanks_no_newline (ps : List (List Nat))
    (hp : ∀ p ∈ ps, p ≠ [] ∧ ∀ a ∈ p, plain a = true) :
    ∀ l ∈ withBlanks ps, ∀ a ∈ l, a ≠ 13 ∧ a ≠ 10 := by
  induction ps with
  | nil => intro l hl; simp [withBlanks] at hl
  | cons p ps ih =>
    intro l hl a ha
    simp only [withBlanks, List.map_cons, List.flatten_cons, List.cons_append, List.nil_append,
      List.mem_cons] at hl
    rcases hl with h | h | h
    · subst h; simp at ha
    · subst h; exact plain_not_newline a ((hp l (by simp)).2 a ha)
    · exact ih (fun u hu => hp u (by simp [hu])) l h a ha

theorem tagState_breaks (cs : List (List Nat))
    (hcs : ∀ c ∈ cs, c ≠ [] ∧ ∀ a ∈ c, plain a = true) :
    tagState (cs.map fun c => str "<br>" ++ c).flatten false = some false := by
  apply tagState_flatten
  intro x hx
  obtain ⟨c, hc, rfl⟩ := List.mem_map.1 hx
  have e : tagState (str "<br>") false = some false := by decide
  simp [tagState_append, e, tagState_plain c (hcs c hc).2 false]

/-- A short blockquote and its continuation lines. -/
theorem formatter_short_quote (fuel : Nat) (t : List Nat) (cs : List (List Nat))
    (ht : ∀ a ∈ t, plain a = true) (hcs : ∀ c ∈ cs, c ≠ [] ∧ ∀ a ∈ c, plain a = true) :
    formatter (fuel + 1) [] (joinLines ((str "bq. " ++ t) :: cs)) =
      .done (str "<blockquote><p>" ++ t ++ (cs.map fun c => str "<br>" ++ c).flatten ++
        str "</p></blockquote>") := by
  have e0 : str "bq. " ++ t = str "bq" ++ (if false then str ".." else str ".") ++ 32 :: t := by
    have : str "bq. " = str "bq" ++ str "." ++ [32] := by decide
    simp [this]
  have hsplit := splitLines_joinLines_lines ((str "bq. " ++ t) :: cs) (by simp) (by
    intro l hl
    simp only [List.mem_cons] at hl
    rcases hl with h | h
    · subst h; exact opener_no_newline _ t (by decide) ht
    · exact fun a ha => plain_not_newline a ((hcs l h).2 a ha))
  have hstep := State.step_blockQuote fuel (initialState []) false t ht
    (initialState_flagsClear [])
  rw [← e0] at hstep
  simp only [Bool.false_eq_true, if_false, List.append_nil] at hstep
  obtain ⟨st2, k1, k2, k3, k4, k5, k6, _, k8⟩ := State.run_short fuel cs
    { initialState [] with
      inBlockQuote := true, inLongBlockQuote := false, currentClassPart := [],
      w := (initialState []).w ++ (str "<blockquote><p>" ++ t) }
    hcs rfl rfl rfl rfl rfl
  have hrun : (initialState []).run (fuel + 1) ((str "bq. " ++ t) :: cs) = .done st2 := by
    simp only [State.run, hstep, Res.bind_done]
    exact k1
  have hout : st2.w ++ st2.closers = str "<blockquote><p>" ++ t ++
      (cs.map fun c => str "<br>" ++ c).flatten ++ str "</p></blockquote>" := by
    simp [State.closers, k2, k3, k4, k5, k6, k8, listClosers, initialState]
  have e1 : tagState (str "<blockquote><p>") false = some false := by decide
  have e2 : tagState (str "</p></blockquote>") false = some false := by decide
  have htag : tagState (st2.w ++ st2.closers) false = some false := by
    rw [hout]
    simp [tagState_append, e1, e2, tagState_plain t ht false, tagState_breaks cs hcs]
  rw [formatter_of_run (fuel + 1) [] _ _ st2 false hsplit hrun htag, hout]

theorem classParagraphs_nil (ps : List (List Nat)) : classParagraphs [] ps = paragraphs ps := by
  have e : str "<p" ++ str ">" = str "<p>" := by decide
  simp only [classParagraphs, paragraphs, List.append_nil, e]

/-- A long blockquote without a class and its paragraphs after blank lines. -/
theorem formatter_long_quote (fuel : Nat) (p : List Nat) (ps : List (List Nat))
    (hp : ∀ q ∈ p :: ps, q ≠ [] ∧ ∀ a ∈ q, plain a = true) :
    formatter (fuel + 1) [] (joinLines ((str "bq.. " ++ p) :: withBlanks ps)) =
      .done (str "<blockquote>" ++ paragraphs (p :: ps) ++ str "</blockquote>") := by
  have hps : ∀ q ∈ ps, q ≠ [] ∧ ∀ a ∈ q, plain a = true := fun q hq => hp q (by simp [hq])
  have e0 : str "bq.. " ++ p = str "bq" ++ (if true then str ".." else str ".") ++ 32 :: p := by
    have : str "bq.. " = str "bq" ++ str ".." ++ [32] := by decide
    simp [this]
  have hsplit := splitLines_joinLines_lines ((str "bq.. " ++ p) :: withBlanks ps) (by simp) (by
    intro l hl
    simp only [List.mem_cons] at hl
    rcases hl with h | h
    · subst h; exact opener_no_newline _ p (by decide) (hp p (by simp)).2
    · exact withBlanks_no_newline ps hps l h)
  have hstep := State.step_blockQuote fuel (initialState []) true p (hp p (by simp)).2
    (initialState_flagsClear [])
  rw [← e0] at hstep
  simp only [if_true] at hstep
  obtain ⟨st2, k1, k2, k3, k4, k5, k6, _, k8⟩ := State.run_long fuel ps
    { initialState [] with
      inBlockQuote := true, inLongBlockQuote := true, currentClassPart := [],
      w := (initialState []).w ++ (str "<blockquote><p>" ++ p ++ str "</p>") }
    hps rfl rfl rfl rfl rfl
  have hrun : (initialState []).run (fuel + 1) ((str "bq.. " ++ p) :: withBlanks ps) =
      .done st2 := by
    simp only [State.run, hstep, Res.bind_done]
    exact k1
  have e3 : str "<blockquote><p>" = str "<blockquote>" ++ str "<p>" := by decide
  have hout : st2.w ++ st2.closers =
      str "<blockquote>" ++ paragraphs (p :: ps) ++ str "</blockquote>" := by
    simp [State.closers, k2, k3, k4, k5, k6, k8, listClosers, initialState,
      classParagraphs_nil, e3, paragraphs]
  have e1 : tagState (str "<blockquote>") false = some false := by decide
  have e2 : tagState (str "</blockquote>") false = some false := by decide
  have hpar : tagState (paragraphs (p :: ps)) false = some false := by
    rw [← classParagraphs_nil]
    exact tagState_classParagraphs [] (by decide) (p :: ps) (fun l hl => (hp l hl).2)
  have htag : tagState (st2.w ++ st2.closers) false = some false := by
    rw [hout]
    simp [tagState_append, e1, e2, hpar]
  rw [formatter_of_run (fuel + 1) [] _ _ st2 false hsplit hrun htag, hout]

end Textile

namespace Textile

/-- A long blockquote with the class `x :: xs` and its paragraphs after blank lines. -/
theorem formatter_long_quote_class (fuel : Nat) (x : Nat) (xs p : List Nat)
    (ps : List (List Nat)) (hx : ∀ a ∈ x :: xs, plain a = true)
    (hp : ∀ q ∈ p :: ps, q ≠ [] ∧ ∀ a ∈ q, plain a = true) :
    formatter (fuel + 1) []
        (joinLines ((str "bq(" ++ x :: xs ++ str ").. " ++ p) :: withBlanks ps)) =
      .done (str "<blockquote" ++ (str " class=" ++ x :: xs) ++ str ">" ++
        classParagraphs (str " class=" ++ x :: xs) (p :: ps) ++ str "</blockquote>") := by
  have hps : ∀ q ∈ ps, q ≠ [] ∧ ∀ a ∈ q, plain a = true := fun q hq => hp q (by simp [hq])
  have hsplit := splitLines_joinLines_lines
    ((str "bq(" ++ x :: xs ++ str ").. " ++ p) :: withBlanks ps) (by simp) (by
    intro l hl
    simp only [List.mem_cons] at hl
    rcases hl with h | h
    · subst h
      refine opener_no_newline _ p ?_ (hp p (by simp)).2
      intro a ha
      rcases List.mem_append.1 ha with h1 | h1
      · rcases List.mem_append.1 h1 with h2 | h2
        · exact (by decide : ∀ a ∈ str "bq(", a ≠ 13 ∧ a ≠ 10) a h2
        · exact plain_not_newline a (hx a h2)
      · exact (by decide : ∀ a ∈ str ").. ", a ≠ 13 ∧ a ≠ 10) a h1
    · exact withBlanks_no_newline ps hps l h)
  have hstep := State.step_blockQuote_class fuel (initialState []) x xs p (hx x (by simp))
    (fun a ha => hx a (by simp [ha])) (hp p (by simp)).2 (initialState_flagsClear [])
  obtain ⟨st2, k1, k2, k3, k4, k5, k6, _, k8⟩ := State.run_long fuel ps
    { initialState [] with
      inBlockQuote := true, inLongBlockQuote := true,
      currentClassPart := str " class=" ++ x :: xs,
      w := (initialState []).w ++ (str "<blockquote" ++ (str " class=" ++ x :: xs) ++
        str "><p" ++ (str " class=" ++ x :: xs) ++ str ">" ++ p ++ str "</p>") }
    hps rfl rfl rfl rfl rfl
  have hrun : (initialState []).run (fuel + 1)
      ((str "bq(" ++ x :: xs ++ str ").. " ++ p) :: withBlanks ps) = .done st2 := by
    simp only [State.run, hstep, Res.bind_done]
    exact k1
  have e3 : str "><p" = str ">" ++ str "<p" := by decide
  have hout : st2.w ++ st2.closers =
      str "<blockquote" ++ (str " class=" ++ x :: xs) ++ str ">" ++
        classParagraphs (str " class=" ++ x :: xs) (p :: ps) ++ str "</blockquote>" := by
    simp [State.closers, k2, k3, k4, k5, k6, k8, listClosers, initialState, e3,
      classParagraphs]
  have e1 : tagState (str "<blockquote") false = some true := by decide
  have e2 : tagState (str "</blockquote>") false = some false := by decide
  have e4 : tagState (str ">") true = some false := by decide
  have hcp : tagState (str " class=" ++ x :: xs) true = some true := by
    have : tagState (str " class=") true = some true := by decide
    simp [tagState_append, this, tagState_plain (x :: xs) hx true]
  have hpar := tagState_classParagraphs (str " class=" ++ x :: xs) hcp (p :: ps)
    (fun l hl => (hp l hl).2)
  have htag : tagState (st2.w ++ st2.closers) false = some false := by
    have h1 : tagState (str "<blockquote" ++ (str " class=" ++ x :: xs)) false = some true := by
      rw [tagState_append, e1]; exact hcp
    have h2 : tagState (str "<blockquote" ++ (str " class=" ++ x :: xs) ++ str ">") false =
        some false := by
      rw [tagState_append, h1]; exact e4
    have h3 : tagState (str "<blockquote" ++ (str " class=" ++ x :: xs) ++ str ">" ++
        classParagraphs (str " class=" ++ x :: xs) (p :: ps)) false = some false := by
      rw [tagState_append, h2]; exact hpar
    rw [hout, tagState_append, h3]
    exact e2
  rw [formatter_of_run (fuel + 1) [] _ _ st2 false hsplit hrun htag, hout]

/-- A short blockquote is closed by the first blank line. -/
theorem formatter_short_quote_blank (fuel : Nat) (p : List Nat) (ps : List (List Nat))
    (hp : ∀ q ∈ p :: ps, q ≠ [] ∧ ∀ a ∈ q, plain a = true) :
    formatter (fuel + 1) [] (joinLines ((str "bq. " ++ p) :: withBlanks ps)) =
      .done (str "<blockquote><p>" ++ p ++ str "</p></blockquote>" ++ paragraphs ps) := by
  cases ps with
  | nil =>
    have := formatter_short_quote fuel p [] (hp p (by simp)).2 (by simp)
    simpa [withBlanks, paragraphs] using this
  | cons q qs =>
    have hps : ∀ r ∈ q :: qs, r ≠ [] ∧ ∀ a ∈ r, plain a = true :=
      fun r hr => hp r (by simp [hr])
    have e0 : str "bq. " ++ p =
        str "bq" ++ (if false then str ".." else str ".") ++ 32 :: p := by
      have : str "bq. " = str "bq" ++ str "." ++ [32] := by decide
      simp [this]
    have hsplit := splitLines_joinLines_lines ((str "bq. " ++ p) :: withBlanks (q :: qs))
      (by simp) (by
        intro l hl
        simp only [List.mem_cons] at hl
        rcases hl with h | h
        · subst h; exact opener_no_newline _ p (by decide) (hp p (by simp)).2
        · exact withBlanks_no_newline (q :: qs) hps l h)
    have hstep := State.step_blockQuote fuel (initialState []) false p (hp p (by simp)).2
      (initialState_flagsClear [])
    rw [← e0] at hstep
    simp only [Bool.false_eq_true, if_false, List.append_nil] at hstep
    have hidle : State.idle { initialState [] with
        w := str "<blockquote><p>" ++ p ++ str "</p></blockquote>" } := by
      simp [State.idle, initialState]
    have hblank : State.step (fuel + 1) { initialState [] with
        inBlockQuote := true, inLongBlockQuote := false, currentClassPart := [],
        w := (initialState []).w ++ (str "<blockquote><p>" ++ p) } [] =
        .done { initialState [] with
          w := str "<blockquote><p>" ++ p ++ str "</p></blockquote>" } := by
      simp [State.step, State.checkAll, State.checkBlockQuote, State.checkPre, State.checkCode,
        State.clearListLevels, State.write, initialState]
    have hblank2 : State.step (fuel + 1) { initialState [] with
        w := str "<blockquote><p>" ++ p ++ str "</p></blockquote>" } [] =
        .done { initialState [] with
          w := str "<blockquote><p>" ++ p ++ str "</p></blockquote>" } := by
      simp [State.step, State.checkAll, State.checkBlockQuote, State.checkPre, State.checkCode,
        State.clearListLevels, initialState]
    obtain ⟨st2, k1, k2, k3⟩ := State.run_blank_paragraphs fuel (q :: qs) _ hps hidle
    have hrun : (initialState []).run (fuel + 1) ((str "bq. " ++ p) :: withBlanks (q :: qs)) =
        .done st2 := by
      simp only [withBlanks, List.map_cons, List.flatten_cons, List.cons_append,
        List.nil_append, State.run, hblank2, Res.bind_done] at k1
      simp only [withBlanks, List.map_cons, List.flatten_cons, List.cons_append,
        List.nil_append, State.run, hstep, hblank, Res.bind_done]
      exact k1
    obtain ⟨b1, b2, b3, b4, b5, b6, b7⟩ := k2
    have hout : st2.w ++ st2.closers =
        str "<blockquote><p>" ++ p ++ str "</p></blockquote>" ++ paragraphs (q :: qs) := by
      simp [State.closers, b1, b3, b5, b7, k3, listClosers]
    have e1 : tagState (str "<blockquote><p>") false = some false := by decide
    have e2 : tagState (str "</p></blockquote>") false = some false := by decide
    have hpar : tagState (paragraphs (q :: qs)) false = some false := by
      rw [← classParagraphs_nil]
      exact tagState_classParagraphs [] (by decide) (q :: qs) (fun l hl => (hps l hl).2)
    have htag : tagState (st2.w ++ st2.closers) false = some false := by
      rw [hout]
      simp [tagState_append, e1, e2, hpar, tagState_plain p (hp p (by simp)).2 false]
    rw [formatter_of_run (fuel + 1) [] _ _ st2 false hsplit hrun htag, hout]

end Textile

namespace Textile

/-! ## Lists: C11 to C13 -/

/-- C11: for `n ≥ 1` items of letters, digits and spaces, the lines `"* " ++ t_i` joined by
`\n` are rendered as `<ul>`, the items `<li>t_i</li>` and `</ul>`, and the lines
`"# " ++ t_i` as the same with `ol` for `ul`. -/
theorem C11_flat_list (fuel : Nat) (hf : 0 < fuel) (ts : List (List Nat)) (hne : ts ≠ [])
    (hp : ∀ t ∈ ts, ∀ a ∈ t, plain a = true) :
    TextileFormatter fuel (joinLines (ts.map fun t => str "* " ++ t)) =
        .done (str "<ul>" ++ listItems ts ++ str "</ul>") ∧
      TextileFormatter fuel (joinLines (ts.map fun t => str "# " ++ t)) =
        .done (str "<ol>" ++ listItems ts ++ str "</ol>") := by
  obtain ⟨n, rfl⟩ : ∃ n, fuel = n + 1 := ⟨fuel - 1, by omega⟩
  have e1 : str "* " = [42, 32] := by decide
  have e2 : str "# " = [35, 32] := by decide
  have e3 : str "<" ++ str "ul" ++ str ">" = str "<ul>" := by decide
  have e4 : str "</" ++ (str "ul" ++ str ">") = str "</ul>" := by decide
  have e5 : str "<" ++ str "ol" ++ str ">" = str "<ol>" := by decide
  have e6 : str "</" ++ (str "ol" ++ str ">") = str "</ol>" := by decide
  have h1 := formatter_flat_list n 42 (str "ul") (Or.inl ⟨rfl, rfl⟩) ts hne hp
  have h2 := formatter_flat_list n 35 (str "ol") (Or.inr ⟨rfl, rfl⟩) ts hne hp
  rw [e3] at h1
  rw [e5] at h2
  rw [List.append_assoc, List.append_assoc, e4] at h1
  rw [List.append_assoc, List.append_assoc, e6] at h2
  simp only [TextileFormatter, e1, e2, List.cons_append, List.nil_append]
  exact ⟨h1, h2⟩

/-- C11 at the items `foo` and `bar bar`. -/
theorem C11_flat_list_witness :
    0 < 1 ∧ [str "foo", str "bar bar"] ≠ [] ∧
      (TextileFormatter 1 (joinLines ([str "foo", str "bar bar"].map fun t => str "* " ++ t)) =
          .done (str "<ul>" ++ listItems [str "foo", str "bar bar"] ++ str "</ul>") ∧
        TextileFormatter 1 (joinLines ([str "foo", str "bar bar"].map fun t => str "# " ++ t)) =
          .done (str "<ol>" ++ listItems [str "foo", str "bar bar"] ++ str "</ol>")) :=
  ⟨by decide, by decide,
    C11_flat_list 1 (by decide) [str "foo", str "bar bar"] (by decide) (by decide)⟩

/-- C12: for `k ≥ 1` plain items, the lines of which line `i` is `i` copies of `*`, a space
and `t_i` are rendered as the openings `<ul><li>t_i` one after the other, followed by `k`
copies of `</li></ul>`. -/
theorem C12_nested_list (fuel : Nat) (hf : 0 < fuel) (ts : List (List Nat)) (hne : ts ≠ [])
    (hp : ∀ t ∈ ts, ∀ a ∈ t, plain a = true) :
    TextileFormatter fuel (joinLines (nestedLines ts 1)) =
      .done ((ts.map fun t => str "<ul><li>" ++ t).flatten ++
        (List.replicate ts.length (str "</li></ul>")).flatten) := by
  obtain ⟨n, rfl⟩ : ∃ n, fuel = n + 1 := ⟨fuel - 1, by omega⟩
  exact formatter_nested_list n ts hne hp

/-- C12 at the items `foo`, `bar`, `baz` on the levels one, two and three. -/
theorem C12_nested_list_witness :
    0 < 1 ∧ [str "foo", str "bar", str "baz"] ≠ [] ∧
      TextileFormatter 1 (joinLines (nestedLines [str "foo", str "bar", str "baz"] 1)) =
        .done (([str "foo", str "bar", str "baz"].map fun t => str "<ul><li>" ++ t).flatten ++
          (List.replicate [str "foo", str "bar", str "baz"].length
            (str "</li></ul>")).flatten) :=
  ⟨by decide, by decide,
    C12_nested_list 1 (by decide) [str "foo", str "bar", str "baz"] (by decide) (by decide)⟩

/-- C13 as stated fails: after the lines `* a`, `** b`, `bq. q` the state has `inCode`
false, the list level two and an open blockquote, and on the line `* c` the list handler
first appends `</p></blockquote>`, before the one copy of `</li></ul>` and `</li><li>c`. -/
theorem C13_open_blockquote :
    reached 1 [] [str "* a", str "** b", str "bq. q"] =
      .done { w := str "<ul><li>a<ul><li>b<blockquote><p>q", inBlockQuote := true,
              inLongBlockQuote := false, inPre := false, inLongPre := false, inCode := false,
              inLongCode := false, listType := str "ul", currentListLevel := 2,
              currentClassPart := [], root_url := [], hash := emptyHash } ∧
    handledAfter 1 [str "* a", str "** b", str "bq. q"] listRegexp (listHandler 1)
        (str "* c") =
      some (str "<ul><li>a<ul><li>b<blockquote><p>q" ++ str "</p></blockquote>" ++
        str "</li></ul>" ++ str "</li><li>c", 1) := by
  decide

/-- C13, amended: in a state with `inBlockQuote`, `inPre` and `inCode` false and the list
level `C`, on a list-item line whose run of markers has a length `L < C`, the list handler
returns when the inline transformer returns the text `t` of the item, has then appended
`C - L` copies of `</li></T>` (`T` is `ul` when the first marker is `*`, else `ol`),
`</li><li>` and `t`, and leaves the list level `L`. -/
theorem C13_level_decrease (fuel : Nat) (st : State) (s : List Nat) (args : List (List Nat))
    (hm : listRegexp.FindStringSubmatch s = some args)
    (h1 : st.inBlockQuote = false) (h2 : st.inPre = false) (h3 : st.inCode = false)
    (hL : (arg args 1).length < st.currentListLevel) :
    ∃ f : List Nat → State,
      listHandler fuel st args =
        (st.transformLine fuel (arg args 3)).bind (fun t => .done (f t, true)) ∧
      ∀ t, (f t).w = st.w ++
          listClosers (if (arg args 1).getD 0 0 = 42 then str "ul" else str "ol")
            (st.currentListLevel - (arg args 1).length) ++ str "</li><li>" ++ t ∧
        (f t).currentListLevel = (arg args 1).length := by
  have _ := hm
  rw [listHandler_eq fuel st args h1 h2 h3]
  refine ⟨_, rfl, fun t => ?_⟩
  simp [hL]

/-- C13, amended, at the line `* c` in a state with two open list levels. -/
theorem C13_level_decrease_witness :
    ∃ f : List Nat → State,
      listHandler 1 { initialState [] with currentListLevel := 2, listType := str "ul" }
          [str "* c", str "*", [], str "c"] =
        (State.transformLine { initialState [] with currentListLevel := 2, listType := str "ul" }
          1 (arg [str "* c", str "*", [], str "c"] 3)).bind (fun t => .done (f t, true)) ∧
      ∀ t, (f t).w = State.w { initialState [] with currentListLevel := 2, listType := str "ul" } ++
          listClosers (if (arg [str "* c", str "*", [], str "c"] 1).getD 0 0 = 42 then str "ul"
            else str "ol")
            (State.currentListLevel
              { initialState [] with currentListLevel := 2, listType := str "ul" } -
              (arg [str "* c", str "*", [], str "c"] 1).length) ++ str "</li><li>" ++ t ∧
        (f t).currentListLevel = (arg [str "* c", str "*", [], str "c"] 1).length :=
  C13_level_decrease 1 { initialState [] with currentListLevel := 2, listType := str "ul" }
    (str "* c") [str "* c", str "*", [], str "c"] (by decide) rfl rfl rfl (by decide)

end Textile

namespace Textile

/-! ## Blockquotes: C14 to C16 -/

/-- C14: for a plain text `t` and plain continuation lines `c_i` that are not empty, the
line `"bq. " ++ t` followed by the lines `c_i` is rendered as `<blockquote><p>`, `t`, the
pieces `<br>c_i` and `</p></blockquote>`. -/
theorem C14_short_blockquote (fuel : Nat) (hf : 0 < fuel) (t : List Nat)
    (cs : List (List Nat)) (ht : ∀ a ∈ t, plain a = true)
    (hcs : ∀ c ∈ cs, c ≠ [] ∧ ∀ a ∈ c, plain a = true) :
    TextileFormatter fuel (joinLines ((str "bq. " ++ t) :: cs)) =
      .done (str "<blockquote><p>" ++ t ++ (cs.map fun c => str "<br>" ++ c).flatten ++
        str "</p></blockquote>") := by
  obtain ⟨n, rfl⟩ : ∃ n, fuel = n + 1 := ⟨fuel - 1, by omega⟩
  exact formatter_short_quote n t cs ht hcs

/-- C14 at the text `Hello` and the continuation lines `my` and `old friend`. -/
theorem C14_short_blockquote_witness :
    0 < 1 ∧
      TextileFormatter 1 (joinLines ((str "bq. " ++ str "Hello") :: [str "my", str "old friend"])) =
        .done (str "<blockquote><p>" ++ str "Hello" ++
          ([str "my", str "old friend"].map fun c => str "<br>" ++ c).flatten ++
          str "</p></blockquote>") :=
  ⟨by decide,
    C14_short_blockquote 1 (by decide) (str "Hello") [str "my", str "old friend"] (by decide)
      (by decide)⟩

/-- C15: for plain paragraphs `p_1, ..., p_n` that are not empty, the line `"bq.. " ++ p_1`
followed by `p_2, ..., p_n`, each after one blank line, is rendered as `<blockquote>`, the
paragraphs `<p>p_i</p>` and `</blockquote>`; with a class `c` of plain characters the opener
`"bq(c).. "` puts ` class=c` on the blockquote and on every paragraph; and with the short
opener `"bq. "` the blockquote is closed after `p_1`, the other paragraphs follow it. -/
theorem C15_long_blockquote (fuel : Nat) (hf : 0 < fuel) (p : List Nat) (ps : List (List Nat))
    (hp : ∀ q ∈ p :: ps, q ≠ [] ∧ ∀ a ∈ q, plain a = true) :
    TextileFormatter fuel (joinLines ((str "bq.. " ++ p) :: withBlanks ps)) =
        .done (str "<blockquote>" ++ paragraphs (p :: ps) ++ str "</blockquote>") ∧
      (∀ c : List Nat, c ≠ [] → (∀ a ∈ c, plain a = true) →
        TextileFormatter fuel
            (joinLines ((str "bq(" ++ c ++ str ").. " ++ p) :: withBlanks ps)) =
          .done (str "<blockquote" ++ (str " class=" ++ c) ++ str ">" ++
            classParagraphs (str " class=" ++ c) (p :: ps) ++ str "</blockquote>")) ∧
      TextileFormatter fuel (joinLines ((str "bq. " ++ p) :: withBlanks ps)) =
        .done (str "<blockquote><p>" ++ p ++ str "</p></blockquote>" ++ paragraphs ps) := by
  obtain ⟨n, rfl⟩ : ∃ n, fuel = n + 1 := ⟨fuel - 1, by omega⟩
  refine ⟨formatter_long_quote n p ps hp, ?_, formatter_short_quote_blank n p ps hp⟩
  intro c hc hcp
  cases c with
  | nil => exact absurd rfl hc
  | cons x xs => exact formatter_long_quote_class n x xs p ps hcp hp

/-- C15 at the paragraphs `one`, `two`, `three` and the class `foo`. -/
theorem C15_long_blockquote_witness :
    0 < 1 ∧
      (TextileFormatter 1 (joinLines ((str "bq.. " ++ str "one") ::
          withBlanks [str "two", str "three"])) =
        .done (str "<blockquote>" ++ paragraphs (str "one" :: [str "two", str "three"]) ++
          str "</blockquote>")) ∧
      (TextileFormatter 1 (joinLines ((str "bq(" ++ str "foo" ++ str ").. " ++ str "one") ::
          withBlanks [str "two", str "three"])) =
        .done (str "<blockquote" ++ (str " class=" ++ str "foo") ++ str ">" ++
          classParagraphs (str " class=" ++ str "foo") (str "one" :: [str "two", str "three"]) ++
          str "</blockquote>")) ∧
      (TextileFormatter 1 (joinLines ((str "bq. " ++ str "one") ::
          withBlanks [str "two", str "three"])) =
        .done (str "<blockquote><p>" ++ str "one" ++ str "</p></blockquote>" ++
          paragraphs [str "two", str "three"])) :=
  ⟨by decide,
    (C15_long_blockquote 1 (by decide) (str "one") [str "two", str "three"] (by decide)).1,
    (C15_long_blockquote 1 (by decide) (str "one") [str "two", str "three"] (by decide)).2.1
      (str "foo") (by decide) (by decide),
    (C15_long_blockquote 1 (by decide) (str "one") [str "two", str "three"] (by decide)).2.2⟩

/-- C16 as stated fails: on the short opener `bq. x` the handler writes
`<blockquote><p>x` and no `</p>`, and on the long opener `bq.. x` it writes the complete
paragraph `<blockquote><p>x</p>`. -/
theorem C16_short_form_open :
    handledAfter 1 [] blockQuoteRegexp (blockQuoteHandler 1) (str "bq. x") =
        some (str "<blockquote><p>x", 0) ∧
      handledAfter 1 [] blockQuoteRegexp (blockQuoteHandler 1) (str "bq.. x") =
        some (str "<blockquote><p>x</p>", 0) := by
  decide

/-- C16, amended: on a blockquote opener line the handler returns when the inline
transformer returns the text `t`; after the closing tags of an open block it has then
written `<blockquote` and `<p`, each with the class part, and `t`, followed by `</p>` when
the opener is the long form `..` and by nothing when it is the short form, whose paragraph
stays open; the flag `inLongBlockQuote` is set for the long form only. -/
theorem C16_opener_wrapping (fuel : Nat) (st : State) (s : List Nat) (args : List (List Nat))
    (hm : blockQuoteRegexp.FindStringSubmatch s = some args) :
    ∃ f : List Nat → State,
      blockQuoteHandler fuel st args =
        (st.transformLine fuel (arg args 3)).bind (fun t => .done (f t, true)) ∧
      ∀ t, (f t).w = st.checkBlockQuote.checkPre.checkCode.w ++
          (str "<blockquote" ++ classPart (arg args 1) ++ str "><p" ++ classPart (arg args 1) ++
            str ">" ++ t ++ (if arg args 2 = str ".." then str "</p>" else [])) ∧
        (f t).inBlockQuote = true ∧
        (f t).inLongBlockQuote = decide (arg args 2 = str "..") := by
  have _ := hm
  rw [blockQuoteHandler_eq fuel st args]
  exact ⟨_, rfl, fun t => ⟨rfl, rfl, rfl⟩⟩

/-- C16, amended, at the short opener `bq. x` in the initial state. -/
theorem C16_opener_wrapping_witness :
    ∃ f : List Nat → State,
      blockQuoteHandler 1 (initialState []) [str "bq. x", [], str ".", str "x"] =
        ((initialState []).transformLine 1 (arg [str "bq. x", [], str ".", str "x"] 3)).bind
          (fun t => .done (f t, true)) ∧
      ∀ t, (f t).w = (initialState []).checkBlockQuote.checkPre.checkCode.w ++
          (str "<blockquote" ++ classPart (arg [str "bq. x", [], str ".", str "x"] 1) ++
            str "><p" ++ classPart (arg [str "bq. x", [], str ".", str "x"] 1) ++
            str ">" ++ t ++
            (if arg [str "bq. x", [], str ".", str "x"] 2 = str ".." then str "</p>" else [])) ∧
        (f t).inBlockQuote = true ∧
        (f t).inLongBlockQuote = decide (arg [str "bq. x", [], str ".", str "x"] 2 = str "..") :=
  C16_opener_wrapping 1 (initialState []) (str "bq. x") [str "bq. x", [], str ".", str "x"]
    (by decide)

end Textile

namespace Textile

/-! ## Lists and the other blocks: C17 to C20 -/

theorem State.clearListLevels_spec (st : State) :
    st.clearListLevels.currentListLevel = 0 ∧
      st.clearListLevels.w = st.w ++ listClosers st.listType st.currentListLevel ∧
      st.clearListLevels.root_url = st.root_url ∧ st.clearListLevels.hash = st.hash := by
  rw [State.clearListLevels_eq]
  split_ifs with h
  · exact ⟨rfl, rfl, rfl, rfl⟩
  · have : st.currentListLevel = 0 := by omega
    simp [this, listClosers]

/-- C17 as stated fails: after the line `* foo` the openers `bq. bar` and `p. bar` write
their opening tags and the text without any closing tag of the list, and the list level is
still one. -/
theorem C17_list_stays_open :
    reachedOutput 1 [] [str "* foo", str "bq. bar"] =
        some (str "<ul><li>foo" ++ str "<blockquote><p>bar", 1) ∧
      reachedOutput 1 [] [str "* foo", str "p. bar"] =
        some (str "<ul><li>foo" ++ str "<p>bar</p>", 1) := by
  decide

/-- C17, amended: a blockquote opener line and a `p.` paragraph line leave the list level
as it is and write no closing tag of a list: the handler returns when the inline
transformer returns the text `t`, and has then written the closing tags of an open
blockquote, pre or code block only (none when no block is open), the opening of the new
block and `t`. -/
theorem C17_openers_keep_lists (fuel : Nat) (st : State) (s : List Nat)
    (args : List (List Nat)) :
    (blockQuoteRegexp.FindStringSubmatch s = some args →
      ∃ f : List Nat → State,
        blockQuoteHandler fuel st args =
          (st.transformLine fuel (arg args 3)).bind (fun t => .done (f t, true)) ∧
        ∀ t, (f t).currentListLevel = st.currentListLevel ∧
          (f t).w = st.checkBlockQuote.checkPre.checkCode.w ++
            (str "<blockquote" ++ classPart (arg args 1) ++ str "><p" ++
              classPart (arg args 1) ++ str ">" ++ t ++
              (if arg args 2 = str ".." then str "</p>" else []))) ∧
    (paragraphRegexp.FindStringSubmatch s = some args →
      ∃ f : List Nat → State,
        paragraphHandler fuel st args =
          (st.transformLine fuel (arg args 2)).bind (fun t => .done (f t, true)) ∧
        ∀ t, (f t).currentListLevel = st.currentListLevel ∧
          (f t).w = st.checkBlockQuote.checkPre.checkCode.w ++
            (str "<p" ++ classPart (arg args 1) ++ str ">" ++ t ++ str "</p>")) ∧
    (st.flagsClear → st.checkBlockQuote.checkPre.checkCode.w = st.w) := by
  obtain ⟨_, _, k3, _⟩ := st.checks_keys
  refine ⟨fun _ => ?_, fun _ => ?_, fun hf => ?_⟩
  · rw [blockQuoteHandler_eq fuel st args]
    exact ⟨_, rfl, fun t => ⟨k3, rfl⟩⟩
  · rw [paragraphHandler_eq fuel st args]
    exact ⟨_, rfl, fun t => ⟨k3, rfl⟩⟩
  · obtain ⟨c1, c2, c3⟩ := st.checks_of_flagsClear hf
    rw [c1, c2, c3]

/-- C17, amended, at the lines `bq. bar` and `p. bar` in a state with one open list
level. -/
theorem C17_openers_keep_lists_witness :
    (∃ f : List Nat → State,
      blockQuoteHandler 1 { initialState [] with currentListLevel := 1, listType := str "ul" }
          [str "bq. bar", [], str ".", str "bar"] =
        (State.transformLine { initialState [] with currentListLevel := 1, listType := str "ul" }
          1 (arg [str "bq. bar", [], str ".", str "bar"] 3)).bind
          (fun t => .done (f t, true)) ∧
      ∀ t, (f t).currentListLevel =
          State.currentListLevel
            { initialState [] with currentListLevel := 1, listType := str "ul" } ∧
        (f t).w = (State.checkCode (State.checkPre (State.checkBlockQuote
            { initialState [] with currentListLevel := 1, listType := str "ul" }))).w ++
          (str "<blockquote" ++ classPart (arg [str "bq. bar", [], str ".", str "bar"] 1) ++
            str "><p" ++ classPart (arg [str "bq. bar", [], str ".", str "bar"] 1) ++ str ">" ++
            t ++ (if arg [str "bq. bar", [], str ".", str "bar"] 2 = str ".." then str "</p>"
              else []))) ∧
    (State.checkCode (State.checkPre (State.checkBlockQuote
      { initialState [] with currentListLevel := 1, listType := str "ul" }))).w =
      State.w { initialState [] with currentListLevel := 1, listType := str "ul" } :=
  ⟨(C17_openers_keep_lists 1 { initialState [] with currentListLevel := 1, listType := str "ul" }
      (str "bq. bar") [str "bq. bar", [], str ".", str "bar"]).1 (by decide),
    (C17_openers_keep_lists 1 { initialState [] with currentListLevel := 1, listType := str "ul" }
      (str "bq. bar") [str "bq. bar", [], str ".", str "bar"]).2.2
      ⟨rfl, rfl, rfl, rfl, rfl, rfl⟩⟩

/-- C18 as stated fails: after the lines `* foo` and `pre. x` the list level is one; the
line `hello` is matched by none of the block patterns, is written into the pre block, and
the list level is still one after it. -/
theorem C18_list_open_in_pre :
    reachedOutput 1 [] [str "* foo", str "pre. x"] = some (str "<ul><li>foo<pre>x\n", 1) ∧
      (blockHandlers 1).all (fun h => (h.1.FindStringSubmatch (str "hello")).isNone) = true ∧
      reachedOutput 1 [] [str "* foo", str "pre. x", str "hello"] =
        some (str "<ul><li>foo<pre>x\nhello\n", 1) := by
  decide

/-- C18, amended: on a line that is not blank and that no block handler has taken, in a
state outside pre and code blocks, the step of the state machine returns when the inline
transformer returns, the list level is then zero, and the closing tags of all the open
list levels have been written before the content of the line. -/
theorem C18_bare_lines_close_lists (fuel : Nat) (st st1 : State) (s : List Nat)
    (hne : s ≠ []) (hr : runHandlers st s (blockHandlers fuel) = .done (st1, false))
    (h2 : st1.inPre = false) (h3 : st1.inCode = false) :
    ∃ g : List Nat → State,
      st.step fuel s = (st1.transformLine fuel s).bind (fun t => .done (g t)) ∧
      ∀ t, (g t).currentListLevel = 0 ∧
        ∃ content, (g t).w = st1.w ++ listClosers st1.listType st1.currentListLevel ++
          content := by
  obtain ⟨k1, k2, k3, k4⟩ := st1.clearListLevels_spec
  have hlen : ¬ (s.length = 0) := by simpa using hne
  simp only [State.step, hlen, false_and, if_false, hr, Res.bind_done, Bool.false_eq_true,
    h2, h3, or_self, State.transformLine, k3, k4]
  split_ifs
  · exact ⟨_, rfl, fun t => ⟨k1, t, by simp [State.write, k2]⟩⟩
  · exact ⟨_, rfl, fun t => ⟨k1, str "<br>" ++ t, by simp [State.write, k2]⟩⟩
  · exact ⟨_, rfl, fun t => ⟨k1,
      str "<p" ++ st1.clearListLevels.currentClassPart ++ str ">" ++ t ++ str "</p>",
      by simp only [State.write, k2]⟩⟩
  · exact ⟨_, rfl, fun t => ⟨k1, str "<p>" ++ t ++ str "</p>", by simp only [State.write, k2]⟩⟩

/-- C18, amended, at the line `hello` in a state with one open list level. -/
theorem C18_bare_lines_close_lists_witness :
    ∃ g : List Nat → State,
      State.step 1 { initialState [] with currentListLevel := 1, listType := str "ul" }
          (str "hello") =
        (State.transformLine { initialState [] with currentListLevel := 1, listType := str "ul" }
          1 (str "hello")).bind (fun t => .done (g t)) ∧
      ∀ t, (g t).currentListLevel = 0 ∧
        ∃ content, (g t).w =
          State.w { initialState [] with currentListLevel := 1, listType := str "ul" } ++
          listClosers
            (State.listType { initialState [] with currentListLevel := 1, listType := str "ul" })
            (State.currentListLevel
              { initialState [] with currentListLevel := 1, listType := str "ul" }) ++
          content :=
  C18_bare_lines_close_lists 1
    { initialState [] with currentListLevel := 1, listType := str "ul" }
    { initialState [] with currentListLevel := 1, listType := str "ul" } (str "hello")
    (by decide) (by decide) rfl rfl

/-- C19: in every state that the state machine reaches from the initial state, whatever
the lines, at most one of `inBlockQuote`, `inPre`, `inCode` is set and every long flag is
set only with the flag of its block; with a root URL without `:`, `!`, `[`, `_`, `*`, `^`
and `~` the lines do lead to a state. -/
theorem C19_block_exclusivity (root : List Nat) (ls : List (List Nat)) :
    (∀ fuel st, reached fuel root ls = .done st → st.blockInvariant) ∧
    (delims root = 0 →
      ∃ st, Eventually (fun n => reached n root ls) st ∧ st.blockInvariant) := by
  have h1 : ∀ fuel st, reached fuel root ls = .done st → st.blockInvariant :=
    fun fuel st h =>
      State.run_invariant fuel ls (initialState root) (initialState_invariant root) st h
  refine ⟨h1, fun hroot => ?_⟩
  obtain ⟨st, hst⟩ := State.run_settles ls (initialState root)
    ⟨hroot, (by decide : delims emptyHash = 0)⟩ (by simp [State.exclusive, initialState])
  obtain ⟨n, hn⟩ := hst
  exact ⟨st, ⟨n, hn⟩, h1 n st (hn n (Nat.le_refl n))⟩

/-- C19 at the lines `bc.. x`, `pre. y` and `bq.. z` with the empty root URL. -/
theorem C19_block_exclusivity_witness :
    State.blockInvariant
        { w := str "<pre><code>x\n</code></pre><pre>y\n</pre><blockquote><p>z</p>",
          inBlockQuote := true, inLongBlockQuote := true, inPre := false, inLongPre := false,
          inCode := false, inLongCode := false, listType := [], currentListLevel := 0,
          currentClassPart := [], root_url := [], hash := emptyHash } ∧
      (delims [] = 0 ∧
        ∃ st, Eventually (fun n => reached n [] [str "bc.. x", str "pre. y", str "bq.. z"]) st ∧
          st.blockInvariant) :=
  ⟨(C19_block_exclusivity [] [str "bc.. x", str "pre. y", str "bq.. z"]).1 1 _ (by decide),
    by decide, (C19_block_exclusivity [] [str "bc.. x", str "pre. y", str "bq.. z"]).2
      (by decide)⟩

/-- C20: in a state that the state machine reaches, a blank line while no long flag is set,
and the end of the input, both lead to the state `checkAll`, in which `inBlockQuote`,
`inPre`, `inCode` and the long flags are false and the list level is zero, and which has
written the closing tags in the order blockquote, pre, code and then `</li></T>` for every
open list level; a blank line in a state with nothing open leaves the state as it is. -/
theorem C20_flush (fuel : Nat) (root : List Nat) (ls : List (List Nat)) (st : State)
    (h : reached fuel root ls = .done st) :
    (st.inLongBlockQuote = false → st.inLongPre = false → st.inLongCode = false →
      ∀ n, st.step n [] = .done st.checkAll) ∧
    (∀ n, st.transform n [] = .done st.checkAll) ∧
    st.checkAll.flagsClear ∧ st.checkAll.currentListLevel = 0 ∧
    st.checkAll.w = st.w ++ st.closers ∧
    (st.flagsClear → st.currentListLevel = 0 → ∀ n, st.step n [] = .done st) := by
  have hinv := State.run_invariant fuel ls (initialState root) (initialState_invariant root) st h
  refine ⟨fun h1 h2 h3 n => ?_, fun n => ?_, st.checkAll_clear hinv, st.checkAll_level,
    st.checkAll_w, fun hf hl n => ?_⟩
  · simp [State.step, h1, h2, h3]
  · simp [State.transform, State.run, State.checkAll_twice]
  · obtain ⟨b1, b2, b3, b4, b5, b6⟩ := hf
    simp [State.step, b2, b4, b6, State.checkAll_idle st ⟨b1, b2, b3, b4, b5, b6, hl⟩]

/-- C20 at the state after the lines `# a`, `## b` and `bc. x`. -/
theorem C20_flush_witness :
    State.flagsClear (State.checkAll
        { w := str "<ol><li>a<ol><li>b<pre><code>x\n", inBlockQuote := false,
          inLongBlockQuote := false, inPre := false, inLongPre := false, inCode := true,
          inLongCode := false, listType := str "ol", currentListLevel := 2,
          currentClassPart := [], root_url := [], hash := emptyHash }) ∧
      State.currentListLevel (State.checkAll
        { w := str "<ol><li>a<ol><li>b<pre><code>x\n", inBlockQuote := false,
          inLongBlockQuote := false, inPre := false, inLongPre := false, inCode := true,
          inLongCode := false, listType := str "ol", currentListLevel := 2,
          currentClassPart := [], root_url := [], hash := emptyHash }) = 0 :=
  ⟨(C20_flush 1 [] [str "# a", str "## b", str "bc. x"] _ (by decide)).2.2.1,
    (C20_flush 1 [] [str "# a", str "## b", str "bc. x"] _ (by decide)).2.2.2.1⟩

end Textile

namespace Textile

/-! ## The output of the escaper is stable under the final pass -/

theorem scan_calm (sq : Bool) :
    ∀ (s : List Nat) (t : Bool), calm s t → ∀ (i : Nat) (fc : Int),
      scan false sq s 0 i t fc = some s := by
  intro s
  induction s with
  | nil => intro t _ i fc; simp [scan]
  | cons c cs ih =>
    intro t h i fc
    cases t with
    | true =>
      simp only [calm] at h
      by_cases hc : c = 62
      · subst hc
        have := ih false (by simpa using h) (i + 1) fc
        simp [scan, this]
      · have hb : (c != 62) = true := by simp [hc]
        rw [hb] at h
        have := ih true h (i + 1) fc
        simp [scan, hc, this]
    | false =>
      simp only [calm] at h
      by_cases h60 : c = 60
      · subst h60
        have := ih true (by simpa using h) (i + 1) fc
        simp [scan, this]
      · rw [if_neg h60] at h
        obtain ⟨h34, h38, h46, hcs⟩ := h
        have := ih false hcs (i + 1) fc
        by_cases c46 : c = 46
        · subst c46
          simp [scan, h46 rfl, this]
        · by_cases c38 : c = 38
          · subst c38
            simp [scan, h38 rfl, this]
          · by_cases c62 : c = 62
            · subst c62
              simp [scan, this]
            · simp [scan, h60, h34, c46, c38, c62, this]

theorem calm_in_tag : ∀ (s : List Nat) (t : Bool), calm s t → calm s true := by
  intro s
  induction s with
  | nil => intro _ _; trivial
  | cons c cs ih =>
    intro t h
    simp only [calm]
    by_cases hc : c = 62
    · subst hc
      cases t with
      | true => simpa [calm] using h
      | false =>
        simp only [calm] at h
        simpa using h.2.2.2
    · have hb : (c != 62) = true := by simp [hc]
      rw [hb]
      cases t with
      | true => simpa [calm, hb] using h
      | false =>
        simp only [calm] at h
        split_ifs at h with h60
        · exact h
        · exact ih false h.2.2.2

end Textile

namespace Textile

theorem calm_entity (esc rest : List Nat)
    (h : esc = esc_lt ∨ esc = esc_gt ∨ esc = esc_quote ∨ esc = esc_amp ∨ esc = esc_elipses ∨
      esc = esc_lquote ∨ esc = esc_rquote)
    (hr : calm rest false) : calm (esc ++ rest) false := by
  rcases h with h | h | h | h | h | h | h <;> subst h <;>
    simp [calm, esc_lt, esc_gt, esc_quote, esc_amp, esc_elipses, esc_lquote, esc_rquote, hr]

theorem entity_head (esc rest : List Nat)
    (h : esc = esc_lt ∨ esc = esc_gt ∨ esc = esc_quote ∨ esc = esc_amp ∨ esc = esc_elipses ∨
      esc = esc_lquote ∨ esc = esc_rquote) :
    (esc ++ rest).head? = some 38 := by
  rcases h with h | h | h | h | h | h | h <;> subst h <;>
    simp [esc_lt, esc_gt, esc_quote, esc_amp, esc_elipses, esc_lquote, esc_rquote]

/-- What the escaper writes, followed by a text `ctx` that is calm and starts with no dot,
is calm; outside a tag it starts with a dot, two dots or `#` only if the input does. -/
theorem scan_out_calm (ea sq : Bool) (ctx : List Nat) (hdot : ctx.head? ≠ some 46)
    (hc1 : calm ctx true) (hc0 : calm ctx false) :
    ∀ (t : List Nat) (skip i : Nat) (tg : Bool) (fc : Int) (E : List Nat),
      scan ea sq t skip i tg fc = some E →
      calm (E ++ ctx) tg ∧
      (skip = 0 → tg = false →
        ((E ++ ctx).head? = some 46 → t.head? = some 46) ∧
        ((E ++ ctx).take 2 = [46, 46] → t.take 2 = [46, 46]) ∧
        (t.head? = some 35 → (E ++ ctx).head? = some 35)) := by
  intro t
  induction t with
  | nil =>
    intro skip i tg fc E h
    simp only [scan, Option.some.injEq] at h
    subst h
    refine ⟨by cases tg <;> simpa, fun _ _ => ⟨fun h => absurd h hdot, fun h => ?_, fun h => ?_⟩⟩
    · exfalso
      apply hdot
      cases ctx with
      | nil => simp at h
      | cons a as =>
        cases as with
        | nil => simp at h
        | cons b bs =>
          simp only [List.nil_append, List.take_succ_cons, List.take_zero, List.cons.injEq] at h
          simp [h.1]
    · simp at h
  | cons c cs ih =>
    intro skip i tg fc E hscan
    cases skip with
    | succ k =>
      simp only [scan] at hscan
      exact ⟨(ih k (i + 1) tg fc E hscan).1, fun h0 => absurd h0 (by simp)⟩
    | zero =>
      simp only [scan] at hscan
      have entity : ∀ (esc E2 : List Nat) (k : Nat) (fc2 : Int),
          (esc = esc_lt ∨ esc = esc_gt ∨ esc = esc_quote ∨ esc = esc_amp ∨ esc = esc_elipses ∨
            esc = esc_lquote ∨ esc = esc_rquote) →
          scan ea sq cs k (i + 1) false fc2 = some E2 → c ≠ 35 →
          calm (esc ++ E2 ++ ctx) tg ∧
          (0 = 0 → tg = false →
            ((esc ++ E2 ++ ctx).head? = some 46 → (c :: cs).head? = some 46) ∧
            ((esc ++ E2 ++ ctx).take 2 = [46, 46] → (c :: cs).take 2 = [46, 46]) ∧
            ((c :: cs).head? = some 35 → (esc ++ E2 ++ ctx).head? = some 35)) := by
        intro esc E2 k fc2 hesc hE2 h35
        have hcalm := calm_entity esc (E2 ++ ctx) hesc (ih k (i + 1) false fc2 E2 hE2).1
        have hhead := entity_head esc (E2 ++ ctx) hesc
        rw [List.append_assoc]
        refine ⟨?_, fun _ _ => ⟨fun h => ?_, fun h => ?_, fun h => ?_⟩⟩
        · cases tg with
          | false => exact hcalm
          | true => exact calm_in_tag _ _ hcalm
        · rw [hhead] at h; simp at h
        · have h2 : (esc ++ (E2 ++ ctx)).head? = some 46 := by
            cases hl : esc ++ (E2 ++ ctx) with
            | nil => rw [hl] at h; simp at h
            | cons a as =>
              rw [hl] at h
              cases as with
              | nil => simp at h
              | cons b bs =>
                simp only [List.take_succ_cons, List.take_zero, List.cons.injEq] at h
                simp [h.1]
          rw [hhead] at h2; simp at h2
        · simp only [List.head?_cons, Option.some.injEq] at h
          exact absurd h h35
      have copy : ∀ (E2 : List Nat), scan ea sq cs 0 (i + 1) false fc = some E2 →
          tg = false → c ≠ 60 → c ≠ 34 → (c = 38 → cs.head? = some 35) →
          (c = 46 → cs.take 2 ≠ [46, 46]) →
          calm (c :: E2 ++ ctx) tg ∧
          (0 = 0 → tg = false →
            ((c :: E2 ++ ctx).head? = some 46 → (c :: cs).head? = some 46) ∧
            ((c :: E2 ++ ctx).take 2 = [46, 46] → (c :: cs).take 2 = [46, 46]) ∧
            ((c :: cs).head? = some 35 → (c :: E2 ++ ctx).head? = some 35)) := by
        intro E2 hE2 htg h60 h34 h38 h46
        obtain ⟨k1, k2⟩ := ih 0 (i + 1) false fc E2 hE2
        obtain ⟨k3, k4, k5⟩ := k2 rfl rfl
        subst htg
        refine ⟨?_, fun _ _ => ⟨fun h => by simpa using h, fun h => ?_, fun h => by simpa using h⟩⟩
        · simp only [List.cons_append, calm, h60, if_false]
          refine ⟨h34, fun h => k5 (h38 h), fun h hh => h46 h (k4 hh), k1⟩
        · cases hl : E2 ++ ctx with
          | nil => rw [List.cons_append, hl] at h; simp at h
          | cons b bs =>
            rw [List.cons_append, hl] at h
            simp only [List.take_succ_cons, List.take_zero, List.cons.injEq, and_true] at h
            have hb : cs.head? = some 46 := k3 (by rw [hl]; simp [h.2])
            cases cs with
            | nil => simp at hb
            | cons d ds =>
              simp only [List.head?_cons, Option.some.injEq] at hb
              simp [h.1, hb]
      by_cases hin : tg = true ∧ c ≠ 62
      · rw [if_pos hin] at hscan
        obtain ⟨E2, hE2, rfl⟩ := Option.map_eq_some'.1 hscan
        obtain ⟨htg, hc⟩ := hin
        subst htg
        refine ⟨?_, fun _ h => absurd h (by simp)⟩
        have hb : (c != 62) = true := by simp [hc]
        simp only [List.cons_append, calm, hb]
        exact (ih 0 (i + 1) true fc E2 hE2).1
      · rw [if_neg hin] at hscan
        by_cases h60 : c = 60
        · have htg : tg = false := by
            cases tg with
            | false => rfl
            | true => exact absurd ⟨rfl, by omega⟩ hin
          rw [if_pos h60] at hscan
          cases ea with
          | true =>
            simp only [if_true] at hscan
            obtain ⟨E2, hE2, rfl⟩ := Option.map_eq_some'.1 hscan
            exact entity esc_lt E2 0 fc (by simp) hE2 (by omega)
          | false =>
            simp only [Bool.false_eq_true, if_false] at hscan
            obtain ⟨E2, hE2, rfl⟩ := Option.map_eq_some'.1 hscan
            subst htg
            subst h60
            refine ⟨?_, fun _ _ => ⟨fun h => by simp at h, fun h => by simp at h,
              fun h => by simp at h⟩⟩
            simp only [List.cons_append, calm, if_true]
            exact (ih 0 (i + 1) true fc E2 hE2).1
        · rw [if_neg h60] at hscan
          by_cases h62 : c = 62
          · rw [if_pos h62] at hscan
            cases ea with
            | true =>
              simp only [if_true] at hscan
              obtain ⟨E2, hE2, rfl⟩ := Option.map_eq_some'.1 hscan
              exact entity esc_gt E2 0 fc (by simp) hE2 (by omega)
            | false =>
              simp only [Bool.false_eq_true, if_false] at hscan
              obtain ⟨E2, hE2, rfl⟩ := Option.map_eq_some'.1 hscan
              subst h62
              have k1 := (ih 0 (i + 1) false fc E2 hE2).1
              refine ⟨?_, fun _ _ => ⟨fun h => by simp at h, fun h => by simp at h,
                fun h => by simp at h⟩⟩
              cases tg with
              | true => simpa [calm] using k1
              | false => simpa [calm] using k1
          · rw [if_neg h62] at hscan
            have htg : tg = false := by
              cases tg with
              | false => rfl
              | true => exact absurd ⟨rfl, h62⟩ hin
            by_cases h34 : c = 34
            · rw [if_pos h34] at hscan
              split_ifs at hscan
              · obtain ⟨E2, hE2, rfl⟩ := Option.map_eq_some'.1 hscan
                exact entity esc_quote E2 0 _ (by simp) hE2 (by omega)
              · obtain ⟨E2, hE2, rfl⟩ := Option.map_eq_some'.1 hscan
                exact entity esc_rquote E2 0 _ (by simp) hE2 (by omega)
              · obtain ⟨E2, hE2, rfl⟩ := Option.map_eq_some'.1 hscan
                exact entity esc_lquote E2 0 _ (by simp) hE2 (by omega)
              · obtain ⟨E2, hE2, rfl⟩ := Option.map_eq_some'.1 hscan
                exact entity esc_quote E2 0 _ (by simp) hE2 (by omega)
            · rw [if_neg h34] at hscan
              by_cases h46 : c = 46
              · rw [if_pos h46] at hscan
                split_ifs at hscan with hd
                · obtain ⟨E2, hE2, rfl⟩ := Option.map_eq_some'.1 hscan
                  exact entity esc_elipses E2 2 _ (by simp) hE2 (by omega)
                · obtain ⟨E2, hE2, rfl⟩ := Option.map_eq_some'.1 hscan
                  exact copy E2 hE2 htg h60 h34 (by omega) (fun _ => hd)
              · rw [if_neg h46] at hscan
                by_cases h38 : c = 38
                · rw [if_pos h38] at hscan
                  split_ifs at hscan with hd
                  · obtain ⟨E2, hE2, rfl⟩ := Option.map_eq_some'.1 hscan
                    exact copy E2 hE2 htg h60 h34 (fun _ => hd) (by omega)
                  · obtain ⟨E2, hE2, rfl⟩ := Option.map_eq_some'.1 hscan
                    exact entity esc_amp E2 0 _ (by simp) hE2 (by omega)
                · rw [if_neg h38] at hscan
                  obtain ⟨E2, hE2, rfl⟩ := Option.map_eq_some'.1 hscan
                  exact copy E2 hE2 htg h60 h34 (by omega) (by omega)

end Textile

namespace Textile

/-! ## Code and pre blocks -/

theorem EntityEscape_calm (s : List Nat) (sq : Bool) (h : calm s false) :
    EntityEscape s false sq = .done s := by
  rw [EntityEscape_eq_scan, scan_calm sq s false h]
  simp [ofScan]

theorem not_newline_dot (t : List Nat) (ht : ∀ a ∈ t, a ≠ 13 ∧ a ≠ 10) :
    ∀ a ∈ t, dot a = true := by
  intro a ha
  have := (ht a ha).2
  simpa [dot] using this

/-- A code opener without a class: `bc. t`. -/
theorem codeRegexp_find (t : List Nat) (ht : ∀ a ∈ t, dot a = true) :
    codeRegexp.FindStringSubmatch (str "bc. " ++ t) = some [str "bc. " ++ t, [], str ".", t] := by
  have e1 : str "bc. " = [98, 99, 46, 32] := by decide
  have e3 : str "." = [46] := by decide
  rw [e1, e3]
  have e : List.take (t.length + 1 + 1 - (t.length + 1)) (46 :: 32 :: t) = [46] := by
    have : t.length + 1 + 1 - (t.length + 1) = 1 := by omega
    rw [this]
    simp
  simp only [Regexp.FindStringSubmatch, codeRegexp, seq, Re.run, List.cons_append,
    List.nil_append, classGroup, lit, Char.reduceToNat, Nat.reduceEqDiff, if_false, if_true]
  apply starRun_all _ _ t _ ht
  simp [e, List.replicate]

/-- A pre opener without a class: `pre. t`. -/
theorem preRegexp_find (t : List Nat) (ht : ∀ a ∈ t, dot a = true) :
    preRegexp.FindStringSubmatch (str "pre. " ++ t) =
      some [str "pre. " ++ t, [], str ".", t] := by
  have e1 : str "pre. " = [112, 114, 101, 46, 32] := by decide
  have e3 : str "." = [46] := by decide
  rw [e1, e3]
  have e : List.take (t.length + 1 + 1 - (t.length + 1)) (46 :: 32 :: t) = [46] := by
    have : t.length + 1 + 1 - (t.length + 1) = 1 := by omega
    rw [this]
    simp
  simp only [Regexp.FindStringSubmatch, preRegexp, seq, Re.run, List.cons_append,
    List.nil_append, classGroup, lit, Char.reduceToNat, Nat.reduceEqDiff, if_false, if_true]
  apply starRun_all _ _ t _ ht
  simp [e, List.replicate]

theorem splitLines_single (l : List Nat) (h : ∀ a ∈ l, a ≠ 13 ∧ a ≠ 10) :
    splitLines l [] = [l] := by
  have := splitLines_append_line l h [] []
  simpa [splitLines] using this

/-- The line `bc. t` alone: the text goes through the escaper with `encode_all`. -/
theorem formatter_code (fuel : Nat) (root t : List Nat) (ht : ∀ a ∈ t, a ≠ 13 ∧ a ≠ 10) :
    ∃ e, EntityEscapeString t true false = .done e ∧
      formatter fuel root (str "bc. " ++ t) =
        .done (str "<pre><code>" ++ e ++ str "\n</code></pre>") := by
  obtain ⟨e, he, hs⟩ := EntityEscape_done t true false (Or.inr rfl)
  refine ⟨e, he, ?_⟩
  have hd := not_newline_dot t ht
  have hline : ∀ a ∈ str "bc. " ++ t, a ≠ 13 ∧ a ≠ 10 := by
    intro a ha
    rcases List.mem_append.1 ha with h | h
    · exact (by decide : ∀ a ∈ str "bc. ", a ≠ 13 ∧ a ≠ 10) a h
    · exact ht a h
  have e1 : str "bc. " = [98, 99, 46, 32] := by decide
  have hbq : blockQuoteRegexp.FindStringSubmatch (str "bc. " ++ t) = none := by
    rw [e1]
    simp [Regexp.FindStringSubmatch, blockQuoteRegexp, seq, Re.run, lit]
  have hpre : preRegexp.FindStringSubmatch (str "bc. " ++ t) = none := by
    rw [e1]
    simp [Regexp.FindStringSubmatch, preRegexp, seq, Re.run, lit]
  have hlen : ¬ ((str "bc. " ++ t).length = 0) := by rw [e1]; simp
  have hfin : EntityEscape (str "<pre><code>" ++ e ++ str "\n</code></pre>") false true =
      .done (str "<pre><code>" ++ e ++ str "\n</code></pre>") := by
    apply EntityEscape_calm
    have e2 : str "<pre><code>" = [60, 112, 114, 101, 62, 60, 99, 111, 100, 101, 62] := by decide
    have e3 : str "\n</code></pre>" =
        [10, 60, 47, 99, 111, 100, 101, 62, 60, 47, 112, 114, 101, 62] := by decide
    have hc := (scan_out_calm true false (str "\n</code></pre>") (by decide)
      (by rw [e3]; simp [calm]) (by rw [e3]; simp [calm]) t 0 0 false (-1) e hs).1
    rw [e2, List.append_assoc]
    simpa [calm] using hc
  have he2 : EntityEscapeString t true false = .done e := he
  have e4 : str "<pre" ++ [] ++ str "><code" ++ [] ++ str ">" = str "<pre><code>" := by decide
  have e5 : str "\n" ++ str "</code></pre>" = str "\n</code></pre>" := by decide
  have hstep : (initialState root).step fuel (str "bc. " ++ t) =
      .done { initialState root with inCode := true, w := str "<pre><code>" ++ e ++ str "\n" } := by
    simp only [State.step, hlen, false_and, if_false, runHandlers, blockHandlers, hbq, hpre,
      codeRegexp_find t hd, codeHandler, arg, List.getD_cons_succ, List.getD_cons_zero, he2,
      Res.bind_done, if_true]
    simp [State.checkBlockQuote, State.checkPre, State.checkCode, State.write, initialState,
      classPart, ← e4]
    decide
  simp only [formatter, State.transform, splitLines_single _ hline, State.run, hstep,
    Res.bind_done, State.checkAll_twice, State.checkAll_w]
  simp only [State.closers, initialState, listClosers, Bool.false_eq_true, if_false, if_true,
    List.replicate, List.flatten_nil, List.append_nil, List.append_assoc, e5]
  rw [← List.append_assoc]
  exact hfin

/-- The line `pre. t` alone: the text goes through the escaper with smart quotes, and
the final pass leaves what it wrote as it is. -/
theorem formatter_pre (fuel : Nat) (root t : List Nat) (ht : ∀ a ∈ t, a ≠ 13 ∧ a ≠ 10) :
    ∃ e, EntityEscapeString t false true = .done e ∧
      formatter fuel root (str "pre. " ++ t) = .done (str "<pre>" ++ e ++ str "\n</pre>") := by
  obtain ⟨e, he, hs⟩ := EntityEscape_done t false true (Or.inl rfl)
  refine ⟨e, he, ?_⟩
  have hd := not_newline_dot t ht
  have hline : ∀ a ∈ str "pre. " ++ t, a ≠ 13 ∧ a ≠ 10 := by
    intro a ha
    rcases List.mem_append.1 ha with h | h
    · exact (by decide : ∀ a ∈ str "pre. ", a ≠ 13 ∧ a ≠ 10) a h
    · exact ht a h
  have e1 : str "pre. " = [112, 114, 101, 46, 32] := by decide
  have hbq : blockQuoteRegexp.FindStringSubmatch (str "pre. " ++ t) = none := by
    rw [e1]
    simp [Regexp.FindStringSubmatch, blockQuoteRegexp, seq, Re.run, lit]
  have hlen : ¬ ((str "pre. " ++ t).length = 0) := by rw [e1]; simp
  have hfin : EntityEscape (str "<pre>" ++ e ++ str "\n</pre>") false true =
      .done (str "<pre>" ++ e ++ str "\n</pre>") := by
    apply EntityEscape_calm
    have e2 : str "<pre>" = [60, 112, 114, 101, 62] := by decide
    have e3 : str "\n</pre>" = [10, 60, 47, 112, 114, 101, 62] := by decide
    have hc := (scan_out_calm false true (str "\n</pre>") (by decide)
      (by rw [e3]; simp [calm]) (by rw [e3]; simp [calm]) t 0 0 false (-1) e hs).1
    rw [e2, List.append_assoc]
    simpa [calm] using hc
  have he2 : EntityEscapeString t false true = .done e := he
  have e4 : str "<pre" ++ [] ++ str ">" = str "<pre>" := by decide
  have e5 : str "\n" ++ str "</pre>" = str "\n</pre>" := by decide
  have hstep : (initialState root).step fuel (str "pre. " ++ t) =
      .done { initialState root with inPre := true, w := str "<pre>" ++ e ++ str "\n" } := by
    simp only [State.step, hlen, false_and, if_false, runHandlers, blockHandlers, hbq,
      preRegexp_find t hd, preHandler, arg, List.getD_cons_succ, List.getD_cons_zero, he2,
      Res.bind_done, if_true]
    simp [State.checkBlockQuote, State.checkPre, State.checkCode, State.write, initialState,
      classPart, ← e4]
    decide
  simp only [formatter, State.transform, splitLines_single _ hline, State.run, hstep,
    Res.bind_done, State.checkAll_twice, State.checkAll_w]
  simp only [State.closers, initialState, listClosers, Bool.false_eq_true, if_false, if_true,
    List.replicate, List.flatten_nil, List.append_nil, List.nil_append, List.append_assoc, e5]
  rw [← List.append_assoc]
  exact hfin

end Textile

namespace Textile

/-! ## List markers inside a code block -/

theorem listRegexp_head (s : List Nat) (args : List (List Nat))
    (h : listRegexp.FindStringSubmatch s = some args) :
    ∃ c cs, s = c :: cs ∧ (c = 42 ∨ c = 35) := by
  cases s with
  | nil => simp [Regexp.FindStringSubmatch, listRegexp, seq, Re.run] at h
  | cons c cs =>
    refine ⟨c, cs, rfl, ?_⟩
    by_cases hc : oneOf ['*', '#'] c = true
    · simpa [oneOf] using hc
    · simp [Regexp.FindStringSubmatch, listRegexp, seq, Re.run, hc] at h

/-- On a line that starts with `*` or `#` the six patterns before `listRegexp` fail. -/
theorem runHandlers_marker (fuel : Nat) (st : State) (c : Nat) (cs : List Nat)
    (hc : c = 42 ∨ c = 35) :
    runHandlers st (c :: cs) (blockHandlers fuel) =
      match listRegexp.FindStringSubmatch (c :: cs) with
      | some a => listHandler fuel st a
      | none => .done (st, false) := by
  have h98 : ¬ c = 98 := by omega
  have h112 : ¬ c = 112 := by omega
  have h104 : ¬ c = 104 := by omega
  have h102 : ¬ c = 102 := by omega
  have h1 : blockQuoteRegexp.FindStringSubmatch (c :: cs) = none := by
    simp [Regexp.FindStringSubmatch, blockQuoteRegexp, seq, Re.run, lit, h98]
  have h2 : preRegexp.FindStringSubmatch (c :: cs) = none := by
    simp [Regexp.FindStringSubmatch, preRegexp, seq, Re.run, lit, h112]
  have h3 : codeRegexp.FindStringSubmatch (c :: cs) = none := by
    simp [Regexp.FindStringSubmatch, codeRegexp, seq, Re.run, lit, h98]
  have h4 : paragraphRegexp.FindStringSubmatch (c :: cs) = none := by
    simp [Regexp.FindStringSubmatch, paragraphRegexp, seq, Re.run, lit, h112]
  have h5 : headingRegexp.FindStringSubmatch (c :: cs) = none := by
    simp [Regexp.FindStringSubmatch, headingRegexp, seq, Re.run, lit, h104]
  have h6 : footnoteRegexp.FindStringSubmatch (c :: cs) = none := by
    simp [Regexp.FindStringSubmatch, footnoteRegexp, seq, Re.run, lit, h102]
  simp only [runHandlers, blockHandlers, h1, h2, h3, h4, h5, h6]
  all_goals (cases listRegexp.FindStringSubmatch (c :: cs) <;> rfl)

/-- Inside a code block the list handler declines. -/
theorem listHandler_in_code (fuel : Nat) (st : State) (args : List (List Nat))
    (hc : st.inCode = true) (hb : st.inBlockQuote = false) (hp : st.inPre = false) :
    listHandler fuel st args = .done (st, false) := by
  have c1 : st.checkBlockQuote = st := by simp [State.checkBlockQuote, hb]
  have c2 : st.checkPre = st := by simp [State.checkPre, hp]
  simp [listHandler, c1, c2, hc]

/-- A list-item line inside a code block is written as the escaper returns it. -/
theorem State.step_in_code (fuel : Nat) (st : State) (s : List Nat) (args : List (List Nat))
    (hc : st.inCode = true) (hb : st.inBlockQuote = false) (hp : st.inPre = false)
    (hm : listRegexp.FindStringSubmatch s = some args) :
    st.step fuel s =
      (EntityEscapeString s true false).bind fun e => .done (st.write (e ++ str "\n")) := by
  obtain ⟨c, cs, rfl, hcs⟩ := listRegexp_head s args hm
  have hlen : ¬ ((c :: cs).length = 0) := by simp
  simp only [State.step, hlen, false_and, if_false, runHandlers_marker fuel st c cs hcs, hm,
    listHandler_in_code fuel st args hc hb hp, Res.bind_done, Bool.false_eq_true, hc, hp,
    or_true, if_true]

theorem inert_of_quiet (b : List Nat)
    (h : ∀ a ∈ b, a ≠ 60 ∧ a ≠ 62 ∧ a ≠ 34 ∧ a ≠ 38 ∧ a ≠ 46) : inert b := by
  induction b with
  | nil => trivial
  | cons c cs ih =>
    obtain ⟨h1, h2, h3, h4, h5⟩ := h c (by simp)
    exact ⟨h1, h2, h3, fun e => absurd e h4, fun e => absurd e h5,
      ih (fun a ha => h a (by simp [ha]))⟩

theorem plain_quiet (a : Nat) (h : plain a = true) :
    a ≠ 60 ∧ a ≠ 62 ∧ a ≠ 34 ∧ a ≠ 38 ∧ a ≠ 46 := by
  simp only [plain, inRange, Bool.or_eq_true, Bool.and_eq_true, decide_eq_true_eq,
    beq_iff_eq, Char.reduceToNat] at h
  omega

theorem EntityEscape_quiet (b : List Nat) (ea sq : Bool)
    (h : ∀ a ∈ b, a ≠ 60 ∧ a ≠ 62 ∧ a ≠ 34 ∧ a ≠ 38 ∧ a ≠ 46) :
    EntityEscape b ea sq = .done b := by
  rw [EntityEscape_eq_scan, scan_inert _ _ b (inert_of_quiet b h)]
  simp [ofScan]

/-- The line `bc. a` followed by the list-item line `* t`, both plain. -/
theorem formatter_code_list (fuel : Nat) (a t : List Nat)
    (ha : ∀ x ∈ a, plain x = true) (ht : ∀ x ∈ t, plain x = true) :
    formatter fuel [] (joinLines [str "bc. " ++ a, str "* " ++ t]) =
      .done (str "<pre><code>" ++ a ++ str "\n* " ++ t ++ str "\n</code></pre>") := by
  have e1 : str "bc. " = [98, 99, 46, 32] := by decide
  have e2 : str "* " = [42, 32] := by decide
  have hd : ∀ x ∈ a, dot x = true := fun x hx => plain_dot x (ha x hx)
  have hsplit := splitLines_joinLines_lines [str "bc. " ++ a, str "* " ++ t] (by simp) (by
    intro l hl
    simp only [List.mem_cons, List.mem_singleton, List.not_mem_nil, or_false] at hl
    rcases hl with h | h
    · subst h; exact opener_no_newline _ a (by decide) ha
    · subst h; exact opener_no_newline _ t (by decide) ht)
  have hbq : blockQuoteRegexp.FindStringSubmatch (str "bc. " ++ a) = none := by
    rw [e1]
    simp [Regexp.FindStringSubmatch, blockQuoteRegexp, seq, Re.run, lit]
  have hpre : preRegexp.FindStringSubmatch (str "bc. " ++ a) = none := by
    rw [e1]
    simp [Regexp.FindStringSubmatch, preRegexp, seq, Re.run, lit]
  have hlen : ¬ ((str "bc. " ++ a).length = 0) := by rw [e1]; simp
  have he1 : EntityEscapeString a true false = .done a :=
    EntityEscape_quiet a true false (fun x hx => plain_quiet x (ha x hx))
  have he2 : EntityEscapeString (str "* " ++ t) true false = .done (str "* " ++ t) := by
    apply EntityEscape_quiet
    intro x hx
    rcases List.mem_append.1 hx with h | h
    · exact (by decide : ∀ x ∈ str "* ", x ≠ 60 ∧ x ≠ 62 ∧ x ≠ 34 ∧ x ≠ 38 ∧ x ≠ 46) x h
    · exact plain_quiet x (ht x h)
  have e4 : str "<pre" ++ [] ++ str "><code" ++ [] ++ str ">" = str "<pre><code>" := by decide
  have hstep : (initialState []).step fuel (str "bc. " ++ a) =
      .done { initialState [] with inCode := true, w := str "<pre><code>" ++ a ++ str "\n" } := by
    simp only [State.step, hlen, false_and, if_false, runHandlers, blockHandlers, hbq, hpre,
      codeRegexp_find a hd, codeHandler, arg, List.getD_cons_succ, List.getD_cons_zero, he1,
      Res.bind_done, if_true]
    simp [State.checkBlockQuote, State.checkPre, State.checkCode, State.write, initialState,
      classPart, ← e4]
    decide
  have hfind := listRegexp_find 42 [] t (Or.inl rfl) (by simp)
    (fun x hx => plain_dot x (ht x hx))
  have e5 : (42 :: [] ++ 32 :: t) = str "* " ++ t := by rw [e2]; rfl
  rw [e5] at hfind
  have hstep2 := State.step_in_code fuel
    { initialState [] with inCode := true, w := str "<pre><code>" ++ a ++ str "\n" }
    (str "* " ++ t) _ rfl rfl rfl hfind
  rw [he2] at hstep2
  have hrun : (initialState []).run fuel [str "bc. " ++ a, str "* " ++ t] =
      .done (State.write
        { initialState [] with inCode := true, w := str "<pre><code>" ++ a ++ str "\n" }
        (str "* " ++ t ++ str "\n")) := by
    simp only [State.run, hstep, Res.bind_done, hstep2]
  have e6 : str "\n" ++ (str "* " ++ (t ++ (str "\n" ++ str "</code></pre>"))) =
      str "\n* " ++ (t ++ str "\n</code></pre>") := by
    have k1 : str "\n" ++ str "* " = str "\n* " := by decide
    have k2 : str "\n" ++ str "</code></pre>" = str "\n</code></pre>" := by decide
    rw [k2, ← List.append_assoc, k1]
  have hout : (State.write
        { initialState [] with inCode := true, w := str "<pre><code>" ++ a ++ str "\n" }
        (str "* " ++ t ++ str "\n")).w ++ (State.write
        { initialState [] with inCode := true, w := str "<pre><code>" ++ a ++ str "\n" }
        (str "* " ++ t ++ str "\n")).closers =
      str "<pre><code>" ++ a ++ str "\n* " ++ t ++ str "\n</code></pre>" := by
    simp only [State.write, State.closers, initialState, listClosers, Bool.false_eq_true,
      if_false, if_true, List.replicate, List.flatten_nil, List.append_nil, List.nil_append,
      List.append_assoc, e6]
  have k1 : tagState (str "<pre><code>") false = some false := by decide
  have k2 : tagState (str "\n* ") false = some false := by decide
  have k3 : tagState (str "\n</code></pre>") false = some false := by decide
  have htag : tagState (str "<pre><code>" ++ a ++ str "\n* " ++ t ++ str "\n</code></pre>")
      false = some false := by
    simp [tagState_append, k1, k2, k3, tagState_plain a ha false, tagState_plain t ht false]
  rw [← hout] at htag
  rw [formatter_of_run fuel [] _ _ _ false hsplit hrun htag, hout]

end Textile

namespace Textile

/-! ## Headings -/

/-- A heading line without a class: `hN. t`. -/
theorem headingRegexp_find (N : Nat) (t : List Nat) (hN : inRange '1' '9' N = true)
    (ht : ∀ a ∈ t, dot a = true) :
    headingRegexp.FindStringSubmatch (104 :: N :: 46 :: 32 :: t) =
      some [104 :: N :: 46 :: 32 :: t, [N], [], t] := by
  have e : List.take (t.length + 1 + 1 + 1 - (t.length + 1 + 1)) (N :: 46 :: 32 :: t) = [N] := by
    have : t.length + 1 + 1 + 1 - (t.length + 1 + 1) = 1 := by omega
    rw [this]
    simp
  simp only [Regexp.FindStringSubmatch, headingRegexp, seq, Re.run, classGroup, lit,
    Char.reduceToNat, Nat.reduceEqDiff, if_false, if_true, hN]
  apply starRun_all _ _ t _ ht
  simp [e, List.replicate]

/-- A heading line with a class: `hN(c). t`. -/
theorem headingRegexp_find_class (N x : Nat) (xs t : List Nat)
    (hN : inRange '1' '9' N = true) (hx : x ≠ 41) (hxs : 41 ∉ xs)
    (ht : ∀ a ∈ t, dot a = true) :
    headingRegexp.FindStringSubmatch (104 :: N :: 40 :: x :: (xs ++ 41 :: 46 :: 32 :: t)) =
      some [104 :: N :: 40 :: x :: (xs ++ 41 :: 46 :: 32 :: t), [N],
        40 :: x :: (xs ++ [41]), t] := by
  have px : notIn [')'] x = true := by simp [notIn, hx]
  have pxs : ∀ a ∈ xs, notIn [')'] a = true := by
    intro a ha
    have : a ≠ 41 := fun h => hxs (h ▸ ha)
    simp [notIn, this]
  simp only [Regexp.FindStringSubmatch, headingRegexp, seq, Re.run, classGroup, lit,
    Char.reduceToNat, if_true, hN, px]
  rw [starRun_stop _ _ xs 41 (46 :: 32 :: t)
    [104 :: N :: 40 :: x :: (xs ++ 41 :: 46 :: 32 :: t), [N], 40 :: x :: (xs ++ [41]), t]
    pxs (by decide)]
  simp only [Nat.reduceEqDiff, if_true, if_false]
  apply starRun_all _ _ t _ ht
  have k0 : List.take ((N :: 40 :: x :: (xs ++ 41 :: 46 :: 32 :: t)).length -
      (40 :: x :: (xs ++ 41 :: 46 :: 32 :: t)).length)
      (N :: 40 :: x :: (xs ++ 41 :: 46 :: 32 :: t)) = [N] := by
    have : (N :: 40 :: x :: (xs ++ 41 :: 46 :: 32 :: t)).length -
      (40 :: x :: (xs ++ 41 :: 46 :: 32 :: t)).length = 1 := by simp
    rw [this]
    simp
  have k1 := take_class x xs (46 :: 32 :: t)
    ((40 :: x :: (xs ++ 41 :: 46 :: 32 :: t)).length - (46 :: 32 :: t).length)
    (by simp; omega)
  simp only [List.length_nil, Nat.sub_zero, List.take_length, if_true]
  rw [k0, k1]
  simp [List.replicate]

theorem digit_plain (N : Nat) (hN : inRange '1' '9' N = true) : plain N = true := by
  simp only [inRange, Bool.and_eq_true, decide_eq_true_eq, Char.reduceToNat] at hN
  simp only [plain, inRange, Bool.or_eq_true, Bool.and_eq_true, decide_eq_true_eq,
    beq_iff_eq, Char.reduceToNat]
  omega

theorem runHandlers_heading (fuel : Nat) (st : State) (cs : List Nat) :
    runHandlers st (104 :: cs) (blockHandlers fuel) =
      match headingRegexp.FindStringSubmatch (104 :: cs) with
      | some a => headingHandler fuel st a
      | none => runHandlers st (104 :: cs) [(footnoteRegexp, footnoteHandler fuel),
          (listRegexp, listHandler fuel)] := by
  have h1 : blockQuoteRegexp.FindStringSubmatch (104 :: cs) = none := by
    simp [Regexp.FindStringSubmatch, blockQuoteRegexp, seq, Re.run, lit]
  have h2 : preRegexp.FindStringSubmatch (104 :: cs) = none := by
    simp [Regexp.FindStringSubmatch, preRegexp, seq, Re.run, lit]
  have h3 : codeRegexp.FindStringSubmatch (104 :: cs) = none := by
    simp [Regexp.FindStringSubmatch, codeRegexp, seq, Re.run, lit]
  have h4 : paragraphRegexp.FindStringSubmatch (104 :: cs) = none := by
    simp [Regexp.FindStringSubmatch, paragraphRegexp, seq, Re.run, lit]
  simp only [runHandlers, blockHandlers, h1, h2, h3, h4]
  all_goals (cases headingRegexp.FindStringSubmatch (104 :: cs) <;> rfl)

/-- The heading handler. -/
theorem headingHandler_eq (fuel : Nat) (st : State) (args : List (List Nat)) :
    headingHandler fuel st args =
      (transformLine st.root_url st.hash fuel (arg args 3)).bind fun t =>
        .done ({ st.checkBlockQuote.checkPre.checkCode with
          currentClassPart := classPart (arg args 2),
          w := st.checkBlockQuote.checkPre.checkCode.w ++
            (str "<h" ++ arg args 1 ++ classPart (arg args 2) ++ str ">" ++ t ++ str "</h" ++
              arg args 1 ++ str ">") }, true) := by
  obtain ⟨k1, k2, _, _⟩ := st.checks_keys
  simp [headingHandler, State.transformLine, State.write, k1, k2]

/-- A heading line, with the class part `cp` of its class group `cls`, in a state
without an open block. -/
theorem State.step_heading (fuel : Nat) (st : State) (N : Nat) (cls line t : List Nat)
    (hfind : headingRegexp.FindStringSubmatch (104 :: line) = some [104 :: line, [N], cls, t])
    (ht : ∀ a ∈ t, plain a = true) (hf : st.flagsClear) :
    st.step (fuel + 1) (104 :: line) =
      .done { st with
        currentClassPart := classPart cls,
        w := st.w ++ (str "<h" ++ [N] ++ classPart cls ++ str ">" ++ t ++ str "</h" ++ [N] ++
          str ">") } := by
  obtain ⟨c1, c2, c3⟩ := st.checks_of_flagsClear hf
  have hlen : ¬ ((104 :: line).length = 0) := by simp
  simp only [State.step, hlen, false_and, if_false, runHandlers_heading, hfind,
    headingHandler_eq, c1, c2, c3, arg, List.getD_cons_succ, List.getD_cons_zero,
    transformLine_plain st.root_url st.hash fuel t ht, Res.bind_done, if_true]

/-- A heading line followed by plain lines: the heading and a paragraph for every line. -/
theorem formatter_heading (fuel : Nat) (N : Nat) (cls cp line t : List Nat)
    (us : List (List Nat))
    (hfind : headingRegexp.FindStringSubmatch (104 :: line) = some [104 :: line, [N], cls, t])
    (hcp : classPart cls = cp) (hcpt : tagState cp true = some true)
    (hN : inRange '1' '9' N = true) (hline : ∀ a ∈ line, a ≠ 13 ∧ a ≠ 10)
    (ht : ∀ a ∈ t, plain a = true) (hus : ∀ u ∈ us, u ≠ [] ∧ ∀ a ∈ u, plain a = true) :
    formatter (fuel + 1) [] (joinLines ((104 :: line) :: us)) =
      .done (str "<h" ++ [N] ++ cp ++ str ">" ++ t ++ str "</h" ++ [N] ++ str ">" ++
        paragraphs us) := by
  have hsplit := splitLines_joinLines_lines ((104 :: line) :: us) (by simp) (by
    intro l hl
    simp only [List.mem_cons] at hl
    rcases hl with h | h
    · subst h
      intro a ha
      simp only [List.mem_cons] at ha
      rcases ha with h | h
      · omega
      · exact hline a h
    · exact fun a ha => plain_not_newline a ((hus l h).2 a ha))
  have hstep := State.step_heading fuel (initialState []) N cls line t hfind ht
    (initialState_flagsClear [])
  rw [hcp] at hstep
  obtain ⟨st2, k1, k2, k3⟩ := State.run_plain fuel us
    { initialState [] with
      currentClassPart := cp,
      w := (initialState []).w ++ (str "<h" ++ [N] ++ cp ++ str ">" ++ t ++ str "</h" ++ [N] ++
        str ">") }
    (by simp [State.idle, initialState]) hus
  have hrun : (initialState []).run (fuel + 1) ((104 :: line) :: us) = .done st2 := by
    simp only [State.run, hstep, Res.bind_done]
    exact k1
  obtain ⟨b1, b2, b3, b4, b5, b6, b7⟩ := k2
  have hout : st2.w ++ st2.closers =
      str "<h" ++ [N] ++ cp ++ str ">" ++ t ++ str "</h" ++ [N] ++ str ">" ++ paragraphs us := by
    simp [State.closers, b1, b3, b5, b7, k3, listClosers, initialState]
  have e1 : tagState (str "<h") false = some true := by decide
  have e2 : tagState (str ">") true = some false := by decide
  have e3 : tagState (str "</h") false = some true := by decide
  have hNt : ∀ rest, tagState (N :: rest) true = tagState rest true := by
    intro rest
    have h62 : (N != 62) = true := by
      simp only [inRange, Bool.and_eq_true, decide_eq_true_eq, Char.reduceToNat] at hN
      simp only [bne_iff_ne, ne_eq]
      omega
    simp [tagState, h62]
  have hpar : tagState (paragraphs us) false = some false := by
    rw [← classParagraphs_nil]
    exact tagState_classParagraphs [] (by decide) us (fun l hl => (hus l hl).2)
  have htag : tagState (st2.w ++ st2.closers) false = some false := by
    rw [hout]
    simp [tagState_append, e1, e2, e3, hNt, hcpt, hpar, tagState_plain t ht false]
  rw [formatter_of_run (fuel + 1) [] _ _ st2 false hsplit hrun htag, hout]

end Textile

namespace Textile

/-! ## Code, pre and headings: C21 to C24 -/

/-- C21: in a state with `inCode` set and `inBlockQuote`, `inPre` not set, on every line
that `listRegexp` matches the list handler declines and leaves the state as it is, and the
step of the state machine appends `EntityEscapeString(s, true, false)` and a line feed,
changing nothing else; and for plain `a` and `t` the lines `bc. a` and `* t` are rendered
as `<pre><code>a`, a line feed, `* t`, a line feed and `</code></pre>`. -/
theorem C21_markers_in_code :
    (∀ (fuel : Nat) (st : State) (s : List Nat) (args : List (List Nat)),
      st.inCode = true → st.inBlockQuote = false → st.inPre = false →
      listRegexp.FindStringSubmatch s = some args →
      listHandler fuel st args = .done (st, false) ∧
      ∃ e, EntityEscapeString s true false = .done e ∧
        st.step fuel s = .done { st with w := st.w ++ (e ++ str "\n") }) ∧
    (∀ (fuel : Nat) (a t : List Nat), (∀ x ∈ a, plain x = true) → (∀ x ∈ t, plain x = true) →
      TextileFormatter fuel (joinLines [str "bc. " ++ a, str "* " ++ t]) =
        .done (str "<pre><code>" ++ a ++ str "\n* " ++ t ++ str "\n</code></pre>")) := by
  refine ⟨fun fuel st s args hc hb hp hm => ⟨listHandler_in_code fuel st args hc hb hp, ?_⟩,
    fun fuel a t ha ht => formatter_code_list fuel a t ha ht⟩
  obtain ⟨e, he, _⟩ := EntityEscape_done s true false (Or.inr rfl)
  refine ⟨e, he, ?_⟩
  rw [State.step_in_code fuel st s args hc hb hp hm]
  have he2 : EntityEscapeString s true false = .done e := he
  rw [he2]
  rfl

/-- C21 at the line `* x <y>` in the state after `bc. a`, and at the lines `bc. ab`,
`* cd`. -/
theorem C21_markers_in_code_witness :
    (listHandler 1 { initialState [] with inCode := true, w := str "<pre><code>a\n" }
        [str "* x <y>", str "*", [], str "x <y>"] =
      .done ({ initialState [] with inCode := true, w := str "<pre><code>a\n" }, false) ∧
      ∃ e, EntityEscapeString (str "* x <y>") true false = .done e ∧
        State.step 1 { initialState [] with inCode := true, w := str "<pre><code>a\n" }
            (str "* x <y>") =
          .done { initialState [] with inCode := true,
                                       w := str "<pre><code>a\n" ++ (e ++ str "\n") }) ∧
    TextileFormatter 1 (joinLines [str "bc. " ++ str "ab", str "* " ++ str "cd"]) =
      .done (str "<pre><code>" ++ str "ab" ++ str "\n* " ++ str "cd" ++ str "\n</code></pre>") :=
  ⟨C21_markers_in_code.1 1 { initialState [] with inCode := true, w := str "<pre><code>a\n" }
      (str "* x <y>") [str "* x <y>", str "*", [], str "x <y>"] rfl rfl rfl (by decide),
    C21_markers_in_code.2 1 (str "ab") (str "cd") (by decide) (by decide)⟩

/-- C22: for every text `t` without `\r` and `\n`, the line `bc. t` alone is rendered as
`<pre><code>`, `EntityEscapeString(t, true, false)`, a line feed and `</code></pre>`,
whatever the depth of recursion allowed to the inline transformer, which is not called. -/
theorem C22_code_block (fuel : Nat) (t : List Nat) (ht : ∀ a ∈ t, a ≠ 13 ∧ a ≠ 10) :
    ∃ e, EntityEscapeString t true false = .done e ∧
      TextileFormatter fuel (str "bc. " ++ t) =
        .done (str "<pre><code>" ++ e ++ str "\n</code></pre>") :=
  formatter_code fuel [] t ht

/-- C22 at the text `"Hello" & there`. -/
theorem C22_code_block_witness :
    (∀ a ∈ str "\"Hello\" & there", a ≠ 13 ∧ a ≠ 10) ∧
      ∃ e, EntityEscapeString (str "\"Hello\" & there") true false = .done e ∧
        TextileFormatter 0 (str "bc. " ++ str "\"Hello\" & there") =
          .done (str "<pre><code>" ++ e ++ str "\n</code></pre>") :=
  ⟨by decide, C22_code_block 0 (str "\"Hello\" & there") (by decide)⟩

/-- C23: for every text `t` without `\r` and `\n`, the line `pre. t` alone is rendered as
`<pre>`, `EntityEscapeString(t, false, true)`, a line feed and `</pre>`: the text does
not go through the inline transformer, and the final pass over the whole buffer changes
nothing. -/
theorem C23_pre_block (fuel : Nat) (t : List Nat) (ht : ∀ a ∈ t, a ≠ 13 ∧ a ≠ 10) :
    ∃ e, EntityEscapeString t false true = .done e ∧
      TextileFormatter fuel (str "pre. " ++ t) = .done (str "<pre>" ++ e ++ str "\n</pre>") :=
  formatter_pre fuel [] t ht

/-- C23 at the text `_x_ <b> "a":b`, whose markup is not turned into tags. -/
theorem C23_pre_block_witness :
    (∀ a ∈ str "_x_ <b> \"a\":b", a ≠ 13 ∧ a ≠ 10) ∧
      EntityEscapeString (str "_x_ <b> \"a\":b") false true =
        .done (str "_x_ <b> &#8220;a&#8221;:b") ∧
      ∃ e, EntityEscapeString (str "_x_ <b> \"a\":b") false true = .done e ∧
        TextileFormatter 0 (str "pre. " ++ str "_x_ <b> \"a\":b") =
          .done (str "<pre>" ++ e ++ str "\n</pre>") :=
  ⟨by decide, by decide, C23_pre_block 0 (str "_x_ <b> \"a\":b") (by decide)⟩

/-- C24: for a digit `n` from 1 to 9 and a plain text `t`, the line `hn. t` is rendered as
`<hn>t</hn>`; with a class `c` of plain characters that is not empty, `hn(c). t` is
rendered as `<hn class=c>t</hn>`; and a plain line after the heading is a paragraph of its
own. -/
theorem C24_headings (fuel : Nat) (hf : 0 < fuel) (n : Nat) (hn : 1 ≤ n ∧ n ≤ 9)
    (t : List Nat) (ht : ∀ a ∈ t, plain a = true) :
    TextileFormatter fuel (str "h" ++ [digit n] ++ str ". " ++ t) =
        .done (str "<h" ++ [digit n] ++ str ">" ++ t ++ str "</h" ++ [digit n] ++ str ">") ∧
    (∀ c : List Nat, c ≠ [] → (∀ a ∈ c, plain a = true) →
      TextileFormatter fuel (str "h" ++ [digit n] ++ str "(" ++ c ++ str "). " ++ t) =
        .done (str "<h" ++ [digit n] ++ str " class=" ++ c ++ str ">" ++ t ++ str "</h" ++
          [digit n] ++ str ">")) ∧
    (∀ u : List Nat, u ≠ [] → (∀ a ∈ u, plain a = true) →
      TextileFormatter fuel (joinLines [str "h" ++ [digit n] ++ str ". " ++ t, u]) =
        .done (str "<h" ++ [digit n] ++ str ">" ++ t ++ str "</h" ++ [digit n] ++ str ">" ++
          str "<p>" ++ u ++ str "</p>")) := by
  obtain ⟨k, rfl⟩ : ∃ k, fuel = k + 1 := ⟨fuel - 1, by omega⟩
  have hN : inRange '1' '9' (digit n) = true := by
    simp only [inRange, digit, Bool.and_eq_true, decide_eq_true_eq, Char.reduceToNat]
    omega
  have eh : str "h" = [104] := by decide
  have ed : str ". " = [46, 32] := by decide
  have ec : str "(" = [40] := by decide
  have ec2 : str "). " = [41, 46, 32] := by decide
  have hd : ∀ a ∈ t, dot a = true := fun a ha => plain_dot a (ht a ha)
  have hfind := headingRegexp_find (digit n) t hN hd
  have hl1 : ∀ a ∈ digit n :: 46 :: 32 :: t, a ≠ 13 ∧ a ≠ 10 := by
    intro a ha
    simp only [List.mem_cons] at ha
    rcases ha with h | h | h | h
    · simp only [digit] at h; omega
    · omega
    · omega
    · exact plain_not_newline a (ht a h)
  have e0 : str "h" ++ [digit n] ++ str ". " ++ t = 104 :: digit n :: 46 :: 32 :: t := by
    rw [eh, ed]; rfl
  refine ⟨?_, ?_, ?_⟩
  · have := formatter_heading k (digit n) [] [] _ t [] hfind (by simp [classPart])
      (by decide) hN hl1 ht (by simp)
    simpa [TextileFormatter, e0, joinLines, paragraphs] using this
  · intro c hc hcp
    cases c with
    | nil => exact absurd rfl hc
    | cons x xs =>
      have p41 : ∀ a, plain a = true → a ≠ 41 := by
        intro a ha
        simp only [plain, inRange, Bool.or_eq_true, Bool.and_eq_true, decide_eq_true_eq,
          beq_iff_eq, Char.reduceToNat] at ha
        omega
      have hfind2 := headingRegexp_find_class (digit n) x xs t hN (p41 x (hcp x (by simp)))
        (fun h => p41 41 (hcp 41 (by simp [h])) rfl) hd
      have hl2 : ∀ a ∈ digit n :: 40 :: x :: (xs ++ 41 :: 46 :: 32 :: t), a ≠ 13 ∧ a ≠ 10 := by
        intro a ha
        simp only [List.mem_cons, List.mem_append] at ha
        rcases ha with h | h | h | h | h | h | h | h
        · simp only [digit] at h; omega
        · omega
        · exact plain_not_newline a (hcp a (by simp [h]))
        · exact plain_not_newline a (hcp a (by simp [h]))
        · omega
        · omega
        · omega
        · exact plain_not_newline a (ht a h)
      have e1 : str "h" ++ [digit n] ++ str "(" ++ (x :: xs) ++ str "). " ++ t =
          104 :: digit n :: 40 :: x :: (xs ++ 41 :: 46 :: 32 :: t) := by
        rw [eh, ec, ec2]; simp
      have hcls : classPart (40 :: x :: (xs ++ [41])) = str " class=" ++ x :: xs := by
        simp [classPart]
      have hcpt : tagState (str " class=" ++ x :: xs) true = some true := by
        have : tagState (str " class=") true = some true := by decide
        simp [tagState_append, this, tagState_plain (x :: xs) hcp true]
      have := formatter_heading k (digit n) _ _ _ t [] hfind2 hcls hcpt hN hl2 ht (by simp)
      simpa [TextileFormatter, e1, joinLines, paragraphs] using this
  · intro u hu hup
    have := formatter_heading k (digit n) [] [] _ t [u] hfind (by simp [classPart])
      (by decide) hN hl1 ht (by simpa using ⟨hu, hup⟩)
    simpa [TextileFormatter, e0, paragraphs] using this

/-- C24 at the heading `h3. Title`, the class `foo` and the next line `next`. -/
theorem C24_headings_witness :
    0 < 1 ∧ (1 ≤ 3 ∧ 3 ≤ 9) ∧
    TextileFormatter 1 (str "h" ++ [digit 3] ++ str ". " ++ str "Title") =
        .done (str "<h" ++ [digit 3] ++ str ">" ++ str "Title" ++ str "</h" ++ [digit 3] ++
          str ">") ∧
    TextileFormatter 1 (str "h" ++ [digit 3] ++ str "(" ++ str "foo" ++ str "). " ++
        str "Title") =
      .done (str "<h" ++ [digit 3] ++ str " class=" ++ str "foo" ++ str ">" ++ str "Title" ++
        str "</h" ++ [digit 3] ++ str ">") ∧
    TextileFormatter 1 (joinLines [str "h" ++ [digit 3] ++ str ". " ++ str "Title", str "next"]) =
      .done (str "<h" ++ [digit 3] ++ str ">" ++ str "Title" ++ str "</h" ++ [digit 3] ++
        str ">" ++ str "<p>" ++ str "next" ++ str "</p>") :=
  ⟨by decide, by decide,
    (C24_headings 1 (by decide) 3 (by decide) (str "Title") (by decide)).1,
    (C24_headings 1 (by decide) 3 (by decide) (str "Title") (by decide)).2.1 (str "foo")
      (by decide) (by decide),
    (C24_headings 1 (by decide) 3 (by decide) (str "Title") (by decide)).2.2 (str "next")
      (by decide) (by decide)⟩

end Textile

namespace Textile

/-! ## The first match of a greedy repetition -/

theorem starRun_cons_fail (p : Nat → Bool) (k : List Nat → Option (List (List Nat)))
    (c : Nat) (cs : List Nat) (h : starRun p k cs = none) :
    starRun p k (c :: cs) = k (c :: cs) := by
  simp only [starRun, h]
  split_ifs <;> rfl

theorem starRun_none_of_head (ok : Nat → Bool) (p : Nat → Bool)
    (k : List Nat → Option (List (List Nat)))
    (hk : ∀ x xs, ok x = true → k (x :: xs) = none) (hnil : k [] = none) :
    ∀ (s : List Nat), (∀ a ∈ s, ok a = true) → starRun p k s = none := by
  intro s
  induction s with
  | nil => intro _; simpa [starRun] using hnil
  | cons c cs ih =>
    intro hs
    rw [starRun_cons_fail p k c cs (ih (fun a ha => hs a (by simp [ha])))]
    exact hk c cs (hs c (by simp))

theorem starRun_append_none (ok : Nat → Bool) (p : Nat → Bool)
    (k : List Nat → Option (List (List Nat)))
    (hk : ∀ x xs, ok x = true → k (x :: xs) = none) (t : List Nat)
    (ht : starRun p k t = none) :
    ∀ (l : List Nat), (∀ a ∈ l, ok a = true) → starRun p k (l ++ t) = none := by
  intro l
  induction l with
  | nil => intro _; simpa using ht
  | cons c cs ih =>
    intro hs
    rw [List.cons_append, starRun_cons_fail p k c _ (ih (fun a ha => hs a (by simp [ha])))]
    exact hk c _ (hs c (by simp))

theorem starRun_last (p : Nat → Bool) (k : List Nat → Option (List (List Nat)))
    (mid : List Nat) (z : Nat) (r : List (List Nat)) (hmid : ∀ a ∈ mid, p a = true)
    (hz : p z = true) (hnil : k [] = none) (h : k [z] = some r) :
    starRun p k (mid ++ [z]) = some r :=
  starRun_append_of_some p k [z] r (by simp [starRun, hz, hnil, h]) mid hmid

theorem take_sub_left (x y : List Nat) (n : Nat) (hn : n = (x ++ y).length - y.length) :
    (x ++ y).take n = x := by
  subst hn
  simp

/-- A line with one pair of delimiters `d`: the texts before, between and after them. -/
theorem pairRegexp_find (d : Char) (a t b : List Nat)
    (ha : ∀ x ∈ a, dot x = true) (ht : ∀ x ∈ t, x ≠ d.toNat)
    (hb : ∀ x ∈ b, dot x = true ∧ x ≠ d.toNat) :
    (pairRegexp d).FindStringSubmatch (a ++ d.toNat :: (t ++ d.toNat :: b)) =
      some [a ++ d.toNat :: (t ++ d.toNat :: b), a, t, b] := by
  have pt : ∀ x ∈ t, notIn [d] x = true := by
    intro x hx
    simp [notIn, ht x hx]
  have pd : notIn [d] d.toNat = false := by simp [notIn]
  simp only [Regexp.FindStringSubmatch, pairRegexp, seq, Re.run, lit]
  apply starRun_append_of_some _ _ _ _ _ a ha
  rw [starRun_cons_fail]
  · simp only [if_true]
    apply starRun_stop _ _ t d.toNat b _ pt pd
    simp only [if_true]
    apply starRun_all _ _ b _ (fun x hx => (hb x hx).1)
    have k1 := take_sub_left a (d.toNat :: (t ++ d.toNat :: b))
      ((a ++ d.toNat :: (t ++ d.toNat :: b)).length - (d.toNat :: (t ++ d.toNat :: b)).length) rfl
    have k2 := take_sub_left t (d.toNat :: b)
      ((t ++ d.toNat :: b).length - (d.toNat :: b).length) rfl
    simp only [List.length_nil, Nat.sub_zero, List.take_length, if_true]
    rw [k1, k2]
    simp [List.replicate]
  · apply starRun_append_none (fun x => decide (x ≠ d.toNat)) _ _ _ _ _ t
      (fun x hx => by simpa using ht x hx)
    · intro x xs hx
      have : ¬ x = d.toNat := by simpa using hx
      simp [this]
    · rw [starRun_cons_fail]
      · simp only [if_true]
        apply starRun_none_of_head (fun x => decide (x ≠ d.toNat))
        · intro x xs hx
          have : ¬ x = d.toNat := by simpa using hx
          simp [this]
        · rfl
        · intro x hx
          simpa using (hb x hx).2
      · apply starRun_none_of_head (fun x => decide (x ≠ d.toNat))
        · intro x xs hx
          have : ¬ x = d.toNat := by simpa using hx
          simp [this]
        · rfl
        · intro x hx
          simpa using (hb x hx).2

end Textile

namespace Textile

/-! ## The inline transformer on a line with one piece of markup -/

/-- A line that no inline pattern matches is returned as it is. -/
theorem transformLine2_of_none (root_url hash : List Nat) (fuel : Nat) (s : List Nat)
    (h1 : bareTagRegexp.FindStringSubmatch s = none)
    (h2 : quoteLinkRegexp.FindStringSubmatch s = none)
    (h3 : titleLinkRegexp.FindStringSubmatch s = none)
    (h4 : linkRegexp.FindStringSubmatch s = none)
    (h5 : imgRegexp.FindStringSubmatch s = none)
    (h6 : altImgRegexp.FindStringSubmatch s = none)
    (h7 : footnoteRefRegexp.FindStringSubmatch s = none)
    (h8 : emphasisRegexp.FindStringSubmatch s = none)
    (h9 : strongRegexp.FindStringSubmatch s = none)
    (h10 : supRegexp.FindStringSubmatch s = none)
    (h11 : subRegexp.FindStringSubmatch s = none) :
    transformLine2 root_url hash (fuel + 1) s = .done s := by
  simp [transformLine2, quoteLinkStep, titleLinkStep, linkStep, imgStep, altImgStep,
    footnoteRefStep, tagStep, regexpTags, h1, h2, h3, h4, h5, h6, h7, h8, h9, h10, h11]

/-- The steps of the inline transformer after the footnote references: the four passes
of the loop over `regexpTags`. -/
theorem tags_fold (self : List Nat → Outcome) (s : List Nat) :
    regexpTags.foldl (fun acc val => acc.bind fun s => tagStep self s val) (.done s) =
      (tagStep self s (emphasisRegexp, str "em")).bind fun s =>
      (tagStep self s (strongRegexp, str "strong")).bind fun s =>
      (tagStep self s (supRegexp, str "sup")).bind fun s =>
      tagStep self s (subRegexp, str "sub") := by
  simp only [regexpTags, List.foldl, Res.bind_done]
  cases tagStep self s (emphasisRegexp, str "em") with
  | done a =>
    simp only [Res.bind_done]
    cases tagStep self a (strongRegexp, str "strong") with
    | done b => simp only [Res.bind_done]
    | panicked => simp
    | outOfFuel => simp
  | panicked => simp
  | outOfFuel => simp

theorem tagStep_none (self : List Nat → Outcome) (s : List Nat) (val : Regexp × List Nat)
    (h : val.1.FindStringSubmatch s = none) : tagStep self s val = .done s := by
  simp [tagStep, h]

theorem tagStep_some (self : List Nat → Outcome) (s : List Nat) (val : Regexp × List Nat)
    (a t b x y : List Nat) (h : val.1.FindStringSubmatch s = some [s, a, t, b])
    (hx : self a = .done x) (hy : self b = .done y) :
    tagStep self s val =
      .done (x ++ str "<" ++ val.2 ++ str ">" ++ t ++ str "</" ++ val.2 ++ str ">" ++ y) := by
  simp [tagStep, h, arg, hx, hy]

/-- A pattern that takes two characters with `q` outside its groups matches no line with
at most one of them. -/
theorem FindStringSubmatch_none_of_count (q : Nat → Bool) (r : Regexp) (s : List Nat)
    (hf : r.re.flat = true) (hl : 2 ≤ r.re.least q (fun _ => false)) (hs : s.countP q ≤ 1) :
    r.FindStringSubmatch s = none := by
  cases h : r.FindStringSubmatch s with
  | none => rfl
  | some a =>
    have := (Regexp.pieces q (fun _ => false) r s a h hf rfl).2
    omega

/-- The patterns of the inline transformer that need a character that the line lacks. -/
theorem inline_none (ok : Nat → Bool) (s : List Nat) (hs : ∀ a ∈ s, ok a = true) :
    ((ok 60 = false ∨ ok 62 = false) → bareTagRegexp.FindStringSubmatch s = none) ∧
    (ok 91 = false → quoteLinkRegexp.FindStringSubmatch s = none) ∧
    ((ok 34 = false ∨ ok 40 = false) → titleLinkRegexp.FindStringSubmatch s = none) ∧
    ((ok 34 = false ∨ ok 58 = false) → linkRegexp.FindStringSubmatch s = none) ∧
    (ok 33 = false → imgRegexp.FindStringSubmatch s = none) ∧
    (ok 33 = false → altImgRegexp.FindStringSubmatch s = none) ∧
    (ok 91 = false → footnoteRefRegexp.FindStringSubmatch s = none) ∧
    (ok 95 = false → emphasisRegexp.FindStringSubmatch s = none) ∧
    (ok 42 = false → strongRegexp.FindStringSubmatch s = none) ∧
    (ok 94 = false → supRegexp.FindStringSubmatch s = none) ∧
    (ok 126 = false → subRegexp.FindStringSubmatch s = none) := by
  refine ⟨fun h => ?_, fun h => ?_, fun h => ?_, fun h => ?_, fun h => ?_, fun h => ?_,
    fun h => ?_, fun h => ?_, fun h => ?_, fun h => ?_, fun h => ?_⟩
  · exact bareTagRegexp.FindStringSubmatch_none ok s (bareTagRegexp_needs _ h) hs
  · exact quoteLinkRegexp.FindStringSubmatch_none ok s
      (quoteLinkRegexp_needs _ (Or.inr (Or.inr h))) hs
  · exact titleLinkRegexp.FindStringSubmatch_none ok s (titleLinkRegexp_needs _ (by tauto)) hs
  · exact linkRegexp.FindStringSubmatch_none ok s (linkRegexp_needs _ h) hs
  · exact imgRegexp.FindStringSubmatch_none ok s (imgRegexp_needs _ h) hs
  · exact altImgRegexp.FindStringSubmatch_none ok s (altImgRegexp_needs _ (Or.inl h)) hs
  · exact footnoteRefRegexp.FindStringSubmatch_none ok s (footnoteRefRegexp_needs _ h) hs
  · exact emphasisRegexp.FindStringSubmatch_none ok s (emphasisRegexp_needs _ h) hs
  · exact strongRegexp.FindStringSubmatch_none ok s (strongRegexp_needs _ h) hs
  · exact supRegexp.FindStringSubmatch_none ok s (supRegexp_needs _ h) hs
  · exact subRegexp.FindStringSubmatch_none ok s (subRegexp_needs _ h) hs

end Textile

namespace Textile

/-! ## Paired inline delimiters -/

/-- A line without a tag, a link, an image and a footnote reference goes to the loop
over `regexpTags`. -/
theorem transformLine2_to_tags (root_url hash : List Nat) (fuel : Nat) (s : List Nat)
    (h1 : bareTagRegexp.FindStringSubmatch s = none)
    (h2 : quoteLinkRegexp.FindStringSubmatch s = none)
    (h3 : titleLinkRegexp.FindStringSubmatch s = none)
    (h4 : linkRegexp.FindStringSubmatch s = none)
    (h5 : imgRegexp.FindStringSubmatch s = none)
    (h6 : altImgRegexp.FindStringSubmatch s = none)
    (h7 : footnoteRefRegexp.FindStringSubmatch s = none) :
    transformLine2 root_url hash (fuel + 1) s =
      (tagStep (transformLine2 root_url hash fuel) s (emphasisRegexp, str "em")).bind fun s =>
      (tagStep (transformLine2 root_url hash fuel) s (strongRegexp, str "strong")).bind fun s =>
      (tagStep (transformLine2 root_url hash fuel) s (supRegexp, str "sup")).bind fun s =>
      tagStep (transformLine2 root_url hash fuel) s (subRegexp, str "sub") := by
  rw [transformLine2]
  simp only [h1, quoteLinkStep, h2, titleLinkStep, h3, linkStep, h4, imgStep, h5, altImgStep, h6,
    footnoteRefStep, h7, Res.bind_done, tags_fold]

theorem alnum_plain (x : Nat) (h : alnum x = true) : plain x = true := by
  simp only [alnum, Bool.or_eq_true] at h
  simp only [plain, Bool.or_eq_true]
  tauto

theorem plain_cases (x : Nat) (h : plain x = true) :
    x ≠ 60 ∧ x ≠ 62 ∧ x ≠ 34 ∧ x ≠ 33 ∧ x ≠ 91 ∧ x ≠ 95 ∧ x ≠ 42 ∧ x ≠ 94 ∧ x ≠ 126 ∧
      x ≠ 37 ∧ x ≠ 47 ∧ x ≠ 58 ∧ x ≠ 40 ∧ x ≠ 10 := by
  simp only [plain, inRange, Bool.or_eq_true, Bool.and_eq_true, decide_eq_true_eq,
    beq_iff_eq, Char.reduceToNat] at h
  omega

/-- The characters of a tagged text: plain characters and `<`, `>`, `/`. -/
theorem tagged_chars (a tag t b : List Nat) (ha : ∀ x ∈ a, plain x = true)
    (htag : ∀ x ∈ tag, plain x = true) (ht : ∀ x ∈ t, plain x = true)
    (hb : ∀ x ∈ b, plain x = true) :
    ∀ x ∈ a ++ str "<" ++ tag ++ str ">" ++ t ++ str "</" ++ tag ++ str ">" ++ b,
      (fun x => plain x || x == 60 || x == 62 || x == 47) x = true := by
  have e1 : str "<" = [60] := by decide
  have e2 : str ">" = [62] := by decide
  have e3 : str "</" = [60, 47] := by decide
  intro x hx
  rw [e1, e2, e3] at hx
  simp only [List.mem_append, List.mem_cons, List.mem_singleton, List.not_mem_nil,
    or_false] at hx
  simp only [Bool.or_eq_true, beq_iff_eq]
  rcases hx with ((((((((h | h) | h) | h) | h) | h) | h) | h) | h)
  · exact Or.inl (Or.inl (Or.inl (ha x h)))
  · exact Or.inl (Or.inl (Or.inr h))
  · exact Or.inl (Or.inl (Or.inl (htag x h)))
  · exact Or.inl (Or.inr h)
  · exact Or.inl (Or.inl (Or.inl (ht x h)))
  · rcases h with h | h
    · exact Or.inl (Or.inl (Or.inr h))
    · exact Or.inr h
  · exact Or.inl (Or.inl (Or.inl (htag x h)))
  · exact Or.inl (Or.inr h)
  · exact Or.inl (Or.inl (Or.inl (hb x h)))

theorem pair_line_chars (d : Nat) (a t b : List Nat) (ha : ∀ x ∈ a, plain x = true)
    (ht : ∀ x ∈ t, plain x = true) (hb : ∀ x ∈ b, plain x = true) :
    ∀ x ∈ a ++ d :: (t ++ d :: b), (fun x => plain x || x == d) x = true := by
  intro x hx
  simp only [List.mem_append, List.mem_cons] at hx
  simp only [Bool.or_eq_true, beq_iff_eq]
  rcases hx with h | h | h | h | h
  · exact Or.inl (ha x h)
  · exact Or.inr h
  · exact Or.inl (ht x h)
  · exact Or.inr h
  · exact Or.inl (hb x h)

/-- A plain line with one pair of `_`: the text between them is put in `<em>`. -/
theorem transformLine2_em (root_url hash : List Nat) (fuel : Nat) (a t b : List Nat)
    (ha : ∀ x ∈ a, plain x = true) (ht : ∀ x ∈ t, plain x = true)
    (hb : ∀ x ∈ b, plain x = true) :
    transformLine2 root_url hash (fuel + 2) (a ++ 95 :: (t ++ 95 :: b)) =
      .done (a ++ str "<" ++ str "em" ++ str ">" ++ t ++ str "</" ++ str "em" ++ str ">" ++
        b) := by
  have hs := pair_line_chars 95 a t b ha ht hb
  obtain ⟨n1, n2, n3, n4, n5, n6, n7, n8, n9, n10, n11⟩ :=
    inline_none _ (a ++ 95 :: (t ++ 95 :: b)) hs
  have own : emphasisRegexp.FindStringSubmatch (a ++ 95 :: (t ++ 95 :: b)) =
      some [a ++ 95 :: (t ++ 95 :: b), a, t, b] :=
    pairRegexp_find '_' a t b (fun x hx => plain_dot x (ha x hx))
      (fun x hx => by have := plain_cases x (ht x hx); simp only [Char.reduceToNat]; omega)
      (fun x hx => ⟨plain_dot x (hb x hx),
        by have := plain_cases x (hb x hx); simp only [Char.reduceToNat]; omega⟩)
  have hs2 := tagged_chars a (str "em") t b ha (by decide) ht hb
  obtain ⟨_, _, _, _, _, _, _, m8, m9, m10, m11⟩ := inline_none _ _ hs2
  have hxa := transformLine2_noMarkup root_url hash fuel a (fun x hx => plain_noMarkup x (ha x hx))
  have hxb := transformLine2_noMarkup root_url hash fuel b (fun x hx => plain_noMarkup x (hb x hx))
  rw [transformLine2_to_tags root_url hash (fuel + 1) _ (n1 (Or.inl (by decide))) (n2 (by decide))
    (n3 (Or.inl (by decide))) (n4 (Or.inl (by decide))) (n5 (by decide)) (n6 (by decide))
    (n7 (by decide))]
  rw [tagStep_some _ _ (emphasisRegexp, str "em") a t b a b own hxa hxb]
  rw [Res.bind_done]
  rw [tagStep_none _ _ (strongRegexp, str "strong") (m9 (by decide)), Res.bind_done]
  rw [tagStep_none _ _ (supRegexp, str "sup") (m10 (by decide)), Res.bind_done]
  rw [tagStep_none _ _ (subRegexp, str "sub") (m11 (by decide))]

/-- A plain line with one pair of `*`: the text between them is put in `<strong>`. -/
theorem transformLine2_strong (root_url hash : List Nat) (fuel : Nat) (a t b : List Nat)
    (ha : ∀ x ∈ a, plain x = true) (ht : ∀ x ∈ t, plain x = true)
    (hb : ∀ x ∈ b, plain x = true) :
    transformLine2 root_url hash (fuel + 2) (a ++ 42 :: (t ++ 42 :: b)) =
      .done (a ++ str "<" ++ str "strong" ++ str ">" ++ t ++ str "</" ++ str "strong" ++ str ">" ++
        b) := by
  have hs := pair_line_chars 42 a t b ha ht hb
  obtain ⟨n1, n2, n3, n4, n5, n6, n7, n8, n9, n10, n11⟩ :=
    inline_none _ (a ++ 42 :: (t ++ 42 :: b)) hs
  have own : strongRegexp.FindStringSubmatch (a ++ 42 :: (t ++ 42 :: b)) =
      some [a ++ 42 :: (t ++ 42 :: b), a, t, b] :=
    pairRegexp_find '*' a t b (fun x hx => plain_dot x (ha x hx))
      (fun x hx => by have := plain_cases x (ht x hx); simp only [Char.reduceToNat]; omega)
      (fun x hx => ⟨plain_dot x (hb x hx),
        by have := plain_cases x (hb x hx); simp only [Char.reduceToNat]; omega⟩)
  have hs2 := tagged_chars a (str "strong") t b ha (by decide) ht hb
  obtain ⟨_, _, _, _, _, _, _, m8, m9, m10, m11⟩ := inline_none _ _ hs2
  have hxa := transformLine2_noMarkup root_url hash fuel a (fun x hx => plain_noMarkup x (ha x hx))
  have hxb := transformLine2_noMarkup root_url hash fuel b (fun x hx => plain_noMarkup x (hb x hx))
  rw [transformLine2_to_tags root_url hash (fuel + 1) _ (n1 (Or.inl (by decide))) (n2 (by decide))
    (n3 (Or.inl (by decide))) (n4 (Or.inl (by decide))) (n5 (by decide)) (n6 (by decide))
    (n7 (by decide))]
  rw [tagStep_none _ _ (emphasisRegexp, str "em") (n8 (by decide)), Res.bind_done]
  rw [tagStep_some _ _ (strongRegexp, str "strong") a t b a b own hxa hxb]
  rw [Res.bind_done]
  rw [tagStep_none _ _ (supRegexp, str "sup") (m10 (by decide)), Res.bind_done]
  rw [tagStep_none _ _ (subRegexp, str "sub") (m11 (by decide))]

/-- A plain line with one pair of `^`: the text between them is put in `<sup>`. -/
theorem transformLine2_sup (root_url hash : List Nat) (fuel : Nat) (a t b : List Nat)
    (ha : ∀ x ∈ a, plain x = true) (ht : ∀ x ∈ t, plain x = true)
    (hb : ∀ x ∈ b, plain x = true) :
    transformLine2 root_url hash (fuel + 2) (a ++ 94 :: (t ++ 94 :: b)) =
      .done (a ++ str "<" ++ str "sup" ++ str ">" ++ t ++ str "</" ++ str "sup" ++ str ">" ++
        b) := by
  have hs := pair_line_chars 94 a t b ha ht hb
  obtain ⟨n1, n2, n3, n4, n5, n6, n7, n8, n9, n10, n11⟩ :=
    inline_none _ (a ++ 94 :: (t ++ 94 :: b)) hs
  have own : supRegexp.FindStringSubmatch (a ++ 94 :: (t ++ 94 :: b)) =
      some [a ++ 94 :: (t ++ 94 :: b), a, t, b] :=
    pairRegexp_find '^' a t b (fun x hx => plain_dot x (ha x hx))
      (fun x hx => by have := plain_cases x (ht x hx); simp only [Char.reduceToNat]; omega)
      (fun x hx => ⟨plain_dot x (hb x hx),
        by have := plain_cases x (hb x hx); simp only [Char.reduceToNat]; omega⟩)
  have hs2 := tagged_chars a (str "sup") t b ha (by decide) ht hb
  obtain ⟨_, _, _, _, _, _, _, m8, m9, m10, m11⟩ := inline_none _ _ hs2
  have hxa := transformLine2_noMarkup root_url hash fuel a (fun x hx => plain_noMarkup x (ha x hx))
  have hxb := transformLine2_noMarkup root_url hash fuel b (fun x hx => plain_noMarkup x (hb x hx))
  rw [transformLine2_to_tags root_url hash (fuel + 1) _ (n1 (Or.inl (by decide))) (n2 (by decide))
    (n3 (Or.inl (by decide))) (n4 (Or.inl (by decide))) (n5 (by decide)) (n6 (by decide))
    (n7 (by decide))]
  rw [tagStep_none _ _ (emphasisRegexp, str "em") (n8 (by decide)), Res.bind_done]
  rw [tagStep_none _ _ (strongRegexp, str "strong") (n9 (by decide)), Res.bind_done]
  rw [tagStep_some _ _ (supRegexp, str "sup") a t b a b own hxa hxb]
  rw [Res.bind_done]
  rw [tagStep_none _ _ (subRegexp, str "sub") (m11 (by decide))]

/-- A plain line with one pair of `~`: the text between them is put in `<sub>`. -/
theorem transformLine2_sub (root_url hash : List Nat) (fuel : Nat) (a t b : List Nat)
    (ha : ∀ x ∈ a, plain x = true) (ht : ∀ x ∈ t, plain x = true)
    (hb : ∀ x ∈ b, plain x = true) :
    transformLine2 root_url hash (fuel + 2) (a ++ 126 :: (t ++ 126 :: b)) =
      .done (a ++ str "<" ++ str "sub" ++ str ">" ++ t ++ str "</" ++ str "sub" ++ str ">" ++
        b) := by
  have hs := pair_line_chars 126 a t b ha ht hb
  obtain ⟨n1, n2, n3, n4, n5, n6, n7, n8, n9, n10, n11⟩ :=
    inline_none _ (a ++ 126 :: (t ++ 126 :: b)) hs
  have own : subRegexp.FindStringSubmatch (a ++ 126 :: (t ++ 126 :: b)) =
      some [a ++ 126 :: (t ++ 126 :: b), a, t, b] :=
    pairRegexp_find '~' a t b (fun x hx => plain_dot x (ha x hx))
      (fun x hx => by have := plain_cases x (ht x hx); simp only [Char.reduceToNat]; omega)
      (fun x hx => ⟨plain_dot x (hb x hx),
        by have := plain_cases x (hb x hx); simp only [Char.reduceToNat]; omega⟩)
  have hs2 := tagged_chars a (str "sub") t b ha (by decide) ht hb
  obtain ⟨_, _, _, _, _, _, _, m8, m9, m10, m11⟩ := inline_none _ _ hs2
  have hxa := transformLine2_noMarkup root_url hash fuel a (fun x hx => plain_noMarkup x (ha x hx))
  have hxb := transformLine2_noMarkup root_url hash fuel b (fun x hx => plain_noMarkup x (hb x hx))
  rw [transformLine2_to_tags root_url hash (fuel + 1) _ (n1 (Or.inl (by decide))) (n2 (by decide))
    (n3 (Or.inl (by decide))) (n4 (Or.inl (by decide))) (n5 (by decide)) (n6 (by decide))
    (n7 (by decide))]
  rw [tagStep_none _ _ (emphasisRegexp, str "em") (n8 (by decide)), Res.bind_done]
  rw [tagStep_none _ _ (strongRegexp, str "strong") (n9 (by decide)), Res.bind_done]
  rw [tagStep_none _ _ (supRegexp, str "sup") (n10 (by decide)), Res.bind_done]
  rw [tagStep_some _ _ (subRegexp, str "sub") a t b a b own hxa hxb]

end Textile

namespace Textile

theorem countP_plain (d : Nat) (hd : plain d = false) (a : List Nat)
    (ha : ∀ x ∈ a, plain x = true) : a.countP (fun x => x == d) = 0 := by
  rw [List.countP_eq_zero]
  intro x hx h
  have e : x = d := by simpa using h
  have := ha x hx
  rw [e, hd] at this
  simp at this

/-- A plain line with a single delimiter is returned as it is. -/
theorem transformLine2_single (root_url hash : List Nat) (fuel : Nat) (d : Nat)
    (hd : d = 95 ∨ d = 42 ∨ d = 94 ∨ d = 126) (a b : List Nat)
    (ha : ∀ x ∈ a, plain x = true) (hb : ∀ x ∈ b, plain x = true) :
    transformLine2 root_url hash (fuel + 1) (a ++ d :: b) = .done (a ++ d :: b) := by
  have hs : ∀ x ∈ a ++ d :: b, (fun x => plain x || x == d) x = true := by
    intro x hx
    simp only [List.mem_append, List.mem_cons] at hx
    simp only [Bool.or_eq_true, beq_iff_eq]
    rcases hx with h | h | h
    · exact Or.inl (ha x h)
    · exact Or.inr h
    · exact Or.inl (hb x h)
  have hpd : plain d = false := by
    rcases hd with h | h | h | h <;> subst h <;> decide
  have hcount : (a ++ d :: b).countP (fun x => x == d) ≤ 1 := by
    simp [List.countP_append, List.countP_cons, countP_plain d hpd a ha, countP_plain d hpd b hb]
  obtain ⟨n1, n2, n3, n4, n5, n6, n7, n8, n9, n10, n11⟩ := inline_none _ (a ++ d :: b) hs
  have k60 : (plain 60 || 60 == d) = false := by
    rcases hd with h | h | h | h <;> subst h <;> decide
  have k91 : (plain 91 || 91 == d) = false := by
    rcases hd with h | h | h | h <;> subst h <;> decide
  have k34 : (plain 34 || 34 == d) = false := by
    rcases hd with h | h | h | h <;> subst h <;> decide
  have k33 : (plain 33 || 33 == d) = false := by
    rcases hd with h | h | h | h <;> subst h <;> decide
  apply transformLine2_of_none root_url hash fuel _ (n1 (Or.inl k60)) (n2 k91) (n3 (Or.inl k34))
    (n4 (Or.inl k34)) (n5 k33) (n6 k33) (n7 k91)
  · rcases hd with h | h | h | h
    · subst h
      exact FindStringSubmatch_none_of_count _ emphasisRegexp _ (by decide) (by decide) hcount
    · subst h; exact n8 (by decide)
    · subst h; exact n8 (by decide)
    · subst h; exact n8 (by decide)
  · rcases hd with h | h | h | h
    · subst h; exact n9 (by decide)
    · subst h
      exact FindStringSubmatch_none_of_count _ strongRegexp _ (by decide) (by decide) hcount
    · subst h; exact n9 (by decide)
    · subst h; exact n9 (by decide)
  · rcases hd with h | h | h | h
    · subst h; exact n10 (by decide)
    · subst h; exact n10 (by decide)
    · subst h
      exact FindStringSubmatch_none_of_count _ supRegexp _ (by decide) (by decide) hcount
    · subst h; exact n10 (by decide)
  · rcases hd with h | h | h | h
    · subst h; exact n11 (by decide)
    · subst h; exact n11 (by decide)
    · subst h; exact n11 (by decide)
    · subst h
      exact FindStringSubmatch_none_of_count _ subRegexp _ (by decide) (by decide) hcount

/-- A bare tag alone is returned as it is. -/
theorem transformLine2_em_tag (root_url hash : List Nat) (fuel : Nat) :
    transformLine2 root_url hash (fuel + 2) (str "<em>") = .done (str "<em>") ∧
      transformLine2 root_url hash (fuel + 2) (str "</em>") = .done (str "</em>") := by
  have h1 : bareTagRegexp.FindStringSubmatch (str "<em>") = some [str "<em>", [], str "<em>", []] := by
    decide
  have h2 : bareTagRegexp.FindStringSubmatch (str "</em>") =
      some [str "</em>", [], str "</em>", []] := by
    decide
  have h0 := transformLine2_noMarkup root_url hash fuel [] (by simp)
  constructor
  · rw [transformLine2]
    simp [h1, arg, h0]
  · rw [transformLine2]
    simp [h2, arg, h0]

/-- The line `_*t*_`: `<em>` around `<strong>`. -/
theorem transformLine2_em_strong (root_url hash : List Nat) (fuel : Nat) (t : List Nat)
    (ht : ∀ x ∈ t, plain x = true) :
    transformLine2 root_url hash (fuel + 3) (str "_*" ++ t ++ str "*_") =
      .done (str "<em><strong>" ++ t ++ str "</strong></em>") := by
  have e1 : str "_*" ++ t ++ str "*_" = [] ++ 95 :: ((42 :: (t ++ [42])) ++ 95 :: []) := by
    have k1 : str "_*" = [95, 42] := by decide
    have k2 : str "*_" = [42, 95] := by decide
    rw [k1, k2]
    simp
  have hs : ∀ x ∈ ([] : List Nat) ++ 95 :: ((42 :: (t ++ [42])) ++ 95 :: []),
      (fun x => plain x || x == 95 || x == 42) x = true := by
    intro x hx
    simp only [List.nil_append, List.mem_cons, List.mem_append, List.not_mem_nil,
      or_false] at hx
    simp only [Bool.or_eq_true, beq_iff_eq]
    rcases hx with h | (h | h | h) | h
    · exact Or.inl (Or.inr h)
    · exact Or.inr h
    · exact Or.inl (Or.inl (ht x h))
    · exact Or.inr h
    · exact Or.inl (Or.inr h)
  obtain ⟨n1, n2, n3, n4, n5, n6, n7, _, _, _, _⟩ := inline_none _ _ hs
  have own1 : emphasisRegexp.FindStringSubmatch
      ([] ++ 95 :: ((42 :: (t ++ [42])) ++ 95 :: [])) =
      some [[] ++ 95 :: ((42 :: (t ++ [42])) ++ 95 :: []), [], 42 :: (t ++ [42]), []] :=
    pairRegexp_find '_' [] (42 :: (t ++ [42])) [] (by simp)
      (fun x hx => by
        simp only [List.mem_cons, List.mem_append, List.not_mem_nil, or_false] at hx
        simp only [Char.reduceToNat]
        rcases hx with h | h | h
        · omega
        · have := plain_cases x (ht x h); omega
        · omega)
      (by simp)
  have e2 : ([] : List Nat) ++ str "<" ++ str "em" ++ str ">" ++ (42 :: (t ++ [42])) ++ str "</" ++
      str "em" ++ str ">" ++ [] = str "<em>" ++ 42 :: (t ++ 42 :: str "</em>") := by
    have k1 : ([] : List Nat) ++ str "<" ++ str "em" ++ str ">" = str "<em>" := by decide
    have k2 : str "</" ++ (str "em" ++ str ">") = str "</em>" := by decide
    rw [k1, List.append_nil, List.append_assoc, List.append_assoc, k2]
    simp
  have own2 : strongRegexp.FindStringSubmatch (str "<em>" ++ 42 :: (t ++ 42 :: str "</em>")) =
      some [str "<em>" ++ 42 :: (t ++ 42 :: str "</em>"), str "<em>", t, str "</em>"] :=
    pairRegexp_find '*' (str "<em>") t (str "</em>") (by decide)
      (fun x hx => by have := plain_cases x (ht x hx); simp only [Char.reduceToNat]; omega)
      (by decide)
  have hs3 : ∀ x ∈ str "<em>" ++ str "<" ++ str "strong" ++ str ">" ++ t ++ str "</" ++
      str "strong" ++ str ">" ++ str "</em>",
      (fun x => plain x || x == 60 || x == 62 || x == 47) x = true := by
    have k : str "<em>" ++ str "<" ++ str "strong" ++ str ">" ++ t ++ str "</" ++
        str "strong" ++ str ">" ++ str "</em>" =
        str "<em><strong>" ++ (t ++ str "</strong></em>") := by
      have k1 : str "<em>" ++ str "<" ++ str "strong" ++ str ">" = str "<em><strong>" := by decide
      have k2 : str "</" ++ (str "strong" ++ (str ">" ++ str "</em>")) = str "</strong></em>" := by
        decide
      rw [k1]
      simp only [List.append_assoc, k2]
    rw [k]
    intro x hx
    rcases List.mem_append.1 hx with h | h
    · exact (by decide : ∀ x ∈ str "<em><strong>",
        (fun x => plain x || x == 60 || x == 62 || x == 47) x = true) x h
    · rcases List.mem_append.1 h with h2 | h2
      · simp [ht x h2]
      · exact (by decide : ∀ x ∈ str "</strong></em>",
          (fun x => plain x || x == 60 || x == 62 || x == 47) x = true) x h2
  obtain ⟨_, _, _, _, _, _, _, _, _, m10, m11⟩ := inline_none _ _ hs3
  obtain ⟨t1, t2⟩ := transformLine2_em_tag root_url hash fuel
  have h0 := transformLine2_noMarkup root_url hash (fuel + 1) [] (by simp)
  rw [e1, transformLine2_to_tags root_url hash (fuel + 2) _ (n1 (Or.inl (by decide)))
    (n2 (by decide)) (n3 (Or.inl (by decide))) (n4 (Or.inl (by decide))) (n5 (by decide))
    (n6 (by decide)) (n7 (by decide))]
  rw [tagStep_some _ _ (emphasisRegexp, str "em") [] _ [] [] [] own1 h0 h0, Res.bind_done, e2]
  rw [tagStep_some _ _ (strongRegexp, str "strong") _ t _ _ _ own2 t1 t2, Res.bind_done]
  rw [tagStep_none _ _ (supRegexp, str "sup") (m10 (by decide)), Res.bind_done]
  rw [tagStep_none _ _ (subRegexp, str "sub") (m11 (by decide))]
  have k1 : str "<em>" ++ str "<" ++ str "strong" ++ str ">" = str "<em><strong>" := by decide
  have k2 : str "</" ++ (str "strong" ++ (str ">" ++ str "</em>")) = str "</strong></em>" := by
    decide
  rw [k1]
  simp only [List.append_assoc, k2]

end Textile

namespace Textile

/-! ## Links -/

theorem targetChar_cases (x : Nat) (h : targetChar x = true) :
    (x = 45 ∨ x = 47 ∨ x = 58 ∨ x = 95 ∨ (48 ≤ x ∧ x ≤ 57) ∨ (65 ≤ x ∧ x ≤ 90) ∨
      (97 ≤ x ∧ x ≤ 122)) := by
  simp only [targetChar, alnum, inRange, oneOf, Bool.or_eq_true, Bool.and_eq_true,
    decide_eq_true_eq, Char.reduceToNat, List.map_cons, List.map_nil, List.contains_cons,
    List.contains_nil, Bool.or_false, beq_iff_eq] at h
  omega

theorem targetChar_urlChar (x : Nat) (h : targetChar x = true) :
    urlChar x = true ∧
      notIn [',', '!', '.', Char.ofNat 39, ' ', '"', ')', ']'] x = true ∧ x ≠ 34 := by
  have hc := targetChar_cases x h
  refine ⟨?_, ?_, by omega⟩
  · simp only [urlChar, urlNoParensChar, inRange, oneOf, Bool.or_eq_true, Bool.and_eq_true,
      decide_eq_true_eq, Char.reduceToNat, List.map_cons, List.map_nil, List.contains_cons,
      List.contains_nil, Bool.or_false, beq_iff_eq]
    omega
  · have e : (Char.ofNat 39).toNat = 39 := by decide
    simp only [notIn, List.map_cons, List.map_nil, e, Char.reduceToNat, List.contains_cons,
      List.contains_nil, Bool.or_false, Bool.not_eq_true', Bool.or_eq_false_iff, beq_eq_false_iff_ne,
      ne_eq]
    omega

/-- A line that is a link: `"t":u` with a target `u` of at least two characters. -/
theorem linkRegexp_find (t : List Nat) (v0 : Nat) (vs : List Nat) (z : Nat)
    (ht : ∀ x ∈ t, x ≠ 34) (hv0 : targetChar v0 = true) (hvs : ∀ x ∈ vs, targetChar x = true)
    (hz : targetChar z = true) :
    linkRegexp.FindStringSubmatch (34 :: (t ++ 34 :: 58 :: v0 :: (vs ++ [z]))) =
      some [34 :: (t ++ 34 :: 58 :: v0 :: (vs ++ [z])), [], t, v0 :: (vs ++ [z]), []] := by
  have pt : ∀ x ∈ t, notIn ['"'] x = true := by
    intro x hx
    simp [notIn, ht x hx]
  have hu : ∀ x ∈ v0 :: (vs ++ [z]), x ≠ 34 := by
    intro x hx
    simp only [List.mem_cons, List.mem_append, List.not_mem_nil, or_false] at hx
    rcases hx with h | h | h
    · subst h; exact (targetChar_urlChar _ hv0).2.2
    · exact (targetChar_urlChar _ (hvs x h)).2.2
    · subst h; exact (targetChar_urlChar _ hz).2.2
  simp only [Regexp.FindStringSubmatch, linkRegexp, urlRegexp, seq, Re.run, lit,
    Char.reduceToNat]
  rw [starRun_cons_fail]
  · simp only [if_true]
    apply starRun_stop _ _ t 34 _ _ pt (by decide)
    simp only [if_true, (targetChar_urlChar _ hv0).1]
    apply starRun_last _ _ vs z _ (fun x hx => (targetChar_urlChar _ (hvs x hx)).1)
      (targetChar_urlChar _ hz).1 rfl
    simp only [(targetChar_urlChar _ hz).2.1, if_true, starRun]
    have k2 := take_sub_left t (34 :: 58 :: v0 :: (vs ++ [z]))
      ((t ++ 34 :: 58 :: v0 :: (vs ++ [z])).length - (34 :: 58 :: v0 :: (vs ++ [z])).length) rfl
    simp only [List.length_nil, Nat.sub_zero, List.take_length, if_true]
    rw [k2]
    simp [List.replicate]
  · apply starRun_append_none (fun x => decide (x ≠ 34)) _ _ _ _ _ t
      (fun x hx => by simpa using ht x hx)
    · intro x xs hx
      have : ¬ x = 34 := by simpa using hx
      simp [this]
    · rw [starRun_cons_fail]
      · simp only [if_true]
        apply starRun_none_of_head (fun x => decide (x ≠ 34))
        · intro x xs hx
          have : ¬ x = 34 := by simpa using hx
          simp [this]
        · rfl
        · intro x hx
          rcases List.mem_cons.1 hx with h | h
          · subst h; decide
          · simpa using hu x h
      · apply starRun_none_of_head (fun x => decide (x ≠ 34))
        · intro x xs hx
          have : ¬ x = 34 := by simpa using hx
          simp [this]
        · rfl
        · intro x hx
          rcases List.mem_cons.1 hx with h | h
          · subst h; decide
          · simpa using hu x h

end Textile

namespace Textile

/-! ## The sentinel of the underscores -/

theorem replaceAll_underscore :
    ∀ (s : List Nat), replaceAll (str "_") (str "%%%%") s 0 = sentinel s := by
  have e : str "_" = [95] := by decide
  intro s
  induction s with
  | nil => simp [replaceAll, sentinel]
  | cons c cs ih =>
    rw [e] at ih ⊢
    by_cases hc : c = 95
    · subst hc
      simp only [replaceAll, List.isPrefixOf, beq_self_eq_true, List.isPrefixOf_nil_left,
        Bool.and_self, if_true, List.length_singleton, Nat.sub_self, ih]
      simp [sentinel]
    · have : List.isPrefixOf [95] (c :: cs) = false := by
        simp [List.isPrefixOf, Ne.symm hc]
      simp only [replaceAll, this, Bool.false_eq_true, if_false, ih]
      simp [sentinel, hc]

theorem replaceAll_pass (new : List Nat) (x : Nat) (rest : List Nat) :
    ∀ (a s : List Nat), x ∉ a →
      replaceAll (x :: rest) new (a ++ s) 0 = a ++ replaceAll (x :: rest) new s 0 := by
  intro a
  induction a with
  | nil => intro s _; simp
  | cons c cs ih =>
    intro s h
    simp only [List.mem_cons, not_or] at h
    have : (x :: rest).isPrefixOf (c :: (cs ++ s)) = false := by
      simp [List.isPrefixOf, h.1]
    simp [replaceAll, this, ih s h.2]

theorem replaceAll_sentinel :
    ∀ (v s : List Nat), 37 ∉ v →
      replaceAll (str "%%%%") (str "_") (sentinel v ++ s) 0 =
        v ++ replaceAll (str "%%%%") (str "_") s 0 := by
  have e : str "%%%%" = [37, 37, 37, 37] := by decide
  have e2 : str "_" = [95] := by decide
  intro v
  induction v with
  | nil => intro s _; simp [sentinel]
  | cons c cs ih =>
    intro s h
    simp only [List.mem_cons, not_or] at h
    have ih2 := ih s h.2
    rw [e, e2] at ih2 ⊢
    by_cases hc : c = 95
    · subst hc
      have k : sentinel (95 :: cs) ++ s = 37 :: 37 :: 37 :: 37 :: (sentinel cs ++ s) := by
        simp [sentinel, e]
      rw [k]
      simp [replaceAll, List.isPrefixOf, ih2]
    · have k : sentinel (c :: cs) ++ s = c :: (sentinel cs ++ s) := by
        simp [sentinel, hc]
      have hp : List.isPrefixOf [37, 37, 37, 37] (c :: (sentinel cs ++ s)) = false := by
        simp [List.isPrefixOf, h.1]
      rw [k]
      simp [replaceAll, hp, ih2]

theorem targetChar_quiet (x : Nat) (h : targetChar x = true) :
    x ≠ 60 ∧ x ≠ 62 ∧ x ≠ 34 ∧ x ≠ 38 ∧ x ≠ 46 := by
  have := targetChar_cases x h
  omega

/-- The function `escapeParts` on a target of letters, digits, `_`, `/`, `:` and `-`. -/
theorem escapeParts_target (v : List Nat) (hv : ∀ x ∈ v, targetChar x = true) :
    escapeParts v = .done (sentinel v) := by
  have h := EntityEscape_quiet v false false (fun x hx => targetChar_quiet x (hv x hx))
  simp only [escapeParts, EntityEscapeString, h, Res.bind_done, replacements, List.foldl,
    replaceAll_underscore]

theorem mem_sentinel (v : List Nat) (x : Nat) (h : x ∈ sentinel v) :
    x = 37 ∨ (x ∈ v ∧ x ≠ 95) := by
  simp only [sentinel, List.mem_flatten, List.mem_map] at h
  obtain ⟨l, ⟨c, hc, rfl⟩, hx⟩ := h
  by_cases h95 : c = 95
  · simp only [h95, if_true] at hx
    left
    have e : str "%%%%" = [37, 37, 37, 37] := by decide
    rw [e] at hx
    simpa using hx
  · simp only [h95, if_false, List.mem_singleton] at hx
    right
    subst hx
    exact ⟨hc, h95⟩

end Textile

namespace Textile

theorem two_ends (u : List Nat) (h : 2 ≤ u.length) : ∃ v0 vs z, u = v0 :: (vs ++ [z]) := by
  cases u with
  | nil => simp at h
  | cons v0 rest =>
    have hne : rest ≠ [] := by
      intro e
      subst e
      simp at h
    exact ⟨v0, rest.dropLast, rest.getLast hne, by rw [List.dropLast_append_getLast hne]⟩

/-- The characters of the anchor of a link. -/
theorem link_chars (v t : List Nat) (hv : ∀ x ∈ v, targetChar x = true)
    (ht : ∀ x ∈ t, plain x = true) :
    ∀ x ∈ ([] : List Nat) ++ str "<a href=\"" ++ sentinel v ++ str "\">" ++ t ++ str "</a>" ++ [],
      (fun x => decide (x ≠ 33 ∧ x ≠ 91 ∧ x ≠ 95 ∧ x ≠ 42 ∧ x ≠ 94 ∧ x ≠ 126)) x = true := by
  intro x hx
  simp only [List.nil_append, List.append_nil, List.mem_append] at hx
  simp only [decide_eq_true_eq]
  rcases hx with (((h | h) | h) | h) | h
  · exact (by decide : ∀ x ∈ str "<a href=\"",
      x ≠ 33 ∧ x ≠ 91 ∧ x ≠ 95 ∧ x ≠ 42 ∧ x ≠ 94 ∧ x ≠ 126) x h
  · rcases mem_sentinel v x h with h2 | ⟨h2, h3⟩
    · omega
    · have := targetChar_cases x (hv x h2)
      omega
  · exact (by decide : ∀ x ∈ str "\">",
      x ≠ 33 ∧ x ≠ 91 ∧ x ≠ 95 ∧ x ≠ 42 ∧ x ≠ 94 ∧ x ≠ 126) x h
  · have := plain_cases x (ht x h)
    omega
  · exact (by decide : ∀ x ∈ str "</a>",
      x ≠ 33 ∧ x ≠ 91 ∧ x ≠ 95 ∧ x ≠ 42 ∧ x ≠ 94 ∧ x ≠ 126) x h

/-- A line that is a link, `"t":u`: the anchor with the target that `maybeAddRoot` gives,
when the target is made of letters, digits, `_`, `/`, `:` and `-`. -/
theorem transformLine_link (root_url hash : List Nat) (fuel : Nat) (t u : List Nat)
    (ht : ∀ x ∈ t, plain x = true) (hu : ∀ x ∈ u, targetChar x = true) (hlen : 2 ≤ u.length)
    (hv : ∀ x ∈ maybeAddRoot root_url u, targetChar x = true) :
    transformLine root_url hash (fuel + 2) (34 :: (t ++ 34 :: 58 :: u)) =
      .done (str "<a href=\"" ++ maybeAddRoot root_url u ++ str "\">" ++ t ++ str "</a>") := by
  obtain ⟨v0, vs, z, rfl⟩ := two_ends u hlen
  have hfind := linkRegexp_find t v0 vs z
    (fun x hx => (plain_cases x (ht x hx)).2.2.1) (hu v0 (by simp))
    (fun x hx => hu x (by simp [hx])) (hu z (by simp))
  have hs : ∀ x ∈ 34 :: (t ++ 34 :: 58 :: v0 :: (vs ++ [z])),
      (fun x => plain x || targetChar x || x == 34) x = true := by
    intro x hx
    simp only [List.mem_cons, List.mem_append] at hx
    simp only [Bool.or_eq_true, beq_iff_eq]
    rcases hx with h | h | h | h | h
    · exact Or.inr h
    · exact Or.inl (Or.inl (ht x h))
    · exact Or.inr h
    · subst h; exact Or.inl (Or.inr (by decide))
    · exact Or.inl (Or.inr (hu x (by simpa using h)))
  obtain ⟨n1, n2, n3, _, _, _, _, _, _, _, _⟩ := inline_none _ _ hs
  obtain ⟨_, _, _, _, m5, m6, m7, m8, m9, m10, m11⟩ :=
    inline_none _ _ (link_chars (maybeAddRoot root_url (v0 :: (vs ++ [z]))) t hv ht)
  have h0 := transformLine2_noMarkup root_url hash fuel [] (by simp)
  have hxt := transformLine2_noMarkup root_url hash fuel t (fun x hx => plain_noMarkup x (ht x hx))
  have hesc := escapeParts_target _ hv
  have h2 : transformLine2 root_url hash (fuel + 2) (34 :: (t ++ 34 :: 58 :: v0 :: (vs ++ [z]))) =
      .done ([] ++ str "<a href=\"" ++ sentinel (maybeAddRoot root_url (v0 :: (vs ++ [z]))) ++
        str "\">" ++ t ++ str "</a>" ++ []) := by
    rw [transformLine2]
    simp only [n1 (Or.inl (by decide)), quoteLinkStep, n2 (by decide), titleLinkStep,
      n3 (Or.inr (by decide)), linkStep, hfind, arg, List.getD_cons_succ, List.getD_cons_zero,
      h0, hesc, hxt, Res.bind_done, imgStep, m5 (by decide), altImgStep, m6 (by decide),
      footnoteRefStep, m7 (by decide), tags_fold]
    rw [tagStep_none _ _ (emphasisRegexp, str "em") (m8 (by decide)), Res.bind_done]
    rw [tagStep_none _ _ (strongRegexp, str "strong") (m9 (by decide)), Res.bind_done]
    rw [tagStep_none _ _ (supRegexp, str "sup") (m10 (by decide)), Res.bind_done]
    rw [tagStep_none _ _ (subRegexp, str "sub") (m11 (by decide))]
  have h37 : 37 ∉ maybeAddRoot root_url (v0 :: (vs ++ [z])) := by
    intro h
    have := targetChar_cases 37 (hv 37 h)
    omega
  have h37t : 37 ∉ str "\">" ++ (t ++ str "</a>") := by
    intro h
    rcases List.mem_append.1 h with h | h
    · exact absurd h (by decide)
    · rcases List.mem_append.1 h with h | h
      · have := plain_cases 37 (ht 37 h); omega
      · exact absurd h (by decide)
  have e : str "%%%%" = 37 :: [37, 37, 37] := by decide
  simp only [transformLine, h2, Res.bind_done, unescapeParts, replacements, List.foldl,
    List.nil_append, List.append_nil, List.append_assoc]
  rw [e, replaceAll_pass _ 37 _ (str "<a href=\"") _ (by decide), ← e, replaceAll_sentinel _ _ h37,
    e, replaceAll_of_head_not_mem _ 37 _ _ h37t]

end Textile

namespace Textile

/-! ## A line of inline markup as a paragraph -/

theorem calm_of_tagState :
    ∀ (s : List Nat) (t t2 : Bool), tagState s t = some t2 → calm s t := by
  intro s
  induction s with
  | nil => intro _ _ _; trivial
  | cons c cs ih =>
    intro t t2 h
    cases t with
    | true =>
      simp only [tagState] at h
      simp only [calm]
      exact ih _ t2 h
    | false =>
      simp only [tagState] at h
      simp only [calm]
      split_ifs at h with h60 hq
      · rw [if_pos h60]; exact ih true t2 h
      · rw [if_neg h60]
        simp only [not_or] at hq
        exact ⟨hq.1, fun e => absurd e hq.2.1, fun e => absurd e hq.2.2, ih false t2 h⟩

/-- A single line that no block handler takes and that is not an image alone, outside
every block: the paragraph of its inline transformation. -/
theorem formatter_bare_line (fuel : Nat) (root s X : List Nat)
    (hs : ∀ a ∈ s, a ≠ 13 ∧ a ≠ 10) (hne : s ≠ [])
    (hrun : runHandlers (initialState root) s (blockHandlers fuel) =
      .done (initialState root, false))
    (hcond : (!(linkRegexp.MatchString s || titleLinkRegexp.MatchString s) &&
      (imgRegexp.MatchString s || altImgRegexp.MatchString s)) = false)
    (hX : transformLine root emptyHash fuel s = .done X)
    (hcalm : calm (str "<p>" ++ X ++ str "</p>") false) :
    formatter fuel root s = .done (str "<p>" ++ X ++ str "</p>") := by
  have hlen : ¬ (s.length = 0) := by simpa using hne
  have hstep : (initialState root).step fuel s =
      .done ((initialState root).write (str "<p>" ++ X ++ str "</p>")) := by
    simp only [State.step, hlen, false_and, if_false, hrun, Res.bind_done, Bool.false_eq_true,
      hcond]
    simp [initialState, State.clearListLevels, State.transformLine, hX]
  simp only [formatter, State.transform, splitLines_single s hs, State.run, hstep, Res.bind_done,
    State.checkAll_twice, State.checkAll_w]
  simp only [State.write, State.closers, initialState, listClosers, Bool.false_eq_true, if_false,
    List.replicate, List.flatten_nil, List.append_nil, List.nil_append]
  exact EntityEscape_calm _ true hcalm

/-- A single line that is an image alone: its inline transformation, without a
paragraph. -/
theorem formatter_image_line (fuel : Nat) (root s X : List Nat)
    (hs : ∀ a ∈ s, a ≠ 13 ∧ a ≠ 10) (hne : s ≠ [])
    (hrun : runHandlers (initialState root) s (blockHandlers fuel) =
      .done (initialState root, false))
    (hcond : (!(linkRegexp.MatchString s || titleLinkRegexp.MatchString s) &&
      (imgRegexp.MatchString s || altImgRegexp.MatchString s)) = true)
    (hX : transformLine root emptyHash fuel s = .done X)
    (hcalm : calm X false) :
    formatter fuel root s = .done X := by
  have hlen : ¬ (s.length = 0) := by simpa using hne
  have hstep : (initialState root).step fuel s = .done ((initialState root).write X) := by
    simp only [State.step, hlen, false_and, if_false, hrun, Res.bind_done, Bool.false_eq_true,
      hcond]
    simp [initialState, State.clearListLevels, State.transformLine, hX]
  simp only [formatter, State.transform, splitLines_single s hs, State.run, hstep, Res.bind_done,
    State.checkAll_twice, State.checkAll_w]
  simp only [State.write, State.closers, initialState, listClosers, Bool.false_eq_true, if_false,
    List.replicate, List.flatten_nil, List.append_nil, List.nil_append]
  exact EntityEscape_calm _ true hcalm

/-- No block handler takes a line that starts with `"`. -/
theorem runHandlers_quote (fuel : Nat) (st : State) (cs : List Nat) :
    runHandlers st (34 :: cs) (blockHandlers fuel) = .done (st, false) := by
  have h1 : blockQuoteRegexp.FindStringSubmatch (34 :: cs) = none := by
    simp [Regexp.FindStringSubmatch, blockQuoteRegexp, seq, Re.run, lit]
  have h2 : preRegexp.FindStringSubmatch (34 :: cs) = none := by
    simp [Regexp.FindStringSubmatch, preRegexp, seq, Re.run, lit]
  have h3 : codeRegexp.FindStringSubmatch (34 :: cs) = none := by
    simp [Regexp.FindStringSubmatch, codeRegexp, seq, Re.run, lit]
  have h4 : paragraphRegexp.FindStringSubmatch (34 :: cs) = none := by
    simp [Regexp.FindStringSubmatch, paragraphRegexp, seq, Re.run, lit]
  have h5 : headingRegexp.FindStringSubmatch (34 :: cs) = none := by
    simp [Regexp.FindStringSubmatch, headingRegexp, seq, Re.run, lit]
  have h6 : footnoteRegexp.FindStringSubmatch (34 :: cs) = none := by
    simp [Regexp.FindStringSubmatch, footnoteRegexp, seq, Re.run, lit]
  have h7 : listRegexp.FindStringSubmatch (34 :: cs) = none := by
    simp [Regexp.FindStringSubmatch, listRegexp, seq, Re.run, oneOf]
  simp [runHandlers, blockHandlers, h1, h2, h3, h4, h5, h6, h7]

theorem tagState_target (v : List Nat) (hv : ∀ x ∈ v, targetChar x = true) :
    tagState v true = some true := by
  induction v with
  | nil => rfl
  | cons c cs ih =>
    have hc := targetChar_cases c (hv c (by simp))
    have h62 : (c != 62) = true := by
      simp only [bne_iff_ne, ne_eq]
      omega
    simp [tagState, h62, ih (fun x hx => hv x (by simp [hx]))]

/-- The line `"t":u` alone: a paragraph with the anchor. -/
theorem formatter_link (fuel : Nat) (root t u : List Nat)
    (ht : ∀ x ∈ t, plain x = true) (hu : ∀ x ∈ u, targetChar x = true) (hlen : 2 ≤ u.length)
    (hv : ∀ x ∈ maybeAddRoot root u, targetChar x = true) :
    formatter (fuel + 2) root (34 :: (t ++ 34 :: 58 :: u)) =
      .done (str "<p>" ++ (str "<a href=\"" ++ maybeAddRoot root u ++ str "\">" ++ t ++
        str "</a>") ++ str "</p>") := by
  obtain ⟨v0, vs, z, hdec⟩ := two_ends u hlen
  have hfind := linkRegexp_find t v0 vs z
    (fun x hx => (plain_cases x (ht x hx)).2.2.1) (hu v0 (by simp [hdec]))
    (fun x hx => hu x (by simp [hdec, hx])) (hu z (by simp [hdec]))
  rw [← hdec] at hfind
  apply formatter_bare_line
  · intro a ha
    simp only [List.mem_cons, List.mem_append] at ha
    rcases ha with h | h | h | h | h
    · omega
    · exact plain_not_newline a (ht a h)
    · omega
    · omega
    · have := targetChar_cases a (hu a h); omega
  · simp
  · exact runHandlers_quote _ _ _
  · simp [Regexp.MatchString, hfind]
  · exact transformLine_link root emptyHash fuel t u ht hu hlen hv
  · apply calm_of_tagState _ _ false
    have e1 : tagState (str "<p>") false = some false := by decide
    have e2 : tagState (str "<a href=\"") false = some true := by decide
    have e3 : tagState (str "\">") true = some false := by decide
    have e4 : tagState (str "</a>") false = some false := by decide
    have e5 : tagState (str "</p>") false = some false := by decide
    simp [tagState_append, e1, e2, e3, e4, e5, tagState_target _ hv, tagState_plain t ht false]

end Textile

namespace Textile

/-! ## The root URL and `escapeParts` -/

theorem maybeAddRoot_eq (r u : List Nat) :
    maybeAddRoot r u = if u.head? = some 47 then r ++ u else u := by
  cases u with
  | nil => simp [maybeAddRoot]
  | cons c cs =>
    by_cases h : c = 47
    · simp [maybeAddRoot, h]
    · simp [maybeAddRoot, h]

theorem maybeAddRoot_nil (u : List Nat) : maybeAddRoot [] u = u := by
  simp [maybeAddRoot]

theorem sentinel_of_no_underscore (s : List Nat) (h : 95 ∉ s) : sentinel s = s := by
  induction s with
  | nil => rfl
  | cons c cs ih =>
    simp only [List.mem_cons, not_or] at h
    have hc : ¬ c = 95 := fun e => h.1 e.symm
    have := ih h.2
    simp only [sentinel] at this
    simp [sentinel, hc, this]

/-- The function `escapeParts`: the escaper without `encode_all` and smart quotes, and
then the sentinel for every `_`. -/
theorem escapeParts_eq (s : List Nat) :
    ∃ e, EntityEscapeString s false false = .done e ∧ escapeParts s = .done (sentinel e) := by
  obtain ⟨e, he, _⟩ := EntityEscape_done s false false (Or.inl rfl)
  refine ⟨e, he, ?_⟩
  have he2 : EntityEscapeString s false false = .done e := he
  simp only [escapeParts, he2, Res.bind_done, replacements, List.foldl, replaceAll_underscore]

/-- The image `!/bar!` with the root URL `http://site`. -/
theorem transformLine_site_image (hash : List Nat) (fuel : Nat) :
    transformLine (str "http://site") hash (fuel + 2) (str "!/bar!") =
      .done (str "<img src=\"http://site/bar\">") := by
  have h0 := transformLine2_noMarkup (str "http://site") hash fuel [] (by simp)
  have n1 : bareTagRegexp.FindStringSubmatch (str "!/bar!") = none := by decide
  have n2 : quoteLinkRegexp.FindStringSubmatch (str "!/bar!") = none := by decide
  have n3 : titleLinkRegexp.FindStringSubmatch (str "!/bar!") = none := by decide
  have n4 : linkRegexp.FindStringSubmatch (str "!/bar!") = none := by decide
  have n5 : imgRegexp.FindStringSubmatch (str "!/bar!") =
      some [str "!/bar!", [], str "/bar", []] := by decide
  have hesc : escapeParts (maybeAddRoot (str "http://site") (str "/bar")) =
      .done (str "http://site/bar") := by decide
  have e : ([] : List Nat) ++ str "<img src=\"" ++ str "http://site/bar" ++ str "\">" ++ [] =
      str "<img src=\"http://site/bar\">" := by decide
  have m6 : altImgRegexp.FindStringSubmatch (str "<img src=\"http://site/bar\">") = none := by
    decide
  have m7 : footnoteRefRegexp.FindStringSubmatch (str "<img src=\"http://site/bar\">") =
      none := by decide
  have m8 : emphasisRegexp.FindStringSubmatch (str "<img src=\"http://site/bar\">") = none := by
    decide
  have m9 : strongRegexp.FindStringSubmatch (str "<img src=\"http://site/bar\">") = none := by
    decide
  have m10 : supRegexp.FindStringSubmatch (str "<img src=\"http://site/bar\">") = none := by
    decide
  have m11 : subRegexp.FindStringSubmatch (str "<img src=\"http://site/bar\">") = none := by
    decide
  have h2 : transformLine2 (str "http://site") hash (fuel + 2) (str "!/bar!") =
      .done (str "<img src=\"http://site/bar\">") := by
    rw [transformLine2]
    simp only [n1, quoteLinkStep, n2, titleLinkStep, n3, linkStep, n4, imgStep, n5, arg,
      List.getD_cons_succ, List.getD_cons_zero, h0, hesc, Res.bind_done, e, altImgStep, m6,
      footnoteRefStep, m7, tags_fold]
    rw [tagStep_none _ _ (emphasisRegexp, str "em") m8, Res.bind_done]
    rw [tagStep_none _ _ (strongRegexp, str "strong") m9, Res.bind_done]
    rw [tagStep_none _ _ (supRegexp, str "sup") m10, Res.bind_done]
    rw [tagStep_none _ _ (subRegexp, str "sub") m11]
  have hun : unescapeParts (str "<img src=\"http://site/bar\">") =
      str "<img src=\"http://site/bar\">" := by decide
  simp only [transformLine, h2, Res.bind_done, hun]

/-- The line `!/bar!` alone with the root URL `http://site`. -/
theorem formatter_site_image (fuel : Nat) :
    formatter (fuel + 2) (str "http://site") (str "!/bar!") =
      .done (str "<img src=\"http://site/bar\">") := by
  apply formatter_image_line
  · decide
  · decide
  · exact runHandlers_none (fun x => decide (x ≠ 46 ∧ x ≠ 42 ∧ x ≠ 35)) _ _ _ (by decide)
      (by decide) (by decide) (by decide)
  · decide
  · exact transformLine_site_image emptyHash fuel
  · exact calm_of_tagState _ _ false (by decide)

end Textile

namespace Textile

/-! ## The hash of the footnotes is the one of the initial state -/

theorem handler_keys (st : State) (r : Outcome) (f : List Nat → State × Bool)
    (p : State × Bool) (hk : ∀ t, st.sameKeys (f t).1)
    (hp : (r.bind fun t => .done (f t)) = .done p) : st.sameKeys p.1 := by
  obtain ⟨t, _, ht⟩ := Res.bind_eq_done _ _ _ hp
  simp only [Res.done.injEq] at ht
  subst ht
  exact hk t

theorem runHandlers_keys (fuel : Nat) (st : State) (s : List Nat) (p : State × Bool)
    (hp : runHandlers st s (blockHandlers fuel) = .done p) : st.sameKeys p.1 := by
  have hc := st.sameKeys_checks
  simp only [blockHandlers, runHandlers] at hp
  split at hp
  · simp only [blockQuoteHandler] at hp
    refine handler_keys st _ _ p (fun t => ?_) hp
    simp only [State.write]
    split_ifs <;> exact ⟨hc.1, hc.2⟩
  split at hp
  · exact handler_keys st _ _ p (fun t => ⟨hc.1, hc.2⟩) hp
  split at hp
  · exact handler_keys st _ _ p (fun t => ⟨hc.1, hc.2⟩) hp
  split at hp
  · exact handler_keys st _ _ p (fun t => ⟨hc.1, hc.2⟩) hp
  split at hp
  · exact handler_keys st _ _ p (fun t => ⟨hc.1, hc.2⟩) hp
  split at hp
  · exact handler_keys st _ _ p (fun t => ⟨hc.1, hc.2⟩) hp
  split at hp
  · have hc2 : st.sameKeys st.checkBlockQuote.checkPre :=
      State.sameKeys_trans (State.sameKeys_checkBlockQuote st) (State.sameKeys_checkPre _)
    simp only [listHandler] at hp
    by_cases hcode : st.checkBlockQuote.checkPre.inCode = true
    · rw [if_pos hcode] at hp
      simp only [Res.done.injEq] at hp
      subst hp
      exact hc2
    · rw [if_neg hcode] at hp
      refine handler_keys st _ _ p (fun t => ?_) hp
      simp only [State.closeLists_eq, State.write]
      split_ifs <;> exact ⟨hc.1, hc.2⟩
  simp only [Res.done.injEq] at hp
  subst hp
  exact ⟨rfl, rfl⟩

theorem State.step_keys (fuel : Nat) (st : State) (s : List Nat) (st2 : State)
    (h2 : st.step fuel s = .done st2) : st.sameKeys st2 := by
  unfold State.step at h2
  split at h2
  · simp only [Res.done.injEq] at h2
    subst h2
    exact st.sameKeys_checkAll
  · obtain ⟨r, hr, h3⟩ := Res.bind_eq_done _ _ _ h2
    have hi := runHandlers_keys fuel st s r hr
    have hc := State.sameKeys_trans hi (State.sameKeys_clearListLevels r.1)
    simp only at h3
    split at h3
    · simp only [Res.done.injEq] at h3
      subst h3
      exact hi
    split at h3
    · obtain ⟨t, _, ht⟩ := Res.bind_eq_done _ _ _ h3
      simp only [Res.done.injEq] at ht
      subst ht
      exact hi
    split at h3
    · obtain ⟨t, _, ht⟩ := Res.bind_eq_done _ _ _ h3
      simp only [Res.done.injEq] at ht
      subst ht
      exact hc
    split at h3
    · split at h3
      · obtain ⟨t, _, ht⟩ := Res.bind_eq_done _ _ _ h3
        simp only [Res.done.injEq] at ht
        subst ht
        exact hc
      split at h3
      · obtain ⟨t, _, ht⟩ := Res.bind_eq_done _ _ _ h3
        simp only [Res.done.injEq] at ht
        subst ht
        exact hc
      · simp only [Res.done.injEq] at h3
        subst h3
        exact hc
    · obtain ⟨t, _, ht⟩ := Res.bind_eq_done _ _ _ h3
      simp only [Res.done.injEq] at ht
      subst ht
      exact hc

/-- The root URL and the hash of a state never change. -/
theorem State.run_keys (fuel : Nat) :
    ∀ (ls : List (List Nat)) (st st2 : State), st.run fuel ls = .done st2 → st.sameKeys st2 := by
  intro ls
  induction ls with
  | nil =>
    intro st st2 h2
    simp only [State.run, Res.done.injEq] at h2
    subst h2
    exact ⟨rfl, rfl⟩
  | cons l ls ih =>
    intro st st2 h2
    simp only [State.run] at h2
    obtain ⟨st1, h1, h3⟩ := Res.bind_eq_done _ _ _ h2
    exact State.sameKeys_trans (State.step_keys fuel st l st1 h1) (ih st1 st2 h3)

end Textile

namespace Textile

/-! ## Footnote references -/

/-- A line with a footnote reference `[ds]` after the text `a` and before `b`. -/
theorem footnoteRefRegexp_find (a ds b : List Nat) (ha : ∀ x ∈ a, dot x = true)
    (hds : ∀ x ∈ ds, inRange '0' '9' x = true)
    (hb : ∀ x ∈ b, dot x = true ∧ x ≠ 91) :
    footnoteRefRegexp.FindStringSubmatch (a ++ 91 :: (ds ++ 93 :: b)) =
      some [a ++ 91 :: (ds ++ 93 :: b), a, ds, b] := by
  have hd91 : ∀ x ∈ ds, x ≠ 91 := by
    intro x hx
    have := hds x hx
    simp only [inRange, Bool.and_eq_true, decide_eq_true_eq, Char.reduceToNat] at this
    omega
  simp only [Regexp.FindStringSubmatch, footnoteRefRegexp, seq, Re.run, lit, Char.reduceToNat]
  apply starRun_append_of_some _ _ _ _ _ a ha
  rw [starRun_cons_fail]
  · simp only [if_true]
    apply starRun_stop _ _ ds 93 b _ hds (by decide)
    simp only [if_true]
    apply starRun_all _ _ b _ (fun x hx => (hb x hx).1)
    have k1 := take_sub_left a (91 :: (ds ++ 93 :: b))
      ((a ++ 91 :: (ds ++ 93 :: b)).length - (91 :: (ds ++ 93 :: b)).length) rfl
    have k2 := take_sub_left ds (93 :: b) ((ds ++ 93 :: b).length - (93 :: b).length) rfl
    simp only [List.length_nil, Nat.sub_zero, List.take_length, if_true]
    rw [k1, k2]
    simp [List.replicate]
  · apply starRun_append_none (fun x => decide (x ≠ 91)) _ _ _ _ _ ds
      (fun x hx => by simpa using hd91 x hx)
    · intro x xs hx
      have : ¬ x = 91 := by simpa using hx
      simp [this]
    · rw [starRun_cons_fail]
      · simp
      · apply starRun_none_of_head (fun x => decide (x ≠ 91))
        · intro x xs hx
          have : ¬ x = 91 := by simpa using hx
          simp [this]
        · rfl
        · intro x hx
          simpa using (hb x hx).2

theorem decimal_digit : ∀ n, n < 10 → decimal n = [digit n] ∧ Atoi [digit n] = n := by
  decide

set_option maxRecDepth 1000000 in
theorem footnoteAnchor_digit : ∀ n, n < 10 →
    footnoteAnchor emptyHash n = referenceAnchor emptyHash [digit n] ∧
    escapeParts (footnoteAnchor emptyHash n) = .done (footnoteAnchor emptyHash n) ∧
    tagState (footnoteAnchor emptyHash n) false = some false ∧
    (∀ x ∈ footnoteAnchor emptyHash n,
      x ≠ 33 ∧ x ≠ 91 ∧ x ≠ 95 ∧ x ≠ 42 ∧ x ≠ 94 ∧ x ≠ 126 ∧ x ≠ 37) := by
  decide

/-- A plain line with one footnote reference `[n]` for a digit `n`. -/
theorem transformLine_reference (root_url : List Nat) (fuel n : Nat) (hn : n < 10)
    (a b : List Nat) (ha : ∀ x ∈ a, plain x = true) (hb : ∀ x ∈ b, plain x = true) :
    transformLine root_url emptyHash (fuel + 2) (a ++ 91 :: ([digit n] ++ 93 :: b)) =
      .done (a ++ referenceAnchor emptyHash [digit n] ++ b) := by
  obtain ⟨f1, f2, _, f4⟩ := footnoteAnchor_digit n hn
  obtain ⟨d1, d2⟩ := decimal_digit n hn
  have hdig : inRange '0' '9' (digit n) = true := by
    simp only [inRange, digit, Bool.and_eq_true, decide_eq_true_eq, Char.reduceToNat]
    omega
  have hfind := footnoteRefRegexp_find a [digit n] b (fun x hx => plain_dot x (ha x hx))
    (by simpa using hdig)
    (fun x hx => ⟨plain_dot x (hb x hx), (plain_cases x (hb x hx)).2.2.2.2.1⟩)
  have hs : ∀ x ∈ a ++ 91 :: ([digit n] ++ 93 :: b),
      (fun x => plain x || x == 91 || x == 93) x = true := by
    intro x hx
    simp only [List.mem_append, List.mem_cons, List.mem_singleton, List.not_mem_nil,
      or_false] at hx
    simp only [Bool.or_eq_true, beq_iff_eq]
    rcases hx with h | h | (h | h | h)
    · exact Or.inl (Or.inl (ha x h))
    · exact Or.inl (Or.inr h)
    · subst h
      left; left
      simp only [plain, inRange, digit, Bool.or_eq_true, Bool.and_eq_true, decide_eq_true_eq,
        beq_iff_eq, Char.reduceToNat]
      omega
    · exact Or.inr h
    · exact Or.inl (Or.inl (hb x h))
  obtain ⟨n1, _, n3, n4, n5, n6, _, _, _, _, _⟩ := inline_none _ _ hs
  have n2 := quoteLinkRegexp.FindStringSubmatch_none _ _
    (quoteLinkRegexp_needs _ (Or.inl (by decide))) hs
  have hs2 : ∀ x ∈ a ++ footnoteAnchor emptyHash n ++ b,
      (fun x => decide (x ≠ 95 ∧ x ≠ 42 ∧ x ≠ 94 ∧ x ≠ 126)) x = true := by
    intro x hx
    simp only [List.mem_append] at hx
    simp only [decide_eq_true_eq]
    rcases hx with (h | h) | h
    · have := plain_cases x (ha x h); omega
    · have := f4 x h; omega
    · have := plain_cases x (hb x h); omega
  obtain ⟨_, _, _, _, _, _, _, m8, m9, m10, m11⟩ := inline_none _ _ hs2
  have hxa := transformLine2_noMarkup root_url emptyHash fuel a
    (fun x hx => plain_noMarkup x (ha x hx))
  have hxb := transformLine2_noMarkup root_url emptyHash fuel b
    (fun x hx => plain_noMarkup x (hb x hx))
  have h2 : transformLine2 root_url emptyHash (fuel + 2) (a ++ 91 :: ([digit n] ++ 93 :: b)) =
      .done (a ++ footnoteAnchor emptyHash n ++ b) := by
    rw [transformLine2]
    simp only [n1 (Or.inl (by decide)), quoteLinkStep, n2, titleLinkStep,
      n3 (Or.inl (by decide)), linkStep, n4 (Or.inl (by decide)), imgStep, n5 (by decide),
      altImgStep, n6 (by decide), footnoteRefStep, hfind, arg, List.getD_cons_succ,
      List.getD_cons_zero, hxa, hxb, d2, f2, Res.bind_done, tags_fold]
    rw [tagStep_none _ _ (emphasisRegexp, str "em") (m8 (by decide)), Res.bind_done]
    rw [tagStep_none _ _ (strongRegexp, str "strong") (m9 (by decide)), Res.bind_done]
    rw [tagStep_none _ _ (supRegexp, str "sup") (m10 (by decide)), Res.bind_done]
    rw [tagStep_none _ _ (subRegexp, str "sub") (m11 (by decide))]
  have h37 : 37 ∉ a ++ footnoteAnchor emptyHash n ++ b := by
    intro h
    simp only [List.mem_append] at h
    rcases h with (h | h) | h
    · have := plain_cases 37 (ha 37 h); omega
    · have := f4 37 h; omega
    · have := plain_cases 37 (hb 37 h); omega
  simp only [transformLine, h2, Res.bind_done, unescapeParts_of_no_percent _ h37]
  rw [f1]

/-- A plain line with one footnote reference: it has no line break, no block handler
takes it, and it is not an image alone. -/
theorem reference_line (root_url : List Nat) (fuel n : Nat) (hn : n < 10)
    (a b : List Nat) (ha : ∀ x ∈ a, plain x = true) (hb : ∀ x ∈ b, plain x = true) :
    (∀ x ∈ a ++ 91 :: ([digit n] ++ 93 :: b), x ≠ 13 ∧ x ≠ 10) ∧
    runHandlers (initialState root_url) (a ++ 91 :: ([digit n] ++ 93 :: b))
      (blockHandlers fuel) = .done (initialState root_url, false) ∧
    (!(linkRegexp.MatchString (a ++ 91 :: ([digit n] ++ 93 :: b)) ||
        titleLinkRegexp.MatchString (a ++ 91 :: ([digit n] ++ 93 :: b))) &&
      (imgRegexp.MatchString (a ++ 91 :: ([digit n] ++ 93 :: b)) ||
        altImgRegexp.MatchString (a ++ 91 :: ([digit n] ++ 93 :: b)))) = false := by
  have hs : ∀ x ∈ a ++ 91 :: ([digit n] ++ 93 :: b),
      (fun x => decide (x ≠ 46 ∧ x ≠ 42 ∧ x ≠ 35 ∧ x ≠ 34 ∧ x ≠ 33 ∧ x ≠ 13 ∧ x ≠ 10)) x =
        true := by
    intro x hx
    simp only [List.mem_append, List.mem_cons, List.mem_singleton, List.not_mem_nil,
      or_false] at hx
    simp only [decide_eq_true_eq]
    rcases hx with h | h | (h | h | h)
    · have := plain_cases x (ha x h); have := plain_quiet x (ha x h)
      have := plain_not_newline x (ha x h)
      simp only [plain, inRange, Bool.or_eq_true, Bool.and_eq_true, decide_eq_true_eq,
        beq_iff_eq, Char.reduceToNat] at ha
      have := ha x h
      omega
    · omega
    · simp only [digit] at h; omega
    · omega
    · have := plain_cases x (hb x h); have := plain_quiet x (hb x h)
      have := plain_not_newline x (hb x h)
      simp only [plain, inRange, Bool.or_eq_true, Bool.and_eq_true, decide_eq_true_eq,
        beq_iff_eq, Char.reduceToNat] at hb
      have := hb x h
      omega
  obtain ⟨_, _, _, n4, n5, n6, _, _, _, _, _⟩ := inline_none _ _ hs
  refine ⟨?_, ?_, ?_⟩
  · intro x hx
    have := hs x hx
    simp only [decide_eq_true_eq] at this
    omega
  · exact runHandlers_none _ _ _ _ hs (by decide) (by decide) (by decide)
  · have e5 := n5 (by decide)
    have e6 := n6 (by decide)
    simp only [Regexp.MatchString, e5, e6, Option.isSome_none, Bool.or_false, Bool.and_false]

/-- The paragraph of a plain line with one footnote reference is left alone by the
final pass. -/
theorem reference_paragraph (n : Nat) (hn : n < 10)
    (a b : List Nat) (ha : ∀ x ∈ a, plain x = true) (hb : ∀ x ∈ b, plain x = true) :
    tagState (str "<p>" ++ (a ++ referenceAnchor emptyHash [digit n] ++ b) ++ str "</p>")
      false = some false := by
  obtain ⟨f1, _, f3, _⟩ := footnoteAnchor_digit n hn
  have e1 : tagState (str "<p>") false = some false := by decide
  have e5 : tagState (str "</p>") false = some false := by decide
  rw [← f1]
  simp [tagState_append, e1, e5, f3, tagState_plain a ha false, tagState_plain b hb false]

/-- A plain line with one footnote reference `[n]`, alone: a paragraph with the anchor. -/
theorem formatter_reference (root_url : List Nat) (fuel n : Nat) (hn : n < 10)
    (a b : List Nat) (ha : ∀ x ∈ a, plain x = true) (hb : ∀ x ∈ b, plain x = true) :
    formatter (fuel + 2) root_url (a ++ 91 :: ([digit n] ++ 93 :: b)) =
      .done (str "<p>" ++ (a ++ referenceAnchor emptyHash [digit n] ++ b) ++ str "</p>") := by
  obtain ⟨h1, h2, h3⟩ := reference_line root_url (fuel + 2) n hn a b ha hb
  exact formatter_bare_line _ _ _ _ h1 (by simp) h2 h3
    (transformLine_reference root_url fuel n hn a b ha hb)
    (calm_of_tagState _ _ false (reference_paragraph n hn a b ha hb))

end Textile

namespace Textile

/-! ## Footnote definitions -/

/-- A text that the escaper leaves alone, followed by a calm text. -/
theorem calm_append :
    ∀ (a b : List Nat) (t t2 : Bool), tagState a t = some t2 → calm b t2 → calm (a ++ b) t := by
  intro a
  induction a with
  | nil =>
    intro b t t2 h hb
    simp only [tagState, Option.some.injEq] at h
    subst h
    exact hb
  | cons c cs ih =>
    intro b t t2 h hb
    cases t with
    | true =>
      simp only [tagState] at h
      simp only [List.cons_append, calm]
      exact ih b _ t2 h hb
    | false =>
      simp only [tagState] at h
      simp only [List.cons_append, calm]
      split_ifs at h with h60 hq
      · rw [if_pos h60]; exact ih b true t2 h hb
      · rw [if_neg h60]
        simp only [not_or] at hq
        exact ⟨hq.1, fun e => absurd e hq.2.1, fun e => absurd e hq.2.2, ih b false t2 h hb⟩

/-- The output of the formatter from the state that the lines lead to, for a buffer
with entities. -/
theorem formatter_of_run_calm (fuel : Nat) (root b : List Nat) (ls : List (List Nat))
    (st : State) (hls : splitLines b [] = ls)
    (hrun : (initialState root).run fuel ls = .done st)
    (ht : calm (st.w ++ st.closers) false) :
    formatter fuel root b = .done (st.w ++ st.closers) := by
  simp only [formatter, State.transform, hls, hrun, Res.bind_done, State.checkAll_twice,
    State.checkAll_w]
  exact EntityEscape_calm _ true ht

/-- A footnote definition without a class: `fnN. t`. -/
theorem footnoteRegexp_find (N : Nat) (t : List Nat) (hN : inRange '0' '9' N = true)
    (ht : ∀ a ∈ t, dot a = true) :
    footnoteRegexp.FindStringSubmatch (102 :: 110 :: N :: 46 :: 32 :: t) =
      some [102 :: 110 :: N :: 46 :: 32 :: t, [N], [], t] := by
  have e : List.take (t.length + 1 + 1 + 1 - (t.length + 1 + 1)) (N :: 46 :: 32 :: t) = [N] := by
    have : t.length + 1 + 1 + 1 - (t.length + 1 + 1) = 1 := by omega
    rw [this]
    simp
  simp only [Regexp.FindStringSubmatch, footnoteRegexp, seq, Re.run, classGroup, lit,
    Char.reduceToNat, Nat.reduceEqDiff, if_false, if_true, hN]
  apply starRun_all _ _ t _ ht
  simp [e, List.replicate]

theorem runHandlers_footnote (fuel : Nat) (st : State) (cs : List Nat) :
    runHandlers st (102 :: cs) (blockHandlers fuel) =
      match footnoteRegexp.FindStringSubmatch (102 :: cs) with
      | some a => footnoteHandler fuel st a
      | none => runHandlers st (102 :: cs) [(listRegexp, listHandler fuel)] := by
  have h1 : blockQuoteRegexp.FindStringSubmatch (102 :: cs) = none := by
    simp [Regexp.FindStringSubmatch, blockQuoteRegexp, seq, Re.run, lit]
  have h2 : preRegexp.FindStringSubmatch (102 :: cs) = none := by
    simp [Regexp.FindStringSubmatch, preRegexp, seq, Re.run, lit]
  have h3 : codeRegexp.FindStringSubmatch (102 :: cs) = none := by
    simp [Regexp.FindStringSubmatch, codeRegexp, seq, Re.run, lit]
  have h4 : paragraphRegexp.FindStringSubmatch (102 :: cs) = none := by
    simp [Regexp.FindStringSubmatch, paragraphRegexp, seq, Re.run, lit]
  have h5 : headingRegexp.FindStringSubmatch (102 :: cs) = none := by
    simp [Regexp.FindStringSubmatch, headingRegexp, seq, Re.run, lit]
  simp only [runHandlers, blockHandlers, h1, h2, h3, h4, h5]
  all_goals (cases footnoteRegexp.FindStringSubmatch (102 :: cs) <;> rfl)

/-- The footnote handler: the open blocks are closed and the paragraph of the footnote
is written with the digest of the state in both of its ids. -/
theorem footnoteHandler_eq (fuel : Nat) (st : State) (args : List (List Nat)) :
    footnoteHandler fuel st args =
      (transformLine st.root_url st.hash fuel (arg args 3)).bind fun t =>
        .done ({ st.checkBlockQuote.checkPre.checkCode with
          currentClassPart := classPart (arg args 2),
          w := st.checkBlockQuote.checkPre.checkCode.w ++
            (str "<p" ++ classPart (arg args 2) ++ str " id=fn" ++ arg args 1 ++ str "-" ++
              st.hash ++ str "><sup" ++ classPart (arg args 2) ++ str ">" ++ arg args 1 ++
              str "</sup> " ++ t ++ str "&#160;<a href=#fnr" ++ arg args 1 ++ str "-" ++
              st.hash ++ str " title=\"Jump back to footnote " ++ arg args 1 ++
              str "\">&#8617;</a></p>") }, true) := by
  obtain ⟨k1, k2, _, _⟩ := st.checks_keys
  simp [footnoteHandler, State.transformLine, State.write, k1, k2]

theorem footnoteParagraph_eq (h N t : List Nat) :
    str "<p" ++ ([] : List Nat) ++ str " id=fn" ++ N ++ str "-" ++ h ++ str "><sup" ++
      ([] : List Nat) ++ str ">" ++ N ++ str "</sup> " ++ t ++ str "&#160;<a href=#fnr" ++ N ++
      str "-" ++ h ++ str " title=\"Jump back to footnote " ++ N ++ str "\">&#8617;</a></p>" =
      footnoteParagraph h N t := by
  have e0 : str "<p id=fn" = str "<p" ++ str " id=fn" := by decide
  have e1 : str "><sup>" = str "><sup" ++ str ">" := by decide
  simp only [footnoteParagraph, List.append_nil, e0, e1, List.append_assoc]

/-- A footnote definition without a class in a state without an open block. -/
theorem State.step_footnote (fuel : Nat) (st : State) (N : Nat) (t : List Nat)
    (hN : inRange '0' '9' N = true) (ht : ∀ a ∈ t, plain a = true) (hf : st.flagsClear) :
    st.step (fuel + 1) (102 :: 110 :: N :: 46 :: 32 :: t) =
      .done { st with
        currentClassPart := [],
        w := st.w ++ footnoteParagraph st.hash [N] t } := by
  obtain ⟨c1, c2, c3⟩ := st.checks_of_flagsClear hf
  have hfind := footnoteRegexp_find N t hN (fun a ha => plain_dot a (ht a ha))
  have hlen : ¬ ((102 :: 110 :: N :: 46 :: 32 :: t).length = 0) := by simp
  have hcp : classPart [] = [] := by simp [classPart]
  simp only [State.step, hlen, false_and, if_false, runHandlers_footnote, hfind,
    footnoteHandler_eq, c1, c2, c3, arg, List.getD_cons_succ, List.getD_cons_zero,
    transformLine_plain st.root_url st.hash fuel t ht, Res.bind_done, if_true, hcp]
  rw [footnoteParagraph_eq]

end Textile

namespace Textile

/-! ## A footnote reference and its definition in one text -/

theorem calm_space_entity (X : List Nat) (h : calm X false) :
    calm (38 :: 35 :: 49 :: 54 :: 48 :: 59 :: X) false := by
  simp [calm, h]

theorem calm_arrow_entity (X : List Nat) (h : calm X false) :
    calm (38 :: 35 :: 56 :: 54 :: 49 :: 55 :: 59 :: X) false := by
  simp [calm, h]

/-- The paragraph of a footnote definition is left alone by the final pass. -/
theorem footnoteParagraph_calm (n : Nat) (hn : n < 10) (t : List Nat)
    (ht : ∀ a ∈ t, plain a = true) (F : List Nat)
    (hF : F = footnoteParagraph emptyHash [digit n] t) : calm F false := by
  have p1 := (by decide : ∀ n, n < 10 → tagState (str "<p id=fn" ++ [digit n] ++ str "-" ++
    emptyHash ++ str "><sup>" ++ [digit n] ++ str "</sup> ") false = some false) n hn
  have p2 := (by decide : ∀ n, n < 10 → tagState (str "<a href=#fnr" ++ [digit n] ++ str "-" ++
    emptyHash ++ str " title=\"Jump back to footnote " ++ [digit n] ++ str "\">") false =
      some false) n hn
  have p3 : calm (str "&#8617;</a></p>") false := by
    have e3 : str "&#8617;</a></p>" = 38 :: 35 :: 56 :: 54 :: 49 :: 55 :: 59 :: str "</a></p>" := by
      decide
    rw [e3]
    exact calm_arrow_entity _ (calm_of_tagState _ false false (by decide))
  have e : F =
      (str "<p id=fn" ++ [digit n] ++ str "-" ++ emptyHash ++ str "><sup>" ++ [digit n] ++
        str "</sup> ") ++ (t ++ (str "&#160;" ++ ((str "<a href=#fnr" ++ [digit n] ++ str "-" ++
        emptyHash ++ str " title=\"Jump back to footnote " ++ [digit n] ++ str "\">") ++
        str "&#8617;</a></p>"))) := by
    have s1 : str "&#160;<a href=#fnr" = str "&#160;" ++ str "<a href=#fnr" := by decide
    have s2 : str "\">&#8617;</a></p>" = str "\">" ++ str "&#8617;</a></p>" := by decide
    simp only [hF, footnoteParagraph, s1, s2, List.append_assoc]
  rw [e]
  apply calm_append _ _ false false p1
  apply calm_append _ _ false false (tagState_plain t ht false)
  have hA := calm_append _ _ false false p2 p3
  have e2 : ∀ X : List Nat, str "&#160;" ++ X = 38 :: 35 :: 49 :: 54 :: 48 :: 59 :: X := by
    intro X
    have : str "&#160;" = [38, 35, 49, 54, 48, 59] := by decide
    rw [this]
    rfl
  rw [e2]
  exact calm_space_entity _ hA

/-- A footnote definition `fnN. t`, alone. -/
theorem formatter_footnote (fuel : Nat) (root : List Nat) (n : Nat) (hn : n < 10)
    (t : List Nat) (ht : ∀ a ∈ t, plain a = true) :
    formatter (fuel + 1) root (str "fn" ++ [digit n] ++ str ". " ++ t) =
      .done (footnoteParagraph emptyHash [digit n] t) := by
  have e : str "fn" ++ [digit n] ++ str ". " ++ t = 102 :: 110 :: digit n :: 46 :: 32 :: t := by
    have e1 : str "fn" = [102, 110] := by decide
    have e2 : str ". " = [46, 32] := by decide
    rw [e1, e2]
    simp
  have hN : inRange '0' '9' (digit n) = true := by
    simp only [inRange, digit, Bool.and_eq_true, decide_eq_true_eq, Char.reduceToNat]
    omega
  have hline : ∀ a ∈ 102 :: 110 :: digit n :: 46 :: 32 :: t, a ≠ 13 ∧ a ≠ 10 := by
    intro a ha
    simp only [List.mem_cons] at ha
    rcases ha with h | h | h | h | h | h
    · omega
    · omega
    · simp only [digit] at h; omega
    · omega
    · omega
    · exact plain_not_newline a (ht a h)
  have hstep := State.step_footnote fuel (initialState root) (digit n) t hN ht
    (initialState_flagsClear root)
  have hh : (initialState root).hash = emptyHash := rfl
  have hw0 : ∀ X : List Nat, (initialState root).w ++ X = X := fun _ => rfl
  rw [hh, hw0] at hstep
  obtain ⟨F, hF⟩ : ∃ F, F = footnoteParagraph emptyHash [digit n] t := ⟨_, rfl⟩
  have hFc := footnoteParagraph_calm n hn t ht F hF
  rw [← hF] at hstep
  rw [e, ← hF]
  obtain ⟨st2, hst2⟩ : ∃ st2 : State, st2 = { initialState root with
      currentClassPart := [], w := F } := ⟨_, rfl⟩
  have hstep2 : (initialState root).step (fuel + 1) (102 :: 110 :: digit n :: 46 :: 32 :: t) =
      .done st2 := by
    rw [hst2]; exact hstep
  have hw : st2.w = F := by rw [hst2]
  have hcl : st2.closers = [] := by rw [hst2]; rfl
  have hrun : (initialState root).run (fuel + 1) [102 :: 110 :: digit n :: 46 :: 32 :: t] =
      .done st2 := by
    simp only [State.run, hstep2, Res.bind_done]
  have hc : calm (st2.w ++ st2.closers) false := by
    rw [hw, hcl, List.append_nil]
    exact hFc
  rw [formatter_of_run_calm (fuel + 1) root _ _ st2 (splitLines_single _ hline) hrun hc, hw, hcl,
    List.append_nil]

/-- A plain line with a footnote reference `[n]` and the definition `fnN. t` after it:
the paragraph with the anchor and the paragraph of the footnote. -/
theorem formatter_footnote_pair (fuel : Nat) (root : List Nat) (n : Nat) (hn : n < 10)
    (a b t : List Nat) (ha : ∀ x ∈ a, plain x = true) (hb : ∀ x ∈ b, plain x = true)
    (ht : ∀ x ∈ t, plain x = true) :
    formatter (fuel + 2) root
      (joinLines [a ++ 91 :: ([digit n] ++ 93 :: b), str "fn" ++ [digit n] ++ str ". " ++ t]) =
      .done (str "<p>" ++ (a ++ referenceAnchor emptyHash [digit n] ++ b) ++ str "</p>" ++
        footnoteParagraph emptyHash [digit n] t) := by
  have e : str "fn" ++ [digit n] ++ str ". " ++ t = 102 :: 110 :: digit n :: 46 :: 32 :: t := by
    have e1 : str "fn" = [102, 110] := by decide
    have e2 : str ". " = [46, 32] := by decide
    rw [e1, e2]
    simp
  have hN : inRange '0' '9' (digit n) = true := by
    simp only [inRange, digit, Bool.and_eq_true, decide_eq_true_eq, Char.reduceToNat]
    omega
  have hline : ∀ a ∈ 102 :: 110 :: digit n :: 46 :: 32 :: t, a ≠ 13 ∧ a ≠ 10 := by
    intro a ha
    simp only [List.mem_cons] at ha
    rcases ha with h | h | h | h | h | h
    · omega
    · omega
    · simp only [digit] at h; omega
    · omega
    · omega
    · exact plain_not_newline a (ht a h)
  obtain ⟨h1, h2, h3⟩ := reference_line root (fuel + 2) n hn a b ha hb
  have hX := transformLine_reference root fuel n hn a b ha hb
  have hP := reference_paragraph n hn a b ha hb
  obtain ⟨P, hPe⟩ : ∃ P, P = str "<p>" ++ (a ++ referenceAnchor emptyHash [digit n] ++ b) ++
    str "</p>" := ⟨_, rfl⟩
  rw [← hPe] at hP
  have hlen : ¬ ((a ++ 91 :: ([digit n] ++ 93 :: b)).length = 0) := by simp
  have hstep1 : (initialState root).step (fuel + 2) (a ++ 91 :: ([digit n] ++ 93 :: b)) =
      .done ((initialState root).write P) := by
    simp only [State.step, hlen, false_and, if_false, h2, Res.bind_done, Bool.false_eq_true, h3]
    have hcl : (initialState root).clearListLevels = initialState root := rfl
    have hk1 : (initialState root).inBlockQuote = false := rfl
    have hk2 : (initialState root).root_url = root := rfl
    have hk3 : (initialState root).hash = emptyHash := rfl
    have hk4 : (initialState root).inPre = false := rfl
    have hk5 : (initialState root).inCode = false := rfl
    simp only [hcl, hk1, hk2, hk3, hk4, hk5, State.transformLine, hX, Res.bind_done,
      Bool.false_eq_true, or_self, if_false, hPe]
  have hstep2 := State.step_footnote (fuel + 1) ((initialState root).write P) (digit n) t hN ht
    (by simp [State.flagsClear, State.write, initialState])
  have hh : ((initialState root).write P).hash = emptyHash := rfl
  have hw0 : ((initialState root).write P).w = P := rfl
  rw [hh, hw0] at hstep2
  obtain ⟨F, hF⟩ : ∃ F, F = footnoteParagraph emptyHash [digit n] t := ⟨_, rfl⟩
  have hFc := footnoteParagraph_calm n hn t ht F hF
  rw [← hF] at hstep2
  rw [e, ← hPe, ← hF]
  obtain ⟨st2, hst2⟩ : ∃ st2 : State, st2 = { (initialState root).write P with
      currentClassPart := [], w := P ++ F } := ⟨_, rfl⟩
  have hstep3 : ((initialState root).write P).step (fuel + 1 + 1)
      (102 :: 110 :: digit n :: 46 :: 32 :: t) = .done st2 := by
    rw [hst2]; exact hstep2
  have hw : st2.w = P ++ F := by rw [hst2]
  have hcl : st2.closers = [] := by rw [hst2]; rfl
  have hsplit := splitLines_joinLines_lines
    [a ++ 91 :: ([digit n] ++ 93 :: b), 102 :: 110 :: digit n :: 46 :: 32 :: t] (by simp) (by
      intro l hl
      simp only [List.mem_cons, List.mem_singleton, List.not_mem_nil, or_false] at hl
      rcases hl with h | h
      · subst h; exact h1
      · subst h; exact hline)
  have hrun : (initialState root).run (fuel + 2)
      [a ++ 91 :: ([digit n] ++ 93 :: b), 102 :: 110 :: digit n :: 46 :: 32 :: t] =
        .done st2 := by
    simp only [State.run, hstep1, hstep3, Res.bind_done]
  have hc : calm (st2.w ++ st2.closers) false := by
    rw [hw, hcl, List.append_nil]
    exact calm_append P F false false hP hFc
  rw [formatter_of_run_calm (fuel + 2) root _ _ st2 hsplit hrun hc, hw, hcl, List.append_nil]

end Textile

namespace Textile

/-! ## Paired delimiters and links through `transformLine` -/

/-- A plain text between a pair of one of the four delimiters, with plain text around it. -/
theorem transformLine_pair (root_url hash : List Nat) (fuel : Nat) (p : Nat × List Nat)
    (hp : p ∈ [(95, str "em"), (42, str "strong"), (94, str "sup"), (126, str "sub")])
    (a t b : List Nat) (ha : ∀ x ∈ a, plain x = true) (ht : ∀ x ∈ t, plain x = true)
    (hb : ∀ x ∈ b, plain x = true) :
    transformLine root_url hash (fuel + 2) (a ++ p.1 :: (t ++ p.1 :: b)) =
      .done (a ++ str "<" ++ p.2 ++ str ">" ++ t ++ str "</" ++ p.2 ++ str ">" ++ b) := by
  have h37 : ∀ tag : List Nat, (∀ x ∈ tag, plain x = true) →
      37 ∉ a ++ str "<" ++ tag ++ str ">" ++ t ++ str "</" ++ tag ++ str ">" ++ b := by
    intro tag htag h
    have := tagged_chars a tag t b ha htag ht hb 37 h
    revert this
    decide
  simp only [List.mem_cons, List.mem_singleton, List.not_mem_nil, or_false] at hp
  rcases hp with h | h | h | h <;> subst h
  · simp only [transformLine, transformLine2_em root_url hash fuel a t b ha ht hb, Res.bind_done,
      unescapeParts_of_no_percent _ (h37 (str "em") (by decide))]
  · simp only [transformLine, transformLine2_strong root_url hash fuel a t b ha ht hb,
      Res.bind_done, unescapeParts_of_no_percent _ (h37 (str "strong") (by decide))]
  · simp only [transformLine, transformLine2_sup root_url hash fuel a t b ha ht hb, Res.bind_done,
      unescapeParts_of_no_percent _ (h37 (str "sup") (by decide))]
  · simp only [transformLine, transformLine2_sub root_url hash fuel a t b ha ht hb, Res.bind_done,
      unescapeParts_of_no_percent _ (h37 (str "sub") (by decide))]

/-- A plain line with one delimiter and no second one. -/
theorem transformLine_single (root_url hash : List Nat) (fuel : Nat) (d : Nat)
    (hd : d = 95 ∨ d = 42 ∨ d = 94 ∨ d = 126) (a b : List Nat)
    (ha : ∀ x ∈ a, plain x = true) (hb : ∀ x ∈ b, plain x = true) :
    transformLine root_url hash (fuel + 1) (a ++ d :: b) = .done (a ++ d :: b) := by
  have h37 : 37 ∉ a ++ d :: b := by
    intro h
    simp only [List.mem_append, List.mem_cons] at h
    rcases h with h | h | h
    · have := plain_cases 37 (ha 37 h); omega
    · omega
    · have := plain_cases 37 (hb 37 h); omega
  simp only [transformLine, transformLine2_single root_url hash fuel d hd a b ha hb,
    Res.bind_done, unescapeParts_of_no_percent _ h37]

/-- The line `_*t*_`. -/
theorem transformLine_em_strong (root_url hash : List Nat) (fuel : Nat) (t : List Nat)
    (ht : ∀ x ∈ t, plain x = true) :
    transformLine root_url hash (fuel + 3) (str "_*" ++ t ++ str "*_") =
      .done (str "<em><strong>" ++ t ++ str "</strong></em>") := by
  have h37 : 37 ∉ str "<em><strong>" ++ t ++ str "</strong></em>" := by
    intro h
    simp only [List.mem_append] at h
    rcases h with (h | h) | h
    · exact absurd h (by decide)
    · have := plain_cases 37 (ht 37 h); omega
    · exact absurd h (by decide)
  simp only [transformLine, transformLine2_em_strong root_url hash fuel t ht, Res.bind_done,
    unescapeParts_of_no_percent _ h37]

/-- In a text in which no `<` is followed by `e`, the tag `<em>` does not occur. -/
theorem no_em_of_chain (l : List Nat) (h : List.Chain' (fun x y => x = 60 → y ≠ 101) l) :
    ¬ (str "<em>" <:+: l) := by
  intro hi
  have h2 := h.infix hi
  have e : str "<em>" = 60 :: 101 :: [109, 62] := by decide
  rw [e, List.chain'_cons] at h2
  exact h2.1 rfl rfl

theorem chain_append_of_no_lt (l1 l2 : List Nat) (h1 : 60 ∉ l1)
    (h2 : List.Chain' (fun x y => x = 60 → y ≠ 101) l2) :
    List.Chain' (fun x y => x = 60 → y ≠ 101) (l1 ++ l2) := by
  induction l1 with
  | nil => exact h2
  | cons c cs ih =>
    simp only [List.mem_cons, not_or] at h1
    rw [List.cons_append, List.chain'_cons']
    exact ⟨fun y _ hc => absurd hc.symm h1.1, ih h1.2⟩

/-- The anchor of a link with a plain text and a target of target characters holds no
`%` and no `<em>`. -/
theorem anchor_clean (t u : List Nat) (ht : ∀ x ∈ t, plain x = true)
    (hu : ∀ x ∈ u, targetChar x = true) :
    37 ∉ str "<a href=\"" ++ u ++ str "\">" ++ t ++ str "</a>" ∧
      ¬ (str "<em>" <:+: str "<a href=\"" ++ u ++ str "\">" ++ t ++ str "</a>") := by
  have hu60 : 60 ∉ u := fun h => by have := targetChar_cases 60 (hu 60 h); omega
  have ht60 : 60 ∉ t := fun h => by have := plain_cases 60 (ht 60 h); omega
  constructor
  · intro h
    simp only [List.mem_append] at h
    rcases h with (((h | h) | h) | h) | h
    · exact absurd h (by decide)
    · have := targetChar_cases 37 (hu 37 h); omega
    · exact absurd h (by decide)
    · have := plain_cases 37 (ht 37 h); omega
    · exact absurd h (by decide)
  · apply no_em_of_chain
    have e1 : str "<a href=\"" = 60 :: 97 :: str " href=\"" := by decide
    have e2 : str "</a>" = 60 :: 47 :: str "a>" := by decide
    have c2 : List.Chain' (fun x y => x = 60 → y ≠ 101) (str "</a>") := by
      rw [e2, List.chain'_cons]
      exact ⟨fun _ => by decide, chain_append_of_no_lt (47 :: str "a>") [] (by decide)
        List.chain'_nil⟩
    have c3 := chain_append_of_no_lt (97 :: str " href=\"" ++ u ++ str "\">" ++ t) (str "</a>")
      (by
        intro h
        simp only [List.cons_append, List.mem_cons, List.mem_append] at h
        rcases h with h | ((h | h) | h) | h
        · omega
        · exact absurd h (by decide)
        · exact hu60 h
        · exact absurd h (by decide)
        · exact ht60 h) c2
    rw [e1]
    simp only [List.cons_append] at c3 ⊢
    rw [List.chain'_cons]
    exact ⟨fun _ => by decide, c3⟩

end Textile

namespace Textile

/-! ## Links, the root URL and `escapeParts`: C25 to C28 -/

/-- C25 as stated fails: the URL pattern takes one character of its class and then one
more character, so a URL of one character makes no link; the line `"x":a` becomes a
paragraph with the quotes as entities. -/
theorem C25_one_character_url :
    TextileFormatter 2 (str "\"x\":a") = .done (str "<p>&#8220;x&#8221;:a</p>") := by
  decide

/-- C25, amended: for every text `t` of ASCII letters, digits and spaces and every URL `u`
of at least two ASCII letters and digits, the standard formatter renders the line
`"t":u` as `<p><a href="u">t</a></p>`. -/
theorem C25_quoted_link (fuel : Nat) (t u : List Nat) (ht : ∀ x ∈ t, plain x = true)
    (hu : ∀ x ∈ u, alnum x = true) (hlen : 2 ≤ u.length) :
    TextileFormatter (fuel + 2) (str "\"" ++ t ++ str "\":" ++ u) =
      .done (str "<p><a href=\"" ++ u ++ str "\">" ++ t ++ str "</a></p>") := by
  have k1 : str "\"" = [34] := by decide
  have k2 : str "\":" = [34, 58] := by decide
  have k3 : str "<p><a href=\"" = str "<p>" ++ str "<a href=\"" := by decide
  have k4 : str "</a></p>" = str "</a>" ++ str "</p>" := by decide
  have hin : str "\"" ++ t ++ str "\":" ++ u = 34 :: (t ++ 34 :: 58 :: u) := by
    rw [k1, k2]; simp
  have htc : ∀ x ∈ u, targetChar x = true := by
    intro x hx
    simp only [targetChar, hu x hx, Bool.true_or]
  have h := formatter_link fuel [] t u ht htc hlen (by rw [maybeAddRoot_nil]; exact htc)
  rw [maybeAddRoot_nil] at h
  rw [TextileFormatter, hin, h, k3, k4]
  simp only [List.append_assoc]

/-- C25, amended, at the line `"foo":bar`. -/
theorem C25_quoted_link_witness :
    (∀ x ∈ str "foo", plain x = true) ∧ (∀ x ∈ str "bar", alnum x = true) ∧
      2 ≤ (str "bar").length ∧
      TextileFormatter (0 + 2) (str "\"" ++ str "foo" ++ str "\":" ++ str "bar") =
        .done (str "<p><a href=\"" ++ str "bar" ++ str "\">" ++ str "foo" ++ str "</a></p>") :=
  ⟨by decide, by decide, by decide,
    C25_quoted_link 0 (str "foo") (str "bar") (by decide) (by decide) (by decide)⟩

set_option maxRecDepth 1000000 in
/-- C26 as stated fails: a target that starts with `/` gets the root URL of the formatter
in front of it, so with the root URL `http://site` the `href` of `"t":/a_b` is
`http://site/a_b` and not `/a_b`. -/
theorem C26_root_before_target :
    transformLine (str "http://site") emptyHash 2 (str "\"t\":/a_b") =
      .done (str "<a href=\"http://site/a_b\">t</a>") := by
  decide

/-- C26, amended: for every text `t` of ASCII letters, digits and spaces and every URL `u`
of at least two characters among ASCII letters, digits, `_`, `/`, `:` and `-`,
`transformLine` turns `"t":u` into `<a href="v">t</a>`, where `v` is what `maybeAddRoot`
gives: `u` itself when the root URL is empty or `u` does not start with `/`, and the root
URL followed by `u` when `u` starts with `/`, the root URL then being made of such
characters too; underscores stand in the `href` as they are, and the result holds neither
`<em>` nor the sentinel `%%%%`. -/
theorem C26_underscores_survive (root_url hash : List Nat) (fuel : Nat) (t u : List Nat)
    (ht : ∀ x ∈ t, plain x = true) (hu : ∀ x ∈ u, targetChar x = true) (hlen : 2 ≤ u.length)
    (hr : u.head? = some 47 → ∀ x ∈ root_url, targetChar x = true) :
    transformLine root_url hash (fuel + 2) (str "\"" ++ t ++ str "\":" ++ u) =
        .done (str "<a href=\"" ++ maybeAddRoot root_url u ++ str "\">" ++ t ++ str "</a>") ∧
      (u.head? = some 47 → maybeAddRoot root_url u = root_url ++ u) ∧
      (root_url = [] ∨ u.head? ≠ some 47 → maybeAddRoot root_url u = u) ∧
      ¬ (str "<em>" <:+:
        str "<a href=\"" ++ maybeAddRoot root_url u ++ str "\">" ++ t ++ str "</a>") ∧
      ¬ (str "%%%%" <:+:
        str "<a href=\"" ++ maybeAddRoot root_url u ++ str "\">" ++ t ++ str "</a>") := by
  have k1 : str "\"" = [34] := by decide
  have k2 : str "\":" = [34, 58] := by decide
  have hin : str "\"" ++ t ++ str "\":" ++ u = 34 :: (t ++ 34 :: 58 :: u) := by
    rw [k1, k2]; simp
  have hv : ∀ x ∈ maybeAddRoot root_url u, targetChar x = true := by
    rw [maybeAddRoot_eq]
    by_cases h : u.head? = some 47
    · rw [if_pos h]
      intro x hx
      rcases List.mem_append.1 hx with hx | hx
      · exact hr h x hx
      · exact hu x hx
    · rw [if_neg h]
      exact hu
  have h := transformLine_link root_url hash fuel t u ht hu hlen hv
  obtain ⟨c1, c2⟩ := anchor_clean t (maybeAddRoot root_url u) ht hv
  refine ⟨by rw [hin, h], ?_, ?_, c2, fun hi => c1 (hi.subset (by decide))⟩
  · intro h47
    rw [maybeAddRoot_eq, if_pos h47]
  · intro h0
    rw [maybeAddRoot_eq]
    rcases h0 with h0 | h0
    · simp [h0]
    · simp [h0]

/-- C26, amended, at the line `"foo":/bar_wib` with the root URL `http://my_site`. -/
theorem C26_underscores_survive_witness :
    (∀ x ∈ str "foo", plain x = true) ∧ (∀ x ∈ str "/bar_wib", targetChar x = true) ∧
      2 ≤ (str "/bar_wib").length ∧
      ((str "/bar_wib").head? = some 47 → ∀ x ∈ str "http://my_site", targetChar x = true) ∧
      (transformLine (str "http://my_site") emptyHash (0 + 2)
          (str "\"" ++ str "foo" ++ str "\":" ++ str "/bar_wib") =
        .done (str "<a href=\"" ++ maybeAddRoot (str "http://my_site") (str "/bar_wib") ++
          str "\">" ++ str "foo" ++ str "</a>") ∧
      ((str "/bar_wib").head? = some 47 →
        maybeAddRoot (str "http://my_site") (str "/bar_wib") =
          str "http://my_site" ++ str "/bar_wib") ∧
      (str "http://my_site" = [] ∨ (str "/bar_wib").head? ≠ some 47 →
        maybeAddRoot (str "http://my_site") (str "/bar_wib") = str "/bar_wib") ∧
      ¬ (str "<em>" <:+:
        str "<a href=\"" ++ maybeAddRoot (str "http://my_site") (str "/bar_wib") ++
          str "\">" ++ str "foo" ++ str "</a>") ∧
      ¬ (str "%%%%" <:+:
        str "<a href=\"" ++ maybeAddRoot (str "http://my_site") (str "/bar_wib") ++
          str "\">" ++ str "foo" ++ str "</a>")) :=
  ⟨by decide, by decide, by decide, fun _ => by decide,
    C26_underscores_survive (str "http://my_site") emptyHash 0 (str "foo") (str "/bar_wib")
      (by decide) (by decide) (by decide) (fun _ => by decide)⟩

/-- C27: `maybeAddRoot` puts the root URL before a target that starts with `/` and returns
every other target, the empty one included, as it is; with the empty root URL it is the
identity, and the standard formatter keeps the target `/bar`; the formatter with the root
URL `http://site` renders `"foo":/bar` with the `href` and `!/bar!` with the `src`
`http://site/bar`. -/
theorem C27_root_relative (r u : List Nat) (fuel : Nat) :
    maybeAddRoot r u = (if u.head? = some 47 then r ++ u else u) ∧
      maybeAddRoot r [] = [] ∧
      maybeAddRoot [] u = u ∧
      TextileFormatter (fuel + 2) (str "\"foo\":/bar") =
        .done (str "<p><a href=\"/bar\">foo</a></p>") ∧
      GetTextileFullLinkFormatter (str "http://site") (fuel + 2) (str "\"foo\":/bar") =
        .done (str "<p><a href=\"http://site/bar\">foo</a></p>") ∧
      GetTextileFullLinkFormatter (str "http://site") (fuel + 2) (str "!/bar!") =
        .done (str "<img src=\"http://site/bar\">") := by
  have e : str "\"foo\":/bar" = 34 :: (str "foo" ++ 34 :: 58 :: str "/bar") := by decide
  have h1 := formatter_link fuel [] (str "foo") (str "/bar") (by decide) (by decide) (by decide)
    (by decide)
  have h2 := formatter_link fuel (str "http://site") (str "foo") (str "/bar") (by decide)
    (by decide) (by decide) (by decide)
  have v1 : str "<p>" ++ (str "<a href=\"" ++ maybeAddRoot [] (str "/bar") ++ str "\">" ++
      str "foo" ++ str "</a>") ++ str "</p>" = str "<p><a href=\"/bar\">foo</a></p>" := by
    decide
  have v2 : str "<p>" ++ (str "<a href=\"" ++ maybeAddRoot (str "http://site") (str "/bar") ++
      str "\">" ++ str "foo" ++ str "</a>") ++ str "</p>" =
      str "<p><a href=\"http://site/bar\">foo</a></p>" := by
    decide
  rw [v1] at h1
  rw [v2] at h2
  refine ⟨maybeAddRoot_eq r u, by simp [maybeAddRoot], maybeAddRoot_nil u, ?_, ?_, ?_⟩
  · rw [TextileFormatter, e, h1]
  · rw [GetTextileFullLinkFormatter, e, h2]
  · exact formatter_site_image fuel

/-- C28 as stated fails: `escapeParts` calls the escaper with `smart_quotes` false, which
turns every `"` outside a tag into `&#34;` and three dots into `&#8230;`. -/
theorem C28_quote_and_dots_escaped :
    escapeParts (str "a...b") = .done (str "a&#8230;b") ∧
      escapeParts (str "a\"b") = .done (str "a&#34;b") := by
  decide

/-- C28, amended: on a text with no `<`, `>`, `"`, `&` and no three dots in a row,
`escapeParts` returns the text with the sentinel `%%%%` for every `_`, hence the text
itself when it has no `_`; on every text it returns what `EntityEscapeString(., false,
false)` returns, with the sentinel for every `_`. -/
theorem C28_escapeParts (s : List Nat) (h1 : 60 ∉ s) (h2 : 62 ∉ s) (h3 : 34 ∉ s) (h4 : 38 ∉ s)
    (h5 : ¬ [46, 46, 46] <:+: s) :
    escapeParts s = .done (sentinel s) ∧
      (95 ∉ s → escapeParts s = .done s) ∧
      ∀ s2 : List Nat, ∃ e, EntityEscapeString s2 false false = .done e ∧
        escapeParts s2 = .done (sentinel e) := by
  have hs : EntityEscape s false false = .done s := by
    rw [EntityEscape_eq_scan, scan_inert _ _ s (inert_of_plain s h1 h2 h3 h4 h5)]
    simp [ofScan]
  obtain ⟨e, he, hp⟩ := escapeParts_eq s
  have hes : EntityEscape s false false = .done e := he
  rw [hs] at hes
  have hee : s = e := by simpa using hes
  rw [← hee] at hp
  refine ⟨hp, fun h => ?_, escapeParts_eq⟩
  rw [hp, sentinel_of_no_underscore s h]

/-- C28, amended, at the text `a..b_c`. -/
theorem C28_escapeParts_witness :
    60 ∉ str "a..b_c" ∧ 62 ∉ str "a..b_c" ∧ 34 ∉ str "a..b_c" ∧ 38 ∉ str "a..b_c" ∧
      ¬ [46, 46, 46] <:+: str "a..b_c" ∧
      (escapeParts (str "a..b_c") = .done (sentinel (str "a..b_c")) ∧
      (95 ∉ str "a..b_c" → escapeParts (str "a..b_c") = .done (str "a..b_c")) ∧
      ∀ s2 : List Nat, ∃ e, EntityEscapeString s2 false false = .done e ∧
        escapeParts s2 = .done (sentinel e)) :=
  ⟨by decide, by decide, by decide, by decide, by decide,
    C28_escapeParts (str "a..b_c") (by decide) (by decide) (by decide) (by decide) (by decide)⟩

end Textile

namespace Textile

/-! ## Footnotes and paired delimiters: C29 and C30 -/

/-- C29: whatever the lines and the root URL are, the digest of every state that the
formatter reaches is the fixed string `d41d8cd98f00b204e9800998ecf8427e`; for a digit `N`
the inline transformer replaces the reference `[N]` in a plain line by the anchor with the
id `fnrN-H` and the href `#fnN-H`, the formatter renders the definition `fnN. t` as the
paragraph with the id `fnN-H` and the back link to `#fnrN-H`, and a text with both lines
gets both, with the same `H`, the fixed digest. -/
theorem C29_footnote_ids (fuel : Nat) (root_url : List Nat) (n : Nat) (hn : n < 10)
    (a b t : List Nat) (ha : ∀ x ∈ a, plain x = true) (hb : ∀ x ∈ b, plain x = true)
    (ht : ∀ x ∈ t, plain x = true) :
    emptyHash = str "d41d8cd98f00b204e9800998ecf8427e" ∧
      (∀ ls st, reached fuel root_url ls = .done st → st.hash = emptyHash) ∧
      transformLine root_url emptyHash (fuel + 2) (a ++ str "[" ++ [digit n] ++ str "]" ++ b) =
        .done (a ++ referenceAnchor emptyHash [digit n] ++ b) ∧
      formatter (fuel + 2) root_url (a ++ str "[" ++ [digit n] ++ str "]" ++ b) =
        .done (str "<p>" ++ (a ++ referenceAnchor emptyHash [digit n] ++ b) ++ str "</p>") ∧
      formatter (fuel + 1) root_url (str "fn" ++ [digit n] ++ str ". " ++ t) =
        .done (footnoteParagraph emptyHash [digit n] t) ∧
      formatter (fuel + 2) root_url
          (joinLines [a ++ str "[" ++ [digit n] ++ str "]" ++ b,
            str "fn" ++ [digit n] ++ str ". " ++ t]) =
        .done (str "<p>" ++ (a ++ referenceAnchor emptyHash [digit n] ++ b) ++ str "</p>" ++
          footnoteParagraph emptyHash [digit n] t) := by
  have k1 : str "[" = [91] := by decide
  have k2 : str "]" = [93] := by decide
  have hin : a ++ str "[" ++ [digit n] ++ str "]" ++ b = a ++ 91 :: ([digit n] ++ 93 :: b) := by
    rw [k1, k2]; simp
  rw [hin]
  refine ⟨rfl, ?_, transformLine_reference root_url fuel n hn a b ha hb,
    formatter_reference root_url fuel n hn a b ha hb, formatter_footnote fuel root_url n hn t ht,
    formatter_footnote_pair fuel root_url n hn a b t ha hb ht⟩
  intro ls st h
  exact (State.run_keys fuel ls (initialState root_url) st h).2

/-- C29 at the reference `some foo[1]` and the definition `fn1. some footnote`. -/
theorem C29_footnote_ids_witness :
    1 < 10 ∧ (∀ x ∈ str "some foo", plain x = true) ∧ (∀ x ∈ ([] : List Nat), plain x = true) ∧
      (∀ x ∈ str "some footnote", plain x = true) ∧
      (emptyHash = str "d41d8cd98f00b204e9800998ecf8427e" ∧
      (∀ ls st, reached 0 [] ls = .done st → st.hash = emptyHash) ∧
      transformLine [] emptyHash (0 + 2) (str "some foo" ++ str "[" ++ [digit 1] ++ str "]" ++ []) =
        .done (str "some foo" ++ referenceAnchor emptyHash [digit 1] ++ []) ∧
      formatter (0 + 2) [] (str "some foo" ++ str "[" ++ [digit 1] ++ str "]" ++ []) =
        .done (str "<p>" ++ (str "some foo" ++ referenceAnchor emptyHash [digit 1] ++ []) ++
          str "</p>") ∧
      formatter (0 + 1) [] (str "fn" ++ [digit 1] ++ str ". " ++ str "some footnote") =
        .done (footnoteParagraph emptyHash [digit 1] (str "some footnote")) ∧
      formatter (0 + 2) []
          (joinLines [str "some foo" ++ str "[" ++ [digit 1] ++ str "]" ++ [],
            str "fn" ++ [digit 1] ++ str ". " ++ str "some footnote"]) =
        .done (str "<p>" ++ (str "some foo" ++ referenceAnchor emptyHash [digit 1] ++ []) ++
          str "</p>" ++ footnoteParagraph emptyHash [digit 1] (str "some footnote"))) :=
  ⟨by decide, by decide, by decide, by decide,
    C29_footnote_ids 0 [] 1 (by decide) (str "some foo") [] (str "some footnote") (by decide)
      (by decide) (by decide)⟩

/-- C30: for each of the delimiters `_` (95), `*` (42), `^` (94), `~` (126) with its tag
`em`, `strong`, `sup`, `sub`, and texts `a`, `t`, `b` of ASCII letters, digits and spaces,
`transformLine` turns `a d t d b` into `a <tag> t </tag> b`; a line `a d b` with one
delimiter is returned as it is, as is `_foo`; and `_*t*_` becomes
`<em><strong>t</strong></em>`. -/
theorem C30_paired_delimiters (root_url hash : List Nat) (fuel : Nat) (a t b : List Nat)
    (ha : ∀ x ∈ a, plain x = true) (ht : ∀ x ∈ t, plain x = true)
    (hb : ∀ x ∈ b, plain x = true) :
    (∀ p ∈ [(95, str "em"), (42, str "strong"), (94, str "sup"), (126, str "sub")],
        transformLine root_url hash (fuel + 2) (a ++ p.1 :: (t ++ p.1 :: b)) =
          .done (a ++ str "<" ++ p.2 ++ str ">" ++ t ++ str "</" ++ p.2 ++ str ">" ++ b)) ∧
      (∀ d ∈ [95, 42, 94, 126],
        transformLine root_url hash (fuel + 1) (a ++ d :: b) = .done (a ++ d :: b)) ∧
      transformLine root_url hash (fuel + 1) (str "_foo") = .done (str "_foo") ∧
      transformLine root_url hash (fuel + 3) (str "_*" ++ t ++ str "*_") =
        .done (str "<em><strong>" ++ t ++ str "</strong></em>") := by
  refine ⟨fun p hp => transformLine_pair root_url hash fuel p hp a t b ha ht hb,
    fun d hd => transformLine_single root_url hash fuel d ?_ a b ha hb, ?_,
    transformLine_em_strong root_url hash fuel t ht⟩
  · simpa using hd
  · have e : str "_foo" = [] ++ 95 :: str "foo" := by decide
    rw [e]
    exact transformLine_single root_url hash fuel 95 (Or.inl rfl) [] (str "foo") (by simp)
      (by decide)

/-- C30 at the texts `x `, `foo` and ` y`. -/
theorem C30_paired_delimiters_witness :
    (∀ x ∈ str "x ", plain x = true) ∧ (∀ x ∈ str "foo", plain x = true) ∧
      (∀ x ∈ str " y", plain x = true) ∧
      ((∀ p ∈ [(95, str "em"), (42, str "strong"), (94, str "sup"), (126, str "sub")],
        transformLine [] emptyHash (0 + 2) (str "x " ++ p.1 :: (str "foo" ++ p.1 :: str " y")) =
          .done (str "x " ++ str "<" ++ p.2 ++ str ">" ++ str "foo" ++ str "</" ++ p.2 ++
            str ">" ++ str " y")) ∧
      (∀ d ∈ [95, 42, 94, 126],
        transformLine [] emptyHash (0 + 1) (str "x " ++ d :: str " y") =
          .done (str "x " ++ d :: str " y")) ∧
      transformLine [] emptyHash (0 + 1) (str "_foo") = .done (str "_foo") ∧
      transformLine [] emptyHash (0 + 3) (str "_*" ++ str "foo" ++ str "*_") =
        .done (str "<em><strong>" ++ str "foo" ++ str "</strong></em>")) :=
  ⟨by decide, by decide, by decide,
    C30_paired_delimiters [] emptyHash 0 (str "x ") (str "foo") (str " y") (by decide) (by decide)
      (by decide)⟩

end Textile

namespace Textile

/-! ## The lines of a text -/

theorem lineRun_append_drop (s : List Nat) : lineRun s ++ s.drop (lineRun s).length = s := by
  induction s with
  | nil => rfl
  | cons c cs ih =>
    by_cases h : c ≠ 13 ∧ c ≠ 10
    · have e : lineRun (c :: cs) = c :: lineRun cs := by simp [lineRun, List.takeWhile, h]
      rw [e]
      simpa using ih
    · have e : lineRun (c :: cs) = [] := by simp [lineRun, List.takeWhile, h]
      rw [e]
      rfl

theorem lineRun_no_break (s : List Nat) : ∀ a ∈ lineRun s, a ≠ 13 ∧ a ≠ 10 := by
  intro a ha
  have := List.mem_takeWhile_imp ha
  simpa using this

theorem lineRun_rest (s : List Nat) :
    s.drop (lineRun s).length = [] ∨
      ∃ c cs, s.drop (lineRun s).length = c :: cs ∧ (c = 13 ∨ c = 10) := by
  induction s with
  | nil => left; rfl
  | cons c cs ih =>
    by_cases h : c ≠ 13 ∧ c ≠ 10
    · have e : lineRun (c :: cs) = c :: lineRun cs := by simp [lineRun, List.takeWhile, h]
      rw [e]
      simpa using ih
    · have e : lineRun (c :: cs) = [] := by simp [lineRun, List.takeWhile, h]
      rw [e]
      right
      exact ⟨c, cs, rfl, by omega⟩

/-- The loop of `allMatches` from a position where a line starts, and from the end of a
match that is not empty. -/
theorem allMatches_eq :
    ∀ (n : Nat) (rest : List Nat) (pos : Nat) (prev : Int) (fuel : Nat),
      rest.length ≤ n → rest.length < fuel →
      ((pos : Int) ≠ prev → allMatches fuel rest pos prev = splitLines rest []) ∧
      ((pos : Int) = prev → (rest = [] ∨ ∃ c cs, rest = c :: cs ∧ (c = 13 ∨ c = 10)) →
        allMatches fuel rest pos prev = (splitLines rest []).tail) := by
  intro n
  induction n with
  | zero =>
    intro rest pos prev fuel hn hf
    have hr : rest = [] := List.eq_nil_of_length_eq_zero (by omega)
    subst hr
    obtain ⟨f, rfl⟩ : ∃ f, fuel = f + 1 := ⟨fuel - 1, by simp at hf; omega⟩
    constructor
    · intro h
      simp [allMatches, lineRun, splitLines, h]
    · intro h _
      simp [allMatches, lineRun, splitLines, h]
  | succ n ih =>
    intro rest pos prev fuel hn hf
    obtain ⟨f, rfl⟩ : ∃ f, fuel = f + 1 := ⟨fuel - 1, by omega⟩
    cases rest with
    | nil =>
      constructor
      · intro h
        simp [allMatches, lineRun, splitLines, h]
      · intro h _
        simp [allMatches, lineRun, splitLines, h]
    | cons c cs =>
      simp only [List.length_cons] at hn hf
      by_cases hc : c ≠ 13 ∧ c ≠ 10
      · -- a match that is not empty
        have e : lineRun (c :: cs) = c :: lineRun cs := by simp [lineRun, List.takeWhile, hc]
        have hlen : ¬ (lineRun (c :: cs)).length = 0 := by rw [e]; simp
        have hsplit := lineRun_append_drop (c :: cs)
        have hrest := lineRun_rest (c :: cs)
        have hshort : ((c :: cs).drop (lineRun (c :: cs)).length).length ≤ cs.length := by
          rw [e]
          simp only [List.length_cons, List.drop_succ_cons, List.length_drop]
          omega
        have hB := (ih ((c :: cs).drop (lineRun (c :: cs)).length)
          (pos + (lineRun (c :: cs)).length) ((pos + (lineRun (c :: cs)).length : Nat) : Int) f
          (by omega) (by omega)).2 rfl hrest
        have hval : allMatches (f + 1) (c :: cs) pos prev = splitLines (c :: cs) [] := by
          rw [allMatches, if_neg hlen]
          simp only [Nat.cast_add] at hB ⊢
          rw [hB]
          conv_rhs => rw [← hsplit, splitLines_append_line _ (lineRun_no_break (c :: cs))]
          rcases hrest with h0 | ⟨b, bs, hb, hbr⟩
          · rw [h0]; simp [splitLines]
          · rw [hb]; simp [splitLines, hbr]
        constructor
        · intro _; exact hval
        · intro _ h
          rcases h with h | ⟨b, bs, hb, hbr⟩
          · exact absurd h (by simp)
          · simp only [List.cons.injEq] at hb
            omega
      · -- an empty match
        have hbr : c = 13 ∨ c = 10 := by omega
        have e : lineRun (c :: cs) = [] := by simp [lineRun, List.takeWhile, hc]
        have hA := (ih cs (pos + 1) (pos : Int) f (by omega) (by omega)).1
          (by simp only [Nat.cast_add, Nat.cast_one]; omega)
        constructor
        · intro h
          rw [allMatches, e]
          simp only [List.length_nil, if_true]
          rw [hA]
          simp [splitLines, hbr, h]
        · intro h _
          rw [allMatches, e]
          simp only [List.length_nil, if_true]
          rw [hA]
          simp [splitLines, hbr, h]

/-- The call `FindAllString` for `lineRegexp` gives the lines `splitLines`. -/
theorem FindAllString_eq_splitLines (s : List Nat) : FindAllString s = splitLines s [] :=
  (allMatches_eq s.length s 0 (-1) (s.length + 1) le_rfl (by omega)).1 (by simp)

/-- The lines are the parts of the text between its line break characters. -/
theorem splitLines_eq_splitOnP :
    ∀ (s cur : List Nat), splitLines s cur = (s.splitOnP isBreak).modifyHead (cur ++ ·) := by
  intro s
  induction s with
  | nil => intro cur; simp [splitLines]
  | cons c cs ih =>
    intro cur
    by_cases hc : c = 13 ∨ c = 10
    · have hb : isBreak c = true := by
        simp only [isBreak, Bool.or_eq_true, beq_iff_eq]; exact hc
      have hid : ∀ l : List (List Nat), l.modifyHead (fun x => x) = l := by
        intro l; cases l <;> rfl
      simp [splitLines, hc, hb, ih, hid]
    · have hb : isBreak c = false := by
        simp only [isBreak, Bool.or_eq_false_iff, beq_eq_false_iff_ne]
        omega
      rw [splitLines, if_neg hc, ih, List.splitOnP_cons, hb]
      simp only [Bool.false_eq_true, if_false, List.modifyHead_modifyHead]
      congr 1
      funext l
      simp

theorem splitLines_no_break :
    ∀ (s cur : List Nat), (∀ a ∈ cur, a ≠ 13 ∧ a ≠ 10) →
      ∀ l ∈ splitLines s cur, ∀ a ∈ l, a ≠ 13 ∧ a ≠ 10 := by
  intro s
  induction s with
  | nil =>
    intro cur hcur l hl
    simp only [splitLines, List.mem_singleton] at hl
    subst hl
    exact hcur
  | cons c cs ih =>
    intro cur hcur l hl
    by_cases hc : c = 13 ∨ c = 10
    · simp only [splitLines, hc, if_true, List.mem_cons] at hl
      rcases hl with h | h
      · subst h; exact hcur
      · exact ih [] (by simp) l h
    · simp only [splitLines, hc, if_false] at hl
      refine ih (cur ++ [c]) ?_ l hl
      intro a ha
      simp only [List.mem_append, List.mem_singleton] at ha
      rcases ha with h | h
      · exact hcur a h
      · subst h; omega

/-- The lines of two texts without line breaks with `\r\n`, `\n\n` or `\n` between them. -/
theorem splitLines_pair (a b : List Nat) (ha : ∀ x ∈ a, x ≠ 13 ∧ x ≠ 10)
    (hb : ∀ x ∈ b, x ≠ 13 ∧ x ≠ 10) :
    splitLines (a ++ 13 :: 10 :: b) [] = [a, [], b] ∧
      splitLines (a ++ 10 :: 10 :: b) [] = [a, [], b] ∧
      splitLines (a ++ 10 :: b) [] = [a, b] ∧
      splitLines (a ++ 13 :: b) [] = [a, b] := by
  have hb2 := splitLines_append_line b hb [] []
  simp only [List.append_nil, List.nil_append] at hb2
  have e : splitLines [] b = [b] := rfl
  rw [e] at hb2
  refine ⟨?_, ?_, ?_, ?_⟩ <;>
    rw [splitLines_append_line a ha] <;> simp [splitLines, hb2]

end Textile

namespace Lwb

open Textile

/-! ## The formatters of package `lwb` -/

theorem encodeSpaces_cons (c : Nat) (cs : List Nat) :
    encodeSpaces (c :: cs) = (if c = 32 then str "%20" else [c]) ++ encodeSpaces cs := by
  simp [encodeSpaces]

/-- The invariant of the loop of `EncodeSpacesFormatter`: with `pre` read and `rest` to be
read, the bytes written and the slice `b[last:i]` not yet written are followed by the
encoding of `rest`. -/
theorem encodeLoop_eq :
    ∀ (rest pre : List Nat) (last : Nat) (w : List Nat), last ≤ pre.length →
      encodeLoop (pre ++ rest) rest pre.length last w =
        w ++ pre.drop last ++ encodeSpaces rest := by
  intro rest
  induction rest with
  | nil =>
    intro pre last w _
    simp [encodeLoop, encodeSpaces]
  | cons c cs ih =>
    intro pre last w hl
    have hb : pre ++ c :: cs = (pre ++ [c]) ++ cs := by simp
    have hlen : (pre ++ [c]).length = pre.length + 1 := by simp
    by_cases hc : c = 32
    · have hslice : ((pre ++ c :: cs).drop last).take (pre.length - last) = pre.drop last := by
        rw [List.drop_append_of_le_length hl, List.take_append_of_le_length (by simp)]
        simp
      rw [encodeLoop, if_pos hc, hslice, hb, ← hlen, ih (pre ++ [c]) _ _ le_rfl]
      rw [encodeSpaces_cons, if_pos hc]
      simp [escSpace]
    · rw [encodeLoop, if_neg hc, hb, ← hlen, ih (pre ++ [c]) last w (by simp; omega)]
      rw [encodeSpaces_cons, if_neg hc, List.drop_append_of_le_length hl]
      simp

theorem EncodeSpacesFormatter_eq (b : List Nat) : EncodeSpacesFormatter b = encodeSpaces b := by
  have := encodeLoop_eq b [] 0 [] le_rfl
  simpa [EncodeSpacesFormatter] using this

theorem encodeSpaces_no_space (b : List Nat) : 32 ∉ encodeSpaces b := by
  induction b with
  | nil => simp [encodeSpaces]
  | cons c cs ih =>
    rw [encodeSpaces_cons]
    intro h
    rcases List.mem_append.1 h with h | h
    · by_cases hc : c = 32
      · rw [if_pos hc] at h
        exact absurd h (by decide)
      · rw [if_neg hc] at h
        simp only [List.mem_singleton] at h
        exact hc h.symm
    · exact ih h

theorem encodeSpaces_length (b : List Nat) :
    (encodeSpaces b).length = b.length + 2 * b.count 32 := by
  induction b with
  | nil => simp [encodeSpaces]
  | cons c cs ih =>
    rw [encodeSpaces_cons, List.length_append, ih]
    by_cases hc : c = 32
    · subst hc
      have e : (str "%20").length = 3 := by decide
      simp only [if_true, e, List.length_cons, List.count_cons_self]
      omega
    · have hc2 : ¬ 32 = c := fun h => hc h.symm
      simp only [hc, if_false, List.length_cons, List.length_nil]
      rw [List.count_cons_of_ne hc2]
      omega

theorem encodeSpaces_of_no_space (b : List Nat) (h : 32 ∉ b) : encodeSpaces b = b := by
  induction b with
  | nil => simp [encodeSpaces]
  | cons c cs ih =>
    simp only [List.mem_cons, not_or] at h
    have hc : ¬ c = 32 := fun e => h.1 e.symm
    rw [encodeSpaces_cons, if_neg hc, ih h.2]
    rfl

/-- The paragraphs that `ConvertBreaksFormatter` writes for the lines of one value. -/
theorem convertLines_eq :
    ∀ (ls : List (List Nat)) (w : List Nat),
      ls.foldl (fun w line =>
        if line.length ≠ 0 then w ++ (str "<p>" ++ line ++ str "</p>") else w) w =
      w ++ paragraphs (ls.filter fun l => decide (l ≠ [])) := by
  intro ls
  induction ls with
  | nil => intro w; simp [paragraphs]
  | cons l ls ih =>
    intro w
    by_cases hl : l = []
    · subst hl
      rw [List.foldl_cons]
      simp only [List.length_nil, ne_eq, not_true_eq_false, if_false]
      rw [ih]
      simp [List.filter_cons]
    · have hlen : l.length ≠ 0 := by simpa using hl
      simp only [List.foldl_cons, hlen, ne_eq, not_false_eq_true, if_true, ih]
      simp [List.filter_cons, hl, paragraphs]

theorem ConvertBreaksFormatter_eq :
    ∀ (value : List (List Nat)) (w : List Nat),
      value.foldl (fun w val =>
        (FindAllString val).foldl (fun w line =>
          if line.length ≠ 0 then w ++ (str "<p>" ++ line ++ str "</p>") else w) w) w =
      w ++ (value.map fun val =>
        paragraphs ((val.splitOnP isBreak).filter fun l => decide (l ≠ []))).flatten := by
  intro value
  induction value with
  | nil => intro w; simp
  | cons v vs ih =>
    intro w
    have hid : ∀ l : List (List Nat), l.modifyHead (fun x => x) = l := by
      intro l; cases l <;> rfl
    have hv : FindAllString v = v.splitOnP isBreak := by
      rw [FindAllString_eq_splitLines, splitLines_eq_splitOnP]
      simp [hid]
    rw [List.foldl_cons, convertLines_eq, ih, hv]
    simp

end Lwb

namespace Textile

/-! ## A second pass of the escaper; the sentinel -/

/-- What the escaper returns with `encode_all` false is left as it is by a second pass. -/
theorem EntityEscape_twice (b : List Nat) (sq sq2 : Bool) :
    ∃ o, EntityEscape b false sq = .done o ∧ EntityEscape o false sq2 = .done o := by
  obtain ⟨o, ho, hscan⟩ := EntityEscape_done b false sq (Or.inl rfl)
  refine ⟨o, ho, ?_⟩
  have h := (scan_out_calm false sq [] (by simp) trivial trivial b 0 0 false (-1) o hscan).1
  rw [List.append_nil] at h
  exact EntityEscape_calm o sq2 h

/-- A text without the sentinel is left as it is by `unescapeParts`. -/
theorem replaceAll_of_no_infix (old new : List Nat) :
    ∀ (s : List Nat), ¬ old <:+: s → replaceAll old new s 0 = s := by
  intro s
  induction s with
  | nil => intro _; rfl
  | cons c cs ih =>
    intro h
    have h1 : ¬ old <+: c :: cs := fun hp => h hp.isInfix
    have h2 : ¬ old <:+: cs := fun hi => h (hi.trans (List.suffix_cons c cs).isInfix)
    have h3 : old.isPrefixOf (c :: cs) = false := by
      rw [Bool.eq_false_iff]
      intro hp
      exact h1 (List.isPrefixOf_iff_prefix.1 hp)
    rw [replaceAll, h3]
    simp [ih h2]

theorem unescapeParts_of_no_sentinel (s : List Nat) (h : ¬ str "%%%%" <:+: s) :
    unescapeParts s = s := by
  simp only [unescapeParts, replacements, List.foldl]
  exact replaceAll_of_no_infix _ _ s h

/-- The escaper writes no `%` that it has not read. -/
theorem scan_no_percent (ea sq : Bool) :
    ∀ (cs : List Nat) (k i : Nat) (t : Bool) (fc : Int) (o : List Nat),
      scan ea sq cs k i t fc = some o → 37 ∉ cs → 37 ∉ o := by
  intro cs
  induction cs with
  | nil =>
    intro k i t fc o h _
    simp only [scan, Option.some.injEq] at h
    subst h
    simp
  | cons c cs ih =>
    intro k i t fc o h hcs
    simp only [List.mem_cons, not_or] at hcs
    have e1 : 37 ∉ esc_lt := by decide
    have e2 : 37 ∉ esc_gt := by decide
    have e3 : 37 ∉ esc_quote := by decide
    have e4 : 37 ∉ esc_lquote := by decide
    have e5 : 37 ∉ esc_rquote := by decide
    have e6 : 37 ∉ esc_elipses := by decide
    have e7 : 37 ∉ esc_amp := by decide
    cases k with
    | succ k =>
      simp only [scan] at h
      exact ih _ _ _ _ _ h hcs.2
    | zero =>
      simp only [scan] at h
      split_ifs at h <;>
        first
          | (simp at h; done)
          | (simp only [Option.map_eq_some'] at h
             obtain ⟨o2, h2, rfl⟩ := h
             have := ih _ _ _ _ _ h2 hcs.2
             simp only [List.mem_append, List.mem_cons, not_or]
             tauto)

/-- The sentinel is taken back on a text without `%`. -/
theorem unescapeParts_sentinel (e : List Nat) (h : 37 ∉ e) : unescapeParts (sentinel e) = e := by
  have := replaceAll_sentinel e [] h
  simpa [unescapeParts, replacements, replaceAll] using this

end Textile

namespace Textile

/-! ## Line breaks, the formatters of `lwb`, a second pass and the sentinel: C32, C34 to C38 -/

/-- C32 as stated fails: between `\r` and `\n` lies an empty match of `lineRegexp` that
does not start where the match before it ended, so `\r\n` gives an empty line, and the
empty line closes the list that `\n` alone leaves open. -/
theorem C32_crlf_blank_line :
    FindAllString (str "* x\r\n* y") = [str "* x", [], str "* y"] ∧
      TextileFormatter 1 (str "* x\r\n* y") =
        .done (str "<ul><li>x</li></ul><ul><li>y</li></ul>") ∧
      TextileFormatter 1 (str "* x\n* y") = .done (str "<ul><li>x</li><li>y</li></ul>") := by
  decide

/-- C32, amended: the lines that `FindAllString` gives are those of `splitLines`, and none
of them holds `\r` or `\n`; for texts `a` and `b` without `\r` and `\n` the text
`a\r\nb` has the lines `a`, the empty line and `b`, as `a\n\nb` has, while `a\nb` has the
lines `a` and `b`; so `a\r\nb` is rendered as `a\n\nb` is. -/
theorem C32_line_breaks (fuel : Nat) (root_url a b : List Nat)
    (ha : ∀ x ∈ a, x ≠ 13 ∧ x ≠ 10) (hb : ∀ x ∈ b, x ≠ 13 ∧ x ≠ 10) :
    (∀ s, FindAllString s = splitLines s [] ∧
        ∀ l ∈ FindAllString s, ∀ c ∈ l, c ≠ 13 ∧ c ≠ 10) ∧
      FindAllString (a ++ str "\r\n" ++ b) = [a, [], b] ∧
      FindAllString (a ++ str "\n\n" ++ b) = [a, [], b] ∧
      FindAllString (a ++ str "\n" ++ b) = [a, b] ∧
      formatter fuel root_url (a ++ str "\r\n" ++ b) =
        formatter fuel root_url (a ++ str "\n\n" ++ b) := by
  have e1 : str "\r\n" = [13, 10] := by decide
  have e2 : str "\n\n" = [10, 10] := by decide
  have e3 : str "\n" = [10] := by decide
  obtain ⟨h1, h2, h3, _⟩ := splitLines_pair a b ha hb
  have k1 : a ++ str "\r\n" ++ b = a ++ 13 :: 10 :: b := by rw [e1]; simp
  have k2 : a ++ str "\n\n" ++ b = a ++ 10 :: 10 :: b := by rw [e2]; simp
  have k3 : a ++ str "\n" ++ b = a ++ 10 :: b := by rw [e3]; simp
  rw [k1, k2, k3]
  refine ⟨fun s => ⟨FindAllString_eq_splitLines s, ?_⟩, ?_, ?_, ?_, ?_⟩
  · rw [FindAllString_eq_splitLines]
    exact splitLines_no_break s [] (by simp)
  · rw [FindAllString_eq_splitLines, h1]
  · rw [FindAllString_eq_splitLines, h2]
  · rw [FindAllString_eq_splitLines, h3]
  · simp only [formatter, h1, h2]

/-- C32, amended, at the texts `* x` and `* y`. -/
theorem C32_line_breaks_witness :
    (∀ x ∈ str "* x", x ≠ 13 ∧ x ≠ 10) ∧ (∀ x ∈ str "* y", x ≠ 13 ∧ x ≠ 10) ∧
      ((∀ s, FindAllString s = splitLines s [] ∧
        ∀ l ∈ FindAllString s, ∀ c ∈ l, c ≠ 13 ∧ c ≠ 10) ∧
      FindAllString (str "* x" ++ str "\r\n" ++ str "* y") = [str "* x", [], str "* y"] ∧
      FindAllString (str "* x" ++ str "\n\n" ++ str "* y") = [str "* x", [], str "* y"] ∧
      FindAllString (str "* x" ++ str "\n" ++ str "* y") = [str "* x", str "* y"] ∧
      formatter 1 [] (str "* x" ++ str "\r\n" ++ str "* y") =
        formatter 1 [] (str "* x" ++ str "\n\n" ++ str "* y")) :=
  ⟨by decide, by decide, C32_line_breaks 1 [] (str "* x") (str "* y") (by decide) (by decide)⟩

/-- C34: `ConvertBreaksFormatter` writes, for each of its values in turn, `<p>line</p>`
for every line of the value that is not empty, the lines being the parts of the value
between its `\r` and `\n` characters; the empty string gives nothing and `Hello\nthere`
gives `<p>Hello</p><p>there</p>`. -/
theorem C34_convert_breaks (value : List (List Nat)) :
    Lwb.ConvertBreaksFormatter value =
        (value.map fun val =>
          paragraphs ((val.splitOnP isBreak).filter fun l => decide (l ≠ []))).flatten ∧
      Lwb.ConvertBreaksFormatter [str ""] = [] ∧
      Lwb.ConvertBreaksFormatter [str "Hello"] = str "<p>Hello</p>" ∧
      Lwb.ConvertBreaksFormatter [str "Hello\nthere"] = str "<p>Hello</p><p>there</p>" := by
  refine ⟨?_, by decide, by decide, by decide⟩
  have := Lwb.ConvertBreaksFormatter_eq value []
  simpa [Lwb.ConvertBreaksFormatter] using this

/-- C35: `EncodeSpacesFormatter` writes the bytes of `b` with `%20` for every space and
every other byte as it is: the output has no space, its length is that of `b` plus twice
the number of spaces, and it is `b` when `b` has no space. -/
theorem C35_encode_spaces (b : List Nat) :
    Lwb.EncodeSpacesFormatter b = Lwb.encodeSpaces b ∧
      32 ∉ Lwb.EncodeSpacesFormatter b ∧
      (Lwb.EncodeSpacesFormatter b).length = b.length + 2 * b.count 32 ∧
      (32 ∉ b → Lwb.EncodeSpacesFormatter b = b) ∧
      Lwb.EncodeSpacesFormatter (str "/tag/seattle times") = str "/tag/seattle%20times" := by
  rw [Lwb.EncodeSpacesFormatter_eq]
  exact ⟨rfl, Lwb.encodeSpaces_no_space b, Lwb.encodeSpaces_length b,
    Lwb.encodeSpaces_of_no_space b, by decide⟩

/-- C36: for every `b` the call `EntityEscape(b, false, smart_quotes)` returns, and what
it returns is left as it is by a second call with `encode_all` false, whatever
`smart_quotes` is in the second call; and the text `<pre>e\n</pre>` around an escaped text
`e` is left as it is by the final pass. -/
theorem C36_escape_idempotent (b : List Nat) (smart_quotes sq2 : Bool) :
    (∃ o, EntityEscape b false smart_quotes = .done o ∧ EntityEscape o false sq2 = .done o) ∧
      ∃ e, EntityEscapeString b false true = .done e ∧
        EntityEscape (str "<pre>" ++ e ++ str "\n</pre>") false true =
          .done (str "<pre>" ++ e ++ str "\n</pre>") := by
  refine ⟨EntityEscape_twice b smart_quotes sq2, ?_⟩
  obtain ⟨e, he, hs⟩ := EntityEscape_done b false true (Or.inl rfl)
  refine ⟨e, he, ?_⟩
  apply EntityEscape_calm
  have e2 : str "<pre>" = [60, 112, 114, 101, 62] := by decide
  have e3 : str "\n</pre>" = [10, 60, 47, 112, 114, 101, 62] := by decide
  have hc := (scan_out_calm false true (str "\n</pre>") (by decide)
    (by rw [e3]; simp [calm]) (by rw [e3]; simp [calm]) b 0 0 false (-1) e hs).1
  rw [e2, List.append_assoc]
  simpa [calm] using hc

/-- C37 as stated fails: `transformLine` ends with `unescapeParts`, which turns every run
`%%%%` of its text into `_`, also one that the line itself brought along. -/
theorem C37_percent_run :
    transformLine [] emptyHash 1 (str "%%%%") = .done (str "_") ∧
      transformLine [] emptyHash 1 (str "100%%%% sure") = .done (str "100_ sure") := by
  decide

/-- C37, amended: for a line `s` with none of `<`, `>`, `"`, `!`, `[`, `]`, `_`, `*`, `^`
and `~`, `transformLine` returns `unescapeParts(s)`, which is `s` when `s` holds no run
`%%%%`. -/
theorem C37_literal_text (root_url hash : List Nat) (fuel : Nat) (s : List Nat)
    (hs : ∀ c ∈ s, c ∉ [60, 62, 34, 33, 91, 93, 95, 42, 94, 126]) :
    transformLine root_url hash (fuel + 1) s = .done (unescapeParts s) ∧
      (¬ str "%%%%" <:+: s → transformLine root_url hash (fuel + 1) s = .done s) := by
  have h2 : transformLine2 root_url hash (fuel + 1) s = .done s := by
    apply transformLine2_noMarkup
    intro c hc
    have := hs c hc
    simp only [List.mem_cons, List.mem_singleton, List.not_mem_nil, or_false, not_or] at this
    simp only [noMarkup, Bool.not_eq_true', List.contains_eq_any_beq, List.any_cons,
      List.any_nil, Bool.or_false, Bool.or_eq_false_iff, beq_eq_false_iff_ne, ne_eq]
    tauto
  have h : transformLine root_url hash (fuel + 1) s = .done (unescapeParts s) := by
    simp only [transformLine, h2, Res.bind_done]
  exact ⟨h, fun hn => by rw [h, unescapeParts_of_no_sentinel s hn]⟩

/-- C37, amended, at the line `50% of 100%`. -/
theorem C37_literal_text_witness :
    (∀ c ∈ str "50% of 100%", c ∉ [60, 62, 34, 33, 91, 93, 95, 42, 94, 126]) ∧
      (transformLine [] emptyHash (0 + 1) (str "50% of 100%") =
          .done (unescapeParts (str "50% of 100%")) ∧
        (¬ str "%%%%" <:+: str "50% of 100%" →
          transformLine [] emptyHash (0 + 1) (str "50% of 100%") = .done (str "50% of 100%"))) :=
  ⟨by decide, C37_literal_text [] emptyHash 0 (str "50% of 100%") (by decide)⟩

/-- C38 as stated fails: the sentinel consists of `%`, so a `%` next to an underscore, or
a run `%%%%` of the text itself, changes where the underscores come back. -/
theorem C38_percent_next_to_underscore :
    EntityEscapeString (str "%_") false false = .done (str "%_") ∧
      escapeParts (str "%_") = .done (str "%%%%%") ∧
      unescapeParts (str "%%%%%") = str "_%" ∧
      escapeParts (str "%%%%") = .done (str "%%%%") ∧
      unescapeParts (str "%%%%") = str "_" := by
  decide

/-- C38, amended: for every text `s` without `%`, `escapeParts(s)` returns a text that
`unescapeParts` turns into what `EntityEscapeString(s, false, false)` returns. -/
theorem C38_round_trip (s : List Nat) (h : 37 ∉ s) :
    ∃ e x, EntityEscapeString s false false = .done e ∧ escapeParts s = .done x ∧
      unescapeParts x = e := by
  obtain ⟨e, he, hx⟩ := escapeParts_eq s
  obtain ⟨o, ho, hscan⟩ := EntityEscape_done s false false (Or.inl rfl)
  have he2 : EntityEscape s false false = .done e := he
  rw [ho] at he2
  have hoe : o = e := by simpa using he2
  subst hoe
  exact ⟨o, sentinel o, he, hx,
    unescapeParts_sentinel o (scan_no_percent false false s 0 0 false (-1) o hscan h)⟩

/-- C38, amended, at the text `a_b "c" d_`. -/
theorem C38_round_trip_witness :
    37 ∉ str "a_b \"c\" d_" ∧
      ∃ e x, EntityEscapeString (str "a_b \"c\" d_") false false = .done e ∧
        escapeParts (str "a_b \"c\" d_") = .done x ∧ unescapeParts x = e :=
  ⟨by decide, C38_round_trip (str "a_b \"c\" d_") (by decide)⟩

end Textile

namespace Textile

/-! ## A literal tag in a line -/

/-- A line with one tag: the texts before it and after it, and the tag. -/
theorem bareTagRegexp_find (a body b : List Nat)
    (ha : ∀ x ∈ a, dot x = true) (hbody : ∀ x ∈ body, x ≠ 60 ∧ x ≠ 62)
    (hb : ∀ x ∈ b, dot x = true ∧ x ≠ 60) :
    bareTagRegexp.FindStringSubmatch (a ++ 60 :: (body ++ 62 :: b)) =
      some [a ++ 60 :: (body ++ 62 :: b), a, 60 :: (body ++ [62]), b] := by
  have pt : ∀ x ∈ body, notIn ['>'] x = true := by
    intro x hx
    simp [notIn, (hbody x hx).2]
  have pd : notIn ['>'] 62 = false := by simp [notIn]
  have h60 : ∀ x ∈ body ++ 62 :: b, (fun x => decide (x ≠ 60)) x = true := by
    intro x hx
    simp only [List.mem_append, List.mem_cons] at hx
    simp only [decide_eq_true_eq]
    rcases hx with h | h | h
    · exact (hbody x h).1
    · omega
    · exact (hb x h).2
  simp only [Regexp.FindStringSubmatch, bareTagRegexp, seq, Re.run, lit, Char.reduceToNat]
  apply starRun_append_of_some _ _ _ _ _ a ha
  rw [starRun_cons_fail]
  · simp only [if_true]
    apply starRun_stop _ _ body 62 b _ pt pd
    simp only [if_true]
    apply starRun_all _ _ b _ (fun x hx => (hb x hx).1)
    have k1 := take_sub_left a (60 :: (body ++ 62 :: b))
      ((a ++ 60 :: (body ++ 62 :: b)).length - (60 :: (body ++ 62 :: b)).length) rfl
    have k2 := take_sub_left (60 :: (body ++ [62])) b
      ((60 :: (body ++ [62]) ++ b).length - b.length) rfl
    have e2 : 60 :: (body ++ [62]) ++ b = 60 :: (body ++ 62 :: b) := by simp
    rw [e2] at k2
    simp only [List.length_nil, Nat.sub_zero, List.take_length, if_true]
    rw [k1, k2]
    simp [List.replicate]
  · apply starRun_none_of_head (fun x => decide (x ≠ 60)) _ _ _ _ _ h60
    · intro x xs hx
      have : ¬ x = 60 := by simpa using hx
      simp [this]
    · rfl

/-- A line with one tag between plain texts is returned as it is by `transformLine2`. -/
theorem transformLine2_tag (root_url hash : List Nat) (fuel : Nat) (a body b : List Nat)
    (ha : ∀ x ∈ a, plain x = true) (hbody : ∀ x ∈ body, x ≠ 60 ∧ x ≠ 62)
    (hb : ∀ x ∈ b, plain x = true) :
    transformLine2 root_url hash (fuel + 2) (a ++ 60 :: (body ++ 62 :: b)) =
      .done (a ++ 60 :: (body ++ 62 :: b)) := by
  have hfind := bareTagRegexp_find a body b (fun x hx => plain_dot x (ha x hx)) hbody
    (fun x hx => ⟨plain_dot x (hb x hx), (plain_cases x (hb x hx)).1⟩)
  have hxa := transformLine2_noMarkup root_url hash fuel a
    (fun x hx => plain_noMarkup x (ha x hx))
  have hxb := transformLine2_noMarkup root_url hash fuel b
    (fun x hx => plain_noMarkup x (hb x hx))
  rw [transformLine2]
  simp only [hfind, arg, List.getD_cons_succ, List.getD_cons_zero, hxa, hxb, Res.bind_done]
  simp

/-- A line with one tag without `%` between plain texts is returned as it is. -/
theorem transformLine_tag (root_url hash : List Nat) (fuel : Nat) (a body b : List Nat)
    (ha : ∀ x ∈ a, plain x = true) (hbody : ∀ x ∈ body, x ≠ 60 ∧ x ≠ 62 ∧ x ≠ 37)
    (hb : ∀ x ∈ b, plain x = true) :
    transformLine root_url hash (fuel + 2) (a ++ 60 :: (body ++ 62 :: b)) =
      .done (a ++ 60 :: (body ++ 62 :: b)) := by
  have h37 : 37 ∉ a ++ 60 :: (body ++ 62 :: b) := by
    intro h
    simp only [List.mem_append, List.mem_cons] at h
    rcases h with h | h | h | h | h
    · have := plain_cases 37 (ha 37 h); omega
    · omega
    · exact (hbody 37 h).2.2 rfl
    · omega
    · have := plain_cases 37 (hb 37 h); omega
  simp only [transformLine,
    transformLine2_tag root_url hash fuel a body b ha (fun x hx => ⟨(hbody x hx).1, (hbody x hx).2.1⟩)
      hb, Res.bind_done, unescapeParts_of_no_percent _ h37]

end Textile

namespace Textile

/-! ## Footnote references with any run of digits -/

theorem digitChar_plain (d : Nat) (h : d < 10) : plain (Nat.digitChar d).toNat = true := by
  interval_cases d <;> decide

theorem toDigitsCore_plain :
    ∀ (fuel n : Nat) (ds : List Char), (∀ x ∈ ds.map Char.toNat, plain x = true) →
      ∀ x ∈ (Nat.toDigitsCore 10 fuel n ds).map Char.toNat, plain x = true := by
  intro fuel
  induction fuel with
  | zero => intro n ds h; simpa [Nat.toDigitsCore] using h
  | succ f ih =>
    intro n ds h
    have hd : ∀ x ∈ (((n % 10).digitChar :: ds).map Char.toNat), plain x = true := by
      intro x hx
      simp only [List.map_cons, List.mem_cons] at hx
      rcases hx with hx | hx
      · rw [hx]; exact digitChar_plain _ (Nat.mod_lt _ (by decide))
      · exact h x hx
    simp only [Nat.toDigitsCore]
    split
    · exact hd
    · exact ih _ _ hd

theorem decimal_plain (n : Nat) : ∀ x ∈ decimal n, plain x = true :=
  toDigitsCore_plain _ _ [] (by simp)

/-- The anchor of a footnote reference, whatever its number is: `escapeParts` and the
final pass leave it as it is, and it holds no inline delimiter and no `%`. -/
theorem footnoteAnchor_facts (n : Nat) :
    footnoteAnchor emptyHash n = referenceAnchor emptyHash (decimal n) ∧
    escapeParts (footnoteAnchor emptyHash n) = .done (footnoteAnchor emptyHash n) ∧
    tagState (footnoteAnchor emptyHash n) false = some false ∧
    (∀ x ∈ footnoteAnchor emptyHash n,
      x ≠ 33 ∧ x ≠ 91 ∧ x ≠ 95 ∧ x ≠ 42 ∧ x ≠ 94 ∧ x ≠ 126 ∧ x ≠ 37) := by
  obtain ⟨D, hD⟩ : ∃ D, D = decimal n := ⟨_, rfl⟩
  have hp : ∀ x ∈ D, plain x = true := by rw [hD]; exact decimal_plain n
  obtain ⟨A, hA⟩ : ∃ A, A = footnoteAnchor emptyHash n := ⟨_, rfl⟩
  have hA2 : A = str "<a id=fnr" ++ D ++ str "-" ++ emptyHash ++ str " href=#fn" ++ D ++
      str "-" ++ emptyHash ++ str " title=\"Jump to footnote " ++ D ++
      str "\"><sup class=footnote>" ++ D ++ str "</sup></a>" := by
    rw [hA, hD]; rfl
  have t1 : tagState (str "<a id=fnr") false = some true := by decide
  have t2 : tagState (str "-") true = some true := by decide
  have t3 : tagState emptyHash true = some true := by decide
  have t4 : tagState (str " href=#fn") true = some true := by decide
  have t5 : tagState (str " title=\"Jump to footnote ") true = some true := by decide
  have t6 : tagState (str "\"><sup class=footnote>") true = some false := by decide
  have t7 : tagState (str "</sup></a>") false = some false := by decide
  have htag : tagState A false = some false := by
    rw [hA2]
    simp [tagState_append, t1, t2, t3, t4, t5, t6, t7, tagState_plain D hp]
  have hmem : ∀ x ∈ A, x ≠ 33 ∧ x ≠ 91 ∧ x ≠ 95 ∧ x ≠ 42 ∧ x ≠ 94 ∧ x ≠ 126 ∧ x ≠ 37 := by
    have happ : ∀ l1 l2 : List Nat,
        (∀ x ∈ l1, x ≠ 33 ∧ x ≠ 91 ∧ x ≠ 95 ∧ x ≠ 42 ∧ x ≠ 94 ∧ x ≠ 126 ∧ x ≠ 37) →
        (∀ x ∈ l2, x ≠ 33 ∧ x ≠ 91 ∧ x ≠ 95 ∧ x ≠ 42 ∧ x ≠ 94 ∧ x ≠ 126 ∧ x ≠ 37) →
        ∀ x ∈ l1 ++ l2, x ≠ 33 ∧ x ≠ 91 ∧ x ≠ 95 ∧ x ≠ 42 ∧ x ≠ 94 ∧ x ≠ 126 ∧ x ≠ 37 := by
      intro l1 l2 h1 h2 x hx
      rcases List.mem_append.1 hx with h | h
      · exact h1 x h
      · exact h2 x h
    have hDall : ∀ x ∈ D, x ≠ 33 ∧ x ≠ 91 ∧ x ≠ 95 ∧ x ≠ 42 ∧ x ≠ 94 ∧ x ≠ 126 ∧ x ≠ 37 := by
      intro x h
      have := plain_cases x (hp x h)
      omega
    rw [hA2]
    refine happ _ _ (happ _ _ (happ _ _ (happ _ _ (happ _ _ (happ _ _ (happ _ _ (happ _ _
      (happ _ _ (happ _ _ (happ _ _ (happ _ _ ?_ ?_) ?_) ?_) ?_) ?_) ?_) ?_) ?_) ?_) ?_) ?_) ?_
    all_goals first | exact hDall | decide
  have hesc : escapeParts A = .done A := by
    have h1 : EntityEscapeString A false false = .done A :=
      EntityEscape_calm A false (calm_of_tagState A false false htag)
    have h95 : 95 ∉ A := fun h => (hmem 95 h).2.2.1 rfl
    simp only [escapeParts, h1, Res.bind_done, replacements, List.foldl, replaceAll_underscore,
      sentinel_of_no_underscore A h95]
  rw [← hA]
  refine ⟨?_, hesc, htag, hmem⟩
  rw [hA2, hD]
  rfl

/-- A plain line with one footnote reference `[ds]` for a run of digits `ds`, which may be
empty: the anchor carries the number that `Atoi` reads. -/
theorem transformLine_reference_digits (root_url : List Nat) (fuel : Nat) (a ds b : List Nat)
    (ha : ∀ x ∈ a, plain x = true) (hds : ∀ x ∈ ds, inRange '0' '9' x = true)
    (hb : ∀ x ∈ b, plain x = true) :
    transformLine root_url emptyHash (fuel + 2) (a ++ 91 :: (ds ++ 93 :: b)) =
      .done (a ++ referenceAnchor emptyHash (decimal (Atoi ds)) ++ b) := by
  obtain ⟨f1, f2, _, f4⟩ := footnoteAnchor_facts (Atoi ds)
  obtain ⟨A, hA⟩ : ∃ A, A = footnoteAnchor emptyHash (Atoi ds) := ⟨_, rfl⟩
  rw [← f1, ← hA]
  rw [← hA] at f2 f4
  have hfind := footnoteRefRegexp_find a ds b (fun x hx => plain_dot x (ha x hx)) hds
    (fun x hx => ⟨plain_dot x (hb x hx), (plain_cases x (hb x hx)).2.2.2.2.1⟩)
  have hs : ∀ x ∈ a ++ 91 :: (ds ++ 93 :: b),
      (fun x => plain x || x == 91 || x == 93) x = true := by
    intro x hx
    simp only [List.mem_append, List.mem_cons] at hx
    simp only [Bool.or_eq_true, beq_iff_eq]
    rcases hx with h | h | (h | h | h)
    · exact Or.inl (Or.inl (ha x h))
    · exact Or.inl (Or.inr h)
    · left; left
      simp only [plain, Bool.or_eq_true]
      exact Or.inl (Or.inr (hds x h))
    · exact Or.inr h
    · exact Or.inl (Or.inl (hb x h))
  obtain ⟨n1, _, n3, n4, n5, n6, _, _, _, _, _⟩ := inline_none _ _ hs
  have n2 := quoteLinkRegexp.FindStringSubmatch_none _ _
    (quoteLinkRegexp_needs _ (Or.inl (by decide))) hs
  have hs2 : ∀ x ∈ a ++ A ++ b,
      (fun x => decide (x ≠ 95 ∧ x ≠ 42 ∧ x ≠ 94 ∧ x ≠ 126)) x = true := by
    intro x hx
    simp only [List.mem_append] at hx
    simp only [decide_eq_true_eq]
    rcases hx with (h | h) | h
    · have := plain_cases x (ha x h); omega
    · have := f4 x h; omega
    · have := plain_cases x (hb x h); omega
  obtain ⟨_, _, _, _, _, _, _, m8, m9, m10, m11⟩ := inline_none _ _ hs2
  have hxa := transformLine2_noMarkup root_url emptyHash fuel a
    (fun x hx => plain_noMarkup x (ha x hx))
  have hxb := transformLine2_noMarkup root_url emptyHash fuel b
    (fun x hx => plain_noMarkup x (hb x hx))
  have h2 : transformLine2 root_url emptyHash (fuel + 2) (a ++ 91 :: (ds ++ 93 :: b)) =
      .done (a ++ A ++ b) := by
    rw [transformLine2]
    simp only [n1 (Or.inl (by decide)), quoteLinkStep, n2, titleLinkStep,
      n3 (Or.inl (by decide)), linkStep, n4 (Or.inl (by decide)), imgStep, n5 (by decide),
      altImgStep, n6 (by decide), footnoteRefStep, hfind, arg, List.getD_cons_succ,
      List.getD_cons_zero, hxa, hxb, ← hA, f2, Res.bind_done, tags_fold]
    rw [tagStep_none _ _ (emphasisRegexp, str "em") (m8 (by decide)), Res.bind_done]
    rw [tagStep_none _ _ (strongRegexp, str "strong") (m9 (by decide)), Res.bind_done]
    rw [tagStep_none _ _ (supRegexp, str "sup") (m10 (by decide)), Res.bind_done]
    rw [tagStep_none _ _ (subRegexp, str "sub") (m11 (by decide))]
  have h37 : 37 ∉ a ++ A ++ b := by
    intro h
    simp only [List.mem_append] at h
    rcases h with (h | h) | h
    · have := plain_cases 37 (ha 37 h); omega
    · have := f4 37 h; omega
    · have := plain_cases 37 (hb 37 h); omega
  simp only [transformLine, h2, Res.bind_done, unescapeParts_of_no_percent _ h37]

/-- Every match of `footnoteRefRegexp` is one of `[ds]` with a run of digits `ds`, which
may be empty. -/
theorem footnoteRef_only (s : List Nat) (args : List (List Nat))
    (h : footnoteRefRegexp.FindStringSubmatch s = some args) :
    ∃ a ds b, s = a ++ 91 :: (ds ++ 93 :: b) ∧ (∀ x ∈ ds, inRange '0' '9' x = true) ∧
      args = [s, a, ds, b] := by
  have hm := footnoteRefRegexp.FindStringSubmatch_sound s args h
  simp only [footnoteRefRegexp, seq, Re.Matches, lit, Char.reduceToNat] at hm
  obtain ⟨x1, r1, c1, e1, ⟨c1a, ⟨_, rfl⟩, rfl⟩, x2, r2, c2, e2, ⟨rfl, rfl⟩, x3, r3, c3, e3,
    ⟨c3a, ⟨hd, rfl⟩, rfl⟩, x4, r4, c4, e4, ⟨rfl, rfl⟩, x5, r5, c5, e5, ⟨c5a, ⟨_, rfl⟩, rfl⟩,
    rfl, rfl⟩ := hm
  subst e5 e4 e3 e2
  refine ⟨x1, x3, x5, by simpa using e1, hd, ?_⟩
  simp [List.replicate, List.set]

end Textile

namespace Textile

/-! ## A link after a text and before a text -/

theorem starRun_back (p : Nat → Bool) (k : List Nat → Option (List (List Nat)))
    (mid : List Nat) (z : Nat) (q : List Nat) (r : List (List Nat))
    (hmid : ∀ a ∈ mid, p a = true) (hz : p z = true) (hq : starRun p k q = none)
    (h : k (z :: q) = some r) :
    starRun p k (mid ++ z :: q) = some r :=
  starRun_append_of_some p k (z :: q) r (by simp [starRun, hz, hq, h]) mid hmid

/-- A link `"t":u` after the text `p` and before the text `q`, which is empty or starts
with a space: the last link of the line. -/
theorem linkRegexp_find_gen (p t : List Nat) (v0 : Nat) (vs : List Nat) (z : Nat) (q : List Nat)
    (hp : ∀ x ∈ p, dot x = true) (ht : ∀ x ∈ t, x ≠ 34) (hv0 : targetChar v0 = true)
    (hvs : ∀ x ∈ vs, targetChar x = true) (hz : targetChar z = true)
    (hq : q = [] ∨ ∃ q2, q = 32 :: q2) (hq2 : ∀ x ∈ q, dot x = true ∧ x ≠ 34) :
    linkRegexp.FindStringSubmatch (p ++ 34 :: (t ++ 34 :: 58 :: v0 :: (vs ++ z :: q))) =
      some [p ++ 34 :: (t ++ 34 :: 58 :: v0 :: (vs ++ z :: q)), p, t, v0 :: (vs ++ [z]), q] := by
  have pt : ∀ x ∈ t, notIn ['"'] x = true := by
    intro x hx
    simp [notIn, ht x hx]
  have hu : ∀ x ∈ 58 :: v0 :: (vs ++ z :: q), (fun x => decide (x ≠ 34)) x = true := by
    intro x hx
    simp only [List.mem_cons, List.mem_append] at hx
    simp only [decide_eq_true_eq]
    rcases hx with h | h | h | h | h
    · omega
    · subst h; exact (targetChar_urlChar _ hv0).2.2
    · exact (targetChar_urlChar _ (hvs x h)).2.2
    · subst h; exact (targetChar_urlChar _ hz).2.2
    · exact (hq2 x h).2
  simp only [Regexp.FindStringSubmatch, linkRegexp, urlRegexp, seq, Re.run, lit,
    Char.reduceToNat]
  apply starRun_append_of_some _ _ _ _ _ p hp
  rw [starRun_cons_fail]
  · simp only [if_true]
    apply starRun_stop _ _ t 34 _ _ pt (by decide)
    simp only [if_true, (targetChar_urlChar _ hv0).1]
    apply starRun_back _ _ vs z q _ (fun x hx => (targetChar_urlChar _ (hvs x hx)).1)
      (targetChar_urlChar _ hz).1
    · rcases hq with h | ⟨q2, h⟩
      · subst h; rfl
      · subst h
        have e32 : urlChar 32 = false := by decide
        simp only [starRun, e32, Bool.false_eq_true, if_false]
        have n32 : notIn [',', '!', '.', Char.ofNat 39, ' ', '"', ')', ']'] 32 = false := by decide
        simp [n32]
    · simp only [(targetChar_urlChar _ hz).2.1, if_true]
      apply starRun_all _ _ q _ (fun x hx => (hq2 x hx).1)
      have k1 := take_sub_left p (34 :: (t ++ 34 :: 58 :: v0 :: (vs ++ z :: q)))
        ((p ++ 34 :: (t ++ 34 :: 58 :: v0 :: (vs ++ z :: q))).length -
          (34 :: (t ++ 34 :: 58 :: v0 :: (vs ++ z :: q))).length) rfl
      have k2 := take_sub_left t (34 :: 58 :: v0 :: (vs ++ z :: q))
        ((t ++ 34 :: 58 :: v0 :: (vs ++ z :: q)).length -
          (34 :: 58 :: v0 :: (vs ++ z :: q)).length) rfl
      have k3 := take_sub_left (v0 :: (vs ++ [z])) q
        ((v0 :: (vs ++ [z]) ++ q).length - q.length) rfl
      have e3 : v0 :: (vs ++ [z]) ++ q = v0 :: (vs ++ z :: q) := by simp
      rw [e3] at k3
      simp only [List.length_nil, Nat.sub_zero, List.take_length, if_true]
      rw [k1, k2, k3]
      simp [List.replicate]
  · apply starRun_append_none (fun x => decide (x ≠ 34)) _ _ _ _ _ t
      (fun x hx => by simpa using ht x hx)
    · intro x xs hx
      have : ¬ x = 34 := by simpa using hx
      simp [this]
    · rw [starRun_cons_fail]
      · simp only [if_true]
        apply starRun_none_of_head (fun x => decide (x ≠ 34))
        · intro x xs hx
          have : ¬ x = 34 := by simpa using hx
          simp [this]
        · rfl
        · exact hu
      · apply starRun_none_of_head (fun x => decide (x ≠ 34))
        · intro x xs hx
          have : ¬ x = 34 := by simpa using hx
          simp [this]
        · rfl
        · exact hu

end Textile

namespace Textile

/-! ## Two links in a line -/

/-- The link step of `transformLine2` on the last link `"t":u` of a line, after a text
`p` of the characters of links and before a plain text `q` that is empty or starts with a
space: `X` is what the text `p` becomes. -/
theorem transformLine2_link_gen (root_url hash : List Nat) (fuel : Nat) (p t u q X : List Nat)
    (hp : ∀ x ∈ p, (plain x || targetChar x || x == 34) = true)
    (ht : ∀ x ∈ t, plain x = true) (hu : ∀ x ∈ u, targetChar x = true) (hlen : 2 ≤ u.length)
    (hv : ∀ x ∈ maybeAddRoot root_url u, targetChar x = true)
    (hq : q = [] ∨ ∃ q2, q = 32 :: q2) (hq2 : ∀ x ∈ q, plain x = true)
    (hX : transformLine2 root_url hash (fuel + 1) p = .done X)
    (hXc : ∀ x ∈ X, x ≠ 33 ∧ x ≠ 91 ∧ x ≠ 95 ∧ x ≠ 42 ∧ x ≠ 94 ∧ x ≠ 126) :
    transformLine2 root_url hash (fuel + 2) (p ++ 34 :: (t ++ 34 :: 58 :: (u ++ q))) =
      .done (X ++ str "<a href=\"" ++ sentinel (maybeAddRoot root_url u) ++ str "\">" ++ t ++
        str "</a>" ++ q) := by
  obtain ⟨v0, vs, z, rfl⟩ := two_ends u hlen
  have hpc : ∀ x, (plain x || targetChar x || x == 34) = true → dot x = true := by
    intro x hx
    simp only [Bool.or_eq_true, beq_iff_eq] at hx
    rcases hx with (h | h) | h
    · exact plain_dot x h
    · have := targetChar_cases x h
      simp only [dot, bne_iff_ne, ne_eq]
      omega
    · subst h; decide
  have hfind := linkRegexp_find_gen p t v0 vs z q (fun x hx => hpc x (hp x hx))
    (fun x hx => (plain_cases x (ht x hx)).2.2.1) (hu v0 (by simp))
    (fun x hx => hu x (by simp [hx])) (hu z (by simp)) hq
    (fun x hx => ⟨plain_dot x (hq2 x hx), (plain_cases x (hq2 x hx)).2.2.1⟩)
  have e0 : p ++ 34 :: (t ++ 34 :: 58 :: (v0 :: (vs ++ [z]) ++ q)) =
      p ++ 34 :: (t ++ 34 :: 58 :: v0 :: (vs ++ z :: q)) := by simp
  rw [e0]
  have hs : ∀ x ∈ p ++ 34 :: (t ++ 34 :: 58 :: v0 :: (vs ++ z :: q)),
      (fun x => plain x || targetChar x || x == 34) x = true := by
    intro x hx
    simp only [List.mem_cons, List.mem_append] at hx
    simp only [Bool.or_eq_true, beq_iff_eq]
    rcases hx with h | h | h | h | h | h | h | h | h
    · simpa using hp x h
    · exact Or.inr h
    · exact Or.inl (Or.inl (ht x h))
    · exact Or.inr h
    · subst h; exact Or.inl (Or.inr (by decide))
    · exact Or.inl (Or.inr (hu x (by simp [h])))
    · exact Or.inl (Or.inr (hu x (by simp [h])))
    · exact Or.inl (Or.inr (hu x (by simp [h])))
    · exact Or.inl (Or.inl (hq2 x h))
  obtain ⟨n1, n2, n3, _, _, _, _, _, _, _, _⟩ := inline_none _ _ hs
  have hs2 : ∀ x ∈ X ++ str "<a href=\"" ++ sentinel (maybeAddRoot root_url (v0 :: (vs ++ [z]))) ++
      str "\">" ++ t ++ str "</a>" ++ q,
      (fun x => decide (x ≠ 33 ∧ x ≠ 91 ∧ x ≠ 95 ∧ x ≠ 42 ∧ x ≠ 94 ∧ x ≠ 126)) x = true := by
    intro x hx
    have hl := link_chars (maybeAddRoot root_url (v0 :: (vs ++ [z]))) t hv ht x
    simp only [List.nil_append, List.append_nil, List.mem_append, decide_eq_true_eq] at hl hx ⊢
    rcases hx with (((((h | h) | h) | h) | h) | h) | h
    · exact hXc x h
    · exact hl (Or.inl (Or.inl (Or.inl (Or.inl h))))
    · exact hl (Or.inl (Or.inl (Or.inl (Or.inr h))))
    · exact hl (Or.inl (Or.inl (Or.inr h)))
    · exact hl (Or.inl (Or.inr h))
    · exact hl (Or.inr h)
    · have := plain_cases x (hq2 x h)
      omega
  obtain ⟨_, _, _, _, m5, m6, m7, m8, m9, m10, m11⟩ := inline_none _ _ hs2
  have hxt := transformLine2_noMarkup root_url hash fuel t (fun x hx => plain_noMarkup x (ht x hx))
  have hxq := transformLine2_noMarkup root_url hash fuel q
    (fun x hx => plain_noMarkup x (hq2 x hx))
  have hesc := escapeParts_target _ hv
  rw [transformLine2]
  simp only [n1 (Or.inl (by decide)), quoteLinkStep, n2 (by decide), titleLinkStep,
    n3 (Or.inr (by decide)), linkStep, hfind, arg, List.getD_cons_succ, List.getD_cons_zero,
    hX, hesc, hxt, hxq, Res.bind_done, imgStep, m5 (by decide), altImgStep, m6 (by decide),
    footnoteRefStep, m7 (by decide), tags_fold]
  rw [tagStep_none _ _ (emphasisRegexp, str "em") (m8 (by decide)), Res.bind_done]
  rw [tagStep_none _ _ (strongRegexp, str "strong") (m9 (by decide)), Res.bind_done]
  rw [tagStep_none _ _ (supRegexp, str "sup") (m10 (by decide)), Res.bind_done]
  rw [tagStep_none _ _ (subRegexp, str "sub") (m11 (by decide))]

/-- The sentinels of an anchor are taken back by `unescapeParts`. -/
theorem replaceAll_anchor (v t rest : List Nat) (hv : 37 ∉ v) (ht : ∀ x ∈ t, plain x = true) :
    replaceAll (str "%%%%") (str "_")
        (str "<a href=\"" ++ sentinel v ++ str "\">" ++ t ++ str "</a>" ++ rest) 0 =
      linkAnchor v t ++ replaceAll (str "%%%%") (str "_") rest 0 := by
  have e : str "%%%%" = 37 :: [37, 37, 37] := by decide
  have h37t : 37 ∉ str "\">" ++ (t ++ str "</a>") := by
    intro h
    rcases List.mem_append.1 h with h | h
    · exact absurd h (by decide)
    · rcases List.mem_append.1 h with h | h
      · have := plain_cases 37 (ht 37 h); omega
      · exact absurd h (by decide)
  simp only [List.append_assoc, linkAnchor]
  rw [e, replaceAll_pass _ 37 _ (str "<a href=\"") _ (by decide), ← e, replaceAll_sentinel _ _ hv,
    e, ← List.append_assoc (str "\">"), ← List.append_assoc (str "\">" ++ t),
    List.append_assoc (str "\">") t, replaceAll_pass _ 37 _ _ _ h37t]
  simp only [List.append_assoc]

/-- Two links with a space between them. -/
theorem transformLine_two_links (root_url hash : List Nat) (fuel : Nat) (t1 u1 t2 u2 : List Nat)
    (ht1 : ∀ x ∈ t1, plain x = true) (hu1 : ∀ x ∈ u1, targetChar x = true)
    (hl1 : 2 ≤ u1.length) (hv1 : ∀ x ∈ maybeAddRoot root_url u1, targetChar x = true)
    (ht2 : ∀ x ∈ t2, plain x = true) (hu2 : ∀ x ∈ u2, targetChar x = true)
    (hl2 : 2 ≤ u2.length) (hv2 : ∀ x ∈ maybeAddRoot root_url u2, targetChar x = true) :
    transformLine root_url hash (fuel + 3)
        (34 :: (t1 ++ 34 :: 58 :: (u1 ++ 32 :: 34 :: (t2 ++ 34 :: 58 :: u2)))) =
      .done (linkAnchor (maybeAddRoot root_url u1) t1 ++ 32 ::
        linkAnchor (maybeAddRoot root_url u2) t2) := by
  have h0 := transformLine2_noMarkup root_url hash fuel [] (by simp)
  have hin := transformLine2_link_gen root_url hash fuel [] t1 u1 [32] [] (by simp) ht1 hu1 hl1
    hv1 (Or.inr ⟨[], rfl⟩) (by decide) h0 (by simp)
  obtain ⟨X, hXe⟩ : ∃ X, X = ([] : List Nat) ++ str "<a href=\"" ++
      sentinel (maybeAddRoot root_url u1) ++ str "\">" ++ t1 ++ str "</a>" ++ [32] := ⟨_, rfl⟩
  rw [← hXe] at hin
  have hXc : ∀ x ∈ X, x ≠ 33 ∧ x ≠ 91 ∧ x ≠ 95 ∧ x ≠ 42 ∧ x ≠ 94 ∧ x ≠ 126 := by
    intro x hx
    rw [hXe] at hx
    rcases List.mem_append.1 hx with h | h
    · have hl := link_chars (maybeAddRoot root_url u1) t1 hv1 ht1 x
      simp only [List.append_nil, decide_eq_true_eq] at hl
      exact hl h
    · simp only [List.mem_singleton] at h
      omega
  have hpc : ∀ x ∈ ([] : List Nat) ++ 34 :: (t1 ++ 34 :: 58 :: (u1 ++ [32])),
      (plain x || targetChar x || x == 34) = true := by
    intro x hx
    simp only [List.nil_append, List.mem_cons, List.mem_append, List.mem_singleton] at hx
    simp only [Bool.or_eq_true, beq_iff_eq]
    rcases hx with h | h | h | h | h | h | h
    · exact Or.inr h
    · exact Or.inl (Or.inl (ht1 x h))
    · exact Or.inr h
    · subst h; exact Or.inl (Or.inr (by decide))
    · exact Or.inl (Or.inr (hu1 x h))
    · subst h; exact Or.inl (Or.inl (by decide))
    · exact absurd h (List.not_mem_nil x)
  have hout := transformLine2_link_gen root_url hash (fuel + 1)
    ([] ++ 34 :: (t1 ++ 34 :: 58 :: (u1 ++ [32]))) t2 u2 [] X hpc ht2 hu2 hl2 hv2 (Or.inl rfl)
    (by simp) hin hXc
  have eline : ([] : List Nat) ++ 34 :: (t1 ++ 34 :: 58 :: (u1 ++ [32])) ++
      34 :: (t2 ++ 34 :: 58 :: (u2 ++ [])) =
      34 :: (t1 ++ 34 :: 58 :: (u1 ++ 32 :: 34 :: (t2 ++ 34 :: 58 :: u2))) := by simp
  rw [eline] at hout
  have g1 : 37 ∉ maybeAddRoot root_url u1 := fun h => by
    have := targetChar_cases 37 (hv1 37 h); omega
  have g2 : 37 ∉ maybeAddRoot root_url u2 := fun h => by
    have := targetChar_cases 37 (hv2 37 h); omega
  have e32 : replaceAll (str "%%%%") (str "_") [] 0 = [] := rfl
  have e : str "%%%%" = 37 :: [37, 37, 37] := by decide
  have hun : unescapeParts (X ++ str "<a href=\"" ++ sentinel (maybeAddRoot root_url u2) ++
      str "\">" ++ t2 ++ str "</a>" ++ []) =
      linkAnchor (maybeAddRoot root_url u1) t1 ++ 32 :: linkAnchor (maybeAddRoot root_url u2) t2 := by
    rw [hXe]
    simp only [unescapeParts, replacements, List.foldl, List.nil_append, List.append_nil]
    have r1 := replaceAll_anchor (maybeAddRoot root_url u1) t1
      ([32] ++ (str "<a href=\"" ++ sentinel (maybeAddRoot root_url u2) ++ str "\">" ++ t2 ++
        str "</a>" ++ [])) g1 ht1
    have r2 := replaceAll_anchor (maybeAddRoot root_url u2) t2 [] g2 ht2
    rw [e32] at r2
    rw [e, replaceAll_pass _ 37 _ [32] _ (by decide), ← e, r2] at r1
    simp only [List.append_assoc, List.append_nil, List.singleton_append] at r1 ⊢
    exact r1
  simp only [transformLine, hout, Res.bind_done, hun]

end Textile

namespace Textile

/-! ## Literal tags, two links and the empty footnote reference: C31, C39 and C40 -/

/-- C31: for plain texts `a` and `b` and every text `body` without `<`, `>` and `%`,
`transformLine` returns the line `a<body>b` as it is: nothing inside the tag is taken
for markup. -/
theorem C31_literal_tags (root_url hash : List Nat) (fuel : Nat) (a body b : List Nat)
    (ha : ∀ x ∈ a, plain x = true) (hbody : ∀ x ∈ body, x ≠ 60 ∧ x ≠ 62 ∧ x ≠ 37)
    (hb : ∀ x ∈ b, plain x = true) :
    transformLine root_url hash (fuel + 2) (a ++ str "<" ++ body ++ str ">" ++ b) =
      .done (a ++ str "<" ++ body ++ str ">" ++ b) := by
  have e1 : str "<" = [60] := by decide
  have e2 : str ">" = [62] := by decide
  have e : a ++ str "<" ++ body ++ str ">" ++ b = a ++ 60 :: (body ++ 62 :: b) := by
    rw [e1, e2]; simp
  rw [e]
  exact transformLine_tag root_url hash fuel a body b ha hbody hb

/-- C31 at a tag with underscores, asterisks, a link and an image inside. -/
theorem C31_literal_tags_witness :
    (∀ x ∈ str "ab ", plain x = true) ∧
      (∀ x ∈ str "x _y_ *z* \"q\":rr !ii!", x ≠ 60 ∧ x ≠ 62 ∧ x ≠ 37) ∧
      (∀ x ∈ str " cd", plain x = true) ∧
      transformLine [] emptyHash (0 + 2)
          (str "ab " ++ str "<" ++ str "x _y_ *z* \"q\":rr !ii!" ++ str ">" ++ str " cd") =
        .done (str "ab " ++ str "<" ++ str "x _y_ *z* \"q\":rr !ii!" ++ str ">" ++ str " cd") :=
  ⟨by decide, by decide, by decide,
    C31_literal_tags [] emptyHash 0 (str "ab ") (str "x _y_ *z* \"q\":rr !ii!") (str " cd")
      (by decide) (by decide) (by decide)⟩

set_option maxRecDepth 1000000 in
/-- C39 as stated fails: only `_` is kept from the loop over `regexpTags`, so two targets
with `*` get a `<strong>` tag across them, and the URL pattern ends a target behind its
first `^`. -/
theorem C39_strong_across_links :
    transformLine [] emptyHash 3 (str "\"x\":a*b \"y\":c*d") =
        .done (str "<a href=\"a<strong>b\">x</a> <a href=\"c</strong>d\">y</a>") ∧
      transformLine [] emptyHash 3 (str "\"x\":ab \"y\":c^d") =
        .done (str "<a href=\"ab\">x</a> <a href=\"c^\">y</a>d") := by
  decide

/-- C39, amended: for texts `t1`, `t2` of ASCII letters, digits and spaces and targets
`u1`, `u2` of at least two characters among ASCII letters, digits, `_`, `/`, `:` and `-`,
with an empty root URL or targets that do not start with `/`, `transformLine` turns
`"t1":u1 "t2":u2` into the two anchors with the targets as they are, a space between
them. -/
theorem C39_two_links (root_url hash : List Nat) (fuel : Nat) (t1 u1 t2 u2 : List Nat)
    (ht1 : ∀ x ∈ t1, plain x = true) (hu1 : ∀ x ∈ u1, targetChar x = true)
    (hl1 : 2 ≤ u1.length) (ht2 : ∀ x ∈ t2, plain x = true)
    (hu2 : ∀ x ∈ u2, targetChar x = true) (hl2 : 2 ≤ u2.length)
    (hr : root_url = [] ∨ (u1.head? ≠ some 47 ∧ u2.head? ≠ some 47)) :
    transformLine root_url hash (fuel + 3)
        (str "\"" ++ t1 ++ str "\":" ++ u1 ++ str " \"" ++ t2 ++ str "\":" ++ u2) =
      .done (linkAnchor u1 t1 ++ str " " ++ linkAnchor u2 t2) := by
  have k1 : str "\"" = [34] := by decide
  have k2 : str "\":" = [34, 58] := by decide
  have k3 : str " \"" = [32, 34] := by decide
  have k4 : str " " = [32] := by decide
  have hin : str "\"" ++ t1 ++ str "\":" ++ u1 ++ str " \"" ++ t2 ++ str "\":" ++ u2 =
      34 :: (t1 ++ 34 :: 58 :: (u1 ++ 32 :: 34 :: (t2 ++ 34 :: 58 :: u2))) := by
    rw [k1, k2, k3]; simp
  have r1 : maybeAddRoot root_url u1 = u1 := by
    rw [maybeAddRoot_eq]
    rcases hr with h | h
    · simp [h]
    · simp [h.1]
  have r2 : maybeAddRoot root_url u2 = u2 := by
    rw [maybeAddRoot_eq]
    rcases hr with h | h
    · simp [h]
    · simp [h.2]
  have h := transformLine_two_links root_url hash fuel t1 u1 t2 u2 ht1 hu1 hl1
    (by rw [r1]; exact hu1) ht2 hu2 hl2 (by rw [r2]; exact hu2)
  rw [r1, r2] at h
  rw [hin, h, k4]
  simp

/-- C39, amended, at the line `"foo":bar_wib "wee":bar_wib`. -/
theorem C39_two_links_witness :
    (∀ x ∈ str "foo", plain x = true) ∧ (∀ x ∈ str "bar_wib", targetChar x = true) ∧
      2 ≤ (str "bar_wib").length ∧ (∀ x ∈ str "wee", plain x = true) ∧
      (∀ x ∈ str "bar_wib", targetChar x = true) ∧ 2 ≤ (str "bar_wib").length ∧
      (([] : List Nat) = [] ∨
        ((str "bar_wib").head? ≠ some 47 ∧ (str "bar_wib").head? ≠ some 47)) ∧
      transformLine [] emptyHash (0 + 3)
          (str "\"" ++ str "foo" ++ str "\":" ++ str "bar_wib" ++ str " \"" ++ str "wee" ++
            str "\":" ++ str "bar_wib") =
        .done (linkAnchor (str "bar_wib") (str "foo") ++ str " " ++
          linkAnchor (str "bar_wib") (str "wee")) :=
  ⟨by decide, by decide, by decide, by decide, by decide, by decide, Or.inl rfl,
    C39_two_links [] emptyHash 0 (str "foo") (str "bar_wib") (str "wee") (str "bar_wib")
      (by decide) (by decide) (by decide) (by decide) (by decide) (by decide) (Or.inl rfl)⟩

set_option maxRecDepth 1000000 in
/-- C40 fails on the code at the line `ab [] cd`: `footnoteRefRegexp` takes `[0-9]*`
between the brackets, so it matches `[]`, and the error of `Atoi` on the empty text is
dropped, which leaves the number `0`: instead of the line as it is, the anchor of a
footnote `0` is written between `ab ` and ` cd`. -/
theorem C40_empty_reference :
    footnoteRefRegexp.FindStringSubmatch (str "ab [] cd") =
        some [str "ab [] cd", str "ab ", str "", str " cd"] ∧
      Atoi (str "") = 0 ∧
      transformLine [] emptyHash 2 (str "ab [] cd") =
        .done (str "ab " ++ referenceAnchor emptyHash (str "0") ++ str " cd") ∧
      transformLine [] emptyHash 2 (str "ab [] cd") ≠ .done (str "ab [] cd") := by
  decide

end Textile

namespace Textile

/-! ## The balance of list tags -/

theorem listBalance_append :
    ∀ (a b : List Nat) (st : Option (List Nat)), tagState a st.isSome = some false →
      listBalance (a ++ b) st = listBalance a st + listBalance b none := by
  intro a
  induction a with
  | nil =>
    intro b st h
    cases st with
    | none => simp [listBalance]
    | some t => simp [tagState] at h
  | cons c cs ih =>
    intro b st h
    cases st with
    | none =>
      simp only [Option.isSome_none, tagState] at h
      by_cases h60 : c = 60
      · simp only [h60, if_true] at h
        simp only [List.cons_append, listBalance, h60, if_true]
        exact ih b (some []) h
      · simp only [h60, if_false] at h
        split_ifs at h
        simp only [List.cons_append, listBalance, h60, if_false]
        exact ih b none h
    | some t =>
      simp only [Option.isSome_some, tagState] at h
      by_cases h62 : c = 62
      · simp only [h62, bne_self_eq_false] at h
        simp only [List.cons_append, listBalance, h62, if_true]
        have := ih b none h
        simp only [List.append_eq] at this ⊢
        rw [this]
        omega
      · have e : (c != 62) = true := by simpa using h62
        rw [e] at h
        simp only [List.cons_append, listBalance, h62, if_false]
        exact ih b (some (t ++ [c])) h

theorem listBalance_plain (l : List Nat) (h : ∀ a ∈ l, plain a = true) :
    listBalance l none = 0 := by
  induction l with
  | nil => simp [listBalance]
  | cons c cs ih =>
    have hc : c ≠ 60 := by
      have := h c (by simp)
      intro e
      subst e
      simp [plain, inRange] at this
    simp only [listBalance, hc, if_false]
    exact ih (fun a ha => h a (by simp [ha]))

theorem listBalance_listClosers (T : List Nat) (hT : T = str "ul" ∨ T = str "ol") :
    ∀ (n : Nat), listBalance (listClosers T n) none = -(n : Int) := by
  have hp : ∀ a ∈ T, plain a = true := by
    rcases hT with h | h <;> subst h <;> decide
  have e1 : listBalance (str "</li></" ++ T ++ str ">") none = -1 := by
    rcases hT with h | h <;> subst h <;> decide
  have e2 : tagState (str "</li></" ++ T ++ str ">") false = some false := by
    rcases hT with h | h <;> subst h <;> decide
  intro n
  induction n with
  | zero => simp [listClosers, listBalance]
  | succ n ih =>
    rw [listClosers_succ, listBalance_append _ _ none e2, e1, ih]
    push_cast
    omega

/-- The text that a list-item line adds to the buffer. -/
theorem itemChunk_facts (T t : List Nat) (hT : T = str "ul" ∨ T = str "ol")
    (ht : ∀ a ∈ t, plain a = true) (cur n : Nat) (hn : n ≤ cur + 1) :
    ∀ X, X = (if n < cur then listClosers T (cur - n) ++ str "</li><li>" ++ t
        else if n > cur then str "<" ++ T ++ str "><li>" ++ t
        else str "</li><li>" ++ t) →
      tagState X false = some false ∧ listBalance X none = (n : Int) - cur := by
  intro X hX
  have hp : ∀ a ∈ T, plain a = true := by
    rcases hT with h | h <;> subst h <;> decide
  have k1 : tagState (str "</li><li>") false = some false := by decide
  have k2 : listBalance (str "</li><li>") none = 0 := by decide
  have k3 : tagState (str "<" ++ T ++ str "><li>") false = some false := by
    rcases hT with h | h <;> subst h <;> decide
  have k4 : listBalance (str "<" ++ T ++ str "><li>") none = 1 := by
    rcases hT with h | h <;> subst h <;> decide
  have k5 := tagState_plain t ht false
  have k6 := listBalance_plain t ht
  have k7 := tagState_listClosers T hp (cur - n)
  have k8 := listBalance_listClosers T hT (cur - n)
  have a1 : tagState (str "</li><li>" ++ t) false = some false := by
    rw [tagState_append, k1]; exact k5
  have a2 : listBalance (str "</li><li>" ++ t) none = 0 := by
    rw [listBalance_append _ _ none k1, k2, k6]; rfl
  by_cases h1 : n < cur
  · rw [if_pos h1] at hX
    subst hX
    constructor
    · rw [List.append_assoc, tagState_append, k7]; exact a1
    · rw [List.append_assoc, listBalance_append _ _ none k7, k8, a2]
      omega
  · rw [if_neg h1] at hX
    by_cases h2 : n > cur
    · rw [if_pos h2] at hX
      subst hX
      constructor
      · rw [tagState_append, k3]; exact k5
      · rw [listBalance_append _ _ none k3, k4, k6]
        omega
    · rw [if_neg h2] at hX
      subst hX
      exact ⟨a1, by rw [a2]; omega⟩

/-! ## Lines of a steady text -/

theorem plain_not_marker (c : Nat) (h : plain c = true) : isMarker c = false := by
  simp only [plain, inRange, Bool.or_eq_true, Bool.and_eq_true, decide_eq_true_eq,
    beq_iff_eq, Char.reduceToNat] at h
  simp only [isMarker, Bool.or_eq_false_iff, beq_eq_false_iff_ne, ne_eq]
  omega

theorem itemLevel_plain (l : List Nat) (h : l.all plain = true) : itemLevel l = 0 := by
  cases l with
  | nil => rfl
  | cons c cs =>
    have hc : isMarker c = false := plain_not_marker c (by simp at h; exact h.1)
    simp only [itemLevel, List.dropWhile_cons, hc, List.takeWhile_cons]
    split <;> simp

theorem itemLevel_pos (l : List Nat) (h : 0 < itemLevel l) :
    ∃ c ms t, l = c :: ms ++ 32 :: t ∧ (c = 42 ∨ c = 35) ∧ (∀ a ∈ ms, a = 42 ∨ a = 35) ∧
      (∀ a ∈ t, plain a = true) ∧ itemLevel l = ms.length + 1 := by
  have hsplit := List.takeWhile_append_dropWhile isMarker l
  have hm : ∀ a ∈ l.takeWhile isMarker, a = 42 ∨ a = 35 := by
    intro a ha
    have := List.mem_takeWhile_imp ha
    simpa [isMarker] using this
  unfold itemLevel at h ⊢
  cases hd : l.dropWhile isMarker with
  | nil => simp [hd] at h
  | cons x t =>
    by_cases hx : x = 32
    · subst hx
      rw [hd] at hsplit
      simp only [hd] at h ⊢
      by_cases hall : t.all plain = true
      · simp only [hall, if_true] at h ⊢
        cases hk : l.takeWhile isMarker with
        | nil => simp [hk] at h
        | cons c ms =>
          rw [hk] at hsplit hm
          refine ⟨c, ms, t, hsplit.symm, hm c (by simp), fun a ha => hm a (by simp [ha]),
            ?_, by simp⟩
          simpa using hall
      · simp [hall] at h
    · exfalso
      rw [hd] at h
      revert h
      split
      · rename_i t2 heq
        simp only [List.cons.injEq] at heq
        exact absurd heq.1 hx
      · simp

end Textile

namespace Textile

/-! ## The list level and the balance of the buffer -/

/-- The closing tags of the open list levels bring the balance of the buffer to zero. -/
theorem closers_steady (st : State) (ht : tagState st.w false = some false)
    (hb : listBalance st.w none = st.currentListLevel)
    (hT : st.listType = str "ul" ∨ st.listType = str "ol" ∨ st.currentListLevel = 0) :
    tagState (st.w ++ listClosers st.listType st.currentListLevel) false = some false ∧
      listBalance (st.w ++ listClosers st.listType st.currentListLevel) none = 0 := by
  by_cases h0 : st.currentListLevel = 0
  · rw [h0] at hb ⊢
    simp only [listClosers, List.replicate_zero, List.flatten_nil, List.append_nil]
    exact ⟨ht, by simpa using hb⟩
  · have hT2 : st.listType = str "ul" ∨ st.listType = str "ol" := by
      rcases hT with h | h | h
      · exact Or.inl h
      · exact Or.inr h
      · exact absurd h h0
    have hp : ∀ a ∈ st.listType, plain a = true := by
      rcases hT2 with h | h <;> rw [h] <;> decide
    constructor
    · rw [tagState_append, ht]
      exact tagState_listClosers _ hp _
    · rw [listBalance_append _ _ none ht, hb, listBalance_listClosers _ hT2]
      omega

theorem clearListLevels_steady (st : State) (hf : st.flagsClear)
    (ht : tagState st.w false = some false)
    (hb : listBalance st.w none = st.currentListLevel)
    (hT : st.listType = str "ul" ∨ st.listType = str "ol" ∨ st.currentListLevel = 0) :
    st.clearListLevels.flagsClear ∧ tagState st.clearListLevels.w false = some false ∧
      listBalance st.clearListLevels.w none = 0 ∧ st.clearListLevels.currentListLevel = 0 := by
  obtain ⟨c1, c2⟩ := closers_steady st ht hb hT
  rw [State.clearListLevels_eq]
  split_ifs with h
  · exact ⟨hf, c1, c2, rfl⟩
  · have h0 : st.currentListLevel = 0 := by omega
    refine ⟨hf, ht, ?_, h0⟩
    rw [hb, h0]
    rfl

theorem State.step_blank (fuel : Nat) (st : State) (hf : st.flagsClear) :
    st.step fuel [] = .done st.clearListLevels := by
  obtain ⟨k1, k2, k3⟩ := State.checks_of_flagsClear st hf
  obtain ⟨h1, h2, h3, h4, h5, h6⟩ := hf
  simp [State.step, State.checkAll, h2, h4, h6, k1, k2, k3]

/-- One line of a steady text keeps the balance of the buffer equal to the list level. -/
theorem State.step_steady (fuel : Nat) (st : State) (l : List Nat) (hf : st.flagsClear)
    (ht : tagState st.w false = some false)
    (hb : listBalance st.w none = st.currentListLevel)
    (hT : st.listType = str "ul" ∨ st.listType = str "ol" ∨ st.currentListLevel = 0)
    (hl : (l.all plain || (0 < itemLevel l && itemLevel l ≤ st.currentListLevel + 1)) = true) :
    ∃ st2, st.step (fuel + 1) l = .done st2 ∧ st2.flagsClear ∧
      tagState st2.w false = some false ∧ listBalance st2.w none = st2.currentListLevel ∧
      (st2.listType = str "ul" ∨ st2.listType = str "ol" ∨ st2.currentListLevel = 0) ∧
      st2.currentListLevel = itemLevel l := by
  by_cases hp : l.all plain = true
  · obtain ⟨c1, c2, c3, c4⟩ := clearListLevels_steady st hf ht hb hT
    have hi := itemLevel_plain l hp
    by_cases hne : l = []
    · subst hne
      refine ⟨st.clearListLevels, State.step_blank _ st hf, c1, c2, ?_, Or.inr (Or.inr c4), ?_⟩
      · rw [c3, c4]; rfl
      · rw [c4, hi]
    · have hp2 : ∀ a ∈ l, plain a = true := by simpa using hp
      have hstep := State.step_bare fuel st l hne hp2 hf.2.2.1 hf.2.2.2.2.1
      rw [hf.1] at hstep
      simp only [Bool.false_eq_true, if_false] at hstep
      refine ⟨_, hstep, c1, ?_, ?_, Or.inr (Or.inr c4), ?_⟩
      · have e1 : tagState (str "<p>") false = some false := by decide
        have e2 : tagState (str "</p>") false = some false := by decide
        simp only [State.write]
        rw [tagState_append, c2]
        simp [tagState_append, e1, e2, tagState_plain l hp2]
      · have e1 : tagState (str "<p>") false = some false := by decide
        have e2 : listBalance (str "<p>") none = 0 := by decide
        have e3 : listBalance (str "</p>") none = 0 := by decide
        have e4 : tagState (str "<p>" ++ l) false = some false := by
          simp [tagState_append, e1, tagState_plain l hp2]
        simp only [State.write]
        rw [listBalance_append _ _ none c2, c3, listBalance_append _ _ none e4,
          listBalance_append _ _ none e1, e2, e3, listBalance_plain l hp2]
        show (0 : Int) + (0 + 0 + 0) = ((st.clearListLevels.currentListLevel : Nat) : Int)
        rw [c4]
        rfl
      · show st.clearListLevels.currentListLevel = itemLevel l
        rw [c4, hi]
  · have hl2 : 0 < itemLevel l ∧ itemLevel l ≤ st.currentListLevel + 1 := by
      simpa [hp] using hl
    obtain ⟨c, ms, t, e, hc, hm, hpt, hlev⟩ := itemLevel_pos l hl2.1
    have hstep := State.step_list fuel st c ms t hc hm hpt hf.1 hf.2.2.1 hf.2.2.2.2.1
    have hTc : (if c = 42 then str "ul" else str "ol") = str "ul" ∨
        (if c = 42 then str "ul" else str "ol") = str "ol" := by
      split_ifs
      · exact Or.inl rfl
      · exact Or.inr rfl
    obtain ⟨X, hX⟩ : ∃ X, X = (if ms.length + 1 < st.currentListLevel then
        listClosers (if c = 42 then str "ul" else str "ol")
          (st.currentListLevel - (ms.length + 1)) ++ str "</li><li>" ++ t
        else if ms.length + 1 > st.currentListLevel then
          str "<" ++ (if c = 42 then str "ul" else str "ol") ++ str "><li>" ++ t
        else str "</li><li>" ++ t) := ⟨_, rfl⟩
    obtain ⟨f1, f2⟩ := itemChunk_facts _ t hTc hpt st.currentListLevel (ms.length + 1)
      (by rw [← hlev]; exact hl2.2) X hX
    rw [← hX] at hstep
    rw [e]
    refine ⟨_, hstep, hf, ?_, ?_, ?_, ?_⟩
    · show tagState (st.w ++ X) false = some false
      rw [tagState_append, ht]
      exact f1
    · show listBalance (st.w ++ X) none = ((ms.length + 1 : Nat) : Int)
      rw [listBalance_append _ _ none ht, hb, f2]
      push_cast
      omega
    · rcases hTc with h | h
      · exact Or.inl h
      · exact Or.inr (Or.inl h)
    · show ms.length + 1 = itemLevel (c :: ms ++ 32 :: t)
      rw [← e, hlev]

/-- The lines of a steady text keep the balance of the buffer equal to the list level. -/
theorem State.run_steady (fuel : Nat) :
    ∀ (ls : List (List Nat)) (st : State), st.flagsClear →
      tagState st.w false = some false → listBalance st.w none = st.currentListLevel →
      (st.listType = str "ul" ∨ st.listType = str "ol" ∨ st.currentListLevel = 0) →
      steady st.currentListLevel ls = true →
      ∃ st2, st.run (fuel + 1) ls = .done st2 ∧ st2.flagsClear ∧
        tagState st2.w false = some false ∧ listBalance st2.w none = st2.currentListLevel ∧
        (st2.listType = str "ul" ∨ st2.listType = str "ol" ∨ st2.currentListLevel = 0) := by
  intro ls
  induction ls with
  | nil => intro st hf ht hb hT _; exact ⟨st, rfl, hf, ht, hb, hT⟩
  | cons l ls ih =>
    intro st hf ht hb hT hs
    simp only [steady, Bool.and_eq_true] at hs
    obtain ⟨st1, s1, s2, s3, s4, s5, s6⟩ := State.step_steady fuel st l hf ht hb hT hs.1
    obtain ⟨st2, r1, r2⟩ := ih st1 s2 s3 s4 s5 (by rw [s6]; exact hs.2)
    refine ⟨st2, ?_, r2⟩
    simp only [State.run, s1, Res.bind_done]
    exact r1

/-- A steady text from the initial state: the state after its lines, and the output. -/
theorem formatter_steady (fuel : Nat) (root_url b : List Nat) (ls : List (List Nat))
    (hls : splitLines b [] = ls) (h : steady 0 ls = true) :
    ∃ st, reached (fuel + 1) root_url ls = .done st ∧
      listBalance st.w none = st.currentListLevel ∧
      ∃ out, formatter (fuel + 1) root_url b = .done out ∧ listBalance out none = 0 := by
  obtain ⟨st, r1, r2, r3, r4, r5⟩ := State.run_steady fuel ls (initialState root_url)
    (initialState_flagsClear root_url) (by simp [initialState, tagState])
    (by simp [initialState, listBalance]) (Or.inr (Or.inr rfl)) h
  obtain ⟨c1, c2⟩ := closers_steady st r3 r4 r5
  have hc := State.closers_of_flagsClear st r2
  refine ⟨st, r1, r4, st.w ++ st.closers, ?_, ?_⟩
  · exact formatter_of_run (fuel + 1) root_url b ls st false hls r1 (by rw [hc]; exact c1)
  · rw [hc]; exact c2

end Textile

namespace Textile

/-! ## The list level and the list tags written: C33 -/

set_option maxRecDepth 1000000 in
/-- C33 fails on the code at the line `** x`: in the initial state the list handler writes
the one opening tag `<ul>` for the two levels and sets `currentListLevel` to 2, so the
list tags opened minus those closed is 1 and not the level, and the output of the
formatter has two closing tags `</ul>` for the one opening tag. -/
theorem C33_two_levels_at_once :
    reachedOutput 1 [] [str "** x"] = some (str "<ul><li>x", 2) ∧
      listBalance (str "<ul><li>x") none = 1 ∧
      TextileFormatter 1 (str "** x") = .done (str "<ul><li>x</li></ul></li></ul>") ∧
      listBalance (str "<ul><li>x</li></ul></li></ul>") none = -1 := by
  decide

end Textile
